import Mathlib

/-! # rlite: the normal IPC process (DTP/DTCP data path)

A shallow embedding of `src/kernel/rina-normal.c`.  Stateful code is written as
explicit state passing over a `World`; 64-bit sequence numbers are natural
numbers reduced modulo `2^64` wherever the C code can wrap.
-/

namespace Rlite

/-! ## Machine arithmetic and constants -/

/-- Reduction of a natural number to a `uint64_t` value. -/
def u64 (n : Nat) : Nat := n % 2 ^ 64

/-- Unsigned 64-bit subtraction `a - b`. -/
def sub64 (a b : Nat) : Nat := (a + 2 ^ 64 - b % 2 ^ 64) % 2 ^ 64

/-- The value of `(uint64_t)-1`. -/
def U64_MAX : Nat := 2 ^ 64 - 1

/-- The errno `EAGAIN` of the kernel headers. -/
def EAGAIN : Int := 11

/-- The errno `ENOMEM` of the kernel headers. -/
def ENOMEM : Int := 12

/-- Modelled from the spec: the PDU type codes of the PCI header (`rina/rina-utils.h` is not
under src/): `pdu_type` is one byte, DT, MGMT, or a control-type mask. -/
def PDU_T_MGMT : Nat := 0x40

/-- Modelled from the spec: the data transfer PDU type (header not under src/). -/
def PDU_T_DT : Nat := 0x80

/-- Modelled from the spec: control PCI is distinguished by
`(pdu_type & CTRL_MASK) == CTRL_MASK` (header not under src/). -/
def PDU_T_CTRL_MASK : Nat := 0xC0

/-- Modelled from the spec: sub-bit selecting the ACK family (header not under src/). -/
def PDU_T_ACK_BIT : Nat := 0x04

/-- Modelled from the spec: sub-bit selecting flow control (header not under src/). -/
def PDU_T_FC_BIT : Nat := 0x08

/-- Modelled from the spec: mask of the ACK sub-type (header not under src/). -/
def PDU_T_ACK_MASK : Nat := 0x03

/-- Modelled from the spec: ACK sub-type (header not under src/). -/
def PDU_T_ACK : Nat := 0

/-- Modelled from the spec: NACK sub-type (header not under src/). -/
def PDU_T_NACK : Nat := 1

/-- Modelled from the spec: SACK sub-type (header not under src/). -/
def PDU_T_SACK : Nat := 2

/-- Modelled from the spec: SNACK sub-type (header not under src/). -/
def PDU_T_SNACK : Nat := 3

/-- The bit count of the PDUFT hash table. -/
def PDUFT_HASHTABLE_BITS : Nat := 3

/-! ## Data model -/

/-- The PCI of a data PDU (`struct rina_pci`); `conn_id` is flattened. -/
structure rina_pci where
  dst_addr : Nat
  src_addr : Nat
  qos_id : Nat
  dst_cep : Nat
  src_cep : Nat
  pdu_type : Nat
  pdu_flags : Nat
  seqnum : Nat
  deriving DecidableEq, Repr

/-- The control PCI (`struct rina_pci_ctrl`): the base PCI and the control fields. -/
structure rina_pci_ctrl where
  base : rina_pci
  last_ctrl_seq_num_rcvd : Nat
  ack_nack_seq_num : Nat
  new_rwe : Nat
  new_lwe : Nat
  my_rwe : Nat
  my_lwe : Nat
  deriving DecidableEq, Repr

/-- Modelled from the spec: the buffer type `struct rina_buf` and its accessors (the header
`rina-kernel.h` is not under src/).  A buffer owns a payload and a header region in front of
it.  `pci` is what `RINA_BUF_PCI` and `RINA_BUF_PCI_CTRL` read, `npci` counts the PCIs that
are currently pushed in front of the payload.  The PCI stays attached to the buffer after
`rina_buf_pci_pop`, which is where `seqq_push` and `seqq_pop_many` read the seqnum. -/
structure rina_buf where
  pci : rina_pci_ctrl
  npci : Nat
  data : List Nat
  deriving DecidableEq, Repr

/-- The flow control type (`RINA_FC_T_NONE`, `RINA_FC_T_WIN`). -/
inductive fc_type where
  | RINA_FC_T_NONE
  | RINA_FC_T_WIN
  deriving DecidableEq, Repr

/-- The window based flow control parameters (`fc->cfg.w`). -/
structure window_fc_config where
  max_cwq_len : Nat
  initial_credit : Nat
  deriving DecidableEq, Repr

/-- The flow control configuration (`struct fc_config`); `w` stands for `cfg.w`. -/
structure fc_config where
  fc_type : fc_type
  w : window_fc_config
  deriving DecidableEq, Repr

/-- The DTCP configuration (`struct dtcp_config`). -/
structure dtcp_config where
  flow_control : Bool
  rtx_control : Bool
  fc : fc_config
  deriving DecidableEq, Repr

/-- The flow configuration (`flow->cfg`). -/
structure flow_config where
  dtcp_present : Bool
  in_order_delivery : Bool
  max_sdu_gap : Nat
  dtcp : dtcp_config
  deriving DecidableEq, Repr

/-- The per-flow DTP state (`struct dtp`).  A timer is `none` when idle and `some ns` when
armed to fire `ns` nanoseconds after it was started.  The lengths `cwq_len` and
`max_cwq_len` are counters whose declared type is not under src/; they are kept as natural
numbers. -/
structure dtp where
  set_drf : Bool
  next_seq_num_to_send : Nat
  snd_lwe : Nat
  snd_rwe : Nat
  last_seq_num_sent : Nat
  cwq : List rina_buf
  cwq_len : Nat
  max_cwq_len : Nat
  rtxq : List rina_buf
  rcv_lwe : Nat
  rcv_rwe : Nat
  max_seq_num_rcvd : Nat
  last_snd_data_ack : Nat
  seqq : List rina_buf
  next_snd_ctl_seq : Nat
  last_ctrl_seq_num_rcvd : Nat
  snd_inact_tmr : Option Nat
  rcv_inact_tmr : Option Nat
  deriving DecidableEq, Repr

/-- An entry of the PDU forwarding table.  `id` is the identity of the allocated node and
`flow` names the flow it points to by its index in the flow table. -/
structure pduft_entry where
  id : Nat
  address : Nat
  flow : Nat
  deriving DecidableEq, Repr

/-- A flow (`struct flow_entry`).  `pduft_entries` lists the identities of the PDUFT entries
linked on the flow, head first. -/
structure flow_entry where
  local_port : Nat
  remote_port : Nat
  remote_addr : Nat
  cfg : flow_config
  dtp : dtp
  rmtq : List rina_buf
  rmtq_len : Nat
  pduft_entries : List Nat
  deriving DecidableEq, Repr

/-- What the code does to its environment, in the order it happens. -/
inductive event where
  | rmt_tx (remote_addr : Nat) (rb : rina_buf) (maysleep : Bool)
  | lower_sdu_write (lower_flow : Nat) (rb : rina_buf) (maysleep : Bool) (ret : Int)
  | schedule
  | sdu_rx (rb : rina_buf)
  | sdu_rx_flow (flow : Nat) (rb : rina_buf)
  | buf_free (rb : rina_buf)
  | write_restart (port : Nat)
  deriving DecidableEq, Repr

/-- The state of one normal IPCP and of its surroundings.

* `addr` is `ipcp->addr`, `pdu_ft` the buckets of `priv->pdu_ft`, `next_id` the identity
  given to the next PDUFT entry that is allocated;
* `flows` is the flow table; a `struct flow_entry *` is an index into it;
* `lower_ret` scripts the lower IPCP: the successive return values of
  `lower_ipcp->ops.sdu_write`, which returns `0` once the script is used up;
* `alloc_ok` scripts the allocator: whether the successive atomic buffer allocations
  succeed, which they do once the script is used up;
* `trace` records the events. -/
structure World where
  addr : Nat
  pdu_ft : List (List pduft_entry)
  next_id : Nat
  flows : List flow_entry
  lower_ret : List Int
  alloc_ok : List Bool
  trace : List event
  deriving DecidableEq, Repr

/-- Why a run has no result: the recursion budget is used up, or the C code dereferences
an invalid pointer. -/
inductive fault where
  | nofuel
  | oops
  deriving DecidableEq, Repr

/-- The outcome of a call: the returned `int` and the new state. -/
abbrev Res := Except fault (Int × World)

/-- Append an event to the trace. -/
def World.emit (w : World) (e : event) : World :=
  { w with trace := w.trace ++ [e] }

/-- Update the flow at index `fi` in place. -/
def World.upd_flow (w : World) (fi : Nat) (g : flow_entry → flow_entry) : World :=
  { w with flows := w.flows.modify g fi }

/-- Store a DTP state in the flow at index `fi`. -/
def World.set_dtp (w : World) (fi : Nat) (d : dtp) : World :=
  w.upd_flow fi (fun f => { f with dtp := d })

/-! ## Buffers -/

/-- Modelled from the spec: `rina_buf_pci_push` moves the data start backward by one header
length (function not under src/). -/
def rina_buf_pci_push (rb : rina_buf) : rina_buf :=
  { rb with npci := rb.npci + 1 }

/-- Modelled from the spec: `rina_buf_pci_pop` is the inverse of the push (function not
under src/). -/
def rina_buf_pci_pop (rb : rina_buf) : rina_buf :=
  { rb with npci := rb.npci - 1 }

/-- Write the base PCI of a buffer in place. -/
def rina_buf.set_pci (rb : rina_buf) (p : rina_pci) : rina_buf :=
  { rb with pci := { rb.pci with base := p } }

/-- Modelled from the spec: one atomic allocation (`rina_buf_alloc_ctrl`, `rina_buf_clone`,
functions not under src/): whether it succeeds, and the state with the script advanced. -/
def World.alloc (w : World) : Bool × World :=
  match w.alloc_ok with
  | [] => (true, w)
  | b :: bs => (b, { w with alloc_ok := bs })

/-- Modelled from the spec: `flow_get` looks a flow up by its port id (function not under
src/), here from position `i` of the flow table on. -/
def flow_get_from : List flow_entry → Nat → Nat → Option (Nat × flow_entry)
  | [], _, _ => none
  | f :: fs, i, port => if f.local_port = port then some (i, f) else flow_get_from fs (i + 1) port

/-- Modelled from the spec: `flow_get` looks a flow up by its port id (function not under
src/). -/
def flow_get (w : World) (port : Nat) : Option (Nat × flow_entry) :=
  flow_get_from w.flows 0 port

/-- Modelled from the spec: `rina_sdu_rx_flow` delivers a buffer upward on a flow and
returns 0 (function not under src/). -/
def rina_sdu_rx_flow (w : World) (fi : Nat) (rb : rina_buf) : Int × World :=
  (0, w.emit (event.sdu_rx_flow fi rb))

/-! ## Flow initialisation -/

/-- The DTP state written by `rina_normal_flow_init`; the queues and counters that the
function does not touch are taken from the state `d` it is given. -/
def flow_init_dtp (cfg : flow_config) (d : dtp) : dtp :=
  let fc := cfg.dtcp.fc
  let d := { d with
    set_drf := true
    next_seq_num_to_send := 0
    snd_lwe := 0
    snd_rwe := 0
    last_seq_num_sent := U64_MAX
    rcv_lwe := 0
    rcv_rwe := 0
    max_seq_num_rcvd := U64_MAX
    last_snd_data_ack := 0
    next_snd_ctl_seq := 0
    last_ctrl_seq_num_rcvd := 0 }
  if fc.fc_type = fc_type.RINA_FC_T_WIN then
    { d with
      max_cwq_len := fc.w.max_cwq_len
      snd_rwe := u64 (d.snd_rwe + fc.w.initial_credit)
      rcv_rwe := u64 (d.rcv_rwe + fc.w.initial_credit) }
  else d

/-- The function `rina_normal_flow_init`. -/
def rina_normal_flow_init (w : World) (fi : Nat) : Res :=
  match w.flows[fi]? with
  | none => Except.error fault.oops
  | some flow => Except.ok (0, w.set_dtp fi (flow_init_dtp flow.cfg flow.dtp))

/-- The DTP state of a flow that was just allocated (zeroed memory, empty queues). -/
def dtp_zero : dtp :=
  { set_drf := false, next_seq_num_to_send := 0, snd_lwe := 0, snd_rwe := 0,
    last_seq_num_sent := 0, cwq := [], cwq_len := 0, max_cwq_len := 0, rtxq := [],
    rcv_lwe := 0, rcv_rwe := 0, max_seq_num_rcvd := 0, last_snd_data_ack := 0, seqq := [],
    next_snd_ctl_seq := 0, last_ctrl_seq_num_rcvd := 0, snd_inact_tmr := none,
    rcv_inact_tmr := none }

/-! ## The PDU forwarding table -/

/-- Modelled from the spec: `hash_min` of the kernel headers (not under src/), the bucket of
a 64-bit key: the top `bits` bits of the product with the 64-bit golden ratio. -/
def hash_min (val bits : Nat) : Nat :=
  (val * 0x61C8864680B583EB % 2 ^ 64) / 2 ^ (64 - bits)

/-- The function `pduft_lookup_internal`. -/
def pduft_lookup_internal (w : World) (dest_addr : Nat) : Option pduft_entry :=
  (w.pdu_ft.getD (hash_min dest_addr PDUFT_HASHTABLE_BITS) []).find?
    (fun entry => entry.address = dest_addr)

/-- The function `pduft_lookup`: the flow of the entry, if there is one. -/
def pduft_lookup (w : World) (dest_addr : Nat) : Option Nat :=
  (pduft_lookup_internal w dest_addr).map (fun entry => entry.flow)

/-! ## The router -/

/-- The loop of `rmt_tx` that pushes a buffer down the lower flow `lf`.  `script` is the
remaining script of the lower IPCP. -/
def rmt_tx_push (lf : Nat) (rb : rina_buf) (maysleep : Bool) : List Int → World → Int × World
  | [], w => (0, w.emit (event.lower_sdu_write lf rb maysleep 0))
  | ret :: rest, w =>
    let w := ({ w with lower_ret := rest }).emit (event.lower_sdu_write lf rb maysleep ret)
    if ret = -EAGAIN then
      if !maysleep then
        (ret, w.upd_flow lf
          (fun f => { f with rmtq := f.rmtq ++ [rb], rmtq_len := f.rmtq_len + 1 }))
      else
        rmt_tx_push lf rb maysleep rest (w.emit event.schedule)
    else
      (ret, w)

/-- The function `rmt_tx`.  `rx` stands for `ipcp->ops.sdu_rx`. -/
def rmt_tx (rx : World → rina_buf → Res) (w : World) (remote_addr : Nat) (rb : rina_buf)
    (maysleep : Bool) : Res :=
  let w := w.emit (event.rmt_tx remote_addr rb maysleep)
  match pduft_lookup w remote_addr with
  | none =>
    if remote_addr ≠ w.addr then
      Except.ok (0, w.emit (event.buf_free rb))
    else
      rx w rb
  | some lf => Except.ok (rmt_tx_push lf rb maysleep w.lower_ret w)

/-! ## The transmit path -/

/-- The PCI that `rina_normal_sdu_write` stamps on a buffer. -/
def sdu_write_pci (w : World) (flow : flow_entry) : rina_pci :=
  { dst_addr := flow.remote_addr
    src_addr := w.addr
    qos_id := 0
    dst_cep := flow.remote_port
    src_cep := flow.local_port
    pdu_type := PDU_T_DT
    pdu_flags := if flow.dtp.set_drf then 1 else 0
    seqnum := flow.dtp.next_seq_num_to_send }

/-- The buffer once `rina_normal_sdu_write` has pushed and written its PCI. -/
def sdu_write_stamp (w : World) (flow : flow_entry) (rb : rina_buf) : rina_buf :=
  (rina_buf_pci_push rb).set_pci (sdu_write_pci w flow)

/-- The call `hrtimer_try_to_cancel(&dtp->snd_inact_tmr)` made when DTCP is present. -/
def snd_inact_cancel (cfg : flow_config) (d : dtp) : dtp :=
  if cfg.dtcp_present then { d with snd_inact_tmr := none } else d

/-- The window check of `rina_normal_sdu_write` (POL: FlowControlOverrun). -/
def window_overrun (flow : flow_entry) : Prop :=
  flow.cfg.dtcp.fc.fc_type = fc_type.RINA_FC_T_WIN ∧
    flow.dtp.next_seq_num_to_send > flow.dtp.snd_rwe ∧
    flow.dtp.cwq_len ≥ flow.dtp.max_cwq_len

instance (flow : flow_entry) : Decidable (window_overrun flow) := by
  unfold window_overrun; exact inferInstance

/-- The DTP state once `rina_normal_sdu_write` has stamped a PCI: the timer cancelled, the
seqnum consumed and `set_drf` cleared. -/
def sdu_write_next (flow : flow_entry) : dtp :=
  { snd_inact_cancel flow.cfg flow.dtp with
    next_seq_num_to_send := u64 (flow.dtp.next_seq_num_to_send + 1)
    set_drf := false }

/-- The sender window step of `rina_normal_sdu_write` when DTCP is present (POL: TxControl):
the DTP state, and the buffer, which is `none` once its ownership has passed to the cwq. -/
def sdu_write_window (flow : flow_entry) (rb : rina_buf) : dtp × Option rina_buf :=
  let d := sdu_write_next flow
  if flow.cfg.dtcp.fc.fc_type = fc_type.RINA_FC_T_WIN then
    if rb.pci.base.seqnum > d.snd_rwe then
      ({ d with cwq := d.cwq ++ [rb], cwq_len := d.cwq_len + 1 }, none)
    else
      ({ d with
          snd_lwe := d.next_seq_num_to_send
          last_seq_num_sent := rb.pci.base.seqnum }, some rb)
  else (d, some rb)

/-- The call `hrtimer_start(&dtp->snd_inact_tmr, ...)` that re-arms the sender inactivity
timer for `3 * (MPL + R + A)`. -/
def snd_inact_rearm (d : dtp) : dtp :=
  { d with snd_inact_tmr := some (2 ^ 30) }

/-- The function `rina_normal_sdu_write`.  `rx` stands for `ipcp->ops.sdu_rx`, `fi` is the
flow pointer. -/
def rina_normal_sdu_write (rx : World → rina_buf → Res) (w : World) (fi : Nat)
    (rb : rina_buf) (maysleep : Bool) : Res :=
  match w.flows[fi]? with
  | none => Except.error fault.oops
  | some flow =>
    if window_overrun flow then
      Except.ok (-EAGAIN, w.set_dtp fi (snd_inact_cancel flow.cfg flow.dtp))
    else
      let rb := sdu_write_stamp w flow rb
      let d := sdu_write_next flow
      if !flow.cfg.dtcp_present then
        let d := { d with
          snd_lwe := d.next_seq_num_to_send
          last_seq_num_sent := rb.pci.base.seqnum }
        rmt_tx rx (w.set_dtp fi d) flow.remote_addr rb maysleep
      else
        let q := sdu_write_window flow rb
        if flow.cfg.dtcp.rtx_control then
          match q.2 with
          | none => Except.error fault.oops
          | some rb =>
            if !w.alloc.1 then
              Except.ok (-ENOMEM, (w.alloc.2.set_dtp fi q.1).emit (event.buf_free rb))
            else
              let d := snd_inact_rearm { q.1 with rtxq := q.1.rtxq ++ [rb] }
              rmt_tx rx (w.alloc.2.set_dtp fi d) flow.remote_addr rb maysleep
        else
          let d := snd_inact_rearm q.1
          match q.2 with
          | none => Except.ok (0, w.set_dtp fi d)
          | some rb => rmt_tx rx (w.set_dtp fi d) flow.remote_addr rb maysleep

/-! ## The receive path -/

/-- The function `ctrl_pdu_alloc`: the control PDU, if the allocation succeeds, and the
new state. -/
def ctrl_pdu_alloc (w : World) (fi : Nat) (flow : flow_entry) (pdu_type : Nat)
    (ack_nack_seq_num : Nat) : Option rina_buf × World :=
  let (ok, w) := w.alloc
  if ok then
    let pcic : rina_pci_ctrl :=
      { base :=
          { dst_addr := flow.remote_addr
            src_addr := w.addr
            qos_id := 0
            dst_cep := flow.remote_port
            src_cep := flow.local_port
            pdu_type := pdu_type
            pdu_flags := 0
            seqnum := flow.dtp.next_snd_ctl_seq }
        last_ctrl_seq_num_rcvd := flow.dtp.last_ctrl_seq_num_rcvd
        ack_nack_seq_num := ack_nack_seq_num
        new_rwe := flow.dtp.rcv_rwe
        new_lwe := flow.dtp.rcv_lwe
        my_rwe := flow.dtp.snd_rwe
        my_lwe := flow.dtp.snd_lwe }
    (some { pci := pcic, npci := 1, data := [] },
     w.set_dtp fi { flow.dtp with next_snd_ctl_seq := u64 (flow.dtp.next_snd_ctl_seq + 1) })
  else
    (none, w)

/-- The PDU type chosen by `sdu_rx_sv_update`; `0` when no control PDU is due. -/
def sv_update_pdu_type (cfg : dtcp_config) : Nat :=
  if cfg.rtx_control then
    let t := PDU_T_CTRL_MASK ||| PDU_T_ACK_BIT ||| PDU_T_ACK
    if cfg.flow_control then t ||| (PDU_T_CTRL_MASK ||| PDU_T_FC_BIT) else t
  else if cfg.flow_control then
    PDU_T_CTRL_MASK ||| PDU_T_FC_BIT
  else 0

/-- The receiver right window edge update of `sdu_rx_sv_update` (POL: RcvrFlowControl). -/
def sv_update_rwe (flow : flow_entry) : flow_entry :=
  let cfg := flow.cfg.dtcp
  if cfg.flow_control ∧ cfg.fc.fc_type = fc_type.RINA_FC_T_WIN then
    { flow with dtp := { flow.dtp with
        rcv_rwe := u64 (flow.dtp.rcv_lwe + cfg.fc.w.initial_credit) } }
  else flow

/-- The function `sdu_rx_sv_update`, on the flow `flow` stored at index `fi`: the control
PDU, if any, and the new state. -/
def sdu_rx_sv_update (w : World) (fi : Nat) (flow : flow_entry) :
    Option rina_buf × World :=
  let flow := sv_update_rwe flow
  let w := w.set_dtp fi flow.dtp
  let pdu_type := sv_update_pdu_type flow.cfg.dtcp
  if pdu_type ≠ 0 then
    ctrl_pdu_alloc w fi flow pdu_type 0
  else
    (none, w)

/-- The function `seqq_push`, on the queue: the new queue, and the buffer that is freed when
it is a duplicate. -/
def seqq_push : List rina_buf → rina_buf → List rina_buf × Option rina_buf
  | [], rb => ([rb], none)
  | cur :: rest, rb =>
    if rb.pci.base.seqnum < cur.pci.base.seqnum then
      (rb :: cur :: rest, none)
    else if rb.pci.base.seqnum = cur.pci.base.seqnum then
      (cur :: rest, some rb)
    else
      let (q, freed) := seqq_push rest rb
      (cur :: q, freed)

/-- The function `seqq_pop_many`, on the queue and on `rcv_lwe`: what stays in the queue,
the new `rcv_lwe`, and the buffers popped, in order. -/
def seqq_pop_many (max_sdu_gap : Nat) : List rina_buf → Nat → List rina_buf × Nat × List rina_buf
  | [], rcv_lwe => ([], rcv_lwe, [])
  | qrb :: rest, rcv_lwe =>
    if sub64 qrb.pci.base.seqnum rcv_lwe ≤ max_sdu_gap then
      let (q, lwe, qrbs) := seqq_pop_many max_sdu_gap rest qrb.pci.base.seqnum
      (q, lwe, qrb :: qrbs)
    else
      let (q, lwe, qrbs) := seqq_pop_many max_sdu_gap rest rcv_lwe
      (qrb :: q, lwe, qrbs)

/-- The loop of `sdu_rx_ctrl` that pops the closed window queue: `cwq` is the part of the
queue still to visit; the result is the new DTP state and the buffers popped, in order. -/
def cwq_pop : List rina_buf → dtp → dtp × List rina_buf
  | [], d => (d, [])
  | qrb :: rest, d =>
    if d.snd_lwe ≥ d.snd_rwe then (d, [])
    else
      let d := { d with
        cwq := rest
        cwq_len := d.cwq_len - 1
        last_seq_num_sent := d.snd_lwe
        snd_lwe := u64 (d.snd_lwe + 1) }
      let (d, qrbs) := cwq_pop rest d
      (d, qrb :: qrbs)

/-- The loop of `sdu_rx_ctrl` that removes the acknowledged buffers from the head of the
retransmission queue: what stays, and what is freed. -/
def rtxq_ack (ack_nack_seq_num : Nat) : List rina_buf → List rina_buf × List rina_buf
  | [] => ([], [])
  | cur :: rest =>
    if cur.pci.base.seqnum ≤ ack_nack_seq_num then
      let (q, freed) := rtxq_ack ack_nack_seq_num rest
      (q, cur :: freed)
    else
      (cur :: rest, [])

/-- The part of `sdu_rx_ctrl` that runs under the DTP lock: the new DTP state, the buffers
popped from the cwq and the buffers freed from the rtxq. -/
def sdu_rx_ctrl_locked (pcic : rina_pci_ctrl) (d : dtp) : dtp × List rina_buf × List rina_buf :=
  if ¬ (pcic.base.seqnum > u64 (d.last_ctrl_seq_num_rcvd + 1)) ∧
      d.last_ctrl_seq_num_rcvd ≠ 0 ∧ pcic.base.seqnum ≤ d.last_ctrl_seq_num_rcvd then
    (d, [], [])
  else
    let d := { d with last_ctrl_seq_num_rcvd := pcic.base.seqnum }
    let (d, qrbs) :=
      if pcic.base.pdu_type &&& PDU_T_FC_BIT ≠ 0 then
        if pcic.new_rwe < d.snd_rwe then (d, [])
        else cwq_pop d.cwq { d with snd_rwe := pcic.new_rwe }
      else (d, [])
    let (d, freed) :=
      if pcic.base.pdu_type &&& PDU_T_ACK_BIT ≠ 0 ∧
          pcic.base.pdu_type &&& PDU_T_ACK_MASK = PDU_T_ACK then
        let (q, freed) := rtxq_ack pcic.ack_nack_seq_num d.rtxq
        ({ d with rtxq := q }, freed)
      else (d, [])
    (d, qrbs, freed)

/-- Send the buffers of a list through `rmt_tx`, non-blocking, each toward the destination
address of its PCI; the return values are discarded. -/
def rmt_tx_list (rx : World → rina_buf → Res) : List rina_buf → World → Except fault World
  | [], w => Except.ok w
  | qrb :: rest, w =>
    match rmt_tx rx w qrb.pci.base.dst_addr qrb false with
    | Except.error e => Except.error e
    | Except.ok (_, w) => rmt_tx_list rx rest w

/-- The function `sdu_rx_ctrl`.  `fi` is the flow pointer and `flow` the flow it points
to. -/
def sdu_rx_ctrl (rx : World → rina_buf → Res) (w : World) (fi : Nat) (flow : flow_entry)
    (rb : rina_buf) : Res :=
  let pcic := rb.pci
  if pcic.base.pdu_type &&& PDU_T_CTRL_MASK ≠ PDU_T_CTRL_MASK then
    Except.ok (0, w.emit (event.buf_free rb))
  else
    let lk := sdu_rx_ctrl_locked pcic flow.dtp
    let w := w.set_dtp fi lk.1
    let w := { w with trace := w.trace ++ lk.2.2.map event.buf_free }
    let w := w.emit (event.buf_free rb)
    match rmt_tx_list rx lk.2.1 w with
    | Except.error e => Except.error e
    | Except.ok w => Except.ok (0, w.emit (event.write_restart pcic.base.dst_cep))

/-- Forward a control PDU, if there is one, toward `remote_addr` and return `ret`: the
label `snd_crb` of `rina_normal_sdu_rx`. -/
def snd_crb (rx : World → rina_buf → Res) (w : World) (remote_addr : Nat)
    (crb : Option rina_buf) (ret : Int) : Res :=
  match crb with
  | none => Except.ok (ret, w)
  | some crb =>
    match rmt_tx rx w remote_addr crb false with
    | Except.error e => Except.error e
    | Except.ok (_, w) => Except.ok (ret, w)

/-- Deliver the buffers of a list upward, in order, or-ing the results into `ret`. -/
def rx_flow_list (fi : Nat) : List rina_buf → Int × World → Int × World
  | [], acc => acc
  | qrb :: rest, (ret, w) =>
    let (r, w) := rina_sdu_rx_flow w fi qrb
    rx_flow_list fi rest (Int.lor ret r, w)

/-- The path of `rina_normal_sdu_rx` for a data PDU with the DRF flag: `d` is the DTP state
of the flow once the receiver inactivity timer is re-armed, `rb` the buffer with its PCI
popped, `seqnum` its sequence number. -/
def sdu_rx_drf (rx : World → rina_buf → Res) (w : World) (fi : Nat) (flow : flow_entry)
    (d : dtp) (rb : rina_buf) (seqnum : Nat) : Res :=
  let d := { d with rcv_lwe := u64 (seqnum + 1), max_seq_num_rcvd := seqnum }
  let sv := sdu_rx_sv_update w fi { flow with dtp := d }
  let up := rina_sdu_rx_flow sv.2 fi rb
  snd_crb rx up.2 flow.remote_addr sv.1 up.1

/-- The path of `rina_normal_sdu_rx` for a data PDU without DRF whose seqnum is below
`rcv_lwe`: a duplicate. -/
def sdu_rx_dup (rx : World → rina_buf → Res) (w : World) (fi : Nat) (flow : flow_entry)
    (d : dtp) (rb : rina_buf) : Res :=
  let w := (w.set_dtp fi d).emit (event.buf_free rb)
  if flow.cfg.dtcp.flow_control ∧ d.rcv_lwe ≥ d.last_snd_data_ack then
    let ca := ctrl_pdu_alloc w fi { flow with dtp := d }
      (PDU_T_CTRL_MASK ||| PDU_T_ACK_BIT ||| PDU_T_ACK ||| PDU_T_FC_BIT) d.rcv_lwe
    match ca.1 with
    | none => Except.ok (0, ca.2)
    | some crb =>
      let w := ca.2.upd_flow fi (fun f =>
        { f with dtp := { f.dtp with last_snd_data_ack := d.rcv_lwe } })
      snd_crb rx w flow.remote_addr (some crb) 0
  else
    Except.ok (0, w)

/-- The update of `max_seq_num_rcvd` by a data PDU that is not a duplicate. -/
def rcv_max_update (d : dtp) (seqnum : Nat) : dtp :=
  if seqnum > d.max_seq_num_rcvd then { d with max_seq_num_rcvd := seqnum } else d

/-- The path of `rina_normal_sdu_rx` for a data PDU without DRF whose seqnum is not below
`rcv_lwe`: the PDU is delivered, dropped or put in the sequencing queue. -/
def sdu_rx_seq (rx : World → rina_buf → Res) (w : World) (fi : Nat) (flow : flow_entry)
    (d : dtp) (rb : rina_buf) (seqnum : Nat) : Res :=
  let cfg := flow.cfg
  let d := rcv_max_update d seqnum
  let gap := sub64 seqnum d.rcv_lwe
  let drop : Bool := (cfg.in_order_delivery || cfg.dtcp_present) &&
    !cfg.dtcp.rtx_control && decide (gap > cfg.max_sdu_gap)
  let deliver : Bool := decide (gap ≤ cfg.max_sdu_gap) && !drop
  if deliver then
    let pm := seqq_pop_many cfg.max_sdu_gap d.seqq (u64 (seqnum + 1))
    let d := { d with rcv_lwe := pm.2.1, seqq := pm.1 }
    let sv := sdu_rx_sv_update w fi { flow with dtp := d }
    let up := rx_flow_list fi pm.2.2 (rina_sdu_rx_flow sv.2 fi rb)
    snd_crb rx up.2 flow.remote_addr sv.1 up.1
  else if drop then
    let sv := sdu_rx_sv_update (w.emit (event.buf_free rb)) fi { flow with dtp := d }
    snd_crb rx sv.2 flow.remote_addr sv.1 0
  else
    let sp := seqq_push d.seqq rb
    let w := match sp.2 with
      | none => w
      | some b => w.emit (event.buf_free b)
    let sv := sdu_rx_sv_update w fi { flow with dtp := { d with seqq := sp.1 } }
    snd_crb rx sv.2 flow.remote_addr sv.1 0

/-- The re-arming of the receiver inactivity timer at the start of the data path. -/
def rcv_inact_rearm (cfg : flow_config) (d : dtp) : dtp :=
  if cfg.dtcp_present then { d with rcv_inact_tmr := some (2 ^ 30 / 3 * 2) } else d

/-- The body of `rina_normal_sdu_rx`.  `rx` stands for the calls of `ipcp->ops.sdu_rx` that
it reaches through `rmt_tx`. -/
def rina_normal_sdu_rx_body (rx : World → rina_buf → Res) (w : World) (rb : rina_buf) : Res :=
  let w := w.emit (event.sdu_rx rb)
  let pci := rb.pci.base
  if pci.dst_addr ≠ w.addr then
    rmt_tx rx w pci.dst_addr rb false
  else
    match flow_get w pci.dst_cep with
    | none => Except.ok (0, w.emit (event.buf_free rb))
    | some (fi, flow) =>
      if pci.pdu_type ≠ PDU_T_DT then
        sdu_rx_ctrl rx w fi flow rb
      else
        let d := rcv_inact_rearm flow.cfg flow.dtp
        if pci.pdu_flags % 2 = 1 then
          sdu_rx_drf rx w fi flow d (rina_buf_pci_pop rb) pci.seqnum
        else if pci.seqnum < d.rcv_lwe then
          sdu_rx_dup rx w fi flow d (rina_buf_pci_pop rb)
        else
          sdu_rx_seq rx w fi flow d (rina_buf_pci_pop rb) pci.seqnum

/-- The function `rina_normal_sdu_rx`, with a budget for the depth of the loopback calls of
`ipcp->ops.sdu_rx` through `rmt_tx`. -/
def rina_normal_sdu_rx : Nat → World → rina_buf → Res
  | 0, _, _ => Except.error fault.nofuel
  | fuel + 1, w, rb => rina_normal_sdu_rx_body (rina_normal_sdu_rx fuel) w rb

/-- The function `rina_normal_sdu_write` of an IPCP whose `ops.sdu_rx` is
`rina_normal_sdu_rx`. -/
def sdu_write (fuel : Nat) (w : World) (fi : Nat) (rb : rina_buf) (maysleep : Bool) : Res :=
  rina_normal_sdu_write (rina_normal_sdu_rx fuel) w fi rb maysleep

/-! ## Observations on a trace -/

/-- The buffers handed to the router: the calls of `rmt_tx`, with their destination. -/
def handed (t : List event) : List (Nat × rina_buf) :=
  t.filterMap (fun e => match e with
    | event.rmt_tx a rb _ => some (a, rb)
    | _ => none)

/-- The buffers delivered upward: the calls of `rina_sdu_rx_flow`, with their flow. -/
def delivered (t : List event) : List (Nat × rina_buf) :=
  t.filterMap (fun e => match e with
    | event.sdu_rx_flow fi rb => some (fi, rb)
    | _ => none)

/-- The buffers passed to `ipcp->ops.sdu_rx`. -/
def rx_calls (t : List event) : List rina_buf :=
  t.filterMap (fun e => match e with
    | event.sdu_rx rb => some rb
    | _ => none)

/-- The fields of a flow that the receive path never writes. -/
def skey (f : flow_entry) : Nat × Nat × Nat × flow_config × Nat × Bool :=
  (f.local_port, f.remote_port, f.remote_addr, f.cfg, f.dtp.next_seq_num_to_send,
   f.dtp.set_drf)

/-- What every call of the receive path and of the router keeps: the address, the PDUFT,
the number of flows and their `skey` fields; the trace only grows. -/
structure Keep (w w1 : World) : Prop where
  addr : w1.addr = w.addr
  pdu_ft : w1.pdu_ft = w.pdu_ft
  flows : w1.flows.map skey = w.flows.map skey
  trace : w.trace <+: w1.trace

/-! ## Scenarios -/

/-- A flow configuration without DTCP: no flow control, no retransmission control. -/
def cfg_plain (max_sdu_gap : Nat) : flow_config :=
  { dtcp_present := false
    in_order_delivery := false
    max_sdu_gap := max_sdu_gap
    dtcp :=
      { flow_control := false
        rtx_control := false
        fc := { fc_type := fc_type.RINA_FC_T_NONE, w := { max_cwq_len := 0, initial_credit := 0 } } } }

/-- A flow configuration with DTCP and window flow control, without retransmission
control. -/
def cfg_window (initial_credit max_cwq_len : Nat) : flow_config :=
  { dtcp_present := true
    in_order_delivery := false
    max_sdu_gap := 0
    dtcp :=
      { flow_control := true
        rtx_control := false
        fc :=
          { fc_type := fc_type.RINA_FC_T_WIN
            w := { max_cwq_len := max_cwq_len, initial_credit := initial_credit } } } }

/-- A flow configuration with DTCP and retransmission control, without flow control. -/
def cfg_rtx (max_sdu_gap : Nat) : flow_config :=
  { dtcp_present := true
    in_order_delivery := false
    max_sdu_gap := max_sdu_gap
    dtcp :=
      { flow_control := false
        rtx_control := true
        fc := { fc_type := fc_type.RINA_FC_T_NONE, w := { max_cwq_len := 0, initial_credit := 0 } } } }

/-- A flow configuration with DTCP and flow control that is not window based. -/
def cfg_fc : flow_config :=
  { dtcp_present := true
    in_order_delivery := false
    max_sdu_gap := 0
    dtcp :=
      { flow_control := true
        rtx_control := false
        fc := { fc_type := fc_type.RINA_FC_T_NONE, w := { max_cwq_len := 0, initial_credit := 0 } } } }

/-- A flow that was just allocated and initialised by `rina_normal_flow_init`. -/
def mk_flow (local_port remote_port remote_addr : Nat) (cfg : flow_config) : flow_entry :=
  { local_port := local_port
    remote_port := remote_port
    remote_addr := remote_addr
    cfg := cfg
    dtp := flow_init_dtp cfg dtp_zero
    rmtq := []
    rmtq_len := 0
    pduft_entries := [] }

/-- An IPCP with the given address and flows, an empty PDUFT, and an environment in which
every lower write and every allocation succeeds. -/
def mk_world (addr : Nat) (flows : List flow_entry) : World :=
  { addr := addr
    pdu_ft := List.replicate (2 ^ PDUFT_HASHTABLE_BITS) []
    next_id := 0
    flows := flows
    lower_ret := []
    alloc_ok := []
    trace := [] }

/-- The all-zero PCI. -/
def pci_zero : rina_pci_ctrl :=
  { base :=
      { dst_addr := 0, src_addr := 0, qos_id := 0, dst_cep := 0, src_cep := 0, pdu_type := 0,
        pdu_flags := 0, seqnum := 0 }
    last_ctrl_seq_num_rcvd := 0
    ack_nack_seq_num := 0
    new_rwe := 0
    new_lwe := 0
    my_rwe := 0
    my_lwe := 0 }

/-- An SDU as the upper layer hands it to `sdu_write`: a payload, no PCI pushed yet. -/
def sdu (data : List Nat) : rina_buf :=
  { pci := pci_zero, npci := 0, data := data }

/-- A data PDU as it arrives from below. -/
def data_pdu (dst_addr dst_cep seqnum pdu_flags : Nat) (data : List Nat) : rina_buf :=
  { pci := { pci_zero with base :=
      { dst_addr := dst_addr, src_addr := 0, qos_id := 0, dst_cep := dst_cep, src_cep := 0,
        pdu_type := PDU_T_DT, pdu_flags := pdu_flags, seqnum := seqnum } }
    npci := 1
    data := data }

/-- The bytes of "hello". -/
def hello : List Nat := [104, 101, 108, 108, 111]

/-- A flow with window flow control (credit 2, cwq of length 1) whose window is closed and
whose cwq is full: seqnums 0..2 were sent, seqnum 3 waits in the cwq. -/
def flow_closed : flow_entry :=
  let f := mk_flow 1 2 43 (cfg_window 2 1)
  { f with dtp := { f.dtp with
      set_drf := false
      next_seq_num_to_send := 4
      snd_lwe := 3
      last_seq_num_sent := 2
      cwq := [sdu_write_stamp (mk_world 42 []) { f with dtp := { f.dtp with
        set_drf := false, next_seq_num_to_send := 3 } } (sdu [3])]
      cwq_len := 1 } }

/-- An IPCP of address 42 with the flow `flow_closed`. -/
def world_closed : World := mk_world 42 [flow_closed]

/-- An IPCP of address 42 with a flow toward address 43 (no DTCP) and a lower flow, the
PDUFT routing address 43 through the lower flow; the lower IPCP answers its first write
with `-EAGAIN`. -/
def world_route : World :=
  { mk_world 42 [mk_flow 1 2 43 (cfg_plain U64_MAX), mk_flow 7 8 0 (cfg_plain U64_MAX)] with
    pdu_ft := (List.replicate (2 ^ PDUFT_HASHTABLE_BITS) []).modify
      (fun _ => [{ id := 0, address := 43, flow := 1 }]) (hash_min 43 PDUFT_HASHTABLE_BITS)
    next_id := 1
    lower_ret := [-EAGAIN] }

/-- Submit the SDUs of a list to `sdu_write` on the flow `fi`, one after the other: the
return values, in order, and the final state. -/
def write_all (fuel : Nat) (fi : Nat) (maysleep : Bool) :
    List rina_buf → World → Except fault (List Int × World)
  | [], w => Except.ok ([], w)
  | rb :: rest, w =>
    match sdu_write fuel w fi rb maysleep with
    | Except.error e => Except.error e
    | Except.ok (r, w1) =>
      match write_all fuel fi maysleep rest w1 with
      | Except.error e => Except.error e
      | Except.ok (rs, w2) => Except.ok (r :: rs, w2)

/-- Pass the PDUs of a list to `rina_normal_sdu_rx`, one after the other: the return
values, in order, and the final state. -/
def rx_all (fuel : Nat) : List rina_buf → World → Except fault (List Int × World)
  | [], w => Except.ok ([], w)
  | rb :: rest, w =>
    match rina_normal_sdu_rx fuel w rb with
    | Except.error e => Except.error e
    | Except.ok (r, w1) =>
      match rx_all fuel rest w1 with
      | Except.error e => Except.error e
      | Except.ok (rs, w2) => Except.ok (r :: rs, w2)

/-- A configuration without DTCP: DTCP is not present and none of its policies is
configured. -/
def dtcp_absent (cfg : flow_config) : Prop :=
  cfg.dtcp_present = false ∧ cfg.dtcp.flow_control = false ∧ cfg.dtcp.rtx_control = false ∧
    cfg.dtcp.fc.fc_type = fc_type.RINA_FC_T_NONE

/-- The `i`-th data PDU written on a flow from `local_port` to `remote_port` of an IPCP
looped back on itself: the SDU `rb` with its PCI pushed and stamped. -/
def loop_pdu (addr local_port remote_port : Nat) (i : Nat) (rb : rina_buf) : rina_buf :=
  (rina_buf_pci_push rb).set_pci
    { dst_addr := addr
      src_addr := addr
      qos_id := 0
      dst_cep := remote_port
      src_cep := local_port
      pdu_type := PDU_T_DT
      pdu_flags := if i = 0 then 1 else 0
      seqnum := u64 i }

/-- The events of the loopback transfer of the SDUs of a list, the first of which is the
`i`-th PDU of the flow: each PDU is handed to the router, passed to `sdu_rx` and delivered
upward, with its PCI popped, on the flow `ri`. -/
def loop_events (addr local_port remote_port ri : Nat) (maysleep : Bool) :
    Nat → List rina_buf → List event
  | _, [] => []
  | i, rb :: rest =>
    [event.rmt_tx addr (loop_pdu addr local_port remote_port i rb) maysleep,
     event.sdu_rx (loop_pdu addr local_port remote_port i rb),
     event.sdu_rx_flow ri (rina_buf_pci_pop (loop_pdu addr local_port remote_port i rb))]
      ++ loop_events addr local_port remote_port ri maysleep (i + 1) rest

/-- The state of a loopback transfer after `k` PDUs: the IPCP has no route for its own
address, the flow `fi` (from `lp` to `rp`) has the IPCP itself as remote and has consumed
`k` seqnums, the flow `ri` is the one found for the port `rp`; neither has DTCP, the
receiving one has an empty sequencing queue and expects the seqnum `k`. -/
structure loop_inv (w : World) (fi ri lp rp k : Nat) (f g : flow_entry) : Prop where
  ft : pduft_lookup w w.addr = none
  hf : w.flows[fi]? = some f
  hg : flow_get w rp = some (ri, g)
  hlp : f.local_port = lp
  hrp : f.remote_port = rp
  hra : f.remote_addr = w.addr
  hcf : dtcp_absent f.cfg
  hcg : dtcp_absent g.cfg
  hnext : f.dtp.next_seq_num_to_send = u64 k
  hdrf : f.dtp.set_drf = decide (k = 0)
  hseqq : g.dtp.seqq = []
  hlwe : k ≠ 0 → g.dtp.rcv_lwe = u64 k

/-- The data PDU that `rina_normal_sdu_write` makes of the SDU `rb` when it is the `i`-th
PDU of a flow from `lp` to `rp` since `flow_init`, on the IPCP `src`, toward `dst`. -/
def dt_pdu (dst src lp rp : Nat) (i : Nat) (rb : rina_buf) : rina_buf :=
  (rina_buf_pci_push rb).set_pci
    { dst_addr := dst
      src_addr := src
      qos_id := 0
      dst_cep := rp
      src_cep := lp
      pdu_type := PDU_T_DT
      pdu_flags := if i = 0 then 1 else 0
      seqnum := i }

/-- The data PDUs made of the SDUs of a list, the first of which is the `i`-th PDU of the
flow. -/
def dt_pdus (dst src lp rp : Nat) : Nat → List rina_buf → List rina_buf
  | _, [] => []
  | i, rb :: rest => dt_pdu dst src lp rp i rb :: dt_pdus dst src lp rp (i + 1) rest

/-- The fields of a flow that the router leaves alone when it does not loop a buffer back:
everything but the rmtq. -/
def fkey (f : flow_entry) : Nat × Nat × Nat × flow_config × dtp :=
  (f.local_port, f.remote_port, f.remote_addr, f.cfg, f.dtp)

/-- What a call of the router keeps when it does not loop the buffer back. -/
structure Away (w w1 : World) : Prop where
  addr : w1.addr = w.addr
  pdu_ft : w1.pdu_ft = w.pdu_ft
  flows : w1.flows.map fkey = w.flows.map fkey
  delivered : delivered w1.trace = delivered w.trace

/-- The sender state of a flow with DTCP and window flow control, without retransmission
control, whose remote address is not the IPCP's own: `next` seqnums consumed, the window
edges `lwe` and `rwe`, the buffers `q` in the cwq, which holds at most `m`. -/
structure win_inv (w : World) (fi lp rp ra rwe m next lwe : Nat) (q : List rina_buf)
    (f : flow_entry) : Prop where
  hf : w.flows[fi]? = some f
  hlp : f.local_port = lp
  hrp : f.remote_port = rp
  hra : f.remote_addr = ra
  hne : ra ≠ w.addr
  hdp : f.cfg.dtcp_present = true
  hfc : f.cfg.dtcp.fc.fc_type = fc_type.RINA_FC_T_WIN
  hrtx : f.cfg.dtcp.rtx_control = false
  hnext : f.dtp.next_seq_num_to_send = next
  hdrf : f.dtp.set_drf = decide (next = 0)
  hrwe : f.dtp.snd_rwe = rwe
  hlwe : f.dtp.snd_lwe = lwe
  hcwq : f.dtp.cwq = q
  hlen : f.dtp.cwq_len = q.length
  hmax : f.dtp.max_cwq_len = m

/-- An IPCP of address 42 with one fresh flow toward address 43, with window flow control
of initial credit 2 and a cwq of length 1. -/
def world_s2 : World := mk_world 42 [mk_flow 1 2 43 (cfg_window 2 1)]

/-- A data PDU addressed to the flow of port `port` of this IPCP. -/
def pdu_for (w : World) (port : Nat) (rb : rina_buf) : Prop :=
  rb.pci.base.dst_addr = w.addr ∧ rb.pci.base.dst_cep = port ∧ rb.pci.base.pdu_type = PDU_T_DT

/-- A flow with flow control whose receiver has taken the seqnums up to 5: `rcv_lwe` is 6
and no data acknowledgement has been sent yet. -/
def flow_s5 : flow_entry :=
  let f := mk_flow 1 2 43 cfg_fc
  { f with dtp := { f.dtp with
      rcv_lwe := 6
      max_seq_num_rcvd := 5
      last_snd_data_ack := 0 } }

/-- An IPCP of address 42 with the flow `flow_s5`. -/
def world_s5 : World := mk_world 42 [flow_s5]

/-- The IPCP `world_s5` at a moment when no control buffer can be allocated. -/
def world_s5_oom : World := { world_s5 with alloc_ok := [false] }

/-- An IPCP of address 42 with one fresh flow of port 1, toward address 43, with DTCP and
retransmission control and the given `max_sdu_gap`. -/
def world_s4 (max_sdu_gap : Nat) : World := mk_world 42 [mk_flow 1 2 43 (cfg_rtx max_sdu_gap)]

/-! ## Histories of a sending flow -/

/-- One step in the life of a sending flow: an SDU written by the upper layer, or a
control PDU received for the flow. -/
inductive snd_op where
  | write (rb : rina_buf) (maysleep : Bool)
  | ctrl (rb : rina_buf)
  deriving DecidableEq, Repr

/-- Run a history on the flow `fi`: each write is a call of `sdu_write`, each control PDU
a call of `sdu_rx_ctrl` on the flow; return values are discarded. -/
def run_snd (fuel : Nat) (fi : Nat) : List snd_op → World → Except fault World
  | [], w => Except.ok w
  | snd_op.write rb ms :: rest, w =>
    match sdu_write fuel w fi rb ms with
    | Except.error e => Except.error e
    | Except.ok (_, w1) => run_snd fuel fi rest w1
  | snd_op.ctrl rb :: rest, w =>
    match w.flows[fi]? with
    | none => Except.error fault.oops
    | some flow =>
      match sdu_rx_ctrl (rina_normal_sdu_rx fuel) w fi flow rb with
      | Except.error e => Except.error e
      | Except.ok (_, w1) => run_snd fuel fi rest w1

/-- The number of `sdu_write` calls of a history. -/
def snd_writes : List snd_op → Nat
  | [] => 0
  | snd_op.write _ _ :: rest => snd_writes rest + 1
  | snd_op.ctrl _ :: rest => snd_writes rest

/-- The seqnums of a list of buffers handed to the router. -/
def seqnums (l : List (Nat × rina_buf)) : List Nat :=
  l.map (fun p => p.2.pci.base.seqnum)

/-- The data PDUs among the buffers handed to the router. -/
def data_pdus (l : List (Nat × rina_buf)) : List (Nat × rina_buf) :=
  l.filter (fun p => p.2.pci.base.pdu_type = PDU_T_DT)

/-- A flow control PDU as it arrives from below, with the given control seqnum and right
window edge. -/
def fc_pdu (dst_addr dst_cep seqnum new_rwe : Nat) : rina_buf :=
  { pci :=
      { base :=
          { dst_addr := dst_addr, src_addr := 0, qos_id := 0, dst_cep := dst_cep, src_cep := 0,
            pdu_type := PDU_T_CTRL_MASK ||| PDU_T_FC_BIT, pdu_flags := 0, seqnum := seqnum }
        last_ctrl_seq_num_rcvd := 0
        ack_nack_seq_num := 0
        new_rwe := new_rwe
        new_lwe := 0
        my_rwe := 0
        my_lwe := 0 }
    npci := 1
    data := [] }

/-- An IPCP of address 42 with one fresh flow toward address 43, with window flow control
and the largest initial credit, `2^64 - 1`. -/
def world_wrap : World := mk_world 42 [mk_flow 1 2 43 (cfg_window (2 ^ 64 - 1) 0)]

/-- An IPCP of address 42 with two fresh flows that are each other's peer inside the IPCP:
flow 0 from port 1 to port 2 (initial credit 0, a cwq of 3) and flow 1 from port 2 to
port 1 (initial credit 2).  The first control buffer allocation fails. -/
def world_loop : World :=
  { mk_world 42 [mk_flow 1 2 42 (cfg_window 0 3), mk_flow 2 1 42 (cfg_window 2 3)] with
    alloc_ok := [false] }

/-- The sender state of a flow with DTCP and window flow control whose remote address is
not the IPCP's own, after `k` PDUs have been stamped: the cwq holds the seqnums from `c` to
`k - 1`, and `hs` lists what was handed to the router since the history started with `h0`
handed, in increasing seqnum order, all below `c`. -/
structure snd_inv (w : World) (fi : Nat) (f : flow_entry) (h0 hs : List (Nat × rina_buf))
    (k c : Nat) : Prop where
  hf : w.flows[fi]? = some f
  hne : f.remote_addr ≠ w.addr
  hdp : f.cfg.dtcp_present = true
  hfc : f.cfg.dtcp.fc.fc_type = fc_type.RINA_FC_T_WIN
  hnext : f.dtp.next_seq_num_to_send = u64 k
  hcwq : f.dtp.cwq.map (fun b => b.pci.base.seqnum) = List.range' c f.dtp.cwq.length
  hck : c + f.dtp.cwq.length = k
  hdst : ∀ b ∈ f.dtp.cwq, b.pci.base.dst_addr = f.remote_addr ∧ b.pci.base.pdu_type = PDU_T_DT
  hh : handed w.trace = h0 ++ hs
  hsorted : (seqnums hs).Pairwise (fun a b => a < b)
  hbound : ∀ s ∈ seqnums hs, s < c
  hdt : ∀ p ∈ hs, p.2.pci.base.pdu_type = PDU_T_DT
  hblk : f.dtp.cwq = [] ∨ f.dtp.snd_rwe < k
  hlwe : f.dtp.snd_lwe + f.dtp.cwq.length ≤ k

/-! ## PDUFT maintenance -/

/-- The function `rina_normal_create`: the private state is allocated zeroed and the hash
table initialised, every bucket empty; `none` when the allocation fails. -/
def rina_normal_create (w : World) : Option World :=
  if !w.alloc.1 then none
  else some { w.alloc.2 with pdu_ft := List.replicate (2 ^ PDUFT_HASHTABLE_BITS) [] }

/-- The two assignments `entry->flow = flow; entry->address = dest_addr` on the entry that
`pduft_lookup_internal` found in a bucket: the first one whose address is `dest_addr`. -/
def bucket_set (dest_addr flow : Nat) : List pduft_entry → List pduft_entry
  | [] => []
  | entry :: rest =>
    if entry.address = dest_addr then
      { entry with flow := flow, address := dest_addr } :: rest
    else entry :: bucket_set dest_addr flow rest

/-- The call `list_del(&entry->fnode)`: the entry of identity `id` leaves the flow list it is
linked in. -/
def fnode_del (id : Nat) (flows : List flow_entry) : List flow_entry :=
  flows.map (fun f => { f with pduft_entries := f.pduft_entries.filter (fun x => x ≠ id) })

/-- The call `list_add_tail(&entry->fnode, &flow->pduft_entries)`. -/
def fnode_add_tail (id : Nat) (flow : Nat) (flows : List flow_entry) : List flow_entry :=
  flows.modify (fun f => { f with pduft_entries := f.pduft_entries ++ [id] }) flow

/-- The branch of `rina_normal_pduft_set` for an address without entry, once the entry is
allocated: it is added at the head of its bucket and at the tail of the list of `flow`. -/
def pduft_set_new (w : World) (dest_addr flow : Nat) : World :=
  { w with
    pdu_ft := w.pdu_ft.modify
      (fun b => { id := w.next_id, address := dest_addr, flow := flow } :: b)
      (hash_min dest_addr PDUFT_HASHTABLE_BITS)
    next_id := w.next_id + 1
    flows := fnode_add_tail w.next_id flow w.flows }

/-- The branch of `rina_normal_pduft_set` for an address whose entry, of identity `id`,
exists: the entry moves to the tail of the list of `flow` and is updated in place. -/
def pduft_set_old (w : World) (dest_addr flow id : Nat) : World :=
  { w with
    pdu_ft := w.pdu_ft.modify (bucket_set dest_addr flow)
      (hash_min dest_addr PDUFT_HASHTABLE_BITS)
    flows := fnode_add_tail id flow (fnode_del id w.flows) }

/-- The function `rina_normal_pduft_set`.  `flow` is the flow pointer; a pointer that is not
in the flow table is a fault. -/
def rina_normal_pduft_set (w : World) (dest_addr : Nat) (flow : Nat) : Res :=
  if w.flows.length ≤ flow then Except.error fault.oops
  else
    match pduft_lookup_internal w dest_addr with
    | none =>
      if !w.alloc.1 then Except.ok (-ENOMEM, w.alloc.2)
      else Except.ok (0, pduft_set_new w.alloc.2 dest_addr flow)
    | some entry => Except.ok (0, pduft_set_old w dest_addr flow entry.id)

/-- The entries of the PDUFT, bucket after bucket. -/
def pduft_all (w : World) : List pduft_entry := w.pdu_ft.flatten

/-- The function `rina_normal_pduft_del`.  `entry` is the identity of the entry the pointer
refers to; a pointer to an entry that is not in the table is a fault. -/
def rina_normal_pduft_del (w : World) (entry : Nat) : Res :=
  if (pduft_all w).any (fun e => e.id = entry) then
    Except.ok (0, { w with
      pdu_ft := w.pdu_ft.map (fun b => b.filter (fun e => e.id ≠ entry))
      flows := fnode_del entry w.flows })
  else Except.error fault.oops

/-- One control-plane operation on the PDUFT. -/
inductive pduft_op where
  | set (dest_addr flow : Nat)
  | del (entry : Nat)
  deriving DecidableEq, Repr

/-- Run a sequence of PDUFT operations; the return values are discarded. -/
def pduft_run : List pduft_op → World → Except fault World
  | [], w => Except.ok w
  | pduft_op.set dest_addr flow :: rest, w =>
    match rina_normal_pduft_set w dest_addr flow with
    | Except.error e => Except.error e
    | Except.ok (_, w1) => pduft_run rest w1
  | pduft_op.del entry :: rest, w =>
    match rina_normal_pduft_del w entry with
    | Except.error e => Except.error e
    | Except.ok (_, w1) => pduft_run rest w1

/-- What the C data structures guarantee of a PDUFT state and what `pduft_set` and
`pduft_del` maintain: the table has its `2^PDUFT_HASHTABLE_BITS` buckets, every entry sits
in the bucket of its address, a bucket holds no two entries for one address, no two entries
share an identity, identities in use are below the next one to be allocated, every entry
is linked in the list of its flow, every identity linked in a flow list is that of an
entry of the table pointing to that flow, and no list links an identity twice. -/
structure pduft_inv (w : World) : Prop where
  hlen : w.pdu_ft.length = 2 ^ PDUFT_HASHTABLE_BITS
  hhash : ∀ i b, w.pdu_ft[i]? = some b → ∀ e ∈ b, hash_min e.address PDUFT_HASHTABLE_BITS = i
  haddr : ∀ b ∈ w.pdu_ft, b.Pairwise (fun x y => x.address ≠ y.address)
  hid : ∀ e ∈ pduft_all w, ∀ e1 ∈ pduft_all w, e.id = e1.id → e = e1
  hfresh : ∀ e ∈ pduft_all w, e.id < w.next_id
  hlink : ∀ e ∈ pduft_all w, ∃ f, w.flows[e.flow]? = some f ∧ e.id ∈ f.pduft_entries
  hback : ∀ j f, w.flows[j]? = some f → ∀ id ∈ f.pduft_entries,
    ∃ e ∈ pduft_all w, e.id = id ∧ e.flow = j
  hnodup : ∀ f ∈ w.flows, f.pduft_entries.Nodup

/-- An IPCP of address 42 whose PDUFT routes its own address through the lower flow 1. -/
def world_self_route : World :=
  { mk_world 42 [mk_flow 1 2 42 (cfg_plain U64_MAX), mk_flow 7 8 0 (cfg_plain U64_MAX)] with
    pdu_ft := (List.replicate (2 ^ PDUFT_HASHTABLE_BITS) []).modify
      (fun _ => [{ id := 0, address := 42, flow := 1 }]) (hash_min 42 PDUFT_HASHTABLE_BITS)
    next_id := 1 }

/-- An IPCP of address 42 with three flows and an empty PDUFT. -/
def world_ft : World :=
  mk_world 42 [mk_flow 1 2 43 (cfg_plain 0), mk_flow 3 4 44 (cfg_plain 0),
    mk_flow 5 6 45 (cfg_plain 0)]

/-- What `rina_normal_pduft_set` does to an entry of the table when the address already has
one: the entry of the address gets the new flow, the others stay. -/
def entry_set (dest_addr flow : Nat) (entry : pduft_entry) : pduft_entry :=
  if entry.address = dest_addr then { entry with flow := flow, address := dest_addr } else entry

/-! ## The name codec (`src/common/rina-utils.c`) -/

/-- The C library's `strlen`.  A character array is given by its bytes, the terminating NUL
that follows the last of them apart; its length as a string is the number of bytes before
the first NUL. -/
def strlen (s : List Nat) : Nat := (s.takeWhile (fun c => c ≠ 0)).length

/-- The C library's `strcmp` on two character arrays: 0 when the strings are equal,
otherwise the sign of the first difference. -/
def strcmp : List Nat → List Nat → Int
  | [], [] => 0
  | [], d :: _ => if d = 0 then 0 else -1
  | c :: _, [] => if c = 0 then 0 else 1
  | c :: s, d :: t =>
    if c ≠ d then (if c < d then -1 else 1)
    else if c = 0 then 0
    else strcmp s t

/-- A RINA name (`struct rina_name`): four string pointers, `none` for a null pointer. -/
structure rina_name where
  apn : Option (List Nat)
  api : Option (List Nat)
  aen : Option (List Nat)
  aei : Option (List Nat)
  deriving DecidableEq, Repr

/-- The function `string_prlen`: the size of a serialized string, the size field apart.  The
length of a string is taken to fit `unsigned int`. -/
def string_prlen (s : Option (List Nat)) : Nat :=
  let slen := match s with
    | some b => strlen b
    | none => 0
  if slen > 255 then 255 else slen

/-- The function `rina_name_serlen`. -/
def rina_name_serlen (name : Option rina_name) : Nat :=
  match name with
  | none => 4
  | some n => 4 + string_prlen n.apn + string_prlen n.api + string_prlen n.aen
      + string_prlen n.aei

/-- The function `serialize_string`.  `out` holds the bytes written so far, from the start
of the buffer up to the write pointer `*pptr`; the result holds the bytes up to the new write
pointer.  Modelled from the spec: the macro `serialize_obj` (header not under src/) writes
the length as one byte and moves the pointer past it. -/
def serialize_string (out : List Nat) (s : Option (List Nat)) : List Nat :=
  let slen := string_prlen s
  out ++ slen :: (match s with
    | some b => b.take slen
    | none => [])

/-- The function `serialize_rina_name`. -/
def serialize_rina_name (out : List Nat) (name : rina_name) : List Nat :=
  serialize_string (serialize_string (serialize_string (serialize_string out name.apn)
    name.api) name.aen) name.aei

/-- The state of a deserialization: the read pointer `*pptr`, as an offset in the memory
that is read, and the script of the allocator (whether the successive allocations succeed,
which they do once the script is used up). -/
structure reader where
  ptr : Nat
  alloc_ok : List Bool
  deriving DecidableEq, Repr

/-- One call of `COMMON_ALLOC`: whether it succeeds, and the reader with the script
advanced. -/
def reader.alloc (r : reader) : Bool × reader :=
  match r.alloc_ok with
  | [] => (true, r)
  | b :: bs => (b, { r with alloc_ok := bs })

/-- The bytes that `memcpy` reads: `n` bytes of the memory `mem` from offset `p` on. -/
def mem_read (mem : Nat → Nat) : Nat → Nat → List Nat
  | _, 0 => []
  | p, n + 1 => mem p :: mem_read mem (p + 1) n

/-- The function `deserialize_string`: the return value, the string stored in `*s` and the
new state.  `mem` is the memory that `*pptr` points into, one byte per offset.  Modelled
from the spec: the macro `deserialize_obj` (header not under src/) reads the length byte
and moves the pointer past it. -/
def deserialize_string (mem : Nat → Nat) (r : reader) : Int × Option (List Nat) × reader :=
  let slen := mem r.ptr % 256
  let r := { r with ptr := r.ptr + 1 }
  if !r.alloc.1 then (-1, none, r.alloc.2)
  else (0, some (mem_read mem r.ptr slen), { r.alloc.2 with ptr := r.ptr + slen })

/-- The function `deserialize_rina_name`: the return value, the name as the function leaves
it and the new state. -/
def deserialize_rina_name (mem : Nat → Nat) (r : reader) : Int × rina_name × reader :=
  let name : rina_name := { apn := none, api := none, aen := none, aei := none }
  let a := deserialize_string mem r
  let name := { name with apn := a.2.1 }
  if a.1 ≠ 0 then (a.1, name, a.2.2)
  else
    let b := deserialize_string mem a.2.2
    let name := { name with api := b.2.1 }
    if b.1 ≠ 0 then (b.1, name, b.2.2)
    else
      let c := deserialize_string mem b.2.2
      let name := { name with aen := c.2.1 }
      if c.1 ≠ 0 then (c.1, name, c.2.2)
      else
        let d := deserialize_string mem c.2.2
        (d.1, { name with aei := d.2.1 }, d.2.2)

/-- An entry of the table `rina_msg_numtables`: the length of the prefix that is copied and
the number of names that follow. -/
structure rina_msg_layout where
  copylen : Nat
  names : Nat
  deriving DecidableEq, Repr

/-- The loop of `deserialize_rina_msg` over the names still to read: the return value of
the last `deserialize_rina_name`, the names read and the new state. -/
def deserialize_names (mem : Nat → Nat) : Nat → reader → Int × List rina_name × reader
  | 0, r => (0, [], r)
  | n + 1, r =>
    let a := deserialize_rina_name mem r
    if a.1 ≠ 0 then (a.1, [a.2.1], a.2.2)
    else
      let rest := deserialize_names mem n a.2.2
      (rest.1, a.2.1 :: rest.2.1, rest.2.2)

/-- The function `deserialize_rina_msg`: the return value, and the prefix and the names
written to `msgbuf`.  `mem` is the memory from `serbuf` on, `layout` the entry of
`rina_msg_numtables` for the message type found in the buffer (the table is made of
`sizeof` values of structures declared in headers that are not under src/). -/
def deserialize_rina_msg (layout : rina_msg_layout) (mem : Nat → Nat) (serbuf_len : Nat)
    (alloc_ok : List Bool) : Int × List Nat × List rina_name :=
  let copied := mem_read mem 0 layout.copylen
  let a := deserialize_names mem layout.names { ptr := layout.copylen, alloc_ok := alloc_ok }
  if a.1 ≠ 0 then (a.1, copied, a.2.1)
  else if a.2.2.ptr ≠ serbuf_len then (-1, copied, a.2.1)
  else (0, copied, a.2.1)

/-- One pair of tests of `rina_name_cmp` on a component: whether exactly one of the two
pointers is null, or both are strings that `strcmp` tells apart. -/
def rina_name_cmp_field (x y : Option (List Nat)) : Bool :=
  (x.isSome != y.isSome) ||
    (match x, y with
      | some a, some b => strcmp a b ≠ 0
      | _, _ => false)

/-- The function `rina_name_cmp`; `none` is a null name pointer. -/
def rina_name_cmp (one two : Option rina_name) : Int :=
  match one, two with
  | none, none => 0
  | none, some _ => 1
  | some _, none => 1
  | some a, some b =>
    if rina_name_cmp_field a.apn b.apn then -1
    else if rina_name_cmp_field a.api b.api then -1
    else if rina_name_cmp_field a.aen b.aen then -1
    else if rina_name_cmp_field a.aei b.aei then -1
    else 0

/-- The wire format of a string, in the words of the spec: a 1-byte length, then that many
bytes, the length being the length of the string, 255 at most; a null string has length
0. -/
def wire_string (s : Option (List Nat)) : List Nat :=
  min (strlen (s.getD [])) 255 :: (s.getD []).take (min (strlen (s.getD [])) 255)

/-- The wire format of a name, in the words of the spec: four strings concatenated. -/
def wire_name (name : rina_name) : List Nat :=
  wire_string name.apn ++ wire_string name.api ++ wire_string name.aen ++ wire_string name.aei

/-- Where a serialized string that starts at offset `p` of a memory ends. -/
def wire_string_end (mem : Nat → Nat) (p : Nat) : Nat := p + 1 + mem p % 256

/-- Where a serialized name that starts at offset `p` of a memory ends. -/
def wire_name_end (mem : Nat → Nat) (p : Nat) : Nat :=
  wire_string_end mem (wire_string_end mem (wire_string_end mem (wire_string_end mem p)))

/-- Where `n` consecutive serialized names that start at offset `p` of a memory end. -/
def wire_names_end (mem : Nat → Nat) : Nat → Nat → Nat
  | 0, p => p
  | n + 1, p => wire_names_end mem n (wire_name_end mem p)

/-- The memory `mem` holds the bytes of a list from offset `p` on. -/
def mem_holds (mem : Nat → Nat) : Nat → List Nat → Prop
  | _, [] => True
  | p, b :: rest => mem p = b ∧ mem_holds mem (p + 1) rest

/-- A memory that holds the bytes of a list from offset 0 on, and 0 after them. -/
def mem_of (l : List Nat) : Nat → Nat := fun i => l.getD i 0

/-- A name component in the range of the spec: a null pointer, or a string of length 255
at most. -/
def comp_ok (s : Option (List Nat)) : Prop :=
  match s with
  | none => True
  | some b => strlen b ≤ 255

/-- What `deserialize_string` makes of a component that was serialized: a string, empty for
a null pointer. -/
def comp_back (s : Option (List Nat)) : Option (List Nat) :=
  some ((s.getD []).take (strlen (s.getD [])))

/-- The first `n` allocations of a script succeed. -/
def allocs_ok (n : Nat) (script : List Bool) : Prop :=
  ∀ b ∈ script.take n, b = true

/-- A name as `deserialize_rina_name` gives it back after `serialize_rina_name`. -/
def name_back (name : rina_name) : rina_name :=
  { apn := comp_back name.apn, api := comp_back name.api, aen := comp_back name.aen,
    aei := comp_back name.aei }

/-- A name with its null components read as empty strings. -/
def name_strings (name : rina_name) : rina_name :=
  { apn := some (name.apn.getD []), api := some (name.api.getD []),
    aen := some (name.aen.getD []), aei := some (name.aei.getD []) }

/-- A name with the application process name "ab", the instance "1" and two null
components. -/
def name_ab : rina_name :=
  { apn := some [97, 98], api := some [49], aen := none, aei := none }

/-! ## The inactivity timers and the histories of a flow -/

/-- The callback `snd_inact_tmr_cb`, on the DTP state that holds the timer.  It returns
`HRTIMER_NORESTART`. -/
def snd_inact_tmr_cb (d : dtp) : dtp :=
  { d with set_drf := true, next_seq_num_to_send := 0 }

/-- The callback `rcv_inact_tmr_cb`: it leaves the DTP state alone and returns
`HRTIMER_NORESTART`. -/
def rcv_inact_tmr_cb (d : dtp) : dtp := d

/-- The expiry of the sender inactivity timer of the flow `fi`: when the timer is armed it
stops being pending and its callback runs; it is not restarted. -/
def snd_inact_expire (w : World) (fi : Nat) : Except fault World :=
  match w.flows[fi]? with
  | none => Except.error fault.oops
  | some flow =>
    match flow.dtp.snd_inact_tmr with
    | none => Except.ok w
    | some _ =>
      Except.ok (w.set_dtp fi (snd_inact_tmr_cb { flow.dtp with snd_inact_tmr := none }))

/-- One step in the life of a flow with its timers: an SDU written by the upper layer, a
control PDU received for the flow, or the expiry of the sender inactivity timer. -/
inductive dtp_op where
  | write (rb : rina_buf) (maysleep : Bool)
  | ctrl (rb : rina_buf)
  | snd_inact
  deriving DecidableEq, Repr

/-- Run a history on the flow `fi`: each write is a call of `sdu_write`, each control PDU a
call of `sdu_rx_ctrl` on the flow, each expiry a run of the timer callback; return values
are discarded. -/
def run_dtp (fuel : Nat) (fi : Nat) : List dtp_op → World → Except fault World
  | [], w => Except.ok w
  | dtp_op.write rb ms :: rest, w =>
    match sdu_write fuel w fi rb ms with
    | Except.error e => Except.error e
    | Except.ok (_, w1) => run_dtp fuel fi rest w1
  | dtp_op.ctrl rb :: rest, w =>
    match w.flows[fi]? with
    | none => Except.error fault.oops
    | some flow =>
      match sdu_rx_ctrl (rina_normal_sdu_rx fuel) w fi flow rb with
      | Except.error e => Except.error e
      | Except.ok (_, w1) => run_dtp fuel fi rest w1
  | dtp_op.snd_inact :: rest, w =>
    match snd_inact_expire w fi with
    | Except.error e => Except.error e
    | Except.ok w1 => run_dtp fuel fi rest w1

/-- The seqnums of the buffers of a queue, head first. -/
def queue_seqnums (q : List rina_buf) : List Nat :=
  q.map (fun b => b.pci.base.seqnum)

/-- A queue whose seqnums are strictly ascending from head to tail. -/
def ascending (q : List rina_buf) : Prop :=
  (queue_seqnums q).Pairwise (fun a b => a < b)

instance (q : List rina_buf) : Decidable (ascending q) := by
  unfold ascending; exact inferInstance

/-! ## What the receive path and the router do to a flow -/

/-- The fields of a DTP state that the data path of `rina_normal_sdu_rx` does not write
outside of the DRF, delivery and queueing steps: the sender state, the queues, `rcv_lwe`,
the last control seqnum received and the sender timer. -/
def rkey (d : dtp) : Bool × Nat × Nat × Nat × Nat × List rina_buf × Nat × Nat × List rina_buf ×
    Nat × List rina_buf × Nat × Option Nat :=
  (d.set_drf, d.next_seq_num_to_send, d.snd_lwe, d.snd_rwe, d.last_seq_num_sent, d.cwq,
   d.cwq_len, d.max_cwq_len, d.rtxq, d.rcv_lwe, d.seqq, d.last_ctrl_seq_num_rcvd,
   d.snd_inact_tmr)

/-- One write to the state of a flow by `rina_normal_sdu_rx` or by the router, from the
state before to the state after:

* `rmtq`: the router queues a buffer on the flow;
* `ctrl`: the locked part of `sdu_rx_ctrl`;
* `misc`: the receiver timer, `rcv_rwe`, `next_snd_ctl_seq`, `last_snd_data_ack` and
  `max_seq_num_rcvd` are written;
* `drf`: the DRF path sets `rcv_lwe`;
* `deliver`: a PDU within the gap is delivered, `rcv_lwe` advances and `seqq_pop_many`
  scans the queue;
* `push`: a PDU beyond the gap is given to `seqq_push`. -/
inductive flow_step : flow_entry → flow_entry → Prop
  | rmtq (f : flow_entry) (q : List rina_buf) (n : Nat) :
      flow_step f { f with rmtq := q, rmtq_len := n }
  | ctrl (f : flow_entry) (pcic : rina_pci_ctrl) :
      flow_step f { f with dtp := (sdu_rx_ctrl_locked pcic f.dtp).1 }
  | misc (f : flow_entry) (d : dtp) (h : rkey d = rkey f.dtp) :
      flow_step f { f with dtp := d }
  | drf (f : flow_entry) (s : Nat) :
      flow_step f { f with dtp := { f.dtp with rcv_lwe := u64 (s + 1) } }
  | deliver (f : flow_entry) (s : Nat) (h1 : ¬ s < f.dtp.rcv_lwe)
      (h2 : sub64 s f.dtp.rcv_lwe ≤ f.cfg.max_sdu_gap) :
      flow_step f { f with dtp := { f.dtp with
        rcv_lwe := (seqq_pop_many f.cfg.max_sdu_gap f.dtp.seqq (u64 (s + 1))).2.1
        seqq := (seqq_pop_many f.cfg.max_sdu_gap f.dtp.seqq (u64 (s + 1))).1 } }
  | push (f : flow_entry) (rb : rina_buf) (h1 : ¬ rb.pci.base.seqnum < f.dtp.rcv_lwe)
      (h2 : ¬ sub64 rb.pci.base.seqnum f.dtp.rcv_lwe ≤ f.cfg.max_sdu_gap) :
      flow_step f { f with dtp := { f.dtp with seqq := (seqq_push f.dtp.seqq rb).1 } }

/-- Any number of writes to the state of a flow. -/
def flow_steps : flow_entry → flow_entry → Prop := Relation.ReflTransGen flow_step

/-- What a call of `rina_normal_sdu_rx` or of the router does to the flow table: every flow
stays in place and goes through writes of the kinds listed in `flow_step`. -/
structure Steps (w w1 : World) : Prop where
  addr : w1.addr = w.addr
  step : ∀ (fi : Nat) (f : flow_entry), w.flows[fi]? = some f →
    ∃ f1, w1.flows[fi]? = some f1 ∧ flow_steps f f1

/-- The sender window state kept along the life of a flow while its seqnum counter has not
wrapped: at most `K` seqnums were consumed, `snd_lwe` follows `last_seq_num_sent`, the
buffers of the cwq account for the seqnums between `snd_lwe` and
`next_seq_num_to_send`, and buffers wait in the cwq only on a flow with DTCP and window flow
control whose window is closed. -/
structure win_ok (K : Nat) (f : flow_entry) : Prop where
  hnext : f.dtp.next_seq_num_to_send ≤ K
  hlast : u64 (f.dtp.last_seq_num_sent + 1) = f.dtp.snd_lwe
  hlwe : f.dtp.snd_lwe + f.dtp.cwq.length ≤ f.dtp.next_seq_num_to_send
  hblk : f.dtp.cwq = [] ∨ (f.cfg.dtcp_present = true ∧
    f.cfg.dtcp.fc.fc_type = fc_type.RINA_FC_T_WIN ∧
    f.dtp.snd_rwe < f.dtp.next_seq_num_to_send)

/-- The closed window queue and its counter: `cwq_len` is the length of the queue and does
not exceed `max_cwq_len`. -/
structure cwq_ok (f : flow_entry) : Prop where
  hlen : f.dtp.cwq_len = f.dtp.cwq.length
  hmax : f.dtp.cwq_len ≤ f.dtp.max_cwq_len

/-- The retransmission queue after `k` seqnums were consumed: its seqnums are strictly
ascending and below `k`. -/
structure rtx_ok (k : Nat) (f : flow_entry) : Prop where
  hnext : f.dtp.next_seq_num_to_send = u64 k
  hasc : ascending f.dtp.rtxq
  hbound : ∀ b ∈ f.dtp.rtxq, b.pci.base.seqnum < k

/-- The DTP states that `rina_normal_sdu_write` may store under the lock for the flow `f`,
`p` being the PDU it stamps and `T` what becomes of the sender timer:

* `eagain`: the window is overrun, nothing is consumed;
* `queue`: the PDU is put in the cwq;
* `send`: DTCP is absent, or the PDU is in the sender window: `snd_lwe` and
  `last_seq_num_sent` follow the seqnum;
* `pass`: DTCP is present without window flow control: only the seqnum is consumed.

In the last two cases `R` is the retransmission queue, with a clone of the PDU appended when
retransmission control is on and the clone could be allocated. -/
inductive write_dtp (f : flow_entry) (p : rina_buf) : dtp → Prop
  | eagain (T : Option Nat) (h : window_overrun f) :
      write_dtp f p { f.dtp with snd_inact_tmr := T }
  | queue (T : Option Nat) (h : ¬ window_overrun f) (hdp : f.cfg.dtcp_present = true)
      (hfc : f.cfg.dtcp.fc.fc_type = fc_type.RINA_FC_T_WIN)
      (hgt : f.dtp.next_seq_num_to_send > f.dtp.snd_rwe)
      (hrtx : f.cfg.dtcp.rtx_control = false) :
      write_dtp f p { f.dtp with
        snd_inact_tmr := T
        set_drf := false
        next_seq_num_to_send := u64 (f.dtp.next_seq_num_to_send + 1)
        cwq := f.dtp.cwq ++ [p]
        cwq_len := f.dtp.cwq_len + 1 }
  | send (T : Option Nat) (R : List rina_buf) (h : ¬ window_overrun f)
      (hw : f.cfg.dtcp_present = false ∨ (f.cfg.dtcp.fc.fc_type = fc_type.RINA_FC_T_WIN ∧
        ¬ f.dtp.next_seq_num_to_send > f.dtp.snd_rwe))
      (hR : R = f.dtp.rtxq ∨ (f.cfg.dtcp.rtx_control = true ∧ f.cfg.dtcp_present = true ∧
        R = f.dtp.rtxq ++ [p])) :
      write_dtp f p { f.dtp with
        snd_inact_tmr := T
        set_drf := false
        next_seq_num_to_send := u64 (f.dtp.next_seq_num_to_send + 1)
        snd_lwe := u64 (f.dtp.next_seq_num_to_send + 1)
        last_seq_num_sent := f.dtp.next_seq_num_to_send
        rtxq := R }
  | pass (T : Option Nat) (R : List rina_buf) (h : ¬ window_overrun f)
      (hdp : f.cfg.dtcp_present = true)
      (hfc : f.cfg.dtcp.fc.fc_type ≠ fc_type.RINA_FC_T_WIN)
      (hR : R = f.dtp.rtxq ∨ (f.cfg.dtcp.rtx_control = true ∧ R = f.dtp.rtxq ++ [p])) :
      write_dtp f p { f.dtp with
        snd_inact_tmr := T
        set_drf := false
        next_seq_num_to_send := u64 (f.dtp.next_seq_num_to_send + 1)
        rtxq := R }

/-- An IPCP of address 42 with one fresh flow toward address 43, with window flow control of
initial credit `2^64 - 2` and a cwq of length 1. -/
def world_wrap_cwq : World := mk_world 42 [mk_flow 1 2 43 (cfg_window (2 ^ 64 - 2) 1)]

/-! ## The calls of the router on a trace -/

/-- The calls of `rmt_tx` recorded on a trace, with their arguments: the destination
address, the buffer and the `maysleep` flag. -/
def router_calls (t : List event) : List (Nat × rina_buf × Bool) :=
  t.filterMap (fun e => match e with
    | event.rmt_tx a rb ms => some (a, rb, ms)
    | _ => none)

/-! ## The control handler: the duplicate test and scenarios -/

/-- A flow toward address 43 with window flow control (initial credit 2, a cwq of 1) that
has received control PDUs up to the seqnum `last`. -/
def flow_ctrl (last : Nat) : flow_entry :=
  { mk_flow 1 2 43 (cfg_window 2 1) with
    dtp := { (mk_flow 1 2 43 (cfg_window 2 1)).dtp with last_ctrl_seq_num_rcvd := last } }

/-- An IPCP of address 42 whose only flow is `flow_ctrl last`. -/
def world_ctrl (last : Nat) : World := mk_world 42 [flow_ctrl last]

/-- The test of `sdu_rx_ctrl` under which a control PDU is dropped as a duplicate (the
`goto out`): its seqnum is not above `last_ctrl_seq_num_rcvd + 1`, `last_ctrl_seq_num_rcvd`
is not zero, and the seqnum is not above `last_ctrl_seq_num_rcvd`. -/
def ctrl_pdu_dup (pcic : rina_pci_ctrl) (d : dtp) : Prop :=
  ¬ (pcic.base.seqnum > u64 (d.last_ctrl_seq_num_rcvd + 1)) ∧
    d.last_ctrl_seq_num_rcvd ≠ 0 ∧ pcic.base.seqnum ≤ d.last_ctrl_seq_num_rcvd

instance (pcic : rina_pci_ctrl) (d : dtp) : Decidable (ctrl_pdu_dup pcic d) := by
  unfold ctrl_pdu_dup; exact inferInstance

/-- The scenario S3: an IPCP of address 42 with one flow toward address 43, with window flow
control of initial credit 2 and a cwq of 2, after five SDUs were written on the fresh
flow. -/
def world_s3 : World :=
  match run_snd 0 0 [snd_op.write (sdu [0]) false, snd_op.write (sdu [1]) false,
      snd_op.write (sdu [2]) false, snd_op.write (sdu [3]) false,
      snd_op.write (sdu [4]) false] (mk_world 42 [mk_flow 1 2 43 (cfg_window 2 2)]) with
  | Except.ok w => w
  | Except.error _ => mk_world 42 []

/-- The flow of `world_s3`. -/
def flow_s3 : flow_entry :=
  match world_s3.flows[0]? with
  | some f => f
  | none => mk_flow 1 2 43 (cfg_window 2 2)

/-- A control PDU with the ACK bit as it arrives from below, with the given sub-type
(`PDU_T_ACK`, `PDU_T_NACK`, `PDU_T_SACK` or `PDU_T_SNACK`), control seqnum and acknowledged
seqnum. -/
def ack_pdu (dst_addr dst_cep subtype seqnum ack_nack_seq_num : Nat) : rina_buf :=
  { pci :=
      { base :=
          { dst_addr := dst_addr, src_addr := 0, qos_id := 0, dst_cep := dst_cep, src_cep := 0,
            pdu_type := PDU_T_CTRL_MASK ||| PDU_T_ACK_BIT ||| subtype, pdu_flags := 0,
            seqnum := seqnum }
        last_ctrl_seq_num_rcvd := 0
        ack_nack_seq_num := ack_nack_seq_num
        new_rwe := 0
        new_lwe := 0
        my_rwe := 0
        my_lwe := 0 }
    npci := 1
    data := [] }

/-- An IPCP of address 42 with one flow toward address 43, with retransmission control,
after three SDUs were written on the fresh flow. -/
def world_rtx : World :=
  match run_snd 0 0 [snd_op.write (sdu [0]) false, snd_op.write (sdu [1]) false,
      snd_op.write (sdu [2]) false] (world_s4 0) with
  | Except.ok w => w
  | Except.error _ => mk_world 42 []

/-- The flow of `world_rtx`. -/
def flow_rtx : flow_entry :=
  match world_rtx.flows[0]? with
  | some f => f
  | none => mk_flow 1 2 43 (cfg_rtx 0)

/-- A flow configuration with DTCP, window flow control and retransmission control. -/
def cfg_window_rtx (initial_credit max_cwq_len : Nat) : flow_config :=
  { dtcp_present := true
    in_order_delivery := false
    max_sdu_gap := 0
    dtcp :=
      { flow_control := true
        rtx_control := true
        fc :=
          { fc_type := fc_type.RINA_FC_T_WIN
            w := { max_cwq_len := max_cwq_len, initial_credit := initial_credit } } } }

/-- An IPCP of address 42 with one fresh flow toward address 43, with window flow control
of initial credit 0 and a cwq of 1, and with retransmission control. -/
def world_window_rtx : World := mk_world 42 [mk_flow 1 2 43 (cfg_window_rtx 0 1)]

/-- The world `world_window_rtx` after one SDU was written on its flow. -/
def world_window_rtx_sent : World :=
  match sdu_write 0 world_window_rtx 0 (sdu [0]) false with
  | Except.ok (_, w) => w
  | Except.error _ => world_window_rtx

/-- The flow of `world_window_rtx_sent`. -/
def flow_window_rtx_sent : flow_entry :=
  match world_window_rtx_sent.flows[0]? with
  | some f => f
  | none => mk_flow 1 2 43 (cfg_window_rtx 0 1)

/-- The world `world_s4 0` (one flow with DTCP and retransmission control) after two SDUs
were written on the fresh flow and the sender inactivity timer has expired. -/
def world_expired : World :=
  match run_dtp 0 0 [dtp_op.write (sdu [0]) false, dtp_op.write (sdu [1]) false,
      dtp_op.snd_inact] (world_s4 0) with
  | Except.ok w => w
  | Except.error _ => mk_world 42 []

/-- The flow of `world_expired`. -/
def flow_expired : flow_entry :=
  match world_expired.flows[0]? with
  | some f => f
  | none => mk_flow 1 2 43 (cfg_rtx 0)

/-! ## The name codec: serialised lengths and the comparison of names -/

/-- The loop of `rina_msg_serlen` over the names still to visit: `i` is the index of the
name that `name` points to, `ret` the length so far, an `unsigned int`. -/
def rina_msg_serlen_loop (names : Nat → rina_name) : Nat → Nat → Nat → Nat
  | 0, _, ret => ret
  | n + 1, i, ret =>
    rina_msg_serlen_loop names n (i + 1) ((ret + rina_name_serlen (some (names i))) % 2 ^ 32)

/-- The function `rina_msg_serlen`.  `layout` is the entry of `rina_msg_numtables` for the
type of the message, `names` the array of names that follows the prefix of `copylen` bytes
in the message structure. -/
def rina_msg_serlen (layout : rina_msg_layout) (names : Nat → rina_name) : Nat :=
  rina_msg_serlen_loop names layout.names 0 (layout.copylen % 2 ^ 32)

/-- The loop of `serialize_rina_msg` over the names still to serialize: `i` is the index of
the name that `name` points to, `out` the bytes from `serbuf` up to `serptr`. -/
def serialize_names (names : Nat → rina_name) : Nat → Nat → List Nat → List Nat
  | 0, _, out => out
  | n + 1, i, out => serialize_names names n (i + 1) (serialize_rina_name out (names i))

/-- The function `serialize_rina_msg`: the bytes written from `serbuf` on and the returned
length, the difference `serptr - serbuf` as an `unsigned int`.  `msg` is the memory of the
message structure, one byte per offset, `names` the array of names that follows its
prefix. -/
def serialize_rina_msg (layout : rina_msg_layout) (msg : Nat → Nat) (names : Nat → rina_name) :
    List Nat × Nat :=
  let out := serialize_names names layout.names 0 (mem_read msg 0 layout.copylen)
  (out, out.length % 2 ^ 32)

/-- The string that a character array holds: its bytes before the first NUL. -/
def cstring (s : List Nat) : List Nat := s.takeWhile (fun c => c ≠ 0)

/-- Two name components are equal, in the words of the spec: both are null, or both are
non-null and hold the same string, byte for byte. -/
def comp_eq (x y : Option (List Nat)) : Prop :=
  match x, y with
  | none, none => True
  | some a, some b => cstring a = cstring b
  | _, _ => False

/-! ## The flags of a scanned network (`src/user/uipcps/test-wifi.c`) -/

/-- The constant `RL_WIFI_F_WEP`. -/
def RL_WIFI_F_WEP : Nat := 0x1

/-- The constant `RL_WIFI_F_WPS`. -/
def RL_WIFI_F_WPS : Nat := 0x2

/-- The constant `RL_WIFI_F_ESS`. -/
def RL_WIFI_F_ESS : Nat := 0x4

/-- The constant `RL_WPA_F_ACTIVE`. -/
def RL_WPA_F_ACTIVE : Nat := 0x1

/-- The constant `RL_WPA_F_PSK`. -/
def RL_WPA_F_PSK : Nat := 0x2

/-- The constant `RL_WPA_F_CCMP`. -/
def RL_WPA_F_CCMP : Nat := 0x4

/-- The constant `RL_WPA_F_TKIP`. -/
def RL_WPA_F_TKIP : Nat := 0x8

/-- The constant `RL_WPA_F_PREAUTH`. -/
def RL_WPA_F_PREAUTH : Nat := 0x10

/-- The flag fields of `struct wifi_network`. -/
structure wifi_network where
  wifi_flags : Nat
  wpa1_flags : Nat
  wpa2_flags : Nat
  deriving DecidableEq, Repr

/-- The bytes of a string literal of the C source, the terminating NUL apart. -/
def bytes (s : String) : List Nat := s.toList.map Char.toNat

/-- The byte that a `char *` points to: `s` holds the bytes of the character array before
its terminating NUL, `p` is the offset of the pointer. -/
def char_at (s : List Nat) (p : Nat) : Nat := s.getD p 0

/-- The scan of the C library's `index` (`strchr`) over the bytes `s` that start at offset
`p`: the offset of the first byte equal to `c`, if one comes before the NUL. -/
def index_from : List Nat → Nat → Nat → Option Nat
  | [], _, _ => none
  | b :: rest, p, c =>
    if b = c then some p
    else if b = 0 then none
    else index_from rest (p + 1) c

/-- The C library's `index(s + p, c)` for a character `c` other than NUL: the offset of the
first occurrence, `none` for a null pointer. -/
def index (s : List Nat) (p : Nat) (c : Nat) : Option Nat :=
  index_from (s.drop p) p c

/-- The C library's `strncmp` on two character arrays: 0 when the first `n` bytes of the
strings are equal, otherwise the sign of the first difference. -/
def strncmp : List Nat → List Nat → Nat → Int
  | _, _, 0 => 0
  | [], [], _ + 1 => 0
  | [], d :: _, _ + 1 => if d = 0 then 0 else -1
  | c :: _, [], _ + 1 => if c = 0 then 0 else 1
  | c :: s, d :: t, n + 1 =>
    if c ≠ d then (if c < d then -1 else 1)
    else if c = 0 then 0
    else strncmp s t n

/-- The loop of `parse_wpa_flags`, with a budget of iterations: `flags` is `*flags`, `p` the
offset of the read pointer and `len` the variable `len`; the result is the flags and the
pointer that is returned.  An iteration in which no branch is taken leaves all three as they
are. -/
def parse_wpa_flags_loop (s : List Nat) : Nat → Nat → Nat → Int → Except fault (Nat × Nat)
  | 0, _, _, _ => Except.error fault.nofuel
  | fuel + 1, flags, p, len =>
    if char_at s p = 93 then Except.ok (flags, p)
    else if char_at s p = 45 ∨ char_at s p = 43 then
      parse_wpa_flags_loop s fuel flags (p + 1) (len - 1)
    else if len ≥ 3 ∧ strncmp (s.drop p) (bytes "PSK") 3 = 0 then
      parse_wpa_flags_loop s fuel (flags ||| RL_WPA_F_PSK) (p + 3) (len - 3)
    else if len ≥ 4 ∧ strncmp (s.drop p) (bytes "CCMP") 4 = 0 then
      parse_wpa_flags_loop s fuel (flags ||| RL_WPA_F_CCMP) (p + 4) (len - 4)
    else if len ≥ 4 ∧ strncmp (s.drop p) (bytes "TKIP") 4 = 0 then
      parse_wpa_flags_loop s fuel (flags ||| RL_WPA_F_TKIP) (p + 4) (len - 4)
    else if len ≥ 7 ∧ strncmp (s.drop p) (bytes "preauth") 7 = 0 then
      parse_wpa_flags_loop s fuel (flags ||| RL_WPA_F_PREAUTH) (p + 7) (len - 7)
    else
      parse_wpa_flags_loop s fuel flags p len

/-- The function `parse_wpa_flags`, with a budget of loop iterations.  `flagstr` is the
offset of the argument in the character array `s`.  When `index` finds no `]` the
subtraction is made on a null pointer. -/
def parse_wpa_flags (fuel : Nat) (s : List Nat) (flags : Nat) (flagstr : Nat) :
    Except fault (Nat × Nat) :=
  match index s flagstr 93 with
  | none => Except.error fault.oops
  | some q => parse_wpa_flags_loop s fuel flags flagstr ((q : Int) - (flagstr : Int))

/-- The loop of `parse_wifi_flags`, with a budget of iterations that it shares with the
calls of `parse_wpa_flags`: `elem` holds the flags found so far, `p` is the offset of the
read pointer.  An iteration in which no branch is taken leaves both as they are. -/
def parse_wifi_flags_loop (s : List Nat) : Nat → wifi_network → Nat → Except fault wifi_network
  | 0, _, _ => Except.error fault.nofuel
  | fuel + 1, elem, p =>
    if char_at s p = 0 then Except.ok elem
    else
      match index s p 93 with
      | none => Except.error fault.oops
      | some q =>
        let len : Int := (q : Int) - (p : Int)
        if char_at s p = 93 then parse_wifi_flags_loop s fuel elem (p + 1)
        else if len < 4 then parse_wifi_flags_loop s fuel elem (p + len.toNat)
        else if len = 4 then
          let elem :=
            if strncmp (s.drop p) (bytes "[WPS]") 5 = 0 then
              { elem with wifi_flags := elem.wifi_flags ||| RL_WIFI_F_WPS }
            else if strncmp (s.drop p) (bytes "[WEP]") 5 = 0 then
              { elem with wifi_flags := elem.wifi_flags ||| RL_WIFI_F_WEP }
            else if strncmp (s.drop p) (bytes "[ESS]") 5 = 0 then
              { elem with wifi_flags := elem.wifi_flags ||| RL_WIFI_F_ESS }
            else elem
          parse_wifi_flags_loop s fuel elem (p + 5)
        else if strncmp (s.drop p) (bytes "[WPA2") 5 = 0 then
          match parse_wpa_flags fuel s (elem.wpa2_flags ||| RL_WPA_F_ACTIVE) (p + 5) with
          | Except.error e => Except.error e
          | Except.ok (flags, p1) =>
            parse_wifi_flags_loop s fuel { elem with wpa2_flags := flags } p1
        else if strncmp (s.drop p) (bytes "[WPA") 4 = 0 then
          match parse_wpa_flags fuel s (elem.wpa1_flags ||| RL_WPA_F_ACTIVE) (p + 4) with
          | Except.error e => Except.error e
          | Except.ok (flags, p1) =>
            parse_wifi_flags_loop s fuel { elem with wpa1_flags := flags } p1
        else
          parse_wifi_flags_loop s fuel elem p

/-- The function `parse_wifi_flags`, with a budget of loop iterations: the three flag fields
of `elem` when the function returns.  `flagstr` holds the bytes of the flag string before
its terminating NUL. -/
def parse_wifi_flags (fuel : Nat) (flagstr : List Nat) : Except fault wifi_network :=
  parse_wifi_flags_loop flagstr fuel { wifi_flags := 0, wpa1_flags := 0, wpa2_flags := 0 } 0

/-! # Theorems -/

theorem Keep.rfl_ (w : World) : Keep w w :=
  ⟨rfl, rfl, rfl, List.prefix_refl _⟩

theorem Keep.trans_ {a b c : World} (h1 : Keep a b) (h2 : Keep b c) : Keep a c :=
  ⟨h2.addr.trans h1.addr, h2.pdu_ft.trans h1.pdu_ft, h2.flows.trans h1.flows,
   h1.trace.trans h2.trace⟩

theorem keep_emit (w : World) (e : event) : Keep w (w.emit e) :=
  ⟨rfl, rfl, rfl, List.prefix_append _ _⟩

theorem keep_alloc (w : World) : Keep w w.alloc.2 := by
  unfold World.alloc
  split
  · exact Keep.rfl_ w
  · exact ⟨rfl, rfl, rfl, List.prefix_refl _⟩

theorem map_modify_skey (l : List flow_entry) (g : flow_entry → flow_entry) (fi : Nat)
    (h : ∀ f, l[fi]? = some f → skey (g f) = skey f) :
    (l.modify g fi).map skey = l.map skey := by
  apply List.ext_getElem?
  intro n
  simp only [List.getElem?_map, List.getElem?_modify]
  by_cases hn : fi = n
  · subst hn
    simp only [if_true]
    cases hl : l[fi]? with
    | none => rfl
    | some f => simp [h f hl]
  · simp [hn]

theorem keep_upd_flow (w : World) (fi : Nat) (g : flow_entry → flow_entry)
    (h : ∀ f, w.flows[fi]? = some f → skey (g f) = skey f) : Keep w (w.upd_flow fi g) :=
  ⟨rfl, rfl, map_modify_skey _ _ _ h, List.prefix_refl _⟩

theorem Keep.get {w w1 : World} (k : Keep w w1) {fi : Nat} {f f1 : flow_entry}
    (h : w.flows[fi]? = some f) (h1 : w1.flows[fi]? = some f1) : skey f1 = skey f := by
  have := congrArg (fun l => l[fi]?) k.flows
  simp only [List.getElem?_map, h, h1, Option.map_some'] at this
  exact Option.some.inj this

/-- Storing a DTP state that agrees with the flow read earlier on the fields of `skey`. -/
theorem keep_set_dtp {w w1 : World} (k : Keep w w1) {fi : Nat} {f : flow_entry}
    (h : w.flows[fi]? = some f) (d : dtp)
    (hn : d.next_seq_num_to_send = f.dtp.next_seq_num_to_send)
    (hd : d.set_drf = f.dtp.set_drf) : Keep w (w1.set_dtp fi d) := by
  refine Keep.trans_ k (keep_upd_flow _ _ _ ?_)
  intro f1 h1
  have := k.get h h1
  simp only [skey, Prod.mk.injEq] at this ⊢
  simp [this, hn, hd]

theorem keep_rmt_tx_push (lf : Nat) (rb : rina_buf) (ms : Bool) :
    ∀ (script : List Int) (w : World), Keep w (rmt_tx_push lf rb ms script w).2 := by
  intro script
  induction script with
  | nil => intro w; exact keep_emit _ _
  | cons ret rest ih =>
    intro w
    have k1 : Keep w (({ w with lower_ret := rest } : World).emit
        (event.lower_sdu_write lf rb ms ret)) :=
      ⟨rfl, rfl, rfl, List.prefix_append _ _⟩
    simp only [rmt_tx_push]
    split
    · split
      · exact Keep.trans_ k1 (keep_upd_flow _ _ _ (fun f _ => rfl))
      · exact Keep.trans_ (Keep.trans_ k1 (keep_emit _ _)) (ih _)
    · exact k1

theorem keep_rmt_tx {rx : World → rina_buf → Res}
    (hrx : ∀ w rb r w1, rx w rb = Except.ok (r, w1) → Keep w w1)
    {w : World} {a : Nat} {rb : rina_buf} {ms : Bool} {r : Int} {w1 : World}
    (h : rmt_tx rx w a rb ms = Except.ok (r, w1)) : Keep w w1 := by
  simp only [rmt_tx] at h
  have k0 := keep_emit w (event.rmt_tx a rb ms)
  split at h
  · split at h
    · simp only [Except.ok.injEq, Prod.mk.injEq] at h
      rw [← h.2]
      exact Keep.trans_ k0 (keep_emit _ _)
    · exact Keep.trans_ k0 (hrx _ _ _ _ h)
  · simp only [Except.ok.injEq] at h
    have k1 := keep_rmt_tx_push (by assumption) rb ms
      (w.emit (event.rmt_tx a rb ms)).lower_ret (w.emit (event.rmt_tx a rb ms))
    rw [h] at k1
    exact Keep.trans_ k0 k1

theorem keep_rmt_tx_list {rx : World → rina_buf → Res}
    (hrx : ∀ w rb r w1, rx w rb = Except.ok (r, w1) → Keep w w1) :
    ∀ (l : List rina_buf) (w w1 : World), rmt_tx_list rx l w = Except.ok w1 → Keep w w1 := by
  intro l
  induction l with
  | nil =>
    intro w w1 h
    simp only [rmt_tx_list, Except.ok.injEq] at h
    rw [← h]; exact Keep.rfl_ w
  | cons qrb rest ih =>
    intro w w1 h
    simp only [rmt_tx_list] at h
    split at h
    · exact absurd h (by simp)
    · rename_i r w2 heq
      exact Keep.trans_ (keep_rmt_tx hrx heq) (ih _ _ h)

theorem keep_snd_crb {rx : World → rina_buf → Res}
    (hrx : ∀ w rb r w1, rx w rb = Except.ok (r, w1) → Keep w w1)
    {w : World} {a : Nat} {crb : Option rina_buf} {ret r : Int} {w1 : World}
    (h : snd_crb rx w a crb ret = Except.ok (r, w1)) : Keep w w1 := by
  unfold snd_crb at h
  split at h
  · simp only [Except.ok.injEq, Prod.mk.injEq] at h
    rw [← h.2]; exact Keep.rfl_ w
  · split at h
    · exact absurd h (by simp)
    · rename_i r2 w2 heq
      simp only [Except.ok.injEq, Prod.mk.injEq] at h
      rw [← h.2]
      exact keep_rmt_tx hrx heq

theorem keep_ctrl_pdu_alloc {w0 w : World} (k : Keep w0 w) {fi : Nat} {f0 : flow_entry}
    (h : w0.flows[fi]? = some f0) (flow : flow_entry)
    (hn : flow.dtp.next_seq_num_to_send = f0.dtp.next_seq_num_to_send)
    (hd : flow.dtp.set_drf = f0.dtp.set_drf) (t a : Nat) :
    Keep w0 (ctrl_pdu_alloc w fi flow t a).2 := by
  unfold ctrl_pdu_alloc
  have ka := Keep.trans_ k (keep_alloc w)
  split
  rename_i ok w2 heq
  have : w2 = w.alloc.2 := by rw [heq]
  subst this
  split
  · exact keep_set_dtp ka h _ hn hd
  · exact ka

theorem sv_update_rwe_next (flow : flow_entry) :
    (sv_update_rwe flow).dtp.next_seq_num_to_send = flow.dtp.next_seq_num_to_send := by
  unfold sv_update_rwe; simp only; split <;> rfl

theorem sv_update_rwe_drf (flow : flow_entry) :
    (sv_update_rwe flow).dtp.set_drf = flow.dtp.set_drf := by
  unfold sv_update_rwe; simp only; split <;> rfl

theorem keep_sdu_rx_sv_update {w0 w : World} (k : Keep w0 w) {fi : Nat} {f0 : flow_entry}
    (h : w0.flows[fi]? = some f0) (flow : flow_entry)
    (hn : flow.dtp.next_seq_num_to_send = f0.dtp.next_seq_num_to_send)
    (hd : flow.dtp.set_drf = f0.dtp.set_drf) :
    Keep w0 (sdu_rx_sv_update w fi flow).2 := by
  have hn1 := (sv_update_rwe_next flow).trans hn
  have hd1 := (sv_update_rwe_drf flow).trans hd
  simp only [sdu_rx_sv_update]
  split
  · exact keep_ctrl_pdu_alloc (keep_set_dtp k h _ hn1 hd1) h _ hn1 hd1 _ _
  · exact keep_set_dtp k h _ hn1 hd1

theorem flow_get_from_some : ∀ (l : List flow_entry) (i port j : Nat) (f : flow_entry),
    flow_get_from l i port = some (j, f) → i ≤ j ∧ l[j - i]? = some f ∧ f.local_port = port := by
  intro l
  induction l with
  | nil => intro i port j f h; simp [flow_get_from] at h
  | cons g gs ih =>
    intro i port j f h
    simp only [flow_get_from] at h
    split at h
    · simp only [Option.some.injEq, Prod.mk.injEq] at h
      obtain ⟨rfl, rfl⟩ := h
      simp_all
    · obtain ⟨h1, h2, h3⟩ := ih _ _ _ _ h
      refine ⟨by omega, ?_, h3⟩
      have : j - i = (j - (i + 1)) + 1 := by omega
      rw [this]
      simpa using h2

theorem flow_get_some {w : World} {port fi : Nat} {f : flow_entry}
    (h : flow_get w port = some (fi, f)) : w.flows[fi]? = some f ∧ f.local_port = port := by
  have := flow_get_from_some _ _ _ _ _ h
  simpa using this.2

theorem cwq_pop_next : ∀ (l : List rina_buf) (d : dtp),
    (cwq_pop l d).1.next_seq_num_to_send = d.next_seq_num_to_send ∧
    (cwq_pop l d).1.set_drf = d.set_drf := by
  intro l
  induction l with
  | nil => intro d; simp [cwq_pop]
  | cons qrb rest ih =>
    intro d
    simp only [cwq_pop]
    split
    · simp
    · simpa using ih _

theorem sdu_rx_ctrl_locked_next (pcic : rina_pci_ctrl) (d : dtp) :
    (sdu_rx_ctrl_locked pcic d).1.next_seq_num_to_send = d.next_seq_num_to_send ∧
    (sdu_rx_ctrl_locked pcic d).1.set_drf = d.set_drf := by
  simp only [sdu_rx_ctrl_locked]
  split
  · simp
  · split <;> split <;> (try split) <;>
      simp [cwq_pop_next]

theorem keep_sdu_rx_ctrl {rx : World → rina_buf → Res}
    (hrx : ∀ w rb r w1, rx w rb = Except.ok (r, w1) → Keep w w1)
    {w : World} {fi : Nat} {flow : flow_entry} (hf : w.flows[fi]? = some flow)
    {rb : rina_buf} {r : Int} {w1 : World}
    (h : sdu_rx_ctrl rx w fi flow rb = Except.ok (r, w1)) : Keep w w1 := by
  simp only [sdu_rx_ctrl] at h
  split at h
  · simp only [Except.ok.injEq, Prod.mk.injEq] at h
    rw [← h.2]; exact keep_emit _ _
  · have hl := sdu_rx_ctrl_locked_next rb.pci flow.dtp
    have k1 := keep_set_dtp (Keep.rfl_ w) hf (sdu_rx_ctrl_locked rb.pci flow.dtp).1 hl.1 hl.2
    split at h
    · exact absurd h (by simp)
    · rename_i w2 heq
      simp only [Except.ok.injEq, Prod.mk.injEq] at h
      rw [← h.2]
      have k2 := keep_rmt_tx_list hrx _ _ _ heq
      refine Keep.trans_ (Keep.trans_ (Keep.trans_ (Keep.trans_ k1 ?_) (keep_emit _ _)) k2)
        (keep_emit _ _)
      exact ⟨rfl, rfl, rfl, List.prefix_append _ _⟩

theorem keep_rx_flow_list (fi : Nat) : ∀ (l : List rina_buf) (acc : Int × World) (w0 : World),
    Keep w0 acc.2 → Keep w0 (rx_flow_list fi l acc).2 := by
  intro l
  induction l with
  | nil => intro acc w0 k; simpa [rx_flow_list] using k
  | cons qrb rest ih =>
    intro acc w0 k
    obtain ⟨ret, w⟩ := acc
    simp only [rx_flow_list, rina_sdu_rx_flow]
    exact ih _ _ (Keep.trans_ k (keep_emit _ _))

theorem keep_sdu_rx_drf {rx : World → rina_buf → Res}
    (hrx : ∀ w rb r w1, rx w rb = Except.ok (r, w1) → Keep w w1)
    {w : World} {fi : Nat} {flow : flow_entry} (hf : w.flows[fi]? = some flow) (d : dtp)
    (hn : d.next_seq_num_to_send = flow.dtp.next_seq_num_to_send)
    (hd : d.set_drf = flow.dtp.set_drf) {rb : rina_buf} {s : Nat} {r : Int} {w1 : World}
    (h : sdu_rx_drf rx w fi flow d rb s = Except.ok (r, w1)) : Keep w w1 := by
  simp only [sdu_rx_drf] at h
  refine Keep.trans_ ?_ (keep_snd_crb hrx h)
  simp only [rina_sdu_rx_flow]
  refine Keep.trans_ ?_ (keep_emit _ _)
  exact keep_sdu_rx_sv_update (Keep.rfl_ _) hf _ hn hd

theorem keep_sdu_rx_dup {rx : World → rina_buf → Res}
    (hrx : ∀ w rb r w1, rx w rb = Except.ok (r, w1) → Keep w w1)
    {w : World} {fi : Nat} {flow : flow_entry} (hf : w.flows[fi]? = some flow) (d : dtp)
    (hn : d.next_seq_num_to_send = flow.dtp.next_seq_num_to_send)
    (hd : d.set_drf = flow.dtp.set_drf) {rb : rina_buf} {r : Int} {w1 : World}
    (h : sdu_rx_dup rx w fi flow d rb = Except.ok (r, w1)) : Keep w w1 := by
  simp only [sdu_rx_dup] at h
  have k1 : Keep w ((w.set_dtp fi d).emit (event.buf_free rb)) :=
    Keep.trans_ (keep_set_dtp (Keep.rfl_ _) hf _ hn hd) (keep_emit _ _)
  split at h
  · have k2 := keep_ctrl_pdu_alloc k1 hf { flow with dtp := d } hn hd
      (PDU_T_CTRL_MASK ||| PDU_T_ACK_BIT ||| PDU_T_ACK ||| PDU_T_FC_BIT) d.rcv_lwe
    split at h
    · simp only [Except.ok.injEq, Prod.mk.injEq] at h
      rw [← h.2]
      exact k2
    · refine Keep.trans_ ?_ (keep_snd_crb hrx h)
      exact Keep.trans_ k2 (keep_upd_flow _ _ _ (fun f _ => rfl))
  · simp only [Except.ok.injEq, Prod.mk.injEq] at h
    rw [← h.2]
    exact k1

theorem rcv_max_update_fields (d : dtp) (s : Nat) :
    (rcv_max_update d s).next_seq_num_to_send = d.next_seq_num_to_send ∧
    (rcv_max_update d s).set_drf = d.set_drf ∧
    (rcv_max_update d s).rcv_lwe = d.rcv_lwe ∧
    (rcv_max_update d s).seqq = d.seqq ∧
    (rcv_max_update d s).last_snd_data_ack = d.last_snd_data_ack := by
  unfold rcv_max_update; split <;> exact ⟨rfl, rfl, rfl, rfl, rfl⟩

theorem keep_sdu_rx_seq {rx : World → rina_buf → Res}
    (hrx : ∀ w rb r w1, rx w rb = Except.ok (r, w1) → Keep w w1)
    {w : World} {fi : Nat} {flow : flow_entry} (hf : w.flows[fi]? = some flow) (d : dtp)
    (hn : d.next_seq_num_to_send = flow.dtp.next_seq_num_to_send)
    (hd : d.set_drf = flow.dtp.set_drf) {rb : rina_buf} {s : Nat} {r : Int} {w1 : World}
    (h : sdu_rx_seq rx w fi flow d rb s = Except.ok (r, w1)) : Keep w w1 := by
  have hmn := (rcv_max_update_fields d s).1.trans hn
  have hmd := (rcv_max_update_fields d s).2.1.trans hd
  simp only [sdu_rx_seq] at h
  generalize rcv_max_update d s = d1 at h hmn hmd
  split at h
  · refine Keep.trans_ ?_ (keep_snd_crb hrx h)
    apply keep_rx_flow_list
    simp only [rina_sdu_rx_flow]
    refine Keep.trans_ ?_ (keep_emit _ _)
    exact keep_sdu_rx_sv_update (Keep.rfl_ _) hf _ hmn hmd
  · split at h
    · refine Keep.trans_ ?_ (keep_snd_crb hrx h)
      exact keep_sdu_rx_sv_update (keep_emit _ _) hf _ hmn hmd
    · refine Keep.trans_ ?_ (keep_snd_crb hrx h)
      refine keep_sdu_rx_sv_update ?_ hf _ hmn hmd
      split
      · exact Keep.rfl_ _
      · exact keep_emit _ _

theorem rcv_inact_rearm_next (cfg : flow_config) (d : dtp) :
    (rcv_inact_rearm cfg d).next_seq_num_to_send = d.next_seq_num_to_send ∧
    (rcv_inact_rearm cfg d).set_drf = d.set_drf := by
  unfold rcv_inact_rearm; split <;> exact ⟨rfl, rfl⟩

theorem keep_rina_normal_sdu_rx_body {rx : World → rina_buf → Res}
    (hrx : ∀ w rb r w1, rx w rb = Except.ok (r, w1) → Keep w w1)
    {w : World} {rb : rina_buf} {r : Int} {w1 : World}
    (h : rina_normal_sdu_rx_body rx w rb = Except.ok (r, w1)) : Keep w w1 := by
  simp only [rina_normal_sdu_rx_body] at h
  have k0 := keep_emit w (event.sdu_rx rb)
  refine Keep.trans_ k0 ?_
  generalize w.emit (event.sdu_rx rb) = wa at h
  split at h
  · exact keep_rmt_tx hrx h
  · split at h
    · simp only [Except.ok.injEq, Prod.mk.injEq] at h
      rw [← h.2]; exact keep_emit _ _
    · rename_i fi flow hget
      have hf := (flow_get_some hget).1
      have hr := rcv_inact_rearm_next flow.cfg flow.dtp
      split at h
      · exact keep_sdu_rx_ctrl hrx hf h
      · split at h
        · exact keep_sdu_rx_drf hrx hf _ hr.1 hr.2 h
        · split at h
          · exact keep_sdu_rx_dup hrx hf _ hr.1 hr.2 h
          · exact keep_sdu_rx_seq hrx hf _ hr.1 hr.2 h

theorem keep_rina_normal_sdu_rx : ∀ (fuel : Nat) (w : World) (rb : rina_buf) (r : Int)
    (w1 : World), rina_normal_sdu_rx fuel w rb = Except.ok (r, w1) → Keep w w1 := by
  intro fuel
  induction fuel with
  | zero => intro w rb r w1 h; simp [rina_normal_sdu_rx] at h
  | succ n ih =>
    intro w rb r w1 h
    simp only [rina_normal_sdu_rx] at h
    exact keep_rina_normal_sdu_rx_body ih h

theorem u64_succ_ne (n : Nat) : u64 (n + 1) ≠ n := by
  unfold u64; omega

theorem set_dtp_get {w : World} {fi : Nat} {flow : flow_entry} (hf : w.flows[fi]? = some flow)
    (d : dtp) : (w.set_dtp fi d).flows[fi]? = some { flow with dtp := d } := by
  simp [World.set_dtp, World.upd_flow, hf]

theorem alloc_flows (w : World) : w.alloc.2.flows = w.flows := by
  unfold World.alloc; split <;> rfl

theorem emit_flows (w : World) (e : event) : (w.emit e).flows = w.flows := rfl

/-- After a call of `rina_normal_sdu_write` that passes the window check and returns, the
flow has consumed one seqnum and `set_drf` is cleared. -/
theorem sdu_write_open_next (fuel : Nat) (w : World) (fi : Nat) (flow : flow_entry)
    (rb : rina_buf) (maysleep : Bool) (hf : w.flows[fi]? = some flow)
    (hw : ¬ window_overrun flow) (r : Int) (w1 : World)
    (h : sdu_write fuel w fi rb maysleep = Except.ok (r, w1)) :
    ∃ f1, w1.flows[fi]? = some f1 ∧
      f1.dtp.next_seq_num_to_send = u64 (flow.dtp.next_seq_num_to_send + 1) ∧
      f1.dtp.set_drf = false := by
  have key : ∀ (wa : World) (d : dtp) (w2 : World), wa.flows = w.flows →
      Keep (wa.set_dtp fi d) w2 →
      d.next_seq_num_to_send = u64 (flow.dtp.next_seq_num_to_send + 1) → d.set_drf = false →
      ∃ f1, w2.flows[fi]? = some f1 ∧
        f1.dtp.next_seq_num_to_send = u64 (flow.dtp.next_seq_num_to_send + 1) ∧
        f1.dtp.set_drf = false := by
    intro wa d w2 hwa k hn hd
    have hfa : wa.flows[fi]? = some flow := by rw [hwa]; exact hf
    have h1 := set_dtp_get hfa d
    have h2 := congrArg (fun l => l[fi]?) k.flows
    simp only [List.getElem?_map, h1, Option.map_some'] at h2
    cases hg : w2.flows[fi]? with
    | none => simp [hg] at h2
    | some f1 =>
      simp only [hg, Option.map_some', Option.some.injEq, skey, Prod.mk.injEq] at h2
      exact ⟨f1, rfl, by rw [h2.2.2.2.2.1]; exact hn, by rw [h2.2.2.2.2.2]; exact hd⟩
  have hrx := keep_rina_normal_sdu_rx fuel
  simp only [sdu_write, rina_normal_sdu_write, hf, hw, if_false] at h
  split at h
  · exact key w _ _ rfl (keep_rmt_tx hrx h) rfl rfl
  · have hq : (sdu_write_window flow (sdu_write_stamp w flow rb)).1.next_seq_num_to_send
          = u64 (flow.dtp.next_seq_num_to_send + 1) ∧
        (sdu_write_window flow (sdu_write_stamp w flow rb)).1.set_drf = false := by
      simp only [sdu_write_window]
      split
      · split <;> exact ⟨rfl, rfl⟩
      · exact ⟨rfl, rfl⟩
    split at h
    · split at h
      · exact absurd h (by simp)
      · split at h
        · simp only [Except.ok.injEq, Prod.mk.injEq] at h
          rw [← h.2]
          exact key w.alloc.2 _ _ (alloc_flows w) (keep_emit _ _) hq.1 hq.2
        · exact key w.alloc.2 _ _ (alloc_flows w) (keep_rmt_tx hrx h) hq.1 hq.2
    · split at h
      · simp only [Except.ok.injEq, Prod.mk.injEq] at h
        rw [← h.2]
        exact key w _ _ rfl (Keep.rfl_ _) hq.1 hq.2
      · exact key w _ _ rfl (keep_rmt_tx hrx h) hq.1 hq.2

/-- C1: `rina_normal_sdu_write` fails its window check with BackPressure (`-EAGAIN`, no
seqnum consumed) exactly when the flow uses window flow control,
`next_seq_num_to_send > snd_rwe` and `cwq_len >= max_cwq_len`.  In that case the returned
state is the given one in which the DTP state of the flow has, at most, its sender
inactivity timer cancelled: `next_seq_num_to_send`, `set_drf`, `snd_lwe`, `snd_rwe`,
`last_seq_num_sent`, `cwq`, `cwq_len` and `rtxq` are as before, and so is the trace (no PCI
is stamped, nothing is forwarded or freed). -/
theorem sdu_write_window_check (fuel : Nat) (w : World) (fi : Nat) (flow : flow_entry)
    (rb : rina_buf) (maysleep : Bool) (hf : w.flows[fi]? = some flow) :
    ((flow.cfg.dtcp.fc.fc_type = fc_type.RINA_FC_T_WIN ∧
        flow.dtp.next_seq_num_to_send > flow.dtp.snd_rwe ∧
        flow.dtp.cwq_len ≥ flow.dtp.max_cwq_len) ↔
      ∃ w1 f1, sdu_write fuel w fi rb maysleep = Except.ok (-EAGAIN, w1) ∧
        w1.flows[fi]? = some f1 ∧
        f1.dtp.next_seq_num_to_send = flow.dtp.next_seq_num_to_send) ∧
    ((flow.cfg.dtcp.fc.fc_type = fc_type.RINA_FC_T_WIN ∧
        flow.dtp.next_seq_num_to_send > flow.dtp.snd_rwe ∧
        flow.dtp.cwq_len ≥ flow.dtp.max_cwq_len) →
      ∃ d : dtp, { d with snd_inact_tmr := flow.dtp.snd_inact_tmr } = flow.dtp ∧
        sdu_write fuel w fi rb maysleep = Except.ok (-EAGAIN,
          { w with flows := w.flows.modify (fun f => { f with dtp := d }) fi })) := by
  have hclosed : window_overrun flow →
      sdu_write fuel w fi rb maysleep =
        Except.ok (-EAGAIN, w.set_dtp fi (snd_inact_cancel flow.cfg flow.dtp)) := by
    intro hw
    simp only [sdu_write, rina_normal_sdu_write, hf, hw, if_true]
  refine ⟨⟨?_, ?_⟩, ?_⟩
  · intro hw
    exact ⟨_, _, hclosed hw, set_dtp_get hf _, by unfold snd_inact_cancel; split <;> rfl⟩
  · rintro ⟨w1, f1, h, h1, h2⟩
    by_contra hw
    obtain ⟨f2, h3, h4, _⟩ := sdu_write_open_next fuel w fi flow rb maysleep hf hw _ _ h
    rw [h1] at h3
    cases h3
    rw [h4] at h2
    exact u64_succ_ne _ h2
  · intro hw
    exact ⟨snd_inact_cancel flow.cfg flow.dtp, by unfold snd_inact_cancel; split <;> rfl,
      hclosed hw⟩

/-- Witness of C1 on a flow whose window is closed and whose cwq is full. -/
theorem sdu_write_window_check_witness :
    world_closed.flows[0]? = some flow_closed ∧
    ∃ w1, sdu_write 0 world_closed 0 (sdu [4]) false = Except.ok (-EAGAIN, w1) :=
  ⟨rfl,
    let ⟨_, _, h⟩ := (sdu_write_window_check 0 world_closed 0 flow_closed (sdu [4]) false
      rfl).2 (by decide)
    ⟨_, h⟩⟩

/-- C2: a call of `rina_normal_sdu_write` that returns BackPressure (`-EAGAIN`) although the
buffer has been consumed.  The flow has no DTCP, the PDUFT routes its remote address
through a lower flow whose IPCP answers `-EAGAIN`, and the caller may not sleep: the PDU
is stamped with seqnum 0, `rmt_tx` appends it to the lower flow's rmtq, and `-EAGAIN` is
returned all the same. -/
theorem sdu_write_eagain_consumed :
    ∃ w1, sdu_write 0 world_route 0 (sdu hello) false = Except.ok (-EAGAIN, w1) ∧
      w1.flows.map (fun f => f.rmtq) =
        [[], [sdu_write_stamp world_route (mk_flow 1 2 43 (cfg_plain U64_MAX)) (sdu hello)]] ∧
      w1.flows.map (fun f => f.rmtq_len) = [0, 1] ∧
      w1.flows.map (fun f => f.dtp.next_seq_num_to_send) = [1, 0] :=
  ⟨_, rfl, rfl, rfl, rfl⟩

theorem pduft_lookup_emit (w : World) (e : event) (a : Nat) :
    pduft_lookup (w.emit e) a = pduft_lookup w a := rfl

/-- C3: when the PDUFT lookup finds the lower flow `lf`, the caller may not sleep and the
lower IPCP answers `-EAGAIN`, `rmt_tx` appends the buffer at the tail of the rmtq of `lf`
and increments `rmtq_len` by one, but it returns `-EAGAIN`, not 0. -/
theorem rmt_tx_backpressure_enqueue (rx : World → rina_buf → Res) (w : World) (a : Nat)
    (rb : rina_buf) (lf : Nat) (rest : List Int) (hl : pduft_lookup w a = some lf)
    (hs : w.lower_ret = -EAGAIN :: rest) :
    rmt_tx rx w a rb false = Except.ok (-EAGAIN,
      ((({ w with lower_ret := rest } : World).emit (event.rmt_tx a rb false)).emit
        (event.lower_sdu_write lf rb false (-EAGAIN))).upd_flow lf
          (fun f => { f with rmtq := f.rmtq ++ [rb], rmtq_len := f.rmtq_len + 1 })) ∧
    (-EAGAIN : Int) ≠ 0 := by
  refine ⟨?_, by decide⟩
  simp only [rmt_tx, pduft_lookup_emit, hl]
  have : (w.emit (event.rmt_tx a rb false)).lower_ret = -EAGAIN :: rest := hs
  rw [this]
  simp [rmt_tx_push, World.emit, World.upd_flow]

/-- Witness of C3 on the IPCP `world_route`. -/
theorem rmt_tx_backpressure_enqueue_witness :
    pduft_lookup world_route 43 = some 1 ∧ world_route.lower_ret = -EAGAIN :: [] ∧
    ∃ w1, rmt_tx (rina_normal_sdu_rx 0) world_route 43 (sdu hello) false
        = Except.ok (-EAGAIN, w1) :=
  ⟨rfl, rfl, _, (rmt_tx_backpressure_enqueue (rina_normal_sdu_rx 0) world_route 43 (sdu hello)
    1 [] rfl rfl).1⟩

theorem sdu_write_next_snd_rwe (flow : flow_entry) :
    (sdu_write_next flow).snd_rwe = flow.dtp.snd_rwe := by
  simp only [sdu_write_next, snd_inact_cancel]; split <;> rfl

/-- The sender window step when the PDU is not in the window: it goes to the cwq. -/
theorem sdu_write_window_cwq (w : World) (flow : flow_entry) (rb : rina_buf)
    (hfc : flow.cfg.dtcp.fc.fc_type = fc_type.RINA_FC_T_WIN)
    (hgt : flow.dtp.next_seq_num_to_send > flow.dtp.snd_rwe) :
    sdu_write_window flow (sdu_write_stamp w flow rb) =
      ({ sdu_write_next flow with
          cwq := (sdu_write_next flow).cwq ++ [sdu_write_stamp w flow rb]
          cwq_len := (sdu_write_next flow).cwq_len + 1 }, none) := by
  have h : (sdu_write_stamp w flow rb).pci.base.seqnum > (sdu_write_next flow).snd_rwe := by
    rw [sdu_write_next_snd_rwe]; exact hgt
  simp only [sdu_write_window, hfc, h, if_true]

/-- The sender window step when the PDU is in the window. -/
theorem sdu_write_window_send (w : World) (flow : flow_entry) (rb : rina_buf)
    (hfc : flow.cfg.dtcp.fc.fc_type = fc_type.RINA_FC_T_WIN)
    (hgt : ¬ flow.dtp.next_seq_num_to_send > flow.dtp.snd_rwe) :
    sdu_write_window flow (sdu_write_stamp w flow rb) =
      ({ sdu_write_next flow with
          snd_lwe := (sdu_write_next flow).next_seq_num_to_send
          last_seq_num_sent := flow.dtp.next_seq_num_to_send },
        some (sdu_write_stamp w flow rb)) := by
  have h : ¬ (sdu_write_stamp w flow rb).pci.base.seqnum > (sdu_write_next flow).snd_rwe := by
    rw [sdu_write_next_snd_rwe]; exact hgt
  simp only [sdu_write_window, hfc, h, if_true, if_false]
  rfl

/-- The sender window step without window flow control. -/
theorem sdu_write_window_nofc (w : World) (flow : flow_entry) (rb : rina_buf)
    (hfc : ¬ flow.cfg.dtcp.fc.fc_type = fc_type.RINA_FC_T_WIN) :
    sdu_write_window flow (sdu_write_stamp w flow rb) =
      (sdu_write_next flow, some (sdu_write_stamp w flow rb)) := by
  simp only [sdu_write_window, hfc, if_false]

/-- C4: a call of `rina_normal_sdu_write` that passes the window check stamps on the buffer
the PCI with `dst_addr = flow.remote_addr`, `src_addr = ipcp.addr`,
`dst_cep = flow.remote_port`, `src_cep = flow.local_port`, `pdu_type = DT`, `pdu_flags` 1 if
`set_drf` was true and 0 otherwise, and `seqnum` the value of `next_seq_num_to_send` before
the call.  The stamped buffer is what is handed to `rmt_tx` toward `flow.remote_addr`, or
appended to the cwq, or freed when the clone for the rtxq cannot be allocated (with
retransmission control a PDU bound for the cwq makes the code clone a null buffer).
Whenever the call returns, `next_seq_num_to_send` is the old value plus one (modulo `2^64`)
and `set_drf` is false. -/
theorem sdu_write_stamps_pci (fuel : Nat) (w : World) (fi : Nat) (flow : flow_entry)
    (rb : rina_buf) (maysleep : Bool) (hf : w.flows[fi]? = some flow)
    (hw : ¬ (flow.cfg.dtcp.fc.fc_type = fc_type.RINA_FC_T_WIN ∧
        flow.dtp.next_seq_num_to_send > flow.dtp.snd_rwe ∧
        flow.dtp.cwq_len ≥ flow.dtp.max_cwq_len)) :
    ∃ srb : rina_buf,
      srb.pci.base =
        { dst_addr := flow.remote_addr, src_addr := w.addr, qos_id := 0,
          dst_cep := flow.remote_port, src_cep := flow.local_port, pdu_type := PDU_T_DT,
          pdu_flags := if flow.dtp.set_drf then 1 else 0,
          seqnum := flow.dtp.next_seq_num_to_send } ∧
      srb.data = rb.data ∧
      ((∃ w0 : World, sdu_write fuel w fi rb maysleep =
          rmt_tx (rina_normal_sdu_rx fuel) w0 flow.remote_addr srb maysleep) ∨
        (∃ (w0 : World) (f0 : flow_entry), sdu_write fuel w fi rb maysleep = Except.ok (0, w0) ∧
          w0.flows[fi]? = some f0 ∧ f0.dtp.cwq = flow.dtp.cwq ++ [srb] ∧
          w0.trace = w.trace) ∨
        (∃ w0 : World, sdu_write fuel w fi rb maysleep =
          Except.ok (-ENOMEM, w0.emit (event.buf_free srb))) ∨
        (sdu_write fuel w fi rb maysleep = Except.error fault.oops ∧
          flow.cfg.dtcp.rtx_control = true ∧
          flow.dtp.next_seq_num_to_send > flow.dtp.snd_rwe)) ∧
      ∀ r w1, sdu_write fuel w fi rb maysleep = Except.ok (r, w1) →
        ∃ f1, w1.flows[fi]? = some f1 ∧
          f1.dtp.next_seq_num_to_send = u64 (flow.dtp.next_seq_num_to_send + 1) ∧
          f1.dtp.set_drf = false := by
  have hw1 : ¬ window_overrun flow := hw
  refine ⟨sdu_write_stamp w flow rb, rfl, rfl, ?_,
    fun r w1 h => sdu_write_open_next fuel w fi flow rb maysleep hf hw1 r w1 h⟩
  simp only [sdu_write, rina_normal_sdu_write, hf, hw1, if_false]
  cases hdp : flow.cfg.dtcp_present
  · exact Or.inl ⟨_, rfl⟩
  · simp only [Bool.not_true, Bool.false_eq_true, if_false]
    by_cases hfc : flow.cfg.dtcp.fc.fc_type = fc_type.RINA_FC_T_WIN
    · by_cases hgt : flow.dtp.next_seq_num_to_send > flow.dtp.snd_rwe
      · rw [sdu_write_window_cwq w flow rb hfc hgt]
        cases hrtx : flow.cfg.dtcp.rtx_control
        · refine Or.inr (Or.inl ⟨_, _, rfl, set_dtp_get hf _, ?_, rfl⟩)
          simp only [sdu_write_next, snd_inact_cancel]
          split <;> rfl
        · exact Or.inr (Or.inr (Or.inr ⟨rfl, rfl, hgt⟩))
      · rw [sdu_write_window_send w flow rb hfc hgt]
        cases hrtx : flow.cfg.dtcp.rtx_control
        · exact Or.inl ⟨_, rfl⟩
        · simp only [if_true]
          split
          · exact Or.inr (Or.inr (Or.inl ⟨_, rfl⟩))
          · exact Or.inl ⟨_, rfl⟩
    · rw [sdu_write_window_nofc w flow rb hfc]
      cases hrtx : flow.cfg.dtcp.rtx_control
      · exact Or.inl ⟨_, rfl⟩
      · simp only [if_true]
        split
        · exact Or.inr (Or.inr (Or.inl ⟨_, rfl⟩))
        · exact Or.inl ⟨_, rfl⟩

/-- Witness of C4: the first write on a fresh flow without DTCP. -/
theorem sdu_write_stamps_pci_witness :
    world_route.flows[0]? = some (mk_flow 1 2 43 (cfg_plain U64_MAX)) ∧
    ¬ ((mk_flow 1 2 43 (cfg_plain U64_MAX)).cfg.dtcp.fc.fc_type = fc_type.RINA_FC_T_WIN ∧
        (mk_flow 1 2 43 (cfg_plain U64_MAX)).dtp.next_seq_num_to_send >
          (mk_flow 1 2 43 (cfg_plain U64_MAX)).dtp.snd_rwe ∧
        (mk_flow 1 2 43 (cfg_plain U64_MAX)).dtp.cwq_len ≥
          (mk_flow 1 2 43 (cfg_plain U64_MAX)).dtp.max_cwq_len) ∧
    ∃ srb : rina_buf, srb.pci.base.seqnum = 0 ∧ srb.pci.base.pdu_flags = 1 ∧
      srb.data = hello :=
  ⟨rfl, by decide,
    let ⟨srb, h1, h2, _⟩ := sdu_write_stamps_pci 0 world_route 0
      (mk_flow 1 2 43 (cfg_plain U64_MAX)) (sdu hello) false rfl (by decide)
    ⟨srb, by rw [h1]; rfl, by rw [h1]; rfl, h2⟩⟩

theorem flow_get_from_modify (g0 : flow_entry → flow_entry)
    (hg : ∀ f, (g0 f).local_port = f.local_port) :
    ∀ (l : List flow_entry) (n i port : Nat),
      flow_get_from (l.modify g0 n) i port =
        (flow_get_from l i port).map (fun p => (p.1, if p.1 = i + n then g0 p.2 else p.2)) := by
  intro l
  induction l with
  | nil => intro n i port; cases n <;> simp [flow_get_from, List.modify]
  | cons f fs ih =>
    intro n i port
    cases n with
    | zero =>
      simp only [List.modify_zero_cons, flow_get_from, hg, Nat.add_zero]
      split
      · simp
      · have := ih 0 (i + 1) port
        have h0 : ∀ l : List flow_entry, l.modify g0 0 = l.modifyHead g0 := by
          intro l; cases l <;> rfl
        clear this
        have hgt : ∀ (l : List flow_entry) (j : Nat) (p : Nat × flow_entry),
            flow_get_from l j port = some p → j ≤ p.1 := by
          intro l j p hp
          obtain ⟨a, b⟩ := p
          exact (flow_get_from_some l j port a b hp).1
        cases hfg : flow_get_from fs (i + 1) port with
        | none => rfl
        | some p =>
          have := hgt _ _ _ hfg
          have hne : ¬ p.1 = i := by omega
          simp [hne]
    | succ n =>
      simp only [List.modify_succ_cons, flow_get_from]
      split
      · have : ¬ i = i + (n + 1) := by omega
        simp [this]
      · refine (ih n (i + 1) port).trans ?_
        have : i + 1 + n = i + (n + 1) := by omega
        rw [this]

theorem flow_get_set_dtp (w : World) (fi : Nat) (d : dtp) (port : Nat) :
    flow_get (w.set_dtp fi d) port =
      (flow_get w port).map (fun p => (p.1, if p.1 = fi then { p.2 with dtp := d } else p.2)) := by
  simp only [flow_get, World.set_dtp, World.upd_flow]
  rw [flow_get_from_modify (fun f => { f with dtp := d }) (fun _ => rfl)]
  simp

theorem flow_get_emit (w : World) (e : event) (port : Nat) :
    flow_get (w.emit e) port = flow_get w port := rfl

theorem sub64_self (a : Nat) (h : a < 2 ^ 64) : sub64 a a = 0 := by
  unfold sub64
  rw [Nat.mod_eq_of_lt h]
  have : a + 2 ^ 64 - a = 2 ^ 64 := by omega
  rw [this]; rfl

theorem u64_lt (n : Nat) : u64 n < 2 ^ 64 := Nat.mod_lt _ (by decide)

theorem u64_u64_succ (n : Nat) : u64 (u64 n + 1) = u64 (n + 1) := by
  unfold u64; omega

/-- Without flow control and retransmission control `sdu_rx_sv_update` only stores the DTP
state and builds no control PDU. -/
theorem sdu_rx_sv_update_none (w : World) (fi : Nat) (g : flow_entry) (d : dtp)
    (h1 : g.cfg.dtcp.flow_control = false) (h2 : g.cfg.dtcp.rtx_control = false) :
    sdu_rx_sv_update w fi { g with dtp := d } = (none, w.set_dtp fi d) := by
  have hr : sv_update_rwe { g with dtp := d } = { g with dtp := d } := by
    simp [sv_update_rwe, h1]
  simp [sdu_rx_sv_update, hr, sv_update_pdu_type, h1, h2]

/-- The router loops a buffer back into the IPCP when there is no route for the IPCP's own
address. -/
theorem rmt_tx_loopback (rx : World → rina_buf → Res) (w : World) (a : Nat) (rb : rina_buf)
    (ms : Bool) (hl : pduft_lookup w a = none) (ha : a = w.addr) :
    rmt_tx rx w a rb ms = rx (w.emit (event.rmt_tx a rb ms)) rb := by
  have : ¬ a ≠ (w.emit (event.rmt_tx a rb ms)).addr := by simp [ha, World.emit]
  simp only [rmt_tx, pduft_lookup_emit, hl, this, if_false]

/-- The transmit path of a flow without DTCP. -/
theorem sdu_write_plain (rx : World → rina_buf → Res) (w : World) (fi : Nat)
    (f : flow_entry) (rb : rina_buf) (ms : Bool) (hf : w.flows[fi]? = some f)
    (hc : dtcp_absent f.cfg) :
    ∃ d1 : dtp, rina_normal_sdu_write rx w fi rb ms =
        rmt_tx rx (w.set_dtp fi d1) f.remote_addr (sdu_write_stamp w f rb) ms ∧
      d1.next_seq_num_to_send = u64 (f.dtp.next_seq_num_to_send + 1) ∧ d1.set_drf = false ∧
      d1.seqq = f.dtp.seqq ∧ d1.rcv_lwe = f.dtp.rcv_lwe := by
  obtain ⟨h1, _, _, h4⟩ := hc
  have hw : ¬ window_overrun f := by simp [window_overrun, h4]
  refine ⟨{ sdu_write_next f with snd_lwe := (sdu_write_next f).next_seq_num_to_send, last_seq_num_sent := (sdu_write_stamp w f rb).pci.base.seqnum }, ?_, rfl, rfl, ?_, ?_⟩
  · simp only [rina_normal_sdu_write, hf, hw, if_false, h1, Bool.not_false, if_true]
  · simp [sdu_write_next, snd_inact_cancel, h1]
  · simp [sdu_write_next, snd_inact_cancel, h1]

/-- The dispatch of `rina_normal_sdu_rx` for a data PDU addressed to this IPCP on an
existing flow. -/
theorem sdu_rx_body_data (rx : World → rina_buf → Res) (w : World) (rb : rina_buf) (ri : Nat)
    (g : flow_entry) (ha : rb.pci.base.dst_addr = w.addr)
    (hg : flow_get w rb.pci.base.dst_cep = some (ri, g))
    (ht : rb.pci.base.pdu_type = PDU_T_DT) :
    rina_normal_sdu_rx_body rx w rb =
      if rb.pci.base.pdu_flags % 2 = 1 then
        sdu_rx_drf rx (w.emit (event.sdu_rx rb)) ri g (rcv_inact_rearm g.cfg g.dtp)
          (rina_buf_pci_pop rb) rb.pci.base.seqnum
      else if rb.pci.base.seqnum < (rcv_inact_rearm g.cfg g.dtp).rcv_lwe then
        sdu_rx_dup rx (w.emit (event.sdu_rx rb)) ri g (rcv_inact_rearm g.cfg g.dtp)
          (rina_buf_pci_pop rb)
      else
        sdu_rx_seq rx (w.emit (event.sdu_rx rb)) ri g (rcv_inact_rearm g.cfg g.dtp)
          (rina_buf_pci_pop rb) rb.pci.base.seqnum := by
  have ha1 : ¬ rb.pci.base.dst_addr ≠ (w.emit (event.sdu_rx rb)).addr := by
    simp [ha, World.emit]
  simp only [rina_normal_sdu_rx_body, ha1, if_false, flow_get_emit, hg, ht, ne_eq,
    not_true_eq_false]

/-- The delivery branch of `sdu_rx_seq`: the gap is within `max_sdu_gap`. -/
theorem sdu_rx_seq_deliver (rx : World → rina_buf → Res) (w : World) (fi : Nat)
    (flow : flow_entry) (d : dtp) (rb : rina_buf) (s : Nat)
    (hgap : sub64 s d.rcv_lwe ≤ flow.cfg.max_sdu_gap) :
    sdu_rx_seq rx w fi flow d rb s =
      snd_crb rx
        (rx_flow_list fi (seqq_pop_many flow.cfg.max_sdu_gap d.seqq (u64 (s + 1))).2.2
          (rina_sdu_rx_flow (sdu_rx_sv_update w fi { flow with dtp :=
            { rcv_max_update d s with
              rcv_lwe := (seqq_pop_many flow.cfg.max_sdu_gap d.seqq (u64 (s + 1))).2.1
              seqq := (seqq_pop_many flow.cfg.max_sdu_gap d.seqq (u64 (s + 1))).1 } }).2
            fi rb)).2
        flow.remote_addr
        (sdu_rx_sv_update w fi { flow with dtp :=
            { rcv_max_update d s with
              rcv_lwe := (seqq_pop_many flow.cfg.max_sdu_gap d.seqq (u64 (s + 1))).2.1
              seqq := (seqq_pop_many flow.cfg.max_sdu_gap d.seqq (u64 (s + 1))).1 } }).1
        (rx_flow_list fi (seqq_pop_many flow.cfg.max_sdu_gap d.seqq (u64 (s + 1))).2.2
          (rina_sdu_rx_flow (sdu_rx_sv_update w fi { flow with dtp :=
            { rcv_max_update d s with
              rcv_lwe := (seqq_pop_many flow.cfg.max_sdu_gap d.seqq (u64 (s + 1))).2.1
              seqq := (seqq_pop_many flow.cfg.max_sdu_gap d.seqq (u64 (s + 1))).1 } }).2
            fi rb)).1 := by
  have hf := rcv_max_update_fields d s
  have hng : ¬ sub64 s d.rcv_lwe > flow.cfg.max_sdu_gap := by omega
  simp only [sdu_rx_seq, hf.2.2.1, hf.2.2.2.1, hgap, hng, decide_True, decide_False,
    Bool.and_false, Bool.not_false, Bool.and_self, if_true]

/-- The receive path of a flow without DTCP, for a data PDU with the DRF flag. -/
theorem sdu_rx_plain_drf (n : Nat) (w : World) (rb : rina_buf) (ri : Nat) (g : flow_entry)
    (ha : rb.pci.base.dst_addr = w.addr)
    (hg : flow_get w rb.pci.base.dst_cep = some (ri, g))
    (ht : rb.pci.base.pdu_type = PDU_T_DT) (hfl : rb.pci.base.pdu_flags % 2 = 1)
    (hc : dtcp_absent g.cfg) :
    ∃ d2 : dtp, rina_normal_sdu_rx (n + 1) w rb =
        Except.ok (0, (((w.emit (event.sdu_rx rb)).set_dtp ri d2).emit
          (event.sdu_rx_flow ri (rina_buf_pci_pop rb)))) ∧
      d2.rcv_lwe = u64 (rb.pci.base.seqnum + 1) ∧ d2.seqq = g.dtp.seqq ∧
      d2.next_seq_num_to_send = g.dtp.next_seq_num_to_send ∧ d2.set_drf = g.dtp.set_drf := by
  obtain ⟨h1, h2, h3, h4⟩ := hc
  refine ⟨{ rcv_inact_rearm g.cfg g.dtp with rcv_lwe := u64 (rb.pci.base.seqnum + 1), max_seq_num_rcvd := rb.pci.base.seqnum }, ?_, ?_, ?_, ?_, ?_⟩
  · simp only [rina_normal_sdu_rx, sdu_rx_body_data _ _ _ _ _ ha hg ht, hfl, if_true,
      sdu_rx_drf]
    rw [sdu_rx_sv_update_none _ _ g _ h2 h3]
    simp only [rina_sdu_rx_flow, snd_crb]
  · rfl
  · simp [rcv_inact_rearm, h1]
  · simp [rcv_inact_rearm, h1]
  · simp [rcv_inact_rearm, h1]

/-- The receive path of a flow without DTCP, for the data PDU it expects, the sequencing
queue being empty. -/
theorem sdu_rx_plain_next (n : Nat) (w : World) (rb : rina_buf) (ri : Nat) (g : flow_entry)
    (ha : rb.pci.base.dst_addr = w.addr)
    (hg : flow_get w rb.pci.base.dst_cep = some (ri, g))
    (ht : rb.pci.base.pdu_type = PDU_T_DT) (hfl : ¬ rb.pci.base.pdu_flags % 2 = 1)
    (hc : dtcp_absent g.cfg)
    (hs : rb.pci.base.seqnum = g.dtp.rcv_lwe) (hlt : rb.pci.base.seqnum < 2 ^ 64)
    (hq : g.dtp.seqq = []) :
    ∃ d2 : dtp, rina_normal_sdu_rx (n + 1) w rb =
        Except.ok (0, (((w.emit (event.sdu_rx rb)).set_dtp ri d2).emit
          (event.sdu_rx_flow ri (rina_buf_pci_pop rb)))) ∧
      d2.rcv_lwe = u64 (rb.pci.base.seqnum + 1) ∧ d2.seqq = [] ∧
      d2.next_seq_num_to_send = g.dtp.next_seq_num_to_send ∧ d2.set_drf = g.dtp.set_drf := by
  obtain ⟨h1, h2, h3, h4⟩ := hc
  have hre : rcv_inact_rearm g.cfg g.dtp = g.dtp := by simp [rcv_inact_rearm, h1]
  have hnd : ¬ rb.pci.base.seqnum < g.dtp.rcv_lwe := by omega
  have hgap0 : sub64 rb.pci.base.seqnum g.dtp.rcv_lwe ≤ g.cfg.max_sdu_gap := by
    rw [← hs, sub64_self _ hlt]; exact Nat.zero_le _
  have hf := rcv_max_update_fields g.dtp rb.pci.base.seqnum
  refine ⟨{ rcv_max_update g.dtp rb.pci.base.seqnum with rcv_lwe := u64 (rb.pci.base.seqnum + 1), seqq := [] }, ?_, rfl, rfl, hf.1, hf.2.1⟩
  simp only [rina_normal_sdu_rx, sdu_rx_body_data _ _ _ _ _ ha hg ht, hfl, if_false, hre, hnd]
  rw [sdu_rx_seq_deliver _ _ _ _ _ _ _ hgap0]
  simp only [hq, seqq_pop_many]
  rw [sdu_rx_sv_update_none _ _ g _ h2 h3]
  simp only [rina_sdu_rx_flow, snd_crb, rx_flow_list]

theorem set_dtp_addr (w : World) (fi : Nat) (d : dtp) : (w.set_dtp fi d).addr = w.addr := rfl

theorem pduft_lookup_set_dtp (w : World) (fi : Nat) (d : dtp) (a : Nat) :
    pduft_lookup (w.set_dtp fi d) a = pduft_lookup w a := rfl

theorem set_dtp_get_ne {w : World} {fi ri : Nat} (h : ri ≠ fi) (d : dtp) :
    (w.set_dtp ri d).flows[fi]? = w.flows[fi]? := by
  simp [World.set_dtp, World.upd_flow, h]

/-- One step of the loopback transfer: the SDU is stamped, handed to the router, passed to
`sdu_rx` and delivered upward, and the call returns 0. -/
theorem loop_step (n : Nat) (w : World) (fi ri lp rp k : Nat) (f g : flow_entry)
    (rb : rina_buf) (ms : Bool) (inv : loop_inv w fi ri lp rp k f g) :
    ∃ w1 f1 g1, sdu_write (n + 1) w fi rb ms = Except.ok (0, w1) ∧
      w1.addr = w.addr ∧
      w1.trace = w.trace ++
        [event.rmt_tx w.addr (loop_pdu w.addr lp rp k rb) ms,
         event.sdu_rx (loop_pdu w.addr lp rp k rb),
         event.sdu_rx_flow ri (rina_buf_pci_pop (loop_pdu w.addr lp rp k rb))] ∧
      loop_inv w1 fi ri lp rp (k + 1) f1 g1 := by
  obtain ⟨ft, hf, hg, hlp, hrp, hra, hcf, hcg, hnext, hdrf, hseqq, hlwe⟩ := inv
  obtain ⟨d1, hw, hd1n, hd1d, hd1q, hd1l⟩ :=
    sdu_write_plain (rina_normal_sdu_rx (n + 1)) w fi f rb ms hf hcf
  have hstamp : sdu_write_stamp w f rb = loop_pdu w.addr lp rp k rb := by
    simp only [sdu_write_stamp, loop_pdu, sdu_write_pci, hra, hrp, hlp, hnext, hdrf]
    by_cases hk : k = 0 <;> simp [hk]
  have hgi := (flow_get_some hg).1
  -- the receiving flow once the sender has stored its state
  have hg1 : flow_get ((w.set_dtp fi d1).emit (event.rmt_tx w.addr (loop_pdu w.addr lp rp k rb) ms)) rp
      = some (ri, if ri = fi then { g with dtp := d1 } else g) := by
    rw [flow_get_emit, flow_get_set_dtp, hg]; rfl
  have hfg : ri = fi → g = f := by
    intro h; rw [h, hf] at hgi; exact (Option.some.inj hgi).symm
  have hcg1 : dtcp_absent (if ri = fi then { g with dtp := d1 } else g).cfg := by
    split <;> exact hcg
  have hq1 : (if ri = fi then { g with dtp := d1 } else g).dtp.seqq = [] := by
    split
    · rename_i h; simp only [hd1q, ← hfg h, hseqq]
    · exact hseqq
  have hl1 : k ≠ 0 → (if ri = fi then { g with dtp := d1 } else g).dtp.rcv_lwe = u64 k := by
    intro hk
    split
    · rename_i h; simp only [hd1l, ← hfg h, hlwe hk]
    · exact hlwe hk
  have hn1 : (if ri = fi then { g with dtp := d1 } else g).dtp.next_seq_num_to_send
      = if ri = fi then u64 (k + 1) else g.dtp.next_seq_num_to_send := by
    split
    · simp only [hd1n, hnext, u64_u64_succ]
    · rfl
  have hdr1 : (if ri = fi then { g with dtp := d1 } else g).dtp.set_drf
      = if ri = fi then false else g.dtp.set_drf := by
    split
    · exact hd1d
    · rfl
  generalize (if ri = fi then { g with dtp := d1 } else g) = g' at hg1 hcg1 hq1 hl1 hn1 hdr1
  have hpa : (loop_pdu w.addr lp rp k rb).pci.base.dst_addr
      = ((w.set_dtp fi d1).emit (event.rmt_tx w.addr (loop_pdu w.addr lp rp k rb) ms)).addr := rfl
  have hpt : (loop_pdu w.addr lp rp k rb).pci.base.pdu_type = PDU_T_DT := rfl
  have hps : (loop_pdu w.addr lp rp k rb).pci.base.seqnum = u64 k := rfl
  have hrx : ∃ d2 : dtp, rina_normal_sdu_rx (n + 1)
        ((w.set_dtp fi d1).emit (event.rmt_tx w.addr (loop_pdu w.addr lp rp k rb) ms))
        (loop_pdu w.addr lp rp k rb) =
        Except.ok (0, (((((w.set_dtp fi d1).emit
          (event.rmt_tx w.addr (loop_pdu w.addr lp rp k rb) ms)).emit
          (event.sdu_rx (loop_pdu w.addr lp rp k rb))).set_dtp ri d2).emit
          (event.sdu_rx_flow ri (rina_buf_pci_pop (loop_pdu w.addr lp rp k rb))))) ∧
      d2.rcv_lwe = u64 (k + 1) ∧ d2.seqq = [] ∧
      d2.next_seq_num_to_send = g'.dtp.next_seq_num_to_send ∧ d2.set_drf = g'.dtp.set_drf := by
    by_cases hk : k = 0
    · have hfl : (loop_pdu w.addr lp rp k rb).pci.base.pdu_flags % 2 = 1 := by
        simp [loop_pdu, rina_buf.set_pci, hk]
      obtain ⟨d2, e1, e2, e3, e4, e5⟩ := sdu_rx_plain_drf n _ _ ri g' hpa hg1 hpt hfl hcg1
      exact ⟨d2, e1, by rw [e2, hps, u64_u64_succ], by rw [e3, hq1], e4, e5⟩
    · have hfl : ¬ (loop_pdu w.addr lp rp k rb).pci.base.pdu_flags % 2 = 1 := by
        simp [loop_pdu, rina_buf.set_pci, hk]
      obtain ⟨d2, e1, e2, e3, e4, e5⟩ := sdu_rx_plain_next n _ _ ri g' hpa hg1 hpt hfl hcg1
        (by rw [hps, hl1 hk]) (by rw [hps]; exact u64_lt k) hq1
      exact ⟨d2, e1, by rw [e2, hps, u64_u64_succ], e3, e4, e5⟩
  obtain ⟨d2, e1, e2, e3, e4, e5⟩ := hrx
  have hfinal : sdu_write (n + 1) w fi rb ms = Except.ok (0, (((((w.set_dtp fi d1).emit
          (event.rmt_tx w.addr (loop_pdu w.addr lp rp k rb) ms)).emit
          (event.sdu_rx (loop_pdu w.addr lp rp k rb))).set_dtp ri d2).emit
          (event.sdu_rx_flow ri (rina_buf_pci_pop (loop_pdu w.addr lp rp k rb))))) := by
    rw [sdu_write, hw, hstamp, hra, rmt_tx_loopback _ (w.set_dtp fi d1) w.addr _ _ ft rfl]
    exact e1
  have hf1 : (w.set_dtp fi d1).flows[fi]? = some { f with dtp := d1 } := set_dtp_get hf d1
  refine ⟨_, if ri = fi then { f with dtp := d2 } else { f with dtp := d1 },
    { g' with dtp := d2 }, hfinal, rfl, ?_, ?_⟩
  · simp [World.emit, World.set_dtp, World.upd_flow]
  · refine ⟨ft, ?_, ?_, ?_, ?_, ?_, ?_, hcg1, ?_, ?_, e3, fun _ => e2⟩
    · by_cases h : ri = fi
      · subst h
        simp [World.set_dtp, World.upd_flow, World.emit, hf]
      · simp [World.set_dtp, World.upd_flow, World.emit, hf, h]
    · rw [flow_get_emit, flow_get_set_dtp, flow_get_emit, hg1]
      simp
    · split <;> exact hlp
    · split <;> exact hrp
    · split <;> exact hra
    · split <;> exact hcf
    · split
      · rename_i h
        simp only [e4, hn1, h, if_true]
      · simp only [hd1n, hnext, u64_u64_succ]
    · split
      · rename_i h
        simp only [e5, hdr1, h, if_true]
        simp
      · simp [hd1d]

theorem loop_run (n : Nat) (fi ri lp rp : Nat) (ms : Bool) :
    ∀ (rbs : List rina_buf) (k : Nat) (w : World) (f g : flow_entry),
      loop_inv w fi ri lp rp k f g →
      ∃ w1, write_all (n + 1) fi ms rbs w = Except.ok (List.replicate rbs.length 0, w1) ∧
        w1.trace = w.trace ++ loop_events w.addr lp rp ri ms k rbs := by
  intro rbs
  induction rbs with
  | nil => intro k w f g _; exact ⟨w, rfl, by simp [loop_events]⟩
  | cons rb rest ih =>
    intro k w f g inv
    obtain ⟨w1, f1, g1, h1, ha, ht, inv1⟩ := loop_step n w fi ri lp rp k f g rb ms inv
    obtain ⟨w2, h2, ht2⟩ := ih (k + 1) w1 f1 g1 inv1
    refine ⟨w2, ?_, ?_⟩
    · simp only [write_all, h1, h2, List.length_cons, List.replicate_succ]
    · rw [ht2, ht, ha]
      simp [loop_events]

theorem rx_calls_loop_events (a lp rp ri : Nat) (ms : Bool) :
    ∀ (rbs : List rina_buf) (k : Nat),
      (rx_calls (loop_events a lp rp ri ms k rbs)).map
          (fun b => (b.pci.base.seqnum, b.pci.base.pdu_flags)) =
        (List.range' k rbs.length).map (fun i => (u64 i, if i = 0 then 1 else 0)) := by
  intro rbs
  induction rbs with
  | nil => intro k; rfl
  | cons rb rest ih =>
    intro k
    have := ih (k + 1)
    simp only [rx_calls] at this
    simp only [loop_events, rx_calls, List.cons_append, List.nil_append, List.filterMap_cons,
      List.map_cons, List.length_cons, List.range'_succ, this]
    rfl

theorem delivered_loop_events (a lp rp ri : Nat) (ms : Bool) :
    ∀ (rbs : List rina_buf) (k : Nat),
      (delivered (loop_events a lp rp ri ms k rbs)).map (fun p => (p.1, p.2.data, p.2.npci)) =
        rbs.map (fun rb => (ri, rb.data, rb.npci)) := by
  intro rbs
  induction rbs with
  | nil => intro k; rfl
  | cons rb rest ih =>
    intro k
    have := ih (k + 1)
    simp only [delivered] at this
    simp only [loop_events, delivered, List.cons_append, List.nil_append, List.filterMap_cons,
      List.map_cons, this]
    simp [loop_pdu, rina_buf_pci_pop, rina_buf_pci_push, rina_buf.set_pci]

/-- C5: loopback data transfer.  On an IPCP with an empty PDUFT, take a freshly initialised
flow without DTCP whose remote address is the IPCP's own, the flow found for its remote
port being freshly initialised and without DTCP too.  Then the consecutive `sdu_write`
calls for the SDUs `rbs` all return 0; each SDU is stamped, handed to the router, passed to
`sdu_rx` and delivered upward, in this order; the PDUs passed to `sdu_rx` carry the seqnums
0, 1, 2, ... (64-bit values) with the DRF flag on the first only; and the buffers delivered
upward are the SDUs, payload and header depth as submitted, in submission order. -/
theorem loopback_data_transfer (n : Nat) (w : World) (fi ri : Nat) (f g : flow_entry)
    (ms : Bool) (rbs : List rina_buf)
    (hft : ∀ a, pduft_lookup w a = none)
    (hf : w.flows[fi]? = some f) (hself : f.remote_addr = w.addr)
    (hfresh : f.dtp = flow_init_dtp f.cfg dtp_zero) (hcf : dtcp_absent f.cfg)
    (hg : flow_get w f.remote_port = some (ri, g))
    (hgfresh : g.dtp = flow_init_dtp g.cfg dtp_zero) (hcg : dtcp_absent g.cfg) :
    ∃ w1 t, write_all (n + 1) fi ms rbs w = Except.ok (List.replicate rbs.length 0, w1) ∧
      w1.trace = w.trace ++ t ∧
      t = loop_events w.addr f.local_port f.remote_port ri ms 0 rbs ∧
      (rx_calls t).map (fun b => (b.pci.base.seqnum, b.pci.base.pdu_flags)) =
        (List.range rbs.length).map (fun i => (i % 2 ^ 64, if i = 0 then 1 else 0)) ∧
      (delivered t).map (fun p => (p.1, p.2.data, p.2.npci)) =
        rbs.map (fun rb => (ri, rb.data, rb.npci)) := by
  have hinit : ∀ cfg : flow_config, dtcp_absent cfg →
      (flow_init_dtp cfg dtp_zero).next_seq_num_to_send = 0 ∧
      (flow_init_dtp cfg dtp_zero).set_drf = true ∧
      (flow_init_dtp cfg dtp_zero).seqq = [] := by
    intro cfg hc
    simp [flow_init_dtp, hc.2.2.2, dtp_zero]
  have inv : loop_inv w fi ri f.local_port f.remote_port 0 f g := by
    refine ⟨hft _, hf, hg, rfl, rfl, hself, hcf, hcg, ?_, ?_, ?_, fun h => absurd rfl h⟩
    · rw [hfresh]; exact (hinit _ hcf).1
    · rw [hfresh]; simpa using (hinit _ hcf).2.1
    · rw [hgfresh]; exact (hinit _ hcg).2.2
  obtain ⟨w1, h1, ht⟩ := loop_run n fi ri f.local_port f.remote_port ms rbs 0 w f g inv
  refine ⟨w1, _, h1, ht, rfl, ?_, delivered_loop_events _ _ _ _ _ _ _⟩
  rw [rx_calls_loop_events, List.range_eq_range']
  rfl

/-- Witness of C5: "hello" written twice on the IPCP of address 42 is delivered as "hello",
"hello". -/
theorem loopback_data_transfer_witness :
    (∀ a, pduft_lookup (mk_world 42 [mk_flow 1 2 42 (cfg_plain U64_MAX),
        mk_flow 2 1 42 (cfg_plain U64_MAX)]) a = none) ∧
    ∃ w1 t, write_all 1 0 true [sdu hello, sdu hello] (mk_world 42
        [mk_flow 1 2 42 (cfg_plain U64_MAX), mk_flow 2 1 42 (cfg_plain U64_MAX)])
        = Except.ok ([0, 0], w1) ∧
      w1.trace = t ∧
      (rx_calls t).map (fun b => (b.pci.base.seqnum, b.pci.base.pdu_flags)) = [(0, 1), (1, 0)] ∧
      (delivered t).map (fun p => (p.1, p.2.data, p.2.npci)) = [(1, hello, 0), (1, hello, 0)] := by
  have hft : ∀ a, pduft_lookup (mk_world 42 [mk_flow 1 2 42 (cfg_plain U64_MAX),
      mk_flow 2 1 42 (cfg_plain U64_MAX)]) a = none := by
    intro a
    simp only [pduft_lookup, pduft_lookup_internal, mk_world]
    have : ∀ i, (List.replicate (2 ^ PDUFT_HASHTABLE_BITS) ([] : List pduft_entry)).getD i [] = [] := by
      intro i
      simp [List.getD_eq_getElem?_getD, List.getElem?_replicate]
      split <;> rfl
    rw [this]; rfl
  refine ⟨hft, ?_⟩
  obtain ⟨w1, t, h1, h2, _, h4, h5⟩ := loopback_data_transfer 0
    (mk_world 42 [mk_flow 1 2 42 (cfg_plain U64_MAX), mk_flow 2 1 42 (cfg_plain U64_MAX)])
    0 1 (mk_flow 1 2 42 (cfg_plain U64_MAX)) (mk_flow 2 1 42 (cfg_plain U64_MAX)) true
    [sdu hello, sdu hello] hft rfl rfl rfl ⟨rfl, rfl, rfl, rfl⟩ rfl rfl ⟨rfl, rfl, rfl, rfl⟩
  exact ⟨w1, t, h1, by simpa [mk_world] using h2, h4, h5⟩

theorem away_refl (w : World) : Away w w := ⟨rfl, rfl, rfl, rfl⟩

theorem away_trans {a b c : World} (h1 : Away a b) (h2 : Away b c) : Away a c :=
  ⟨h2.addr.trans h1.addr, h2.pdu_ft.trans h1.pdu_ft, h2.flows.trans h1.flows,
   h2.delivered.trans h1.delivered⟩

theorem away_get {w w1 : World} (k : Away w w1) {fi : Nat} {f : flow_entry}
    (h : w.flows[fi]? = some f) : ∃ f1, w1.flows[fi]? = some f1 ∧ fkey f1 = fkey f := by
  have := congrArg (fun l => l[fi]?) k.flows
  simp only [List.getElem?_map, h, Option.map_some'] at this
  cases h1 : w1.flows[fi]? with
  | none => simp [h1] at this
  | some f1 =>
    simp only [h1, Option.map_some', Option.some.injEq] at this
    exact ⟨f1, rfl, this⟩

theorem handed_append (t1 t2 : List event) : handed (t1 ++ t2) = handed t1 ++ handed t2 := by
  simp [handed, List.filterMap_append]

theorem delivered_append (t1 t2 : List event) :
    delivered (t1 ++ t2) = delivered t1 ++ delivered t2 := by
  simp [delivered, List.filterMap_append]

theorem map_modify_fkey (l : List flow_entry) (g : flow_entry → flow_entry) (fi : Nat)
    (h : ∀ f, fkey (g f) = fkey f) : (l.modify g fi).map fkey = l.map fkey := by
  apply List.ext_getElem?
  intro n
  simp only [List.getElem?_map, List.getElem?_modify]
  by_cases hn : fi = n
  · subst hn
    cases hl : l[fi]? <;> simp [h]
  · simp [hn]

theorem away_emit (w : World) (e : event) (hd : delivered [e] = []) : Away w (w.emit e) :=
  ⟨rfl, rfl, rfl, by simp [World.emit, delivered_append, hd]⟩

theorem handed_emit (w : World) (e : event) (hh : handed [e] = []) :
    handed (w.emit e).trace = handed w.trace := by
  simp [World.emit, handed_append, hh]

theorem away_rmt_tx_push (lf : Nat) (rb : rina_buf) (ms : Bool) :
    ∀ (script : List Int) (w : World),
      Away w (rmt_tx_push lf rb ms script w).2 ∧
      handed (rmt_tx_push lf rb ms script w).2.trace = handed w.trace := by
  intro script
  induction script with
  | nil =>
    intro w
    exact ⟨away_emit _ _ rfl, handed_emit _ _ rfl⟩
  | cons ret rest ih =>
    intro w
    have k1 : Away w (({ w with lower_ret := rest } : World).emit
        (event.lower_sdu_write lf rb ms ret)) :=
      away_trans (⟨rfl, rfl, rfl, rfl⟩ : Away w ({ w with lower_ret := rest } : World))
        (away_emit _ _ rfl)
    have t1 : handed (({ w with lower_ret := rest } : World).emit
        (event.lower_sdu_write lf rb ms ret)).trace = handed w.trace :=
      handed_emit ({ w with lower_ret := rest } : World) _ rfl
    simp only [rmt_tx_push]
    split
    · split
      · exact ⟨away_trans k1 ⟨rfl, rfl, map_modify_fkey _ _ _ (fun _ => rfl), rfl⟩, t1⟩
      · have k2 := ih ((({ w with lower_ret := rest } : World).emit
          (event.lower_sdu_write lf rb ms ret)).emit event.schedule)
        refine ⟨away_trans (away_trans k1 (away_emit _ event.schedule rfl)) k2.1, ?_⟩
        rw [k2.2, handed_emit _ event.schedule rfl, t1]
    · exact ⟨k1, t1⟩

/-- The router, for a destination that is not the IPCP itself: the call returns, the
buffer is handed over once and nothing is delivered upward. -/
theorem rmt_tx_away (rx : World → rina_buf → Res) (w : World) (a : Nat) (rb : rina_buf)
    (ms : Bool) (ha : a ≠ w.addr) :
    ∃ r w1, rmt_tx rx w a rb ms = Except.ok (r, w1) ∧ Away w w1 ∧
      handed w1.trace = handed w.trace ++ [(a, rb)] := by
  have k0 : Away w (w.emit (event.rmt_tx a rb ms)) := away_emit _ _ rfl
  have t0 : handed (w.emit (event.rmt_tx a rb ms)).trace = handed w.trace ++ [(a, rb)] := by
    simp [World.emit, handed_append, handed]
  have ha1 : a ≠ (w.emit (event.rmt_tx a rb ms)).addr := ha
  simp only [rmt_tx]
  split
  · rw [if_pos ha1]
    exact ⟨_, _, rfl, away_trans k0 (away_emit _ (event.buf_free rb) rfl),
      by rw [handed_emit _ (event.buf_free rb) rfl, t0]⟩
  · rename_i lf _
    have k1 := away_rmt_tx_push lf rb ms (w.emit (event.rmt_tx a rb ms)).lower_ret
      (w.emit (event.rmt_tx a rb ms))
    exact ⟨_, _, rfl, away_trans k0 k1.1, by rw [k1.2, t0]⟩

theorem u64_of_lt {n : Nat} (h : n < 2 ^ 64) : u64 n = n := Nat.mod_eq_of_lt h

theorem sdu_write_stamp_eq (w : World) (f : flow_entry) (rb : rina_buf) (next : Nat)
    (hnext : f.dtp.next_seq_num_to_send = next) (hdrf : f.dtp.set_drf = decide (next = 0)) :
    sdu_write_stamp w f rb =
      dt_pdu f.remote_addr w.addr f.local_port f.remote_port next rb := by
  simp only [sdu_write_stamp, dt_pdu, sdu_write_pci, hnext, hdrf]
  by_cases hk : next = 0 <;> simp [hk]

theorem sdu_write_next_fields (f : flow_entry) :
    (sdu_write_next f).snd_rwe = f.dtp.snd_rwe ∧ (sdu_write_next f).snd_lwe = f.dtp.snd_lwe ∧
    (sdu_write_next f).cwq = f.dtp.cwq ∧ (sdu_write_next f).cwq_len = f.dtp.cwq_len ∧
    (sdu_write_next f).max_cwq_len = f.dtp.max_cwq_len ∧
    (sdu_write_next f).next_seq_num_to_send = u64 (f.dtp.next_seq_num_to_send + 1) ∧
    (sdu_write_next f).set_drf = false := by
  cases h : f.cfg.dtcp_present <;> simp [sdu_write_next, snd_inact_cancel, h]

/-- A write inside the sender window: the PDU is handed to the router. -/
theorem win_step_send (fuel : Nat) (w : World) (fi lp rp ra rwe m next lwe : Nat)
    (q : List rina_buf) (f : flow_entry) (rb : rina_buf) (ms : Bool)
    (inv : win_inv w fi lp rp ra rwe m next lwe q f) (hin : next ≤ rwe)
    (hlt : next + 1 < 2 ^ 64) :
    ∃ r w1 f1, sdu_write fuel w fi rb ms = Except.ok (r, w1) ∧
      win_inv w1 fi lp rp ra rwe m (next + 1) (next + 1) q f1 ∧
      handed w1.trace = handed w.trace ++ [(ra, dt_pdu ra w.addr lp rp next rb)] ∧
      delivered w1.trace = delivered w.trace := by
  obtain ⟨hf, hlp, hrp, hra, hne, hdp, hfc, hrtx, hnext, hdrf, hrwe, hlwe, hcwq, hlen, hmax⟩ := inv
  have hw : ¬ window_overrun f := by
    simp only [window_overrun, hnext, hrwe]; omega
  have hgt : ¬ f.dtp.next_seq_num_to_send > f.dtp.snd_rwe := by rw [hnext, hrwe]; omega
  have hst := sdu_write_stamp_eq w f rb next hnext hdrf
  rw [hra, hlp, hrp] at hst
  have hnf := sdu_write_next_fields f
  obtain ⟨r, w1, h1, k, ht⟩ := rmt_tx_away (rina_normal_sdu_rx fuel)
    (w.set_dtp fi (snd_inact_rearm { sdu_write_next f with
        snd_lwe := (sdu_write_next f).next_seq_num_to_send
        last_seq_num_sent := f.dtp.next_seq_num_to_send }))
    ra (dt_pdu ra w.addr lp rp next rb) ms hne
  obtain ⟨f1, hf1, hk1⟩ := away_get k (set_dtp_get hf _)
  simp only [fkey, Prod.mk.injEq] at hk1
  obtain ⟨e1, e2, e3, e4, e5⟩ := hk1
  refine ⟨r, w1, f1, ?_, ?_, ht, k.delivered⟩
  · simp only [sdu_write, rina_normal_sdu_write, hf, hw, if_false, hdp, Bool.not_true,
      Bool.false_eq_true]
    rw [sdu_write_window_send w f rb hfc hgt]
    simp only [hrtx, hst, hra, Bool.false_eq_true, if_false]
    exact h1
  · refine ⟨hf1, e1.trans hlp, e2.trans hrp, e3.trans hra, by rw [k.addr]; exact hne,
      by rw [e4]; exact hdp, by rw [e4]; exact hfc, by rw [e4]; exact hrtx, ?_, ?_, ?_, ?_,
      ?_, ?_, ?_⟩ <;> rw [e5]
    · show (sdu_write_next f).next_seq_num_to_send = next + 1
      rw [hnf.2.2.2.2.2.1, hnext, u64_of_lt hlt]
    · show (sdu_write_next f).set_drf = decide (next + 1 = 0)
      rw [hnf.2.2.2.2.2.2]; simp
    · show (sdu_write_next f).snd_rwe = rwe
      rw [hnf.1, hrwe]
    · show (sdu_write_next f).next_seq_num_to_send = next + 1
      rw [hnf.2.2.2.2.2.1, hnext, u64_of_lt hlt]
    · show (sdu_write_next f).cwq = q
      rw [hnf.2.2.1, hcwq]
    · show (sdu_write_next f).cwq_len = q.length
      rw [hnf.2.2.2.1, hlen]
    · show (sdu_write_next f).max_cwq_len = m
      rw [hnf.2.2.2.2.1, hmax]

/-- A write that passes the window check on a flow with DTCP and no retransmission
control, when the PDU is put in the cwq. -/
theorem sdu_write_queue_eq (fuel : Nat) (w : World) (fi : Nat) (f : flow_entry)
    (rb : rina_buf) (ms : Bool) (hf : w.flows[fi]? = some f) (hw : ¬ window_overrun f)
    (hdp : f.cfg.dtcp_present = true)
    (hfc : f.cfg.dtcp.fc.fc_type = fc_type.RINA_FC_T_WIN)
    (hgt : f.dtp.next_seq_num_to_send > f.dtp.snd_rwe)
    (hrtx : f.cfg.dtcp.rtx_control = false) :
    sdu_write fuel w fi rb ms = Except.ok (0, w.set_dtp fi
      (snd_inact_rearm (sdu_write_window f (sdu_write_stamp w f rb)).1)) := by
  simp only [sdu_write, rina_normal_sdu_write, hf, hw, if_false, hdp, Bool.not_true,
    Bool.false_eq_true, hrtx]
  rw [sdu_write_window_cwq w f rb hfc hgt]

/-- A write outside the sender window with room in the cwq: the PDU is appended to the cwq
and nothing is handed to the router. -/
theorem win_step_queue (fuel : Nat) (w : World) (fi lp rp ra rwe m next lwe : Nat)
    (q : List rina_buf) (f : flow_entry) (rb : rina_buf) (ms : Bool)
    (inv : win_inv w fi lp rp ra rwe m next lwe q f) (hout : next > rwe)
    (hroom : q.length < m) (hlt : next + 1 < 2 ^ 64) :
    ∃ w1 f1, sdu_write fuel w fi rb ms = Except.ok (0, w1) ∧
      win_inv w1 fi lp rp ra rwe m (next + 1) lwe (q ++ [dt_pdu ra w.addr lp rp next rb]) f1 ∧
      w1.trace = w.trace ∧ w1.addr = w.addr := by
  obtain ⟨hf, hlp, hrp, hra, hne, hdp, hfc, hrtx, hnext, hdrf, hrwe, hlwe, hcwq, hlen, hmax⟩ := inv
  have hw : ¬ window_overrun f := by
    simp only [window_overrun, hnext, hrwe, hlen, hmax]; omega
  have hgt : f.dtp.next_seq_num_to_send > f.dtp.snd_rwe := by rw [hnext, hrwe]; omega
  have hst := sdu_write_stamp_eq w f rb next hnext hdrf
  rw [hra, hlp, hrp] at hst
  have hnf := sdu_write_next_fields f
  rw [sdu_write_queue_eq fuel w fi f rb ms hf hw hdp hfc hgt hrtx]
  refine ⟨w.set_dtp fi (snd_inact_rearm (sdu_write_window f (sdu_write_stamp w f rb)).1),
    { f with dtp := snd_inact_rearm (sdu_write_window f (sdu_write_stamp w f rb)).1 },
    rfl, ?_, rfl, rfl⟩
  refine ⟨set_dtp_get hf _, hlp, hrp, hra, hne, hdp, hfc, hrtx, ?_, ?_, ?_, ?_, ?_, ?_, ?_⟩ <;>
    rw [sdu_write_window_cwq w f rb hfc hgt]
  · show (sdu_write_next f).next_seq_num_to_send = next + 1
    rw [hnf.2.2.2.2.2.1, hnext, u64_of_lt hlt]
  · show (sdu_write_next f).set_drf = decide (next + 1 = 0)
    rw [hnf.2.2.2.2.2.2]; simp
  · show (sdu_write_next f).snd_rwe = rwe
    rw [hnf.1, hrwe]
  · show (sdu_write_next f).snd_lwe = lwe
    rw [hnf.2.1, hlwe]
  · show (sdu_write_next f).cwq ++ [sdu_write_stamp w f rb] = q ++ [_]
    rw [hnf.2.2.1, hcwq, hst]
  · show (sdu_write_next f).cwq_len + 1 = (q ++ [dt_pdu ra w.addr lp rp next rb]).length
    rw [hnf.2.2.2.1, hlen]; simp
  · show (sdu_write_next f).max_cwq_len = m
    rw [hnf.2.2.2.2.1, hmax]

/-- A write outside the sender window with the cwq full: BackPressure, nothing is
consumed. -/
theorem win_step_full (fuel : Nat) (w : World) (fi lp rp ra rwe m next lwe : Nat)
    (q : List rina_buf) (f : flow_entry) (rb : rina_buf) (ms : Bool)
    (inv : win_inv w fi lp rp ra rwe m next lwe q f) (hout : next > rwe)
    (hfull : q.length ≥ m) :
    ∃ w1 f1, sdu_write fuel w fi rb ms = Except.ok (-EAGAIN, w1) ∧
      win_inv w1 fi lp rp ra rwe m next lwe q f1 ∧
      w1.trace = w.trace ∧ w1.addr = w.addr := by
  obtain ⟨hf, hlp, hrp, hra, hne, hdp, hfc, hrtx, hnext, hdrf, hrwe, hlwe, hcwq, hlen, hmax⟩ := inv
  have hw : window_overrun f := by
    simp only [window_overrun, hnext, hrwe, hlen, hmax]; exact ⟨hfc, hout, hfull⟩
  have hc : snd_inact_cancel f.cfg f.dtp = { f.dtp with snd_inact_tmr := none } := by
    simp [snd_inact_cancel, hdp]
  have hrun : sdu_write fuel w fi rb ms =
      Except.ok (-EAGAIN, w.set_dtp fi (snd_inact_cancel f.cfg f.dtp)) := by
    simp only [sdu_write, rina_normal_sdu_write, hf, hw, if_true]
  rw [hrun, hc]
  exact ⟨w.set_dtp fi { f.dtp with snd_inact_tmr := none },
    { f with dtp := { f.dtp with snd_inact_tmr := none } }, rfl,
    ⟨set_dtp_get hf _, hlp, hrp, hra, hne, hdp, hfc, hrtx, hnext, hdrf, hrwe,
      hlwe, hcwq, hlen, hmax⟩, rfl, rfl⟩

theorem keep_addr_of_write (fuel : Nat) (w : World) (fi : Nat) (rb : rina_buf) (ms : Bool)
    (r : Int) (w1 : World) (h : sdu_write fuel w fi rb ms = Except.ok (r, w1)) :
    w1.addr = w.addr := by
  have hrx := keep_rina_normal_sdu_rx fuel
  simp only [sdu_write, rina_normal_sdu_write] at h
  split at h
  · exact absurd h (by simp)
  · split at h
    · simp only [Except.ok.injEq, Prod.mk.injEq] at h
      rw [← h.2]; rfl
    · split at h
      · exact (keep_rmt_tx hrx h).addr
      · split at h
        · split at h
          · exact absurd h (by simp)
          · split at h
            · simp only [Except.ok.injEq, Prod.mk.injEq] at h
              rw [← h.2]
              show w.alloc.2.addr = w.addr
              exact (keep_alloc w).addr
            · exact ((keep_rmt_tx hrx h).addr).trans (keep_alloc w).addr
        · split at h
          · simp only [Except.ok.injEq, Prod.mk.injEq] at h
            rw [← h.2]; rfl
          · exact (keep_rmt_tx hrx h).addr

theorem write_all_append (fuel fi : Nat) (ms : Bool) :
    ∀ (l1 l2 : List rina_buf) (w w1 w2 : World) (r1 r2 : List Int),
      write_all fuel fi ms l1 w = Except.ok (r1, w1) →
      write_all fuel fi ms l2 w1 = Except.ok (r2, w2) →
      write_all fuel fi ms (l1 ++ l2) w = Except.ok (r1 ++ r2, w2) := by
  intro l1
  induction l1 with
  | nil =>
    intro l2 w w1 w2 r1 r2 h1 h2
    simp only [write_all, Except.ok.injEq, Prod.mk.injEq] at h1
    obtain ⟨rfl, rfl⟩ := h1
    simpa using h2
  | cons rb rest ih =>
    intro l2 w w1 w2 r1 r2 h1 h2
    simp only [write_all] at h1
    split at h1
    · exact absurd h1 (by simp)
    · rename_i r wa hs
      split at h1
      · exact absurd h1 (by simp)
      · rename_i rs wb hr
        simp only [Except.ok.injEq, Prod.mk.injEq] at h1
        obtain ⟨rfl, rfl⟩ := h1
        have := ih l2 wa wb w2 rs r2 hr h2
        show write_all fuel fi ms (rb :: (rest ++ l2)) w = _
        simp only [write_all, hs, this, List.cons_append]

theorem dt_pdus_seqnum (dst src lp rp : Nat) : ∀ (rbs : List rina_buf) (k : Nat),
    (dt_pdus dst src lp rp k rbs).map (fun b => b.pci.base.seqnum) = List.range' k rbs.length := by
  intro rbs
  induction rbs with
  | nil => intro k; rfl
  | cons rb rest ih =>
    intro k
    simp only [dt_pdus, List.map_cons, List.length_cons, List.range'_succ, ih]
    rfl

theorem dt_pdus_data (dst src lp rp : Nat) : ∀ (rbs : List rina_buf) (k : Nat),
    (dt_pdus dst src lp rp k rbs).map (fun b => b.data) = rbs.map (fun b => b.data) := by
  intro rbs
  induction rbs with
  | nil => intro k; rfl
  | cons rb rest ih =>
    intro k
    simp only [dt_pdus, List.map_cons, ih]
    rfl

/-- Consecutive writes inside the sender window: every PDU is handed to the router. -/
theorem win_run_send (fuel : Nat) (fi lp rp ra rwe m : Nat) (ms : Bool) (q : List rina_buf) :
    ∀ (rbs : List rina_buf) (next : Nat) (w : World) (f : flow_entry),
      win_inv w fi lp rp ra rwe m next next q f → next + rbs.length ≤ rwe + 1 →
      rwe + 1 < 2 ^ 64 →
      ∃ rets w1 f1, write_all fuel fi ms rbs w = Except.ok (rets, w1) ∧
        win_inv w1 fi lp rp ra rwe m (next + rbs.length) (next + rbs.length) q f1 ∧
        handed w1.trace = handed w.trace ++
          (dt_pdus ra w.addr lp rp next rbs).map (fun b => (ra, b)) ∧
        delivered w1.trace = delivered w.trace ∧
        w1.addr = w.addr := by
  intro rbs
  induction rbs with
  | nil =>
    intro next w f inv _ _
    exact ⟨[], w, f, rfl, inv, by simp [dt_pdus], rfl, rfl⟩
  | cons rb rest ih =>
    intro next w f inv hle hlt
    simp only [List.length_cons] at hle
    obtain ⟨r, w1, f1, h1, inv1, ht1, hd1⟩ := win_step_send fuel w fi lp rp ra rwe m next next q f
      rb ms inv (by omega) (by omega)
    have ha1 : w1.addr = w.addr := by
      have := inv1.hne
      simp only [sdu_write] at h1
      exact (keep_addr_of_write fuel w fi rb ms r w1 h1)
    obtain ⟨rets, w2, f2, h2, inv2, ht2, hd2, ha2⟩ := ih (next + 1) w1 f1 inv1 (by omega) hlt
    refine ⟨r :: rets, w2, f2, ?_, ?_, ?_, hd2.trans hd1, ha2.trans ha1⟩
    · simp only [write_all, h1, h2]
    · have : next + (rest.length + 1) = next + 1 + rest.length := by omega
      simp only [List.length_cons, this]
      exact inv2
    · rw [ht2, ht1, ha1]
      simp [dt_pdus]

/-- Consecutive writes outside the sender window while the cwq has room: every PDU is
appended to the cwq, nothing is handed to the router. -/
theorem win_run_queue (fuel : Nat) (fi lp rp ra rwe m lwe : Nat) (ms : Bool) :
    ∀ (rbs : List rina_buf) (next : Nat) (q : List rina_buf) (w : World) (f : flow_entry),
      win_inv w fi lp rp ra rwe m next lwe q f → next > rwe → q.length + rbs.length ≤ m →
      next + rbs.length < 2 ^ 64 →
      ∃ w1 f1, write_all fuel fi ms rbs w = Except.ok (List.replicate rbs.length 0, w1) ∧
        win_inv w1 fi lp rp ra rwe m (next + rbs.length) lwe
          (q ++ dt_pdus ra w.addr lp rp next rbs) f1 ∧
        w1.trace = w.trace ∧ w1.addr = w.addr := by
  intro rbs
  induction rbs with
  | nil =>
    intro next q w f inv _ _ _
    exact ⟨w, f, rfl, by simpa [dt_pdus] using inv, rfl, rfl⟩
  | cons rb rest ih =>
    intro next q w f inv hout hroom hlt
    simp only [List.length_cons] at hroom hlt
    obtain ⟨w1, f1, h1, inv1, ht1, ha1⟩ := win_step_queue fuel w fi lp rp ra rwe m next lwe q f
      rb ms inv hout (by omega) (by omega)
    obtain ⟨w2, f2, h2, inv2, ht2, ha2⟩ := ih (next + 1) _ w1 f1 inv1 (by omega)
      (by simp only [List.length_append, List.length_singleton]; omega) (by omega)
    refine ⟨w2, f2, ?_, ?_, ht2.trans ht1, ha2.trans ha1⟩
    · simp only [write_all, h1, h2, List.length_cons, List.replicate_succ]
    · have : next + (rest.length + 1) = next + 1 + rest.length := by omega
      simp only [List.length_cons, this, dt_pdus]
      rw [ha1] at inv2
      simpa using inv2

theorem dt_pdus_length (dst src lp rp : Nat) : ∀ (rbs : List rina_buf) (k : Nat),
    (dt_pdus dst src lp rp k rbs).length = rbs.length := by
  intro rbs
  induction rbs with
  | nil => intro k; rfl
  | cons rb rest ih => intro k; simp [dt_pdus, ih]

/-- The sender state of a freshly initialised flow with window flow control. -/
theorem win_inv_init (w : World) (fi : Nat) (f : flow_entry) (c m : Nat)
    (hf : w.flows[fi]? = some f) (hne : f.remote_addr ≠ w.addr)
    (hdp : f.cfg.dtcp_present = true)
    (hfc : f.cfg.dtcp.fc.fc_type = fc_type.RINA_FC_T_WIN)
    (hrtx : f.cfg.dtcp.rtx_control = false)
    (hc : f.cfg.dtcp.fc.w.initial_credit = c) (hm : f.cfg.dtcp.fc.w.max_cwq_len = m)
    (hfresh : f.dtp = flow_init_dtp f.cfg dtp_zero) (hlt : c < 2 ^ 64) :
    win_inv w fi f.local_port f.remote_port f.remote_addr c m 0 0 [] f := by
  have hd : f.dtp.next_seq_num_to_send = 0 ∧ f.dtp.set_drf = true ∧ f.dtp.snd_rwe = c ∧
      f.dtp.snd_lwe = 0 ∧ f.dtp.cwq = [] ∧ f.dtp.cwq_len = 0 ∧ f.dtp.max_cwq_len = m := by
    rw [hfresh]
    simp [flow_init_dtp, hfc, hc, hm, dtp_zero, u64_of_lt hlt]
  exact ⟨hf, rfl, rfl, rfl, hne, hdp, hfc, hrtx, hd.1, by simpa using hd.2.1, hd.2.2.1,
    hd.2.2.2.1, hd.2.2.2.2.1, by simpa using hd.2.2.2.2.2.1, hd.2.2.2.2.2.2⟩

/-- C6 (as amended): window backpressure.  On a freshly initialised flow with DTCP, window
flow control with `initial_credit = c` and `max_cwq_len = m`, no retransmission control,
and a remote address other than the IPCP's own, out of `c + m + 2` consecutive `sdu_write`
calls the first `c + 1` PDUs (seqnums `0..c`) are handed to the router, leaving
`snd_lwe = c + 1`; the next `m` PDUs (seqnums `c+1..c+m`) are put in the cwq, with return
value 0 and nothing handed to the router; the last call returns BackPressure and leaves the
trace and the cwq as they are. -/
theorem window_backpressure (fuel : Nat) (w : World) (fi : Nat) (f : flow_entry) (c m : Nat)
    (ms : Bool) (rbs1 rbs2 : List rina_buf) (rb : rina_buf)
    (hf : w.flows[fi]? = some f) (hne : f.remote_addr ≠ w.addr)
    (hdp : f.cfg.dtcp_present = true)
    (hfc : f.cfg.dtcp.fc.fc_type = fc_type.RINA_FC_T_WIN)
    (hrtx : f.cfg.dtcp.rtx_control = false)
    (hc : f.cfg.dtcp.fc.w.initial_credit = c) (hm : f.cfg.dtcp.fc.w.max_cwq_len = m)
    (hfresh : f.dtp = flow_init_dtp f.cfg dtp_zero)
    (h1 : rbs1.length = c + 1) (h2 : rbs2.length = m) (hlt : c + m + 2 < 2 ^ 64) :
    ∃ rets1 w1 w2 f2 w3 f3,
      write_all fuel fi ms rbs1 w = Except.ok (rets1, w1) ∧
      write_all fuel fi ms rbs2 w1 = Except.ok (List.replicate m 0, w2) ∧
      sdu_write fuel w2 fi rb ms = Except.ok (-EAGAIN, w3) ∧
      handed w2.trace = handed w.trace ++
        (dt_pdus f.remote_addr w.addr f.local_port f.remote_port 0 rbs1).map
          (fun b => (f.remote_addr, b)) ∧
      (dt_pdus f.remote_addr w.addr f.local_port f.remote_port 0 rbs1).map
          (fun b => b.pci.base.seqnum) = List.range (c + 1) ∧
      w2.flows[fi]? = some f2 ∧ f2.dtp.snd_lwe = c + 1 ∧
      f2.dtp.cwq = dt_pdus f.remote_addr w.addr f.local_port f.remote_port (c + 1) rbs2 ∧
      f2.dtp.cwq.map (fun b => b.pci.base.seqnum) = List.range' (c + 1) m ∧
      f2.dtp.cwq_len = m ∧
      w3.trace = w2.trace ∧ w3.flows[fi]? = some f3 ∧ f3.dtp.cwq = f2.dtp.cwq ∧
      f3.dtp.next_seq_num_to_send = f2.dtp.next_seq_num_to_send := by
  have inv0 := win_inv_init w fi f c m hf hne hdp hfc hrtx hc hm hfresh (by omega)
  obtain ⟨rets1, w1, f1, r1, inv1, ht1, _, ha1⟩ := win_run_send fuel fi f.local_port
    f.remote_port f.remote_addr c m ms [] rbs1 0 w f inv0 (by omega) (by omega)
  rw [h1] at inv1
  simp only [Nat.zero_add] at inv1
  obtain ⟨w2, f2, r2, inv2, ht2, ha2⟩ := win_run_queue fuel fi f.local_port f.remote_port
    f.remote_addr c m (c + 1) ms rbs2 (c + 1) [] w1 f1 inv1 (by omega)
    (by simp only [List.length_nil]; omega) (by omega)
  rw [h2] at r2 inv2
  simp only [List.nil_append, ha1] at inv2
  obtain ⟨w3, f3, r3, inv3, ht3, _⟩ := win_step_full fuel w2 fi f.local_port f.remote_port
    f.remote_addr c m (c + 1 + m) (c + 1) _ f2 rb ms inv2 (by omega)
    (by rw [dt_pdus_length, h2])
  refine ⟨rets1, w1, w2, f2, w3, f3, r1, r2, r3, ?_, ?_, inv2.hf, inv2.hlwe, inv2.hcwq, ?_, ?_,
    ht3, inv3.hf, ?_, ?_⟩
  · rw [ht2, ht1]
  · rw [dt_pdus_seqnum, h1, List.range_eq_range']
  · rw [inv2.hcwq, dt_pdus_seqnum, h2]
  · rw [inv2.hlen, dt_pdus_length, h2]
  · rw [inv3.hcwq, inv2.hcwq]
  · rw [inv3.hnext, inv2.hnext]

/-- Witness of C6 (as amended) for `c = 2`, `m = 1`: the fifth write is the one that returns
BackPressure. -/
theorem window_backpressure_witness :
    world_s2.flows[0]? = some (mk_flow 1 2 43 (cfg_window 2 1)) ∧
    ∃ rets1 w1 w2 w3,
      write_all 0 0 false [sdu [0], sdu [1], sdu [2]] world_s2 = Except.ok (rets1, w1) ∧
      write_all 0 0 false [sdu [3]] w1 = Except.ok ([0], w2) ∧
      sdu_write 0 w2 0 (sdu [4]) false = Except.ok (-EAGAIN, w3) :=
  ⟨rfl,
    let ⟨rets1, w1, w2, _, w3, _, h1, h2, h3, _⟩ := window_backpressure 0 world_s2 0
      (mk_flow 1 2 43 (cfg_window 2 1)) 2 1 false [sdu [0], sdu [1], sdu [2]] [sdu [3]]
      (sdu [4]) rfl (by decide) rfl rfl rfl rfl rfl rfl rfl rfl (by decide)
    ⟨rets1, w1, w2, w3, h1, h2, h3⟩⟩

/-- C6, the claim as stated fails for its own witness `c = 2`, `m = 1`: of four writes on a
fresh flow none returns BackPressure; the seqnums 0, 1 and 2 are handed to the router,
`snd_lwe` is 3, and it is the seqnum 3 that waits in the cwq. -/
theorem window_backpressure_counterexample :
    ∃ w1, write_all 0 0 false [sdu [0], sdu [1], sdu [2], sdu [3]] world_s2
        = Except.ok ([0, 0, 0, 0], w1) ∧
      (handed w1.trace).map (fun p => p.2.pci.base.seqnum) = [0, 1, 2] ∧
      w1.flows.map (fun f => (f.dtp.snd_lwe, f.dtp.cwq.map (fun b => b.pci.base.seqnum)))
        = [(3, [3])] ∧
      (0 : Int) ≠ -EAGAIN :=
  ⟨_, rfl, rfl, rfl, by decide⟩

theorem flow_get_from_map_fkey : ∀ (l l1 : List flow_entry) (i port fi : Nat) (f : flow_entry),
    l1.map fkey = l.map fkey → flow_get_from l i port = some (fi, f) →
    ∃ f1, flow_get_from l1 i port = some (fi, f1) ∧ fkey f1 = fkey f := by
  intro l
  induction l with
  | nil => intro l1 i port fi f _ h; simp [flow_get_from] at h
  | cons g gs ih =>
    intro l1 i port fi f hm h
    cases l1 with
    | nil => simp at hm
    | cons g1 gs1 =>
      simp only [List.map_cons, List.cons.injEq] at hm
      have hlp : g1.local_port = g.local_port := by
        have := congrArg Prod.fst hm.1
        simpa [fkey] using this
      simp only [flow_get_from, hlp] at h ⊢
      split at h
      · simp only [Option.some.injEq, Prod.mk.injEq] at h
        obtain ⟨rfl, rfl⟩ := h
        rename_i hp
        simp only [hp, if_true]
        exact ⟨g1, rfl, hm.1⟩
      · rename_i hp
        simp only [hp, if_false]
        exact ih gs1 (i + 1) port fi f hm.2 h

theorem flow_get_away {w w1 : World} (k : Away w w1) {port fi : Nat} {f : flow_entry}
    (h : flow_get w port = some (fi, f)) :
    ∃ f1, flow_get w1 port = some (fi, f1) ∧ fkey f1 = fkey f :=
  flow_get_from_map_fkey _ _ _ _ _ _ k.flows h

theorem set_dtp_set_dtp (w : World) (fi : Nat) (d1 d2 : dtp) :
    (w.set_dtp fi d1).set_dtp fi d2 = w.set_dtp fi d2 := by
  simp only [World.set_dtp, World.upd_flow, List.modify_modify_eq]
  rfl

/-- What `ctrl_pdu_alloc` does: at most the control sequence number of the flow advances;
the control PDU, if any, is addressed to the remote end of the flow and carries the given
type and acknowledgement. -/
theorem ctrl_pdu_alloc_spec (w : World) (fi : Nat) (flow : flow_entry) (t a : Nat) :
    (ctrl_pdu_alloc w fi flow t a).2.addr = w.addr ∧
    (ctrl_pdu_alloc w fi flow t a).2.pdu_ft = w.pdu_ft ∧
    (ctrl_pdu_alloc w fi flow t a).2.trace = w.trace ∧
    ((ctrl_pdu_alloc w fi flow t a).1 = none ∧
        (ctrl_pdu_alloc w fi flow t a).2.flows = w.flows ∨
      ∃ crb, (ctrl_pdu_alloc w fi flow t a).1 = some crb ∧
        crb.pci.base.dst_addr = flow.remote_addr ∧ crb.pci.base.pdu_type = t ∧
        crb.pci.ack_nack_seq_num = a ∧
        (ctrl_pdu_alloc w fi flow t a).2.flows = (w.set_dtp fi { flow.dtp with
          next_snd_ctl_seq := u64 (flow.dtp.next_snd_ctl_seq + 1) }).flows) := by
  unfold ctrl_pdu_alloc World.alloc
  cases hal : w.alloc_ok with
  | nil => exact ⟨rfl, rfl, rfl, Or.inr ⟨_, rfl, rfl, rfl, rfl, rfl⟩⟩
  | cons b bs =>
    cases b
    · exact ⟨rfl, rfl, rfl, Or.inl ⟨rfl, rfl⟩⟩
    · exact ⟨rfl, rfl, rfl, Or.inr ⟨_, rfl, rfl, rfl, rfl, rfl⟩⟩

/-- What `sdu_rx_sv_update` does to the state: the DTP state of the flow is stored with, at
most, `rcv_rwe` and `next_snd_ctl_seq` changed; the control PDU, if any, is addressed to
the remote end of the flow. -/
theorem sdu_rx_sv_update_spec (w : World) (fi : Nat) (flow : flow_entry) :
    (sdu_rx_sv_update w fi flow).2.addr = w.addr ∧
    (sdu_rx_sv_update w fi flow).2.pdu_ft = w.pdu_ft ∧
    (sdu_rx_sv_update w fi flow).2.trace = w.trace ∧
    (∃ D : dtp, (sdu_rx_sv_update w fi flow).2.flows = (w.set_dtp fi D).flows ∧
      { D with rcv_rwe := flow.dtp.rcv_rwe, next_snd_ctl_seq := flow.dtp.next_snd_ctl_seq }
        = flow.dtp) ∧
    ∀ crb, (sdu_rx_sv_update w fi flow).1 = some crb →
      crb.pci.base.dst_addr = flow.remote_addr := by
  have hr : (sv_update_rwe flow).remote_addr = flow.remote_addr ∧
      ∀ x : Nat, { (sv_update_rwe flow).dtp with
        rcv_rwe := flow.dtp.rcv_rwe, next_snd_ctl_seq := x } =
        { flow.dtp with next_snd_ctl_seq := x } := by
    unfold sv_update_rwe; simp only; split <;> exact ⟨rfl, fun _ => rfl⟩
  simp only [sdu_rx_sv_update]
  split
  · obtain ⟨h1, h2, h3, h4⟩ := ctrl_pdu_alloc_spec (w.set_dtp fi (sv_update_rwe flow).dtp) fi
      (sv_update_rwe flow) (sv_update_pdu_type (sv_update_rwe flow).cfg.dtcp) 0
    refine ⟨h1, h2, h3, ?_, ?_⟩
    · rcases h4 with ⟨_, h5⟩ | ⟨crb, _, _, _, _, h5⟩
      · exact ⟨_, h5, hr.2 _⟩
      · exact ⟨_, h5.trans (congrArg World.flows (set_dtp_set_dtp _ _ _ _)), hr.2 _⟩
    · intro crb hc
      rcases h4 with ⟨h5, _⟩ | ⟨crb1, h5, h6, _, _, _⟩
      · rw [h5] at hc; exact absurd hc (by simp)
      · rw [h5] at hc
        cases hc
        rw [h6, hr.1]
  · exact ⟨rfl, rfl, rfl, ⟨_, rfl, hr.2 _⟩, fun crb hc => absurd hc (by simp)⟩

theorem snd_crb_away (rx : World → rina_buf → Res) (w : World) (a : Nat)
    (crb : Option rina_buf) (ret : Int) (ha : a ≠ w.addr) :
    ∃ w1, snd_crb rx w a crb ret = Except.ok (ret, w1) ∧ Away w w1 := by
  cases crb with
  | none => exact ⟨w, rfl, away_refl w⟩
  | some crb =>
    obtain ⟨r, w1, h1, k, _⟩ := rmt_tx_away rx w a crb false ha
    exact ⟨w1, by simp only [snd_crb, h1], k⟩

theorem rx_flow_list_spec (fi : Nat) : ∀ (l : List rina_buf) (w : World),
    rx_flow_list fi l (0, w) =
      (0, { w with trace := w.trace ++ l.map (fun b => event.sdu_rx_flow fi b) }) := by
  intro l
  induction l with
  | nil => intro w; simp [rx_flow_list]
  | cons qrb rest ih =>
    intro w
    simp only [rx_flow_list, rina_sdu_rx_flow]
    have : Int.lor 0 0 = 0 := by decide
    rw [this, ih]
    simp [World.emit]

theorem delivered_map_rx_flow (fi : Nat) (l : List rina_buf) :
    delivered (l.map (fun b => event.sdu_rx_flow fi b)) = l.map (fun b => (fi, b)) := by
  induction l with
  | nil => rfl
  | cons b rest ih =>
    simp only [List.map_cons, delivered, List.filterMap_cons] at ih ⊢
    rw [ih]

/-- The end of the data path of `rina_normal_sdu_rx` on a flow whose remote address is not
the IPCP's own: the control PDU, if any, leaves the IPCP, the call returns `ret` and the
flow holds the DTP state `D` stored under the lock. -/
theorem rx_tail (rx : World → rina_buf → Res) (w0 W : World) (port fi : Nat)
    (f : flow_entry) (D : dtp) (crb : Option rina_buf) (ret : Int)
    (hfl : W.flows = (w0.set_dtp fi D).flows) (haddr : W.addr = w0.addr)
    (hg : flow_get w0 port = some (fi, f)) (hne : f.remote_addr ≠ w0.addr) :
    ∃ w1 f1, snd_crb rx W f.remote_addr crb ret = Except.ok (ret, w1) ∧
      w1.addr = w0.addr ∧ flow_get w1 port = some (fi, f1) ∧
      fkey f1 = fkey { f with dtp := D } ∧ delivered w1.trace = delivered W.trace := by
  obtain ⟨w1, h1, k⟩ := snd_crb_away rx W f.remote_addr crb ret (by rw [haddr]; exact hne)
  have hgW : flow_get W port = some (fi, { f with dtp := D }) := by
    have := flow_get_set_dtp w0 fi D port
    rw [hg] at this
    simp only [flow_get, hfl] at this ⊢
    simpa using this
  obtain ⟨f1, hg1, hk1⟩ := flow_get_away k hgW
  exact ⟨w1, f1, h1, k.addr.trans haddr, hg1, hk1, k.delivered⟩

theorem rcv_inact_rearm_fields (cfg : flow_config) (d : dtp) :
    (rcv_inact_rearm cfg d).rcv_lwe = d.rcv_lwe ∧
    (rcv_inact_rearm cfg d).max_seq_num_rcvd = d.max_seq_num_rcvd ∧
    (rcv_inact_rearm cfg d).seqq = d.seqq ∧
    (rcv_inact_rearm cfg d).last_snd_data_ack = d.last_snd_data_ack := by
  unfold rcv_inact_rearm; split <;> exact ⟨rfl, rfl, rfl, rfl⟩

/-- The DRF path of `rina_normal_sdu_rx` on a flow whose remote address is not the IPCP's
own: the PDU is delivered upward, `rcv_lwe` and `max_seq_num_rcvd` are reset, the sequencing
queue is left as it is. -/
theorem rx_step_drf (n : Nat) (w : World) (rb : rina_buf) (port fi : Nat) (f : flow_entry)
    (hp : pdu_for w port rb) (hg : flow_get w port = some (fi, f))
    (hne : f.remote_addr ≠ w.addr) (hfl : rb.pci.base.pdu_flags % 2 = 1) :
    ∃ w1 f1, rina_normal_sdu_rx (n + 1) w rb = Except.ok (0, w1) ∧ w1.addr = w.addr ∧
      flow_get w1 port = some (fi, f1) ∧ f1.remote_addr = f.remote_addr ∧ f1.cfg = f.cfg ∧
      f1.dtp.rcv_lwe = u64 (rb.pci.base.seqnum + 1) ∧
      f1.dtp.max_seq_num_rcvd = rb.pci.base.seqnum ∧
      f1.dtp.seqq = f.dtp.seqq ∧ f1.dtp.last_snd_data_ack = f.dtp.last_snd_data_ack ∧
      delivered w1.trace = delivered w.trace ++ [(fi, rina_buf_pci_pop rb)] := by
  obtain ⟨ha, hpt, ht⟩ := hp
  have hg' : flow_get w rb.pci.base.dst_cep = some (fi, f) := by rw [hpt]; exact hg
  have hr := rcv_inact_rearm_fields f.cfg f.dtp
  simp only [rina_normal_sdu_rx, sdu_rx_body_data _ _ _ _ _ ha hg' ht, hfl, if_true,
    sdu_rx_drf, rina_sdu_rx_flow]
  obtain ⟨s1, s2, s3, ⟨D, s4, s5⟩, _⟩ := sdu_rx_sv_update_spec (w.emit (event.sdu_rx rb)) fi
    { f with dtp := { rcv_inact_rearm f.cfg f.dtp with
        rcv_lwe := u64 (rb.pci.base.seqnum + 1), max_seq_num_rcvd := rb.pci.base.seqnum } }
  generalize hsv : sdu_rx_sv_update (w.emit (event.sdu_rx rb)) fi
    { f with dtp := { rcv_inact_rearm f.cfg f.dtp with
        rcv_lwe := u64 (rb.pci.base.seqnum + 1), max_seq_num_rcvd := rb.pci.base.seqnum } }
    = sv at s1 s2 s3 s4
  obtain ⟨w1, f1, h1, h2, h3, h4, h5⟩ := rx_tail (rina_normal_sdu_rx n) w
    (sv.2.emit (event.sdu_rx_flow fi (rina_buf_pci_pop rb))) port fi f D sv.1 0 s4 s1 hg hne
  simp only [fkey, Prod.mk.injEq] at h4
  obtain ⟨_, _, e3, e4, e5⟩ := h4
  refine ⟨w1, f1, h1, h2, h3, e3, e4, ?_, ?_, ?_, ?_, ?_⟩
  · rw [e5]; exact congrArg dtp.rcv_lwe s5
  · rw [e5]; exact congrArg dtp.max_seq_num_rcvd s5
  · rw [e5]; exact (congrArg dtp.seqq s5).trans hr.2.2.1
  · rw [e5]; exact (congrArg dtp.last_snd_data_ack s5).trans hr.2.2.2
  · rw [h5]
    simp only [World.emit, s3, delivered_append]
    simp [delivered]

/-- The delivery path of `rina_normal_sdu_rx` on a flow whose remote address is not the
IPCP's own: the PDU is delivered upward, followed by what `seqq_pop_many` pops. -/
theorem rx_step_deliver (n : Nat) (w : World) (rb : rina_buf) (port fi : Nat) (f : flow_entry)
    (hp : pdu_for w port rb) (hg : flow_get w port = some (fi, f))
    (hne : f.remote_addr ≠ w.addr) (hfl : ¬ rb.pci.base.pdu_flags % 2 = 1)
    (hnd : ¬ rb.pci.base.seqnum < f.dtp.rcv_lwe)
    (hgap : sub64 rb.pci.base.seqnum f.dtp.rcv_lwe ≤ f.cfg.max_sdu_gap) :
    ∃ w1 f1, rina_normal_sdu_rx (n + 1) w rb = Except.ok (0, w1) ∧ w1.addr = w.addr ∧
      flow_get w1 port = some (fi, f1) ∧ f1.remote_addr = f.remote_addr ∧ f1.cfg = f.cfg ∧
      f1.dtp.rcv_lwe = (seqq_pop_many f.cfg.max_sdu_gap f.dtp.seqq
        (u64 (rb.pci.base.seqnum + 1))).2.1 ∧
      f1.dtp.seqq = (seqq_pop_many f.cfg.max_sdu_gap f.dtp.seqq
        (u64 (rb.pci.base.seqnum + 1))).1 ∧
      f1.dtp.last_snd_data_ack = f.dtp.last_snd_data_ack ∧
      delivered w1.trace = delivered w.trace ++ (fi, rina_buf_pci_pop rb) ::
        (seqq_pop_many f.cfg.max_sdu_gap f.dtp.seqq
          (u64 (rb.pci.base.seqnum + 1))).2.2.map (fun b => (fi, b)) := by
  obtain ⟨ha, hpt, ht⟩ := hp
  have hg' : flow_get w rb.pci.base.dst_cep = some (fi, f) := by rw [hpt]; exact hg
  have hr := rcv_inact_rearm_fields f.cfg f.dtp
  have hm := rcv_max_update_fields (rcv_inact_rearm f.cfg f.dtp) rb.pci.base.seqnum
  have hnd' : ¬ rb.pci.base.seqnum < (rcv_inact_rearm f.cfg f.dtp).rcv_lwe := by
    rw [hr.1]; exact hnd
  have hgap' : sub64 rb.pci.base.seqnum (rcv_inact_rearm f.cfg f.dtp).rcv_lwe
      ≤ f.cfg.max_sdu_gap := by rw [hr.1]; exact hgap
  simp only [rina_normal_sdu_rx, sdu_rx_body_data _ _ _ _ _ ha hg' ht, hfl, if_false, hnd']
  rw [sdu_rx_seq_deliver _ _ _ _ _ _ _ hgap']
  simp only [hr.2.2.1, rina_sdu_rx_flow]
  generalize hpm : seqq_pop_many f.cfg.max_sdu_gap f.dtp.seqq (u64 (rb.pci.base.seqnum + 1))
    = pm
  obtain ⟨s1, s2, s3, ⟨D, s4, s5⟩, _⟩ := sdu_rx_sv_update_spec (w.emit (event.sdu_rx rb)) fi
    { f with dtp := { rcv_max_update (rcv_inact_rearm f.cfg f.dtp) rb.pci.base.seqnum with
        rcv_lwe := pm.2.1, seqq := pm.1 } }
  generalize hsv : sdu_rx_sv_update (w.emit (event.sdu_rx rb)) fi
    { f with dtp := { rcv_max_update (rcv_inact_rearm f.cfg f.dtp) rb.pci.base.seqnum with
        rcv_lwe := pm.2.1, seqq := pm.1 } } = sv at s1 s2 s3 s4
  have hup := rx_flow_list_spec fi pm.2.2 (sv.2.emit (event.sdu_rx_flow fi (rina_buf_pci_pop rb)))
  rw [hup]
  obtain ⟨w1, f1, h1, h2, h3, h4, h5⟩ := rx_tail (rina_normal_sdu_rx n) w
    ({ (sv.2.emit (event.sdu_rx_flow fi (rina_buf_pci_pop rb))) with
      trace := (sv.2.emit (event.sdu_rx_flow fi (rina_buf_pci_pop rb))).trace ++
        pm.2.2.map (fun b => event.sdu_rx_flow fi b) } : World)
    port fi f D sv.1 0 s4 s1 hg hne
  simp only [fkey, Prod.mk.injEq] at h4
  obtain ⟨_, _, e3, e4, e5⟩ := h4
  refine ⟨w1, f1, h1, h2, h3, e3, e4, ?_, ?_, ?_, ?_⟩
  · rw [e5]; exact congrArg dtp.rcv_lwe s5
  · rw [e5]; exact congrArg dtp.seqq s5
  · rw [e5]; exact ((congrArg dtp.last_snd_data_ack s5).trans hm.2.2.2.2).trans hr.2.2.2
  · rw [h5]
    simp only [World.emit, s3, delivered_append, delivered_map_rx_flow]
    simp [delivered]

theorem alloc_fst_eq (w1 w : World) (h : w1.alloc_ok = w.alloc_ok) :
    w1.alloc.1 = w.alloc.1 := by
  unfold World.alloc
  rw [h]
  cases w.alloc_ok <;> rfl

theorem ctrl_pdu_alloc_ok (w : World) (fi : Nat) (flow : flow_entry) (t a : Nat) :
    ((ctrl_pdu_alloc w fi flow t a).1 = none ↔ w.alloc.1 = false) := by
  unfold ctrl_pdu_alloc World.alloc
  cases hal : w.alloc_ok with
  | nil => simp
  | cons b bs => cases b <;> simp

/-- The duplicate path of `rina_normal_sdu_rx`, up to the point where the control PDU, if
any, is handed to the router.  The buffer is freed; the DTP state `D` stored for the flow is
the given one but for `next_snd_ctl_seq` and `last_snd_data_ack`.  Either flow control is
on, `rcv_lwe >= last_snd_data_ack` and the control buffer is allocated: then one control PDU
of type CTRL|ACK|FC acknowledging `rcv_lwe` is forwarded toward the remote address and
`last_snd_data_ack` becomes `rcv_lwe`; or no control PDU is built, the call returns 0 and
`last_snd_data_ack` is unchanged. -/
theorem sdu_rx_dup_spec (rx : World → rina_buf → Res) (w : World) (fi : Nat)
    (flow : flow_entry) (d : dtp) (rb : rina_buf) :
    ∃ (wm : World) (D : dtp), wm.addr = w.addr ∧ wm.trace = w.trace ++ [event.buf_free rb] ∧
      wm.flows = (w.set_dtp fi D).flows ∧
      { D with next_snd_ctl_seq := d.next_snd_ctl_seq,
               last_snd_data_ack := d.last_snd_data_ack } = d ∧
      (((flow.cfg.dtcp.flow_control = true ∧ d.rcv_lwe ≥ d.last_snd_data_ack ∧
            w.alloc.1 = true) ∧
          D.last_snd_data_ack = d.rcv_lwe ∧
          ∃ crb, sdu_rx_dup rx w fi flow d rb = snd_crb rx wm flow.remote_addr (some crb) 0 ∧
            crb.pci.base.dst_addr = flow.remote_addr ∧
            crb.pci.base.pdu_type =
              PDU_T_CTRL_MASK ||| PDU_T_ACK_BIT ||| PDU_T_ACK ||| PDU_T_FC_BIT ∧
            crb.pci.ack_nack_seq_num = d.rcv_lwe) ∨
        (¬ (flow.cfg.dtcp.flow_control = true ∧ d.rcv_lwe ≥ d.last_snd_data_ack ∧
            w.alloc.1 = true) ∧
          D.last_snd_data_ack = d.last_snd_data_ack ∧
          sdu_rx_dup rx w fi flow d rb = Except.ok (0, wm))) := by
  by_cases hc : flow.cfg.dtcp.flow_control = true ∧ d.rcv_lwe ≥ d.last_snd_data_ack
  · obtain ⟨h1, h2, h3, h4⟩ := ctrl_pdu_alloc_spec ((w.set_dtp fi d).emit (event.buf_free rb))
      fi { flow with dtp := d }
      (PDU_T_CTRL_MASK ||| PDU_T_ACK_BIT ||| PDU_T_ACK ||| PDU_T_FC_BIT) d.rcv_lwe
    have hok := ctrl_pdu_alloc_ok ((w.set_dtp fi d).emit (event.buf_free rb))
      fi { flow with dtp := d }
      (PDU_T_CTRL_MASK ||| PDU_T_ACK_BIT ||| PDU_T_ACK ||| PDU_T_FC_BIT) d.rcv_lwe
    have hal : ((w.set_dtp fi d).emit (event.buf_free rb)).alloc.1 = w.alloc.1 :=
      alloc_fst_eq _ _ rfl
    rw [hal] at hok
    rcases h4 with ⟨h5, h6⟩ | ⟨crb, h5, h6, h7, h8, h9⟩
    · refine ⟨_, d, h1, h3, h6, rfl, Or.inr ⟨?_, rfl, ?_⟩⟩
      · rw [hok.1 h5]; simp
      · simp only [sdu_rx_dup, hc, and_self, if_true, h5]
    · have hal1 : w.alloc.1 = true := by
        cases hw : w.alloc.1 with
        | true => rfl
        | false => rw [hok.2 hw] at h5; exact absurd h5 (by simp)
      refine ⟨(ctrl_pdu_alloc ((w.set_dtp fi d).emit (event.buf_free rb)) fi
          { flow with dtp := d }
          (PDU_T_CTRL_MASK ||| PDU_T_ACK_BIT ||| PDU_T_ACK ||| PDU_T_FC_BIT) d.rcv_lwe).2.upd_flow
          fi (fun f => { f with dtp := { f.dtp with last_snd_data_ack := d.rcv_lwe } }),
        { d with next_snd_ctl_seq := u64 (d.next_snd_ctl_seq + 1),
                 last_snd_data_ack := d.rcv_lwe }, h1, h3, ?_, rfl,
        Or.inl ⟨⟨hc.1, hc.2, hal1⟩, rfl, crb, ?_, h6, h7, h8⟩⟩
      · show List.modify _ fi (ctrl_pdu_alloc _ fi _ _ _).2.flows = _
        rw [h9]
        simp only [World.set_dtp, World.upd_flow, World.emit, List.modify_modify_eq]
        rfl
      · simp only [sdu_rx_dup, hc, and_self, if_true, h5]
  · refine ⟨(w.set_dtp fi d).emit (event.buf_free rb), d, rfl, rfl, rfl, rfl, Or.inr ⟨?_, rfl, ?_⟩⟩
    · intro h; exact hc ⟨h.1, h.2.1⟩
    · simp only [sdu_rx_dup, hc, if_false]

/-- C8 (as amended): duplicate handling.  For a data PDU without DRF, addressed to this
IPCP on an existing flow, whose seqnum is below `rcv_lwe`: the buffer is freed and not
delivered upward, and `rcv_lwe`, `max_seq_num_rcvd` and `seqq` are unchanged at the point
where the function is done with the flow state.  If flow control is on,
`rcv_lwe >= last_snd_data_ack` and the control buffer can be allocated, one control PDU of
type CTRL|ACK|FC with `ack_nack_seq_num = rcv_lwe` is forwarded toward `flow.remote_addr`
and `last_snd_data_ack` has become `rcv_lwe`; otherwise no control PDU is emitted, the call
returns 0 and `last_snd_data_ack` is unchanged. -/
theorem sdu_rx_duplicate (rx : World → rina_buf → Res) (w : World) (rb : rina_buf) (fi : Nat)
    (f : flow_entry) (ha : rb.pci.base.dst_addr = w.addr)
    (hg : flow_get w rb.pci.base.dst_cep = some (fi, f))
    (ht : rb.pci.base.pdu_type = PDU_T_DT) (hfl : ¬ rb.pci.base.pdu_flags % 2 = 1)
    (hs : rb.pci.base.seqnum < f.dtp.rcv_lwe) :
    ∃ (wm : World) (fm : flow_entry), wm.flows[fi]? = some fm ∧
      wm.trace = w.trace ++ [event.sdu_rx rb, event.buf_free (rina_buf_pci_pop rb)] ∧
      fm.dtp.rcv_lwe = f.dtp.rcv_lwe ∧ fm.dtp.max_seq_num_rcvd = f.dtp.max_seq_num_rcvd ∧
      fm.dtp.seqq = f.dtp.seqq ∧
      (((f.cfg.dtcp.flow_control = true ∧ f.dtp.rcv_lwe ≥ f.dtp.last_snd_data_ack ∧
            w.alloc.1 = true) ∧
          fm.dtp.last_snd_data_ack = f.dtp.rcv_lwe ∧
          ∃ crb, rina_normal_sdu_rx_body rx w rb = snd_crb rx wm f.remote_addr (some crb) 0 ∧
            crb.pci.base.dst_addr = f.remote_addr ∧
            crb.pci.base.pdu_type =
              PDU_T_CTRL_MASK ||| PDU_T_ACK_BIT ||| PDU_T_ACK ||| PDU_T_FC_BIT ∧
            crb.pci.ack_nack_seq_num = f.dtp.rcv_lwe) ∨
        (¬ (f.cfg.dtcp.flow_control = true ∧ f.dtp.rcv_lwe ≥ f.dtp.last_snd_data_ack ∧
            w.alloc.1 = true) ∧
          fm.dtp.last_snd_data_ack = f.dtp.last_snd_data_ack ∧
          rina_normal_sdu_rx_body rx w rb = Except.ok (0, wm))) := by
  have hr := rcv_inact_rearm_fields f.cfg f.dtp
  have hs' : rb.pci.base.seqnum < (rcv_inact_rearm f.cfg f.dtp).rcv_lwe := by rw [hr.1]; exact hs
  have hf := (flow_get_some hg).1
  rw [sdu_rx_body_data rx w rb fi f ha hg ht]
  simp only [hfl, if_false, hs', if_true]
  obtain ⟨wm, D, h1, h2, h3, h4, h5⟩ := sdu_rx_dup_spec rx (w.emit (event.sdu_rx rb)) fi f
    (rcv_inact_rearm f.cfg f.dtp) (rina_buf_pci_pop rb)
  have hal : (w.emit (event.sdu_rx rb)).alloc.1 = w.alloc.1 := alloc_fst_eq _ _ rfl
  rw [hal, hr.1, hr.2.2.2] at h5
  refine ⟨wm, { f with dtp := D }, ?_, ?_, ?_, ?_, ?_, h5⟩
  · rw [h3]; exact set_dtp_get hf D
  · rw [h2]; simp [World.emit]
  · exact (congrArg dtp.rcv_lwe h4).trans hr.1
  · exact (congrArg dtp.max_seq_num_rcvd h4).trans hr.2.1
  · exact (congrArg dtp.seqq h4).trans hr.2.2.1

/-- Witness of C8 (as amended): seqnum 5 arrives again when `rcv_lwe = 6`; the control PDU
acknowledges 6. -/
theorem sdu_rx_duplicate_witness :
    flow_get world_s5 (data_pdu 42 1 5 0 [5]).pci.base.dst_cep = some (0, flow_s5) ∧
    (data_pdu 42 1 5 0 [5]).pci.base.seqnum < flow_s5.dtp.rcv_lwe ∧
    ∃ (wm : World) (fm : flow_entry), wm.flows[0]? = some fm ∧
      fm.dtp.rcv_lwe = 6 :=
  ⟨rfl, by decide,
    let ⟨wm, fm, h1, _, h3, _⟩ := sdu_rx_duplicate (rina_normal_sdu_rx 0) world_s5
      (data_pdu 42 1 5 0 [5]) 0 flow_s5 rfl rfl rfl (by decide) (by decide)
    ⟨wm, fm, h1, h3⟩⟩

/-- C8, the claim as stated fails when the control buffer cannot be allocated: flow control
is on and `rcv_lwe = 6 >= last_snd_data_ack = 0`, yet the duplicate of seqnum 5 makes
`sdu_rx` hand nothing to the router, and `last_snd_data_ack` stays 0. -/
theorem sdu_rx_duplicate_counterexample :
    flow_s5.cfg.dtcp.flow_control = true ∧
    flow_s5.dtp.rcv_lwe ≥ flow_s5.dtp.last_snd_data_ack ∧
    ∃ w1, rina_normal_sdu_rx 1 world_s5_oom (data_pdu 42 1 5 0 [5]) = Except.ok (0, w1) ∧
      handed w1.trace = [] ∧
      w1.flows.map (fun f => (f.dtp.rcv_lwe, f.dtp.last_snd_data_ack)) = [(6, 0)] :=
  ⟨rfl, by decide, _, rfl, rfl, rfl⟩

/-- The duplicate path of `rina_normal_sdu_rx` on a flow whose remote address is not the
IPCP's own: nothing is delivered upward and the receiver window and the sequencing queue
are left as they are. -/
theorem rx_step_dup (n : Nat) (w : World) (rb : rina_buf) (port fi : Nat) (f : flow_entry)
    (hp : pdu_for w port rb) (hg : flow_get w port = some (fi, f))
    (hne : f.remote_addr ≠ w.addr) (hfl : ¬ rb.pci.base.pdu_flags % 2 = 1)
    (hs : rb.pci.base.seqnum < f.dtp.rcv_lwe) :
    ∃ w1 f1, rina_normal_sdu_rx (n + 1) w rb = Except.ok (0, w1) ∧ w1.addr = w.addr ∧
      flow_get w1 port = some (fi, f1) ∧ f1.remote_addr = f.remote_addr ∧ f1.cfg = f.cfg ∧
      f1.dtp.rcv_lwe = f.dtp.rcv_lwe ∧ f1.dtp.max_seq_num_rcvd = f.dtp.max_seq_num_rcvd ∧
      f1.dtp.seqq = f.dtp.seqq ∧
      delivered w1.trace = delivered w.trace := by
  obtain ⟨ha, hpt, ht⟩ := hp
  have hg' : flow_get w rb.pci.base.dst_cep = some (fi, f) := by rw [hpt]; exact hg
  have hr := rcv_inact_rearm_fields f.cfg f.dtp
  have hs' : rb.pci.base.seqnum < (rcv_inact_rearm f.cfg f.dtp).rcv_lwe := by rw [hr.1]; exact hs
  simp only [rina_normal_sdu_rx, sdu_rx_body_data _ _ _ _ _ ha hg' ht, hfl, if_false, hs',
    if_true]
  obtain ⟨wm, D, h1, h2, h3, h4, h5⟩ := sdu_rx_dup_spec (rina_normal_sdu_rx n)
    (w.emit (event.sdu_rx rb)) fi f (rcv_inact_rearm f.cfg f.dtp) (rina_buf_pci_pop rb)
  have hdm : delivered wm.trace = delivered w.trace := by
    rw [h2]; simp [World.emit, delivered_append, delivered]
  have key : ∀ crb, ∃ w1 f1, snd_crb (rina_normal_sdu_rx n) wm f.remote_addr crb 0
        = Except.ok (0, w1) ∧ w1.addr = w.addr ∧
      flow_get w1 port = some (fi, f1) ∧ f1.remote_addr = f.remote_addr ∧ f1.cfg = f.cfg ∧
      f1.dtp.rcv_lwe = f.dtp.rcv_lwe ∧ f1.dtp.max_seq_num_rcvd = f.dtp.max_seq_num_rcvd ∧
      f1.dtp.seqq = f.dtp.seqq ∧
      delivered w1.trace = delivered w.trace := by
    intro crb
    obtain ⟨w1, f1, e1, e2, e3, e4, e5⟩ := rx_tail (rina_normal_sdu_rx n) w wm port fi f D crb 0
      h3 h1 hg hne
    simp only [fkey, Prod.mk.injEq] at e4
    obtain ⟨_, _, k3, k4, k5⟩ := e4
    refine ⟨w1, f1, e1, e2, e3, k3, k4, ?_, ?_, ?_, e5.trans hdm⟩
    · rw [k5]; exact (congrArg dtp.rcv_lwe h4).trans hr.1
    · rw [k5]; exact (congrArg dtp.max_seq_num_rcvd h4).trans hr.2.1
    · rw [k5]; exact (congrArg dtp.seqq h4).trans hr.2.2.1
  rcases h5 with ⟨_, _, crb, h6, _⟩ | ⟨_, _, h6⟩
  · rw [h6]; exact key (some crb)
  · rw [h6]; exact key none

/-- C7 (as amended): the resequencing scenario.  On a receiving flow with
`max_sdu_gap = 10` and an empty sequencing queue (with `rtx_control` set or not), whose
remote address is not the IPCP's own, let `sdu_rx` receive a data PDU with DRF and seqnum 0 and
then data PDUs with seqnums 2, 3, 1 in that order.  The upward deliveries are 0, 2 and 3,
each made when the PDU arrives (a gap of 1 is within `max_sdu_gap`); the PDU of seqnum 1,
which arrives last, is a duplicate and is not delivered; the final `rcv_lwe` is 4. -/
theorem resequencing_scenario (n : Nat) (w : World) (port fi : Nat) (f : flow_entry)
    (p0 p2 p3 p1 : rina_buf)
    (hg : flow_get w port = some (fi, f)) (hne : f.remote_addr ≠ w.addr)
    (hgap : f.cfg.max_sdu_gap = 10) (hq : f.dtp.seqq = [])
    (h0 : pdu_for w port p0 ∧ p0.pci.base.seqnum = 0 ∧ p0.pci.base.pdu_flags = 1)
    (h2 : pdu_for w port p2 ∧ p2.pci.base.seqnum = 2 ∧ p2.pci.base.pdu_flags = 0)
    (h3 : pdu_for w port p3 ∧ p3.pci.base.seqnum = 3 ∧ p3.pci.base.pdu_flags = 0)
    (h1 : pdu_for w port p1 ∧ p1.pci.base.seqnum = 1 ∧ p1.pci.base.pdu_flags = 0) :
    ∃ w3 w4 f4, rx_all (n + 1) [p0, p2, p3] w = Except.ok ([0, 0, 0], w3) ∧
      delivered w3.trace = delivered w.trace ++
        [(fi, rina_buf_pci_pop p0), (fi, rina_buf_pci_pop p2), (fi, rina_buf_pci_pop p3)] ∧
      rina_normal_sdu_rx (n + 1) w3 p1 = Except.ok (0, w4) ∧
      delivered w4.trace = delivered w3.trace ∧
      flow_get w4 port = some (fi, f4) ∧ f4.dtp.rcv_lwe = 4 := by
  obtain ⟨hp0, hs0, hf0⟩ := h0
  obtain ⟨hp2, hs2, hf2⟩ := h2
  obtain ⟨hp3, hs3, hf3⟩ := h3
  obtain ⟨hp1, hs1, hf1⟩ := h1
  have pm_nil : ∀ x, seqq_pop_many 10 [] x = ([], x, []) := fun _ => rfl
  -- seqnum 0 with DRF
  obtain ⟨wa, fa, ra, aa, ga, rema, cfga, lwea, _, qa, _, da⟩ := rx_step_drf n w p0 port fi f hp0
    hg hne (by rw [hf0])
  rw [hs0] at lwea
  have hpa : ∀ p, pdu_for w port p → pdu_for wa port p := fun p h => ⟨h.1.trans aa.symm, h.2⟩
  -- seqnum 2
  obtain ⟨wb, fb, rb, ab, gb, remb, cfgb, lweb, qb, _, db⟩ := rx_step_deliver n wa p2 port fi fa
    (hpa _ hp2) ga (by rw [rema, aa]; exact hne) (by rw [hf2]; decide)
    (by rw [hs2, lwea]; decide) (by rw [hs2, lwea, cfga, hgap]; decide)
  rw [cfga, hgap, qa, hq, pm_nil, hs2] at lweb qb db
  have hpb : ∀ p, pdu_for w port p → pdu_for wb port p :=
    fun p h => ⟨(hpa p h).1.trans ab.symm, h.2⟩
  -- seqnum 3
  obtain ⟨wc, fc, rc, ac, gc, remc, cfgc, lwec, qc, _, dc⟩ := rx_step_deliver n wb p3 port fi fb
    (hpb _ hp3) gb (by rw [remb, rema, ab, aa]; exact hne) (by rw [hf3]; decide)
    (by rw [hs3, lweb]; decide) (by rw [hs3, lweb, cfgb, cfga, hgap]; decide)
  rw [cfgb, cfga, hgap, qb, pm_nil, hs3] at lwec qc dc
  have hpc : ∀ p, pdu_for w port p → pdu_for wc port p :=
    fun p h => ⟨(hpb p h).1.trans ac.symm, h.2⟩
  -- seqnum 1
  obtain ⟨wd, fd, rd, ad, gd, remd, cfgd, lwed, _, _, dd⟩ := rx_step_dup n wc p1 port fi fc
    (hpc _ hp1) gc (by rw [remc, remb, rema, ac, ab, aa]; exact hne) (by rw [hf1]; decide)
    (by rw [hs1, lwec]; decide)
  refine ⟨wc, wd, fd, ?_, ?_, rd, dd, gd, ?_⟩
  · simp only [rx_all, ra, rb, rc]
  · rw [dc, db, da]; simp
  · rw [lwed, lwec]; rfl

/-- Witness of C7 (as amended) on a fresh flow of port 1 with `max_sdu_gap = 10` and
retransmission control. -/
theorem resequencing_scenario_witness :
    ∃ w3 w4 f4, rx_all 1 [data_pdu 42 1 0 1 [0], data_pdu 42 1 2 0 [2], data_pdu 42 1 3 0 [3]]
        (world_s4 10) = Except.ok ([0, 0, 0], w3) ∧
      delivered w3.trace = delivered (world_s4 10).trace ++
        [(0, rina_buf_pci_pop (data_pdu 42 1 0 1 [0])),
         (0, rina_buf_pci_pop (data_pdu 42 1 2 0 [2])),
         (0, rina_buf_pci_pop (data_pdu 42 1 3 0 [3]))] ∧
      rina_normal_sdu_rx 1 w3 (data_pdu 42 1 1 0 [1]) = Except.ok (0, w4) ∧
      delivered w4.trace = delivered w3.trace ∧
      flow_get w4 1 = some (0, f4) ∧ f4.dtp.rcv_lwe = 4 :=
  resequencing_scenario 0 (world_s4 10) 1 0 (mk_flow 1 2 43 (cfg_rtx 10))
    (data_pdu 42 1 0 1 [0]) (data_pdu 42 1 2 0 [2]) (data_pdu 42 1 3 0 [3])
    (data_pdu 42 1 1 0 [1]) rfl (by decide) rfl rfl
    ⟨⟨rfl, rfl, rfl⟩, rfl, rfl⟩ ⟨⟨rfl, rfl, rfl⟩, rfl, rfl⟩ ⟨⟨rfl, rfl, rfl⟩, rfl, rfl⟩
    ⟨⟨rfl, rfl, rfl⟩, rfl, rfl⟩

/-- C7 (counterexample to the claim as written): with `max_sdu_gap = 10` and
`rtx_control = true`, after the DRF PDU of seqnum 0 the PDU of seqnum 2 is delivered upward
as soon as it arrives, before seqnum 1 has been received; once 0, 2, 3, 1 have all been
received the deliveries are 0, 2, 3 and seqnum 1 has not been delivered. -/
theorem resequencing_scenario_counterexample :
    (cfg_rtx 10).max_sdu_gap = 10 ∧ (cfg_rtx 10).dtcp.rtx_control = true ∧
    (∃ w2, rx_all 1 [data_pdu 42 1 0 1 [0], data_pdu 42 1 2 0 [2]] (world_s4 10)
        = Except.ok ([0, 0], w2) ∧
      (delivered w2.trace).map (fun p => p.2.pci.base.seqnum) = [0, 2]) ∧
    ∃ w4, rx_all 1 [data_pdu 42 1 0 1 [0], data_pdu 42 1 2 0 [2], data_pdu 42 1 3 0 [3],
        data_pdu 42 1 1 0 [1]] (world_s4 10) = Except.ok ([0, 0, 0, 0], w4) ∧
      (delivered w4.trace).map (fun p => p.2.pci.base.seqnum) = [0, 2, 3] ∧
      w4.flows.map (fun f => f.dtp.rcv_lwe) = [4] :=
  ⟨rfl, rfl, ⟨_, rfl, rfl⟩, _, rfl, rfl, rfl⟩

/-- C9 (the defect): on a receiving flow with `max_sdu_gap = 0` and retransmission
control, after a DRF PDU of seqnum 0 the data PDUs of seqnums 2, 1, 2 (none with DRF) are
received.  The first 2 is queued in `seqq`; 1 is delivered and `seqq_pop_many` pops the
queued 2 but leaves `rcv_lwe` at 2 instead of 3; the second 2 is then not recognised as a
duplicate and is delivered again: the upward deliveries carry seqnums 0, 1, 2, 2. -/
theorem sdu_rx_gap0_redelivery :
    (cfg_rtx 0).max_sdu_gap = 0 ∧
    (∃ w3, rx_all 1 [data_pdu 42 1 0 1 [0], data_pdu 42 1 2 0 [2], data_pdu 42 1 1 0 [1]]
        (world_s4 0) = Except.ok ([0, 0, 0], w3) ∧
      (delivered w3.trace).map (fun p => p.2.pci.base.seqnum) = [0, 1, 2] ∧
      w3.flows.map (fun f => (f.dtp.rcv_lwe, f.dtp.seqq)) = [(2, [])]) ∧
    ∃ w4, rx_all 1 [data_pdu 42 1 0 1 [0], data_pdu 42 1 2 0 [2], data_pdu 42 1 1 0 [1],
        data_pdu 42 1 2 0 [2]] (world_s4 0) = Except.ok ([0, 0, 0, 0], w4) ∧
      (delivered w4.trace).map (fun p => p.2.pci.base.seqnum) = [0, 1, 2, 2] :=
  ⟨rfl, ⟨_, rfl, rfl, rfl⟩, _, rfl, rfl⟩

theorem alloc_frame (w : World) :
    w.alloc.2.flows = w.flows ∧ w.alloc.2.addr = w.addr ∧ w.alloc.2.trace = w.trace := by
  unfold World.alloc
  split <;> exact ⟨rfl, rfl, rfl⟩

/-- The hand-over at the end of `rina_normal_sdu_write` when the remote address is not the
IPCP's own: the router takes the buffer and the flow keeps the DTP state just stored. -/
theorem write_tail (rx : World → rina_buf → Res) (w X : World) (fi : Nat) (f : flow_entry)
    (D : dtp) (rb : rina_buf) (ms : Bool)
    (hX : X.flows = w.flows ∧ X.addr = w.addr ∧ X.trace = w.trace)
    (hf : w.flows[fi]? = some f) (hne : f.remote_addr ≠ w.addr) :
    ∃ r w1 f1, rmt_tx rx (X.set_dtp fi D) f.remote_addr rb ms = Except.ok (r, w1) ∧
      w1.flows[fi]? = some f1 ∧ w1.addr = w.addr ∧ f1.remote_addr = f.remote_addr ∧
      f1.cfg = f.cfg ∧ f1.dtp = D ∧
      handed w1.trace = handed w.trace ++ [(f.remote_addr, rb)] := by
  have hfX : X.flows[fi]? = some f := by rw [hX.1]; exact hf
  have ha : (X.set_dtp fi D).addr = w.addr := hX.2.1
  have htr : (X.set_dtp fi D).trace = w.trace := hX.2.2
  obtain ⟨r, w1, h1, k, ht⟩ := rmt_tx_away rx (X.set_dtp fi D) f.remote_addr rb ms
    (by rw [ha]; exact hne)
  obtain ⟨f1, hf1, hk1⟩ := away_get k (set_dtp_get hfX D)
  simp only [fkey, Prod.mk.injEq] at hk1
  obtain ⟨_, _, e3, e4, e5⟩ := hk1
  exact ⟨r, w1, f1, h1, hf1, k.addr.trans ha, e3, e4, e5, by rw [ht, htr]⟩

/-- What one `sdu_write` does on a flow with DTCP and window flow control whose remote
address is not the IPCP's own.  It returns, unless retransmission control is on and the PDU
is bound for the cwq; when it returns, either nothing was consumed (BackPressure), or the
stamped PDU was appended to the cwq, or it was in the window and was handed to the router
(or freed, when the clone for the rtxq could not be allocated). -/
theorem sdu_write_win_cases (fuel : Nat) (w : World) (fi : Nat) (f : flow_entry)
    (rb : rina_buf) (ms : Bool) (hf : w.flows[fi]? = some f) (hne : f.remote_addr ≠ w.addr)
    (hdp : f.cfg.dtcp_present = true)
    (hfc : f.cfg.dtcp.fc.fc_type = fc_type.RINA_FC_T_WIN) :
    (f.cfg.dtcp.rtx_control = false ∨ ¬ f.dtp.next_seq_num_to_send > f.dtp.snd_rwe →
      ∃ r w1, sdu_write fuel w fi rb ms = Except.ok (r, w1)) ∧
    ∀ r w1, sdu_write fuel w fi rb ms = Except.ok (r, w1) →
      ∃ f1, w1.flows[fi]? = some f1 ∧ w1.addr = w.addr ∧ f1.remote_addr = f.remote_addr ∧
        f1.cfg = f.cfg ∧ f1.dtp.snd_rwe = f.dtp.snd_rwe ∧
        ((window_overrun f ∧ f1.dtp.next_seq_num_to_send = f.dtp.next_seq_num_to_send ∧
            f1.dtp.snd_lwe = f.dtp.snd_lwe ∧ f1.dtp.cwq = f.dtp.cwq ∧
            handed w1.trace = handed w.trace) ∨
         (f.dtp.next_seq_num_to_send > f.dtp.snd_rwe ∧
            f1.dtp.next_seq_num_to_send = u64 (f.dtp.next_seq_num_to_send + 1) ∧
            f1.dtp.snd_lwe = f.dtp.snd_lwe ∧
            f1.dtp.cwq = f.dtp.cwq ++ [sdu_write_stamp w f rb] ∧
            handed w1.trace = handed w.trace) ∨
         (¬ f.dtp.next_seq_num_to_send > f.dtp.snd_rwe ∧
            f1.dtp.next_seq_num_to_send = u64 (f.dtp.next_seq_num_to_send + 1) ∧
            f1.dtp.snd_lwe = u64 (f.dtp.next_seq_num_to_send + 1) ∧
            f1.dtp.cwq = f.dtp.cwq ∧
            (handed w1.trace = handed w.trace ++ [(f.remote_addr, sdu_write_stamp w f rb)] ∨
              (f.cfg.dtcp.rtx_control = true ∧ handed w1.trace = handed w.trace)))) := by
  have hnf := sdu_write_next_fields f
  by_cases hw : window_overrun f
  · have hrun : sdu_write fuel w fi rb ms =
        Except.ok (-EAGAIN, w.set_dtp fi (snd_inact_cancel f.cfg f.dtp)) := by
      simp only [sdu_write, rina_normal_sdu_write, hf, hw, if_true]
    have hc : snd_inact_cancel f.cfg f.dtp = { f.dtp with snd_inact_tmr := none } := by
      simp [snd_inact_cancel, hdp]
    rw [hrun]
    refine ⟨fun _ => ⟨_, _, rfl⟩, ?_⟩
    intro r w1 h
    simp only [Except.ok.injEq, Prod.mk.injEq] at h
    obtain ⟨_, rfl⟩ := h
    refine ⟨_, set_dtp_get hf _, rfl, rfl, rfl, ?_, Or.inl ⟨hw, ?_, ?_, ?_, rfl⟩⟩ <;> rw [hc]
  · by_cases hgt : f.dtp.next_seq_num_to_send > f.dtp.snd_rwe
    · cases hrtx : f.cfg.dtcp.rtx_control with
      | false =>
        rw [sdu_write_queue_eq fuel w fi f rb ms hf hw hdp hfc hgt hrtx]
        refine ⟨fun _ => ⟨_, _, rfl⟩, ?_⟩
        intro r w1 h
        simp only [Except.ok.injEq, Prod.mk.injEq] at h
        obtain ⟨_, rfl⟩ := h
        refine ⟨_, set_dtp_get hf _, rfl, rfl, rfl, ?_, Or.inr (Or.inl ⟨hgt, ?_, ?_, ?_, rfl⟩)⟩ <;>
          rw [sdu_write_window_cwq w f rb hfc hgt]
        · exact hnf.1
        · exact hnf.2.2.2.2.2.1
        · exact hnf.2.1
        · show (sdu_write_next f).cwq ++ [sdu_write_stamp w f rb] = _
          rw [hnf.2.2.1]
      | true =>
        have hrun : sdu_write fuel w fi rb ms = Except.error fault.oops := by
          simp only [sdu_write, rina_normal_sdu_write, hf, hw, if_false, hdp, Bool.not_true,
            Bool.false_eq_true, hrtx, if_true]
          rw [sdu_write_window_cwq w f rb hfc hgt]
        rw [hrun]
        refine ⟨fun h => ?_, fun r w1 h => by simp at h⟩
        rcases h with h | h
        · simp at h
        · exact absurd hgt h
    · have hq := sdu_write_window_send w f rb hfc hgt
      cases hrtx : f.cfg.dtcp.rtx_control with
      | false =>
        obtain ⟨r0, w0, f0, h1, g1, g2, g3, g4, g5, g6⟩ := write_tail (rina_normal_sdu_rx fuel)
          w w fi f (snd_inact_rearm (sdu_write_window f (sdu_write_stamp w f rb)).1)
          (sdu_write_stamp w f rb) ms ⟨rfl, rfl, rfl⟩ hf hne
        have hrun : sdu_write fuel w fi rb ms = Except.ok (r0, w0) := by
          rw [← h1]
          simp only [sdu_write, rina_normal_sdu_write, hf, hw, if_false, hdp, Bool.not_true,
            Bool.false_eq_true, hrtx]
          rw [hq]
        rw [hrun]
        refine ⟨fun _ => ⟨_, _, rfl⟩, ?_⟩
        intro r w1 h
        simp only [Except.ok.injEq, Prod.mk.injEq] at h
        obtain ⟨_, rfl⟩ := h
        refine ⟨f0, g1, g2, g3, g4, ?_, Or.inr (Or.inr ⟨hgt, ?_, ?_, ?_, Or.inl g6⟩)⟩ <;>
          rw [g5, hq]
        · exact hnf.1
        · exact hnf.2.2.2.2.2.1
        · exact hnf.2.2.2.2.2.1
        · exact hnf.2.2.1
      | true =>
        cases hal : w.alloc.1 with
        | false =>
          have hrun : sdu_write fuel w fi rb ms = Except.ok (-ENOMEM,
              (w.alloc.2.set_dtp fi (sdu_write_window f (sdu_write_stamp w f rb)).1).emit
                (event.buf_free (sdu_write_stamp w f rb))) := by
            simp only [sdu_write, rina_normal_sdu_write, hf, hw, if_false, hdp, Bool.not_true,
              Bool.false_eq_true, hrtx, if_true]
            rw [hq]
            simp only [hal, Bool.not_false, if_true]
          have hfa : w.alloc.2.flows[fi]? = some f := by rw [(alloc_frame w).1]; exact hf
          rw [hrun]
          refine ⟨fun _ => ⟨_, _, rfl⟩, ?_⟩
          intro r w1 h
          simp only [Except.ok.injEq, Prod.mk.injEq] at h
          obtain ⟨_, rfl⟩ := h
          refine ⟨_, set_dtp_get hfa _, (alloc_frame w).2.1, rfl, rfl, ?_,
            Or.inr (Or.inr ⟨hgt, ?_, ?_, ?_, Or.inr ⟨rfl, ?_⟩⟩)⟩
          · rw [hq]; exact hnf.1
          · rw [hq]; exact hnf.2.2.2.2.2.1
          · rw [hq]; exact hnf.2.2.2.2.2.1
          · rw [hq]; exact hnf.2.2.1
          · rw [handed_emit _ (event.buf_free (sdu_write_stamp w f rb)) rfl]
            show handed w.alloc.2.trace = handed w.trace
            rw [(alloc_frame w).2.2]
        | true =>
          obtain ⟨r0, w0, f0, h1, g1, g2, g3, g4, g5, g6⟩ := write_tail
            (rina_normal_sdu_rx fuel) w w.alloc.2 fi f
            (snd_inact_rearm { (sdu_write_window f (sdu_write_stamp w f rb)).1 with
              rtxq := (sdu_write_window f (sdu_write_stamp w f rb)).1.rtxq ++
                [sdu_write_stamp w f rb] })
            (sdu_write_stamp w f rb) ms (alloc_frame w) hf hne
          have hrun : sdu_write fuel w fi rb ms = Except.ok (r0, w0) := by
            rw [← h1]
            simp only [sdu_write, rina_normal_sdu_write, hf, hw, if_false, hdp, Bool.not_true,
              Bool.false_eq_true, hrtx, if_true]
            rw [hq]
            simp only [hal, Bool.not_true, Bool.false_eq_true, if_false]
          rw [hrun]
          refine ⟨fun _ => ⟨_, _, rfl⟩, ?_⟩
          intro r w1 h
          simp only [Except.ok.injEq, Prod.mk.injEq] at h
          obtain ⟨_, rfl⟩ := h
          refine ⟨f0, g1, g2, g3, g4, ?_, Or.inr (Or.inr ⟨hgt, ?_, ?_, ?_, Or.inl g6⟩)⟩ <;>
            rw [g5, hq]
          · exact hnf.1
          · exact hnf.2.2.2.2.2.1
          · exact hnf.2.2.2.2.2.1
          · exact hnf.2.2.1

/-- The loop that drains the cwq pops a prefix of the queue, in order; it leaves the right
window edge alone, advances `snd_lwe` by at most one per popped buffer, and stops with the
queue empty or the window closed. -/
theorem cwq_pop_spec : ∀ (l : List rina_buf) (d : dtp), d.cwq = l →
    (cwq_pop l d).2 ++ (cwq_pop l d).1.cwq = l ∧
    (cwq_pop l d).1.snd_rwe = d.snd_rwe ∧
    (cwq_pop l d).1.snd_lwe + (cwq_pop l d).1.cwq.length ≤ d.snd_lwe + l.length ∧
    ((cwq_pop l d).1.cwq = [] ∨ (cwq_pop l d).1.snd_rwe ≤ (cwq_pop l d).1.snd_lwe) := by
  intro l
  induction l with
  | nil =>
    intro d h
    simp [cwq_pop, h]
  | cons qrb rest ih =>
    intro d h
    by_cases hc : d.snd_lwe ≥ d.snd_rwe
    · have e : cwq_pop (qrb :: rest) d = (d, []) := by simp only [cwq_pop, hc, if_true]
      rw [e]
      exact ⟨by simpa using h, rfl, by rw [h], Or.inr hc⟩
    · obtain ⟨i1, i2, i3, i4⟩ := ih { d with
        cwq := rest
        cwq_len := d.cwq_len - 1
        last_seq_num_sent := d.snd_lwe
        snd_lwe := u64 (d.snd_lwe + 1) } rfl
      simp only [cwq_pop, hc, if_false]
      refine ⟨?_, i2, ?_, i4⟩
      · simp only [List.cons_append, i1]
      · have hu : u64 (d.snd_lwe + 1) ≤ d.snd_lwe + 1 := Nat.mod_le _ _
        simp only [List.length_cons]
        simp only at i3
        omega

/-- The shape of what the locked part of `sdu_rx_ctrl` does to the sender window: either
nothing, or the drain of the cwq from a state that differs from the given one in the right
window edge and the control seqnum only. -/
theorem sdu_rx_ctrl_locked_shape (pcic : rina_pci_ctrl) (d : dtp) :
    ((sdu_rx_ctrl_locked pcic d).2.1 = [] ∧ (sdu_rx_ctrl_locked pcic d).1.cwq = d.cwq ∧
      (sdu_rx_ctrl_locked pcic d).1.snd_lwe = d.snd_lwe ∧
      (sdu_rx_ctrl_locked pcic d).1.snd_rwe = d.snd_rwe) ∨
    ∃ d0 : dtp, d0.cwq = d.cwq ∧ d0.snd_lwe = d.snd_lwe ∧
      (sdu_rx_ctrl_locked pcic d).2.1 = (cwq_pop d.cwq d0).2 ∧
      (sdu_rx_ctrl_locked pcic d).1.cwq = (cwq_pop d.cwq d0).1.cwq ∧
      (sdu_rx_ctrl_locked pcic d).1.snd_lwe = (cwq_pop d.cwq d0).1.snd_lwe ∧
      (sdu_rx_ctrl_locked pcic d).1.snd_rwe = (cwq_pop d.cwq d0).1.snd_rwe := by
  simp only [sdu_rx_ctrl_locked]
  split
  · exact Or.inl ⟨rfl, rfl, rfl, rfl⟩
  · split <;> split <;> (try split) <;>
      first
      | exact Or.inl ⟨rfl, rfl, rfl, rfl⟩
      | exact Or.inr ⟨{ d with last_ctrl_seq_num_rcvd := pcic.base.seqnum, snd_rwe := pcic.new_rwe },
          rfl, rfl, rfl, rfl, rfl, rfl⟩

/-- What the locked part of `sdu_rx_ctrl` does to the sender state: it pops a prefix of the
cwq, never touches `next_seq_num_to_send`, and when some of the queue stays the right window
edge is still below the seqnum at the tail of the queue. -/
theorem sdu_rx_ctrl_locked_spec (pcic : rina_pci_ctrl) (d : dtp) (K : Nat)
    (hl : d.snd_lwe + d.cwq.length ≤ K) (hb : d.cwq = [] ∨ d.snd_rwe < K) :
    (sdu_rx_ctrl_locked pcic d).2.1 ++ (sdu_rx_ctrl_locked pcic d).1.cwq = d.cwq ∧
    (sdu_rx_ctrl_locked pcic d).1.next_seq_num_to_send = d.next_seq_num_to_send ∧
    (sdu_rx_ctrl_locked pcic d).1.snd_lwe + (sdu_rx_ctrl_locked pcic d).1.cwq.length ≤ K ∧
    ((sdu_rx_ctrl_locked pcic d).1.cwq = [] ∨ (sdu_rx_ctrl_locked pcic d).1.snd_rwe < K) := by
  refine ⟨?_, (sdu_rx_ctrl_locked_next pcic d).1, ?_⟩
  · rcases sdu_rx_ctrl_locked_shape pcic d with ⟨e1, e2, _, _⟩ | ⟨d0, c0, _, e1, e2, _, _⟩
    · rw [e1, e2]; rfl
    · rw [e1, e2]; exact (cwq_pop_spec d.cwq d0 c0).1
  · rcases sdu_rx_ctrl_locked_shape pcic d with ⟨_, e2, e3, e4⟩ | ⟨d0, c0, l0, _, e2, e3, e4⟩
    · rw [e2, e3, e4]; exact ⟨hl, hb⟩
    · obtain ⟨_, _, i3, i4⟩ := cwq_pop_spec d.cwq d0 c0
      rw [e2, e3, e4]
      rw [l0] at i3
      refine ⟨le_trans i3 hl, ?_⟩
      rcases i4 with i4 | i4
      · exact Or.inl i4
      · by_cases he : (cwq_pop d.cwq d0).1.cwq = []
        · exact Or.inl he
        · right
          have hpos := List.length_pos.mpr he
          have := le_trans i3 hl
          omega

/-- Sending a list of buffers none of which is addressed to this IPCP: every one is handed
to the router, in order, and the flows are left alone. -/
theorem rmt_tx_list_away (rx : World → rina_buf → Res) : ∀ (l : List rina_buf) (w : World),
    (∀ b ∈ l, b.pci.base.dst_addr ≠ w.addr) →
    ∃ w1, rmt_tx_list rx l w = Except.ok w1 ∧ Away w w1 ∧
      handed w1.trace = handed w.trace ++ l.map (fun b => (b.pci.base.dst_addr, b)) := by
  intro l
  induction l with
  | nil =>
    intro w _
    exact ⟨w, rfl, away_refl w, by simp⟩
  | cons b rest ih =>
    intro w h
    obtain ⟨r, w1, h1, k1, t1⟩ := rmt_tx_away rx w b.pci.base.dst_addr b false
      (h b (List.mem_cons_self _ _))
    obtain ⟨w2, h2, k2, t2⟩ := ih w1 (fun c hc => by
      rw [k1.addr]; exact h c (List.mem_cons_of_mem _ hc))
    refine ⟨w2, ?_, away_trans k1 k2, ?_⟩
    · simp only [rmt_tx_list, h1, h2]
    · rw [t2, t1]; simp

theorem range_split {α : Type} (g : α → Nat) (a b : List α) (c : Nat)
    (h : (a ++ b).map g = List.range' c (a ++ b).length) :
    a.map g = List.range' c a.length ∧ b.map g = List.range' (c + a.length) b.length := by
  rw [List.map_append, List.length_append, Nat.add_comm a.length, ← List.range'_append_1] at h
  exact List.append_inj h (by simp)

theorem seqnums_append (a b : List (Nat × rina_buf)) :
    seqnums (a ++ b) = seqnums a ++ seqnums b := by
  simp [seqnums]

theorem handed_buf_free (t : List event) (l : List rina_buf) :
    handed (t ++ l.map event.buf_free) = handed t := by
  rw [handed_append]
  have : handed (l.map event.buf_free) = [] := by
    induction l with
    | nil => rfl
    | cons b rest ih => simp [handed]
  rw [this, List.append_nil]

theorem delivered_buf_free (t : List event) (l : List rina_buf) :
    delivered (t ++ l.map event.buf_free) = delivered t := by
  rw [delivered_append]
  have : delivered (l.map event.buf_free) = [] := by
    induction l with
    | nil => rfl
    | cons b rest ih => simp [delivered]
  rw [this, List.append_nil]

/-- The sender invariant is kept by `sdu_write` as long as fewer than `2^64` PDUs have been
stamped; the call returns when retransmission control is off. -/
theorem snd_inv_write (fuel : Nat) (w : World) (fi : Nat) (f : flow_entry)
    (h0 hs : List (Nat × rina_buf)) (k c : Nat) (rb : rina_buf) (ms : Bool)
    (inv : snd_inv w fi f h0 hs k c) (hk : k < 2 ^ 64) :
    (f.cfg.dtcp.rtx_control = false → ∃ r w1, sdu_write fuel w fi rb ms = Except.ok (r, w1)) ∧
    ∀ r w1, sdu_write fuel w fi rb ms = Except.ok (r, w1) →
      ∃ f1 hs1 k1 c1, snd_inv w1 fi f1 h0 hs1 k1 c1 ∧ k1 ≤ k + 1 ∧ f1.cfg = f.cfg := by
  obtain ⟨hf, hne, hdp, hfc, hnext, hcwq, hck, hdst, hh, hsorted, hbound, hdt, hblk, hlwe⟩ := inv
  obtain ⟨tot, part⟩ := sdu_write_win_cases fuel w fi f rb ms hf hne hdp hfc
  have hnk : f.dtp.next_seq_num_to_send = k := by rw [hnext, u64_of_lt hk]
  have hu : u64 (f.dtp.next_seq_num_to_send + 1) = u64 (k + 1) := by rw [hnk]
  have hs1 : (sdu_write_stamp w f rb).pci.base.seqnum = k := hnk
  refine ⟨fun h => tot (Or.inl h), ?_⟩
  intro r w1 h
  obtain ⟨f1, g1, g2, g3, g4, g5, g6⟩ := part r w1 h
  have hne1 : f1.remote_addr ≠ w1.addr := by rw [g3, g2]; exact hne
  rcases g6 with ⟨_, e1, e2, e3, e4⟩ | ⟨hgt, e1, e2, e3, e4⟩ | ⟨hgt, e1, e2, e3, e4⟩
  · refine ⟨f1, hs, k, c, ⟨g1, hne1, by rw [g4]; exact hdp, by rw [g4]; exact hfc,
      e1.trans hnext, by rw [e3]; exact hcwq, by rw [e3]; exact hck,
      by rw [e3, g3]; exact hdst, e4.trans hh, hsorted, hbound, hdt,
      by rw [e3, g5]; exact hblk, by rw [e2, e3]; exact hlwe⟩, by omega, g4⟩
  · rw [hnk] at hgt
    refine ⟨f1, hs, k + 1, c, ⟨g1, hne1, by rw [g4]; exact hdp, by rw [g4]; exact hfc,
      e1.trans hu, ?_, ?_, ?_, e4.trans hh, hsorted, hbound, hdt, ?_, ?_⟩, by omega, g4⟩
    · rw [e3, List.map_append, hcwq, List.length_append, List.length_singleton,
        List.range'_1_concat, List.map_singleton, hs1]
      congr 2
      omega
    · rw [e3, List.length_append, List.length_singleton]; omega
    · intro b hb
      rw [e3, List.mem_append, List.mem_singleton] at hb
      rcases hb with hb | hb
      · rw [g3]; exact hdst b hb
      · rw [hb, g3]; exact ⟨rfl, rfl⟩
    · right; rw [g5]; omega
    · rw [e2, e3, List.length_append, List.length_singleton]; omega
  · rw [hnk] at hgt
    have hq : f.dtp.cwq = [] := by
      rcases hblk with hq | hq
      · exact hq
      · omega
    have hc : c = k := by rw [hq] at hck; simpa using hck
    have hu1 : u64 (k + 1) ≤ k + 1 := Nat.mod_le _ _
    have common : ∀ hs1 : List (Nat × rina_buf), handed w1.trace = h0 ++ hs1 →
        (seqnums hs1).Pairwise (fun a b => a < b) → (∀ s ∈ seqnums hs1, s < k + 1) →
        (∀ p ∈ hs1, p.2.pci.base.pdu_type = PDU_T_DT) →
        snd_inv w1 fi f1 h0 hs1 (k + 1) (k + 1) := by
      intro hs1 a1 a2 a3 a4
      refine ⟨g1, hne1, by rw [g4]; exact hdp, by rw [g4]; exact hfc, e1.trans hu, ?_, ?_, ?_,
        a1, a2, a3, a4, ?_, ?_⟩
      · rw [e3, hq]; rfl
      · rw [e3, hq]; rfl
      · rw [e3, hq]; intro b hb; simp at hb
      · left; rw [e3, hq]
      · rw [e2, e3, hq, hu]; simpa using hu1
    rcases e4 with e4 | ⟨_, e4⟩
    · refine ⟨f1, hs ++ [(f.remote_addr, sdu_write_stamp w f rb)], k + 1, k + 1,
        common _ ?_ ?_ ?_ ?_, by omega, g4⟩
      · rw [e4, hh, List.append_assoc]
      · rw [seqnums_append, List.pairwise_append]
        refine ⟨hsorted, by simp [seqnums], ?_⟩
        intro a ha b hb
        simp only [seqnums, List.map_singleton, List.mem_singleton] at hb
        rw [hb, hs1, ← hc]
        exact hbound a ha
      · intro s hs'
        rw [seqnums_append, List.mem_append] at hs'
        rcases hs' with h1 | h1
        · have := hbound s h1; omega
        · simp only [seqnums, List.map_singleton, List.mem_singleton] at h1
          rw [h1, hs1]; omega
      · intro p hp
        rw [List.mem_append, List.mem_singleton] at hp
        rcases hp with h1 | h1
        · exact hdt p h1
        · rw [h1]; rfl
    · refine ⟨f1, hs, k + 1, k + 1, common _ (e4.trans hh) hsorted ?_ hdt, by omega, g4⟩
      intro s hs'
      have := hbound s hs'
      omega

/-- The sender invariant is kept by `sdu_rx_ctrl`, which always returns 0 on a flow whose
remote address is not the IPCP's own: the PDUs it pops from the cwq are handed to the
router in queue order. -/
theorem snd_inv_ctrl (rx : World → rina_buf → Res) (w : World) (fi : Nat) (f : flow_entry)
    (h0 hs : List (Nat × rina_buf)) (k c : Nat) (rb : rina_buf)
    (inv : snd_inv w fi f h0 hs k c) :
    ∃ w1 f1 hs1 c1, sdu_rx_ctrl rx w fi f rb = Except.ok (0, w1) ∧
      snd_inv w1 fi f1 h0 hs1 k c1 ∧ f1.cfg = f.cfg := by
  obtain ⟨hf, hne, hdp, hfc, hnext, hcwq, hck, hdst, hh, hsorted, hbound, hdt, hblk, hlwe⟩ := inv
  by_cases hm : rb.pci.base.pdu_type &&& PDU_T_CTRL_MASK ≠ PDU_T_CTRL_MASK
  · refine ⟨w.emit (event.buf_free rb), f, hs, c, ?_, ?_, rfl⟩
    · simp only [sdu_rx_ctrl, if_pos hm]
    · exact ⟨hf, hne, hdp, hfc, hnext, hcwq, hck, hdst,
        (handed_emit w (event.buf_free rb) rfl).trans hh, hsorted, hbound, hdt, hblk, hlwe⟩
  · obtain ⟨l1, l2, l3, l4⟩ := sdu_rx_ctrl_locked_spec rb.pci f.dtp k hlwe hblk
    generalize hlk : sdu_rx_ctrl_locked rb.pci f.dtp = lk at l1 l2 l3 l4
    have hsplit := range_split (fun b : rina_buf => b.pci.base.seqnum) lk.2.1 lk.1.cwq c
      (by rw [l1]; exact hcwq)
    have hlen : lk.2.1.length + lk.1.cwq.length = f.dtp.cwq.length := by
      rw [← l1, List.length_append]
    have hmem : ∀ b ∈ lk.2.1, b ∈ f.dtp.cwq := fun b hb => by
      rw [← l1]; exact List.mem_append_left _ hb
    have hmem2 : ∀ b ∈ lk.1.cwq, b ∈ f.dtp.cwq := fun b hb => by
      rw [← l1]; exact List.mem_append_right _ hb
    have hW : ∀ W : World, W.flows = (w.set_dtp fi lk.1).flows → W.addr = w.addr →
        handed W.trace = handed w.trace →
        ∃ w1 f1, rmt_tx_list rx lk.2.1 W = Except.ok w1 ∧ w1.flows[fi]? = some f1 ∧
          w1.addr = w.addr ∧ f1.remote_addr = f.remote_addr ∧ f1.cfg = f.cfg ∧
          f1.dtp = lk.1 ∧
          handed w1.trace = handed w.trace ++
            lk.2.1.map (fun b => (b.pci.base.dst_addr, b)) := by
      intro W a1 a2 a3
      obtain ⟨w1, r1, k1, t1⟩ := rmt_tx_list_away rx lk.2.1 W (fun b hb => by
        rw [(hdst b (hmem b hb)).1, a2]; exact hne)
      have hfW : W.flows[fi]? = some { f with dtp := lk.1 } := by
        rw [a1]; exact set_dtp_get hf _
      obtain ⟨f1, hf1, hk1⟩ := away_get k1 hfW
      simp only [fkey, Prod.mk.injEq] at hk1
      obtain ⟨_, _, e3, e4, e5⟩ := hk1
      exact ⟨w1, f1, r1, hf1, k1.addr.trans a2, e3, e4, e5, by rw [t1, a3]⟩
    obtain ⟨w1, f1, r1, g1, g2, g3, g4, g5, g6⟩ := hW
      (({ w.set_dtp fi lk.1 with
          trace := (w.set_dtp fi lk.1).trace ++ lk.2.2.map event.buf_free }).emit
        (event.buf_free rb)) rfl rfl (by
        rw [handed_emit _ (event.buf_free rb) rfl]
        exact handed_buf_free _ _)
    refine ⟨w1.emit (event.write_restart rb.pci.base.dst_cep), f1,
      hs ++ lk.2.1.map (fun b => (b.pci.base.dst_addr, b)), c + lk.2.1.length, ?_, ?_, g4⟩
    · simp only [sdu_rx_ctrl, if_neg hm, hlk, r1]
    · have hsq : seqnums (lk.2.1.map (fun b => (b.pci.base.dst_addr, b))) =
          List.range' c lk.2.1.length := by
        rw [← hsplit.1]; simp [seqnums]
      refine ⟨g1, by rw [g3]; exact (show f.remote_addr ≠ w1.addr by rw [g2]; exact hne),
        by rw [g4]; exact hdp, by rw [g4]; exact hfc, by rw [g5, l2]; exact hnext,
        by rw [g5]; exact hsplit.2, by rw [g5]; omega,
        by rw [g5, g3]; exact fun b hb => hdst b (hmem2 b hb),
        ?_, ?_, ?_, ?_, by rw [g5]; exact l4, by rw [g5]; exact l3⟩
      · rw [handed_emit _ (event.write_restart rb.pci.base.dst_cep) rfl, g6, hh,
          List.append_assoc]
      · rw [seqnums_append, List.pairwise_append, hsq]
        refine ⟨hsorted, List.pairwise_lt_range' c _, ?_⟩
        intro a ha b hb
        rw [List.mem_range'_1] at hb
        have := hbound a ha
        omega
      · intro s hs'
        rw [seqnums_append, List.mem_append, hsq, List.mem_range'_1] at hs'
        rcases hs' with h1 | h1
        · have := hbound s h1; omega
        · omega
      · intro p hp
        rw [List.mem_append, List.mem_map] at hp
        rcases hp with h1 | ⟨b, hb, rfl⟩
        · exact hdt p h1
        · exact (hdst b (hmem b hb)).2

/-- The sender invariant along a history: every history of writes and control PDUs that
stamps at most `2^64` PDUs keeps it, and the history runs to its end when retransmission
control is off. -/
theorem snd_inv_run (fuel : Nat) (fi : Nat) (h0 : List (Nat × rina_buf)) :
    ∀ (ops : List snd_op) (w : World) (f : flow_entry) (hs : List (Nat × rina_buf))
      (k c : Nat), snd_inv w fi f h0 hs k c → k + snd_writes ops ≤ 2 ^ 64 →
      (f.cfg.dtcp.rtx_control = false → ∃ w1, run_snd fuel fi ops w = Except.ok w1) ∧
      ∀ w1, run_snd fuel fi ops w = Except.ok w1 →
        ∃ f1 hs1 k1 c1, snd_inv w1 fi f1 h0 hs1 k1 c1 := by
  intro ops
  induction ops with
  | nil =>
    intro w f hs k c inv _
    refine ⟨fun _ => ⟨w, rfl⟩, ?_⟩
    intro w1 h
    simp only [run_snd, Except.ok.injEq] at h
    subst h
    exact ⟨f, hs, k, c, inv⟩
  | cons op rest ih =>
    intro w f hs k c inv hle
    cases op with
    | write rb ms =>
      simp only [snd_writes] at hle
      obtain ⟨tot, part⟩ := snd_inv_write fuel w fi f h0 hs k c rb ms inv (by omega)
      constructor
      · intro hrtx
        obtain ⟨r, w1, h1⟩ := tot hrtx
        obtain ⟨f1, hs1, k1, c1, inv1, hk1, hc1⟩ := part r w1 h1
        obtain ⟨w2, h2⟩ := (ih w1 f1 hs1 k1 c1 inv1 (by omega)).1 (by rw [hc1]; exact hrtx)
        exact ⟨w2, by simp only [run_snd, h1, h2]⟩
      · intro w2 h
        simp only [run_snd] at h
        cases h1 : sdu_write fuel w fi rb ms with
        | error e => rw [h1] at h; simp at h
        | ok p =>
          obtain ⟨r, w1⟩ := p
          rw [h1] at h
          obtain ⟨f1, hs1, k1, c1, inv1, hk1, _⟩ := part r w1 h1
          exact (ih w1 f1 hs1 k1 c1 inv1 (by omega)).2 w2 h
    | ctrl rb =>
      simp only [snd_writes] at hle
      obtain ⟨w1, f1, hs1, c1, h1, inv1, hc1⟩ := snd_inv_ctrl (rina_normal_sdu_rx fuel) w fi f
        h0 hs k c rb inv
      have hrun : run_snd fuel fi (snd_op.ctrl rb :: rest) w = run_snd fuel fi rest w1 := by
        simp only [run_snd, inv.hf, h1]
      rw [hrun]
      obtain ⟨t2, p2⟩ := ih w1 f1 hs1 k c1 inv1 hle
      exact ⟨fun hrtx => t2 (by rw [hc1]; exact hrtx), p2⟩

theorem flow_init_dtp_snd (cfg : flow_config) (d : dtp) :
    (flow_init_dtp cfg d).next_seq_num_to_send = 0 ∧ (flow_init_dtp cfg d).snd_lwe = 0 ∧
    (flow_init_dtp cfg d).cwq = d.cwq := by
  simp only [flow_init_dtp]
  split <;> exact ⟨rfl, rfl, rfl⟩

/-- C10 (as amended): on a flow with DTCP and window flow control whose remote address is
not the IPCP's own, starting from `flow_init` with an empty cwq, over every history of
`sdu_write` calls and control PDUs given to `sdu_rx_ctrl` that has at most `2^64` writes,
the buffers handed to the router since the start, whether directly by `sdu_write` or when
drained from the cwq, are data PDUs that carry strictly increasing seqnums.  The history
runs to its end when retransmission control is off. -/
theorem snd_seqnums_increasing (fuel : Nat) (w0 : World) (fi : Nat) (f0 : flow_entry)
    (ops : List snd_op) (hf : w0.flows[fi]? = some f0) (hne : f0.remote_addr ≠ w0.addr)
    (hdp : f0.cfg.dtcp_present = true)
    (hfc : f0.cfg.dtcp.fc.fc_type = fc_type.RINA_FC_T_WIN)
    (hq : f0.dtp.cwq = []) (hn : snd_writes ops ≤ 2 ^ 64) :
    ∃ w, rina_normal_flow_init w0 fi = Except.ok (0, w) ∧
      (f0.cfg.dtcp.rtx_control = false → ∃ w1, run_snd fuel fi ops w = Except.ok w1) ∧
      ∀ w1, run_snd fuel fi ops w = Except.ok w1 →
        ∃ hs, handed w1.trace = handed w0.trace ++ hs ∧
          (∀ p ∈ hs, p.2.pci.base.pdu_type = PDU_T_DT) ∧
          (seqnums hs).Pairwise (fun a b => a < b) := by
  obtain ⟨i1, i2, i3⟩ := flow_init_dtp_snd f0.cfg f0.dtp
  have inv : snd_inv (w0.set_dtp fi (flow_init_dtp f0.cfg f0.dtp)) fi
      { f0 with dtp := flow_init_dtp f0.cfg f0.dtp } (handed w0.trace) [] 0 0 := by
    refine ⟨set_dtp_get hf _, hne, hdp, hfc, i1, ?_, ?_, ?_, by simp [World.set_dtp,
      World.upd_flow], List.Pairwise.nil, by simp [seqnums], by simp, Or.inl (i3.trans hq), ?_⟩
    · show (flow_init_dtp f0.cfg f0.dtp).cwq.map _ = _
      rw [i3, hq]; rfl
    · show 0 + (flow_init_dtp f0.cfg f0.dtp).cwq.length = 0
      rw [i3, hq]; rfl
    · show ∀ b ∈ (flow_init_dtp f0.cfg f0.dtp).cwq, _
      rw [i3, hq]; intro b hb; simp at hb
    · show (flow_init_dtp f0.cfg f0.dtp).snd_lwe + (flow_init_dtp f0.cfg f0.dtp).cwq.length ≤ 0
      rw [i2, i3, hq]; simp
  obtain ⟨tot, part⟩ := snd_inv_run fuel fi (handed w0.trace) ops _ _ [] 0 0 inv (by omega)
  refine ⟨_, by simp only [rina_normal_flow_init, hf], tot, ?_⟩
  intro w1 h
  obtain ⟨f1, hs1, k1, c1, inv1⟩ := part w1 h
  exact ⟨hs1, inv1.hh, inv1.hdt, inv1.hsorted⟩

/-- Witness of C10 (as amended): four writes on a flow of initial credit 2, the last of
which waits in the cwq, a flow control PDU that opens the window, and one more write. -/
theorem snd_seqnums_increasing_witness :
    ∃ w, rina_normal_flow_init world_s2 0 = Except.ok (0, w) ∧
      ((mk_flow 1 2 43 (cfg_window 2 1)).cfg.dtcp.rtx_control = false →
        ∃ w1, run_snd 0 0 [snd_op.write (sdu [0]) false, snd_op.write (sdu [1]) false,
          snd_op.write (sdu [2]) false, snd_op.write (sdu [3]) false,
          snd_op.ctrl (fc_pdu 42 1 0 5), snd_op.write (sdu [4]) false] w = Except.ok w1) ∧
      ∀ w1, run_snd 0 0 [snd_op.write (sdu [0]) false, snd_op.write (sdu [1]) false,
          snd_op.write (sdu [2]) false, snd_op.write (sdu [3]) false,
          snd_op.ctrl (fc_pdu 42 1 0 5), snd_op.write (sdu [4]) false] w = Except.ok w1 →
        ∃ hs, handed w1.trace = handed world_s2.trace ++ hs ∧
          (∀ p ∈ hs, p.2.pci.base.pdu_type = PDU_T_DT) ∧
          (seqnums hs).Pairwise (fun a b => a < b) :=
  snd_seqnums_increasing 0 world_s2 0 (mk_flow 1 2 43 (cfg_window 2 1))
    [snd_op.write (sdu [0]) false, snd_op.write (sdu [1]) false,
      snd_op.write (sdu [2]) false, snd_op.write (sdu [3]) false,
      snd_op.ctrl (fc_pdu 42 1 0 5), snd_op.write (sdu [4]) false]
    rfl (by decide) rfl rfl rfl (by decide)

/-- A history of `n` writes on a flow with DTCP and window flow control, no retransmission
control, whose right window edge is `2^64 - 1` and whose remote address is not the IPCP's
own: every write is in the window, and the seqnums handed to the router are the successive
values of the 64-bit counter. -/
theorem wrap_run (fuel fi : Nat) (rb : rina_buf) (ms : Bool) :
    ∀ (n s : Nat) (w : World) (f : flow_entry), w.flows[fi]? = some f →
      f.remote_addr ≠ w.addr → f.cfg.dtcp_present = true →
      f.cfg.dtcp.fc.fc_type = fc_type.RINA_FC_T_WIN → f.cfg.dtcp.rtx_control = false →
      f.dtp.snd_rwe = 2 ^ 64 - 1 → f.dtp.next_seq_num_to_send = u64 s →
      ∃ w1, run_snd fuel fi (List.replicate n (snd_op.write rb ms)) w = Except.ok w1 ∧
        seqnums (handed w1.trace) = seqnums (handed w.trace) ++ (List.range' s n).map u64 := by
  intro n
  induction n with
  | zero =>
    intro s w f _ _ _ _ _ _ _
    exact ⟨w, rfl, by simp⟩
  | succ n ih =>
    intro s w f hf hne hdp hfc hrtx hrwe hnext
    have hin : ¬ f.dtp.next_seq_num_to_send > f.dtp.snd_rwe := by
      have := u64_lt s
      rw [hnext, hrwe]; omega
    obtain ⟨tot, part⟩ := sdu_write_win_cases fuel w fi f rb ms hf hne hdp hfc
    obtain ⟨r, w1, h1⟩ := tot (Or.inr hin)
    obtain ⟨f1, g1, g2, g3, g4, g5, g6⟩ := part r w1 h1
    have key : f1.dtp.next_seq_num_to_send = u64 (s + 1) ∧
        handed w1.trace = handed w.trace ++ [(f.remote_addr, sdu_write_stamp w f rb)] := by
      rcases g6 with ⟨hw, _⟩ | ⟨hgt, _⟩ | ⟨_, e1, _, _, e4⟩
      · exact absurd hw.2.1 hin
      · exact absurd hgt hin
      · refine ⟨by rw [e1, hnext, u64_u64_succ], ?_⟩
        rcases e4 with e4 | ⟨e4, _⟩
        · exact e4
        · rw [hrtx] at e4; simp at e4
    obtain ⟨w2, h2, t2⟩ := ih (s + 1) w1 f1 g1 (by rw [g3, g2]; exact hne)
      (by rw [g4]; exact hdp) (by rw [g4]; exact hfc) (by rw [g4]; exact hrtx)
      (by rw [g5]; exact hrwe) key.1
    refine ⟨w2, ?_, ?_⟩
    · simp only [List.replicate_succ, run_snd, h1, h2]
    · have hsq : (sdu_write_stamp w f rb).pci.base.seqnum = u64 s := hnext
      rw [t2, key.2, seqnums_append, List.append_assoc, List.range'_succ, List.map_cons]
      simp only [seqnums, List.map_singleton, hsq, List.singleton_append]

/-- A counter that counts modulo `N` does not give a strictly increasing sequence over
`N + 1` steps. -/
theorem wrap_not_increasing (N : Nat) (hN : 0 < N) :
    ¬ ((List.range' 0 (N + 1)).map (fun i => i % N)).Pairwise (fun a b => a < b) := by
  rw [List.range'_1_concat, List.map_append, List.pairwise_append]
  intro h
  have h0 : 0 ∈ (List.range' 0 N).map (fun i => i % N) :=
    List.mem_map.mpr ⟨0, List.mem_range'_1.mpr ⟨le_refl _, by omega⟩, Nat.zero_mod N⟩
  have := h.2.2 0 h0 ((0 + N) % N) (by simp)
  simp at this

/-- C10 (counterexample to the claim as written): on a fresh flow with DTCP and window flow
control whose initial credit is `2^64 - 1`, every write is in the sender window; the
`2^64`-th PDU carries seqnum `2^64 - 1` and the next one carries seqnum 0 again, since
`next_seq_num_to_send` is a 64-bit counter: over `2^64 + 1` writes the seqnums handed to
the router are not strictly increasing. -/
theorem snd_seqnums_increasing_counterexample :
    rina_normal_flow_init world_wrap 0 = Except.ok (0, world_wrap) ∧
    ∃ w1, run_snd 0 0 (List.replicate (2 ^ 64 + 1) (snd_op.write (sdu []) false)) world_wrap
        = Except.ok w1 ∧
      ¬ (seqnums (handed w1.trace)).Pairwise (fun a b => a < b) := by
  refine ⟨rfl, ?_⟩
  obtain ⟨w1, h1, t1⟩ := wrap_run 0 0 (sdu []) false (2 ^ 64 + 1) 0 world_wrap
    (mk_flow 1 2 43 (cfg_window (2 ^ 64 - 1) 0)) rfl (by decide) rfl rfl rfl rfl rfl
  refine ⟨w1, h1, ?_⟩
  have e0 : seqnums (handed world_wrap.trace) = [] := rfl
  rw [t1, e0, List.nil_append]
  exact wrap_not_increasing (2 ^ 64) (by decide)

/-- The drain of the cwq in `sdu_rx_ctrl` is re-entered on a looped-back flow.  Flow 0 of
`world_loop` writes four SDUs: seqnum 0 is sent and received by its peer, whose control PDU
cannot be allocated, so seqnums 1, 2, 3 wait in the cwq.  A flow control PDU with
`new_rwe = 3` then pops 1 and 2; while 1 is being sent the peer answers with a control PDU
that opens the window further, and the nested `sdu_rx_ctrl` pops and sends 3 before the
outer loop sends 2: the data PDUs reach the router in the order 0, 1, 3, 2. -/
theorem sdu_rx_ctrl_reentrant_drain :
    ∃ w1, run_snd 8 0 [snd_op.write (sdu [0]) false, snd_op.write (sdu [1]) false,
        snd_op.write (sdu [2]) false, snd_op.write (sdu [3]) false,
        snd_op.ctrl (fc_pdu 42 1 0 3)] world_loop = Except.ok w1 ∧
      seqnums (data_pdus (handed w1.trace)) = [0, 1, 3, 2] :=
  ⟨_, rfl, rfl⟩

/-- The push of `rmt_tx` starts with a write on the lower flow. -/
theorem rmt_tx_push_trace (lf : Nat) (rb : rina_buf) (ms : Bool) :
    ∀ (script : List Int) (w : World), ∃ ret t,
      (rmt_tx_push lf rb ms script w).2.trace =
        w.trace ++ event.lower_sdu_write lf rb ms ret :: t := by
  intro script
  induction script with
  | nil =>
    intro w
    exact ⟨0, [], rfl⟩
  | cons r rest ih =>
    intro w
    by_cases hr : r = -EAGAIN
    · cases ms with
      | false => exact ⟨r, [], by simp [rmt_tx_push, hr, World.emit, World.upd_flow]⟩
      | true =>
        obtain ⟨r1, t1, h1⟩ := ih ((({ w with lower_ret := rest }).emit
          (event.lower_sdu_write lf rb true r)).emit event.schedule)
        refine ⟨r, event.schedule :: event.lower_sdu_write lf rb true r1 :: t1, ?_⟩
        subst hr
        simp only [rmt_tx_push, if_true, Bool.not_true, Bool.false_eq_true, if_false]
        rw [h1]
        simp [World.emit]
    · exact ⟨r, [], by simp [rmt_tx_push, hr, World.emit]⟩

/-- When the PDUFT lookup finds a lower flow, `rmt_tx` pushes the buffer down that flow. -/
theorem rmt_tx_lower (rx : World → rina_buf → Res) (w : World) (remote_addr : Nat)
    (rb : rina_buf) (ms : Bool) (lf : Nat) (h : pduft_lookup w remote_addr = some lf) :
    rmt_tx rx w remote_addr rb ms = Except.ok (rmt_tx_push lf rb ms w.lower_ret
      (w.emit (event.rmt_tx remote_addr rb ms))) := by
  have hl : pduft_lookup (w.emit (event.rmt_tx remote_addr rb ms)) remote_addr =
      pduft_lookup w remote_addr := rfl
  simp only [rmt_tx, hl, h]
  rfl

/-- C19: what `rmt_tx` does with the result of the PDUFT lookup of `remote_addr`.  When no
lower flow is found and `remote_addr` is not the IPCP's address, the buffer is freed and
the result is 0, whatever `sdu_rx` is: neither the lower IPCP nor `sdu_rx` is invoked.
When no lower flow is found and `remote_addr` is the IPCP's address, the buffer goes to the
IPCP's own `sdu_rx` and the result of `rmt_tx` is the result of that call.  When a lower
flow is found the buffer is pushed down that flow, also when `remote_addr` is the IPCP's
address, and `sdu_rx` is not invoked. -/
theorem rmt_tx_lookup_cases (rx : World → rina_buf → Res) (w : World) (remote_addr : Nat)
    (rb : rina_buf) (ms : Bool) :
    (pduft_lookup w remote_addr = none → remote_addr ≠ w.addr →
      rmt_tx rx w remote_addr rb ms = Except.ok (0, { w with
        trace := w.trace ++ [event.rmt_tx remote_addr rb ms, event.buf_free rb] })) ∧
    (pduft_lookup w remote_addr = none → remote_addr = w.addr →
      rmt_tx rx w remote_addr rb ms = rx (w.emit (event.rmt_tx remote_addr rb ms)) rb) ∧
    (∀ lf, pduft_lookup w remote_addr = some lf →
      rmt_tx rx w remote_addr rb ms = Except.ok (rmt_tx_push lf rb ms w.lower_ret
        (w.emit (event.rmt_tx remote_addr rb ms))) ∧
      ∃ ret t, (rmt_tx_push lf rb ms w.lower_ret
          (w.emit (event.rmt_tx remote_addr rb ms))).2.trace =
        w.trace ++ [event.rmt_tx remote_addr rb ms, event.lower_sdu_write lf rb ms ret] ++ t) := by
  have hl : pduft_lookup (w.emit (event.rmt_tx remote_addr rb ms)) remote_addr =
      pduft_lookup w remote_addr := rfl
  refine ⟨?_, ?_, ?_⟩
  · intro h hne
    simp only [rmt_tx, hl, h]
    rw [if_pos (show remote_addr ≠ (w.emit (event.rmt_tx remote_addr rb ms)).addr from hne)]
    simp [World.emit]
  · intro h he
    simp only [rmt_tx, hl, h]
    rw [if_neg (show ¬ remote_addr ≠ (w.emit (event.rmt_tx remote_addr rb ms)).addr from
      fun hc => hc he)]
  · intro lf h
    refine ⟨rmt_tx_lower rx w remote_addr rb ms lf h, ?_⟩
    obtain ⟨ret, t, ht⟩ := rmt_tx_push_trace lf rb ms w.lower_ret
      (w.emit (event.rmt_tx remote_addr rb ms))
    exact ⟨ret, t, by rw [ht]; simp [World.emit]⟩

/-- Witness of C19: on an IPCP of address 42 with an empty PDUFT a buffer toward 43 is
dropped and one toward 42 goes to `sdu_rx`; when the PDUFT routes 42 through the lower flow
1, a buffer toward 42 is pushed down that flow. -/
theorem rmt_tx_lookup_cases_witness :
    rmt_tx (rina_normal_sdu_rx 1) world_ft 43 (sdu hello) false = Except.ok (0, { world_ft with
      trace := world_ft.trace ++ [event.rmt_tx 43 (sdu hello) false, event.buf_free (sdu hello)] }) ∧
    rmt_tx (rina_normal_sdu_rx 1) world_ft 42 (sdu hello) false =
      rina_normal_sdu_rx 1 (world_ft.emit (event.rmt_tx 42 (sdu hello) false)) (sdu hello) ∧
    rmt_tx (rina_normal_sdu_rx 1) world_self_route 42 (sdu hello) false =
      Except.ok (rmt_tx_push 1 (sdu hello) false world_self_route.lower_ret
        (world_self_route.emit (event.rmt_tx 42 (sdu hello) false))) :=
  ⟨(rmt_tx_lookup_cases (rina_normal_sdu_rx 1) world_ft 43 (sdu hello) false).1 rfl (by decide),
   (rmt_tx_lookup_cases (rina_normal_sdu_rx 1) world_ft 42 (sdu hello) false).2.1 rfl rfl,
   ((rmt_tx_lookup_cases (rina_normal_sdu_rx 1) world_self_route 42 (sdu hello) false).2.2 1
     rfl).1⟩

/-- C20: transit forwarding.  A PDU given to `rina_normal_sdu_rx` whose destination address
is not the IPCP's is handed, unchanged, to `rmt_tx` toward that address, non-blocking, and
the result of `rmt_tx` is the result of the call (for every recursion budget of at least
one).  The call returns; `rmt_tx` is entered once, with the PDU as it came; ports, remote
address, configuration and DTP state of every flow are as before, and nothing is
delivered upward. -/
theorem sdu_rx_transit (n : Nat) (w : World) (rb : rina_buf)
    (h : rb.pci.base.dst_addr ≠ w.addr) :
    rina_normal_sdu_rx (n + 1) w rb =
      rmt_tx (rina_normal_sdu_rx n) (w.emit (event.sdu_rx rb)) rb.pci.base.dst_addr rb false ∧
    ∃ r w1, rina_normal_sdu_rx (n + 1) w rb = Except.ok (r, w1) ∧
      handed w1.trace = handed w.trace ++ [(rb.pci.base.dst_addr, rb)] ∧
      w1.flows.map fkey = w.flows.map fkey ∧
      delivered w1.trace = delivered w.trace := by
  have e : rina_normal_sdu_rx (n + 1) w rb =
      rmt_tx (rina_normal_sdu_rx n) (w.emit (event.sdu_rx rb)) rb.pci.base.dst_addr rb
        false := by
    simp only [rina_normal_sdu_rx, rina_normal_sdu_rx_body]
    rw [if_pos (show rb.pci.base.dst_addr ≠ (w.emit (event.sdu_rx rb)).addr from h)]
  refine ⟨e, ?_⟩
  obtain ⟨r, w1, h1, k, ht⟩ := rmt_tx_away (rina_normal_sdu_rx n) (w.emit (event.sdu_rx rb))
    rb.pci.base.dst_addr rb false h
  refine ⟨r, w1, e.trans h1, ?_, k.flows, ?_⟩
  · rw [ht, handed_emit w (event.sdu_rx rb) rfl]
  · rw [k.delivered]
    simp [World.emit, delivered_append, delivered]

/-- Witness of C20: a data PDU for address 43 arrives at the IPCP of address 42, whose
PDUFT routes 43 through the lower flow 1. -/
theorem sdu_rx_transit_witness :
    rina_normal_sdu_rx 1 world_route (data_pdu 43 2 0 1 hello) =
      rmt_tx (rina_normal_sdu_rx 0) (world_route.emit (event.sdu_rx (data_pdu 43 2 0 1 hello)))
        43 (data_pdu 43 2 0 1 hello) false ∧
    ∃ r w1, rina_normal_sdu_rx 1 world_route (data_pdu 43 2 0 1 hello) = Except.ok (r, w1) ∧
      handed w1.trace = handed world_route.trace ++ [(43, data_pdu 43 2 0 1 hello)] ∧
      w1.flows.map fkey = world_route.flows.map fkey ∧
      delivered w1.trace = delivered world_route.trace :=
  sdu_rx_transit 0 world_route (data_pdu 43 2 0 1 hello) (by decide)

theorem hash_min_lt (a : Nat) :
    hash_min a PDUFT_HASHTABLE_BITS < 2 ^ PDUFT_HASHTABLE_BITS := by
  unfold hash_min PDUFT_HASHTABLE_BITS
  have h : a * 0x61C8864680B583EB % 2 ^ 64 < 2 ^ 64 := Nat.mod_lt _ (by decide)
  omega

/-- The bucket that `pduft_lookup_internal` scans for an address. -/
theorem pduft_lookup_internal_bucket (w : World) (a : Nat) (b : List pduft_entry)
    (hb : w.pdu_ft[hash_min a PDUFT_HASHTABLE_BITS]? = some b) :
    pduft_lookup_internal w a = b.find? (fun entry => entry.address = a) := by
  simp [pduft_lookup_internal, hb]

theorem bucket_exists (w : World) (hlen : w.pdu_ft.length = 2 ^ PDUFT_HASHTABLE_BITS)
    (a : Nat) : ∃ b, w.pdu_ft[hash_min a PDUFT_HASHTABLE_BITS]? = some b := by
  have h := hash_min_lt a
  rw [← hlen] at h
  exact ⟨w.pdu_ft[hash_min a PDUFT_HASHTABLE_BITS], List.getElem?_eq_getElem h⟩

/-- A lookup for another address does not see what `bucket_set` changed. -/
theorem bucket_set_find_ne (a f a1 : Nat) (h : a1 ≠ a) : ∀ b : List pduft_entry,
    (bucket_set a f b).find? (fun entry => entry.address = a1) =
      b.find? (fun entry => entry.address = a1) := by
  intro b
  induction b with
  | nil => rfl
  | cons e rest ih =>
    by_cases he : e.address = a
    · have h1 : ¬ e.address = a1 := fun hc => h (hc.symm.trans he)
      simp [bucket_set, he, List.find?_cons, h1, Ne.symm h]
    · simp only [bucket_set, if_neg he, List.find?_cons, ih]

/-- A lookup for the address finds the entry that `bucket_set` updated. -/
theorem bucket_set_find (a f : Nat) : ∀ b : List pduft_entry,
    (bucket_set a f b).find? (fun entry => entry.address = a) =
      (b.find? (fun entry => entry.address = a)).map
        (fun entry => { entry with flow := f, address := a }) := by
  intro b
  induction b with
  | nil => rfl
  | cons e rest ih =>
    by_cases he : e.address = a
    · simp [bucket_set, he, List.find?_cons]
    · simp [bucket_set, he, List.find?_cons, ih]

theorem bucket_set_idem (a f : Nat) : ∀ b : List pduft_entry,
    bucket_set a f (bucket_set a f b) = bucket_set a f b := by
  intro b
  induction b with
  | nil => rfl
  | cons e rest ih =>
    by_cases he : e.address = a
    · simp [bucket_set, he]
    · simp [bucket_set, he, ih]

/-- Unlinking an identity that was just linked at the tail of a flow list, and is linked
nowhere else, gives the lists back. -/
theorem fnode_del_add_tail (id f : Nat) (X : List flow_entry)
    (h : ∀ g ∈ X, id ∉ g.pduft_entries) :
    fnode_del id (fnode_add_tail id f X) = X := by
  apply List.ext_getElem?
  intro n
  simp only [fnode_del, fnode_add_tail, List.getElem?_map, List.getElem?_modify]
  cases hn : X[n]? with
  | none => simp
  | some g =>
    have hg : id ∉ g.pduft_entries := h g (List.getElem?_mem hn)
    have hfil : g.pduft_entries.filter (fun x => !decide (x = id)) = g.pduft_entries := by
      rw [List.filter_eq_self]
      intro x hx
      simpa using fun hc : x = id => hg (hc ▸ hx)
    by_cases hf : f = n
    · simp [hf, List.filter_append, hfil]
    · simp [hf, hfil]

theorem fnode_del_not_mem (id : Nat) (X : List flow_entry) :
    ∀ g ∈ fnode_del id X, id ∉ g.pduft_entries := by
  intro g hg
  simp only [fnode_del, List.mem_map] at hg
  obtain ⟨g0, _, rfl⟩ := hg
  simp

/-- The outcomes of `rina_normal_pduft_set` that return 0: a new entry, allocated, or the
entry of the address re-used. -/
theorem pduft_set_cases {w : World} {a f : Nat} {w1 : World}
    (h : rina_normal_pduft_set w a f = Except.ok (0, w1)) :
    f < w.flows.length ∧
    ((pduft_lookup_internal w a = none ∧ w1 = pduft_set_new w.alloc.2 a f) ∨
     ∃ e, pduft_lookup_internal w a = some e ∧ w1 = pduft_set_old w a f e.id) := by
  simp only [rina_normal_pduft_set] at h
  split at h
  · exact absurd h (by simp)
  · rename_i hv
    refine ⟨by omega, ?_⟩
    split at h
    · rename_i hl
      split at h
      · simp only [Except.ok.injEq, Prod.mk.injEq] at h
        exact absurd h.1 (by decide)
      · simp only [Except.ok.injEq, Prod.mk.injEq, true_and] at h
        exact Or.inl ⟨hl, h.symm⟩
    · rename_i e hl
      simp only [Except.ok.injEq, Prod.mk.injEq, true_and] at h
      exact Or.inr ⟨e, hl, h.symm⟩

theorem alloc_pdu_ft (w : World) :
    w.alloc.2.pdu_ft = w.pdu_ft ∧ w.alloc.2.next_id = w.next_id := by
  unfold World.alloc
  split <;> exact ⟨rfl, rfl⟩

theorem pduft_lookup_internal_alloc (w : World) (a : Nat) :
    pduft_lookup_internal w.alloc.2 a = pduft_lookup_internal w a := by
  simp only [pduft_lookup_internal, (alloc_pdu_ft w).1]

/-- The lookups after the new-entry branch of `pduft_set`. -/
theorem pduft_set_new_lookup (w : World) (a f : Nat)
    (hlen : w.pdu_ft.length = 2 ^ PDUFT_HASHTABLE_BITS) :
    pduft_lookup_internal (pduft_set_new w a f) a =
      some { id := w.next_id, address := a, flow := f } ∧
    ∀ a1, a1 ≠ a → pduft_lookup_internal (pduft_set_new w a f) a1 =
      pduft_lookup_internal w a1 := by
  obtain ⟨b, hb⟩ := bucket_exists w hlen a
  constructor
  · rw [pduft_lookup_internal_bucket (pduft_set_new w a f) a
      ({ id := w.next_id, address := a, flow := f } :: b)
      (by simp [pduft_set_new, hb])]
    simp [List.find?_cons]
  · intro a1 h1
    by_cases hh : hash_min a PDUFT_HASHTABLE_BITS = hash_min a1 PDUFT_HASHTABLE_BITS
    · rw [pduft_lookup_internal_bucket (pduft_set_new w a f) a1
          ({ id := w.next_id, address := a, flow := f } :: b)
          (by rw [← hh]; simp [pduft_set_new, hb]),
        pduft_lookup_internal_bucket w a1 b (by rw [← hh]; exact hb)]
      simp [List.find?_cons, Ne.symm h1]
    · simp only [pduft_lookup_internal, pduft_set_new, List.getD_eq_getElem?_getD,
        List.getElem?_modify_ne _ _ hh]

/-- The lookups after the branch of `pduft_set` that re-uses the entry. -/
theorem pduft_set_old_lookup (w : World) (a f id : Nat) :
    pduft_lookup_internal (pduft_set_old w a f id) a =
      (pduft_lookup_internal w a).map (fun e => { e with flow := f, address := a }) ∧
    ∀ a1, a1 ≠ a → pduft_lookup_internal (pduft_set_old w a f id) a1 =
      pduft_lookup_internal w a1 := by
  constructor
  · simp only [pduft_lookup_internal, pduft_set_old, List.getD_eq_getElem?_getD,
      List.getElem?_modify_eq]
    cases hb : w.pdu_ft[hash_min a PDUFT_HASHTABLE_BITS]? with
    | none => simp
    | some b => simp [bucket_set_find]
  · intro a1 h1
    by_cases hh : hash_min a PDUFT_HASHTABLE_BITS = hash_min a1 PDUFT_HASHTABLE_BITS
    · simp only [pduft_lookup_internal, pduft_set_old, List.getD_eq_getElem?_getD, ← hh,
        List.getElem?_modify_eq]
      cases hb : w.pdu_ft[hash_min a PDUFT_HASHTABLE_BITS]? with
      | none => simp
      | some b => simp [bucket_set_find_ne a f a1 h1]
    · simp only [pduft_lookup_internal, pduft_set_old, List.getD_eq_getElem?_getD,
        List.getElem?_modify_ne _ _ hh]

theorem pduft_set_old_eq (w : World) (a f id : Nat)
    (hP : w.pdu_ft.modify (bucket_set a f) (hash_min a PDUFT_HASHTABLE_BITS) = w.pdu_ft)
    (hF : fnode_add_tail id f (fnode_del id w.flows) = w.flows) :
    pduft_set_old w a f id = w := by
  unfold pduft_set_old
  rw [hP, hF]

theorem fnode_add_tail_length (id f : Nat) (X : List flow_entry) :
    (fnode_add_tail id f X).length = X.length := by
  simp [fnode_add_tail]

theorem fnode_del_length (id : Nat) (X : List flow_entry) :
    (fnode_del id X).length = X.length := by
  simp [fnode_del]

/-- The lookups after a call of `rina_normal_pduft_set` that returns 0. -/
theorem pduft_set_lookups (w : World) (a f : Nat) (w1 : World)
    (hlen : w.pdu_ft.length = 2 ^ PDUFT_HASHTABLE_BITS)
    (h : rina_normal_pduft_set w a f = Except.ok (0, w1)) :
    pduft_lookup w1 a = some f ∧
    ∀ a1, a1 ≠ a → pduft_lookup w1 a1 = pduft_lookup w a1 := by
  obtain ⟨hv, hc⟩ := pduft_set_cases h
  rcases hc with ⟨hl, rfl⟩ | ⟨e, hl, rfl⟩
  · obtain ⟨hpf, hnx⟩ := alloc_pdu_ft w
    obtain ⟨l1, l2⟩ := pduft_set_new_lookup w.alloc.2 a f (by rw [hpf]; exact hlen)
    refine ⟨by simp only [pduft_lookup, l1]; rfl, ?_⟩
    intro a1 h1
    simp only [pduft_lookup, l2 a1 h1, pduft_lookup_internal_alloc]
  · obtain ⟨l1, l2⟩ := pduft_set_old_lookup w a f e.id
    rw [hl] at l1
    refine ⟨by simp only [pduft_lookup, l1]; rfl, ?_⟩
    intro a1 h1
    simp only [pduft_lookup, l2 a1 h1]

/-- C14: after a call `rina_normal_pduft_set(a, f)` that returns 0, `pduft_lookup(a)` returns
`f`, `pduft_lookup` of every other address returns what it returned before, and a second
identical call returns 0 and leaves the whole state, the table and every flow's entry list
included, as it is.  The state is any state with the `2^PDUFT_HASHTABLE_BITS` buckets of
the C array in which the identity of the next allocation is not yet linked in a flow
list. -/
theorem pduft_set_lookup (w : World) (a f : Nat) (w1 : World)
    (hlen : w.pdu_ft.length = 2 ^ PDUFT_HASHTABLE_BITS)
    (hfresh : ∀ g ∈ w.flows, ∀ id ∈ g.pduft_entries, id < w.next_id)
    (h : rina_normal_pduft_set w a f = Except.ok (0, w1)) :
    pduft_lookup w1 a = some f ∧
    (∀ a1, a1 ≠ a → pduft_lookup w1 a1 = pduft_lookup w a1) ∧
    rina_normal_pduft_set w1 a f = Except.ok (0, w1) := by
  obtain ⟨hv, hc⟩ := pduft_set_cases h
  rcases hc with ⟨hl, rfl⟩ | ⟨e, hl, rfl⟩
  · obtain ⟨hfl, hal, _⟩ := alloc_frame w
    obtain ⟨hpf, hnx⟩ := alloc_pdu_ft w
    obtain ⟨l1, l2⟩ := pduft_set_new_lookup w.alloc.2 a f (by rw [hpf]; exact hlen)
    refine ⟨by simp only [pduft_lookup, l1]; rfl, ?_, ?_⟩
    · intro a1 h1
      simp only [pduft_lookup, l2 a1 h1, pduft_lookup_internal_alloc]
    · have hv1 : ¬ (pduft_set_new w.alloc.2 a f).flows.length ≤ f := by
        simp only [pduft_set_new, fnode_add_tail_length, hfl]; omega
      simp only [rina_normal_pduft_set, hv1, if_false, l1]
      rw [pduft_set_old_eq]
      · simp only [pduft_set_new, List.modify_modify_eq]
        apply List.ext_getElem?
        intro n
        simp only [List.getElem?_modify]
        cases w.alloc.2.pdu_ft[n]? with
        | none => rfl
        | some b =>
          by_cases hn : hash_min a PDUFT_HASHTABLE_BITS = n
          · simp [hn, bucket_set]
          · simp [hn]
      · show fnode_add_tail w.alloc.2.next_id f
            (fnode_del w.alloc.2.next_id (fnode_add_tail w.alloc.2.next_id f w.alloc.2.flows)) =
          fnode_add_tail w.alloc.2.next_id f w.alloc.2.flows
        rw [fnode_del_add_tail]
        intro g hg hc
        rw [hfl] at hg
        have := hfresh g hg _ hc
        rw [hnx] at this
        omega
  · obtain ⟨l1, l2⟩ := pduft_set_old_lookup w a f e.id
    rw [hl] at l1
    refine ⟨by simp only [pduft_lookup, l1]; rfl, ?_, ?_⟩
    · intro a1 h1
      simp only [pduft_lookup, l2 a1 h1]
    · have hv1 : ¬ (pduft_set_old w a f e.id).flows.length ≤ f := by
        simp only [pduft_set_old, fnode_add_tail_length, fnode_del_length]; omega
      simp only [rina_normal_pduft_set, hv1, if_false, l1, Option.map_some']
      rw [pduft_set_old_eq]
      · simp only [pduft_set_old, List.modify_modify_eq]
        congr 1
        funext b
        exact bucket_set_idem a f b
      · show fnode_add_tail e.id f
            (fnode_del e.id (fnode_add_tail e.id f (fnode_del e.id w.flows))) =
          fnode_add_tail e.id f (fnode_del e.id w.flows)
        rw [fnode_del_add_tail _ _ _ (fnode_del_not_mem e.id w.flows)]

theorem mem_pduft_all (w : World) (e : pduft_entry) :
    e ∈ pduft_all w ↔ ∃ (i : Nat) (b : List pduft_entry), w.pdu_ft[i]? = some b ∧ e ∈ b := by
  simp only [pduft_all, List.mem_flatten]
  constructor
  · rintro ⟨b, hb, he⟩
    obtain ⟨i, hi⟩ := List.mem_iff_getElem?.mp hb
    exact ⟨i, b, hi, he⟩
  · rintro ⟨i, b, hi, he⟩
    exact ⟨b, List.getElem?_mem hi, he⟩

/-- In a state that satisfies the invariant an address has one entry at most. -/
theorem pduft_inv_addr_unique {w : World} (inv : pduft_inv w) {e e1 : pduft_entry}
    (he : e ∈ pduft_all w) (he1 : e1 ∈ pduft_all w) (h : e.address = e1.address) : e = e1 := by
  obtain ⟨i, b, hi, hb⟩ := (mem_pduft_all w e).mp he
  obtain ⟨i1, b1, hi1, hb1⟩ := (mem_pduft_all w e1).mp he1
  have h1 := inv.hhash i b hi e hb
  have h2 := inv.hhash i1 b1 hi1 e1 hb1
  have hii : i = i1 := by rw [← h1, ← h2, h]
  subst hii
  have hbb : b = b1 := by rw [hi] at hi1; exact Option.some.inj hi1
  subst hbb
  by_contra hne
  exact (inv.haddr b (List.getElem?_mem hi)).forall (fun _ _ hxy => Ne.symm hxy) hb hb1 hne h

/-- The entry that a lookup finds is in the table and has the address looked up. -/
theorem pduft_lookup_internal_some {w : World} {a : Nat} {e : pduft_entry}
    (h : pduft_lookup_internal w a = some e) : e ∈ pduft_all w ∧ e.address = a := by
  simp only [pduft_lookup_internal, List.getD_eq_getElem?_getD] at h
  cases hb : w.pdu_ft[hash_min a PDUFT_HASHTABLE_BITS]? with
  | none => simp [hb] at h
  | some b =>
    simp only [hb, Option.getD_some] at h
    exact ⟨(mem_pduft_all w e).mpr ⟨_, b, hb, List.mem_of_find?_eq_some h⟩,
      by simpa using List.find?_some h⟩

/-- In a state that satisfies the invariant a lookup that finds nothing means that the
table has no entry for the address. -/
theorem pduft_lookup_internal_none {w : World} (inv : pduft_inv w) {a : Nat}
    (h : pduft_lookup_internal w a = none) : ∀ e ∈ pduft_all w, e.address ≠ a := by
  intro e he hea
  obtain ⟨i, b, hi, hb⟩ := (mem_pduft_all w e).mp he
  have h1 := inv.hhash i b hi e hb
  rw [hea] at h1
  subst h1
  rw [pduft_lookup_internal_bucket w a b hi, List.find?_eq_none] at h
  exact h e hb (by simpa using hea)

theorem pduft_inv_alloc {w : World} (inv : pduft_inv w) : pduft_inv w.alloc.2 := by
  obtain ⟨hfl, _, _⟩ := alloc_frame w
  obtain ⟨hpf, hnx⟩ := alloc_pdu_ft w
  have hall : pduft_all w.alloc.2 = pduft_all w := by simp only [pduft_all, hpf]
  exact ⟨by rw [hpf]; exact inv.hlen, by rw [hpf]; exact inv.hhash, by rw [hpf]; exact inv.haddr,
    by rw [hall]; exact inv.hid, by rw [hall, hnx]; exact inv.hfresh,
    by rw [hall, hfl]; exact inv.hlink, by rw [hall, hfl]; exact inv.hback,
    by rw [hfl]; exact inv.hnodup⟩

theorem fnode_del_get {id j : Nat} {X : List flow_entry} {g1 : flow_entry}
    (h : (fnode_del id X)[j]? = some g1) :
    ∃ g, X[j]? = some g ∧ g1.pduft_entries = g.pduft_entries.filter (fun x => x ≠ id) := by
  simp only [fnode_del, List.getElem?_map] at h
  cases hg : X[j]? with
  | none => simp [hg] at h
  | some g =>
    simp only [hg, Option.map_some', Option.some.injEq] at h
    exact ⟨g, rfl, by rw [← h]⟩

theorem fnode_add_tail_get {id f j : Nat} {X : List flow_entry} {g1 : flow_entry}
    (h : (fnode_add_tail id f X)[j]? = some g1) :
    ∃ g, X[j]? = some g ∧
      g1.pduft_entries = if f = j then g.pduft_entries ++ [id] else g.pduft_entries := by
  simp only [fnode_add_tail, List.getElem?_modify] at h
  cases hg : X[j]? with
  | none => simp [hg] at h
  | some g =>
    simp only [hg, Option.map_eq_map, Option.map_some', Option.some.injEq] at h
    refine ⟨g, rfl, ?_⟩
    rw [← h]
    split <;> rfl

theorem fnode_del_of_get (id : Nat) {j : Nat} {X : List flow_entry} {g : flow_entry}
    (h : X[j]? = some g) :
    ∃ g1, (fnode_del id X)[j]? = some g1 ∧
      g1.pduft_entries = g.pduft_entries.filter (fun x => x ≠ id) := by
  simp only [fnode_del, List.getElem?_map, h, Option.map_some']
  exact ⟨_, rfl, rfl⟩

theorem fnode_add_tail_of_get (id f : Nat) {j : Nat} {X : List flow_entry} {g : flow_entry}
    (h : X[j]? = some g) :
    ∃ g1, (fnode_add_tail id f X)[j]? = some g1 ∧
      g1.pduft_entries = if f = j then g.pduft_entries ++ [id] else g.pduft_entries := by
  simp only [fnode_add_tail, List.getElem?_modify, h, Option.map_eq_map, Option.map_some']
  refine ⟨_, rfl, ?_⟩
  split <;> rfl

/-- The invariant is kept by `rina_normal_pduft_del`. -/
theorem pduft_inv_del {w : World} {id : Nat} {r : Int} {w1 : World} (inv : pduft_inv w)
    (h : rina_normal_pduft_del w id = Except.ok (r, w1)) : pduft_inv w1 := by
  simp only [rina_normal_pduft_del] at h
  split at h
  · simp only [Except.ok.injEq, Prod.mk.injEq] at h
    obtain ⟨_, rfl⟩ := h
    have hget : ∀ (i : Nat) (b1 : List pduft_entry), (w.pdu_ft.map (fun b => b.filter (fun e => e.id ≠ id)))[i]? = some b1 →
        ∃ b : List pduft_entry, w.pdu_ft[i]? = some b ∧ b1 = b.filter (fun e => e.id ≠ id) := by
      intro i b1 hb1
      simp only [List.getElem?_map] at hb1
      cases hb : w.pdu_ft[i]? with
      | none => simp [hb] at hb1
      | some b =>
        simp only [hb, Option.map_some', Option.some.injEq] at hb1
        exact ⟨b, rfl, hb1.symm⟩
    have hall : ∀ e, e ∈ pduft_all { w with
          pdu_ft := w.pdu_ft.map (fun b => b.filter (fun e => e.id ≠ id))
          flows := fnode_del id w.flows } ↔ e ∈ pduft_all w ∧ e.id ≠ id := by
      intro e
      simp only [mem_pduft_all]
      constructor
      · rintro ⟨i, b1, hb1, he⟩
        obtain ⟨b, hb, rfl⟩ := hget i b1 hb1
        simp only [List.mem_filter, decide_eq_true_eq] at he
        exact ⟨⟨i, b, hb, he.1⟩, he.2⟩
      · rintro ⟨⟨i, b, hb, he⟩, hne⟩
        refine ⟨i, b.filter (fun e => e.id ≠ id), ?_, ?_⟩
        · simp only [List.getElem?_map, hb, Option.map_some']
        · simp only [List.mem_filter, decide_eq_true_eq]; exact ⟨he, hne⟩
    refine ⟨?_, ?_, ?_, ?_, ?_, ?_, ?_, ?_⟩
    · simp only [List.length_map]; exact inv.hlen
    · intro i b1 hb1 e he
      obtain ⟨b, hb, rfl⟩ := hget i b1 hb1
      exact inv.hhash i b hb e (List.mem_filter.mp he).1
    · intro b1 hb1
      obtain ⟨i, hi⟩ := List.mem_iff_getElem?.mp hb1
      obtain ⟨b, hb, rfl⟩ := hget i b1 hi
      exact (inv.haddr b (List.getElem?_mem hb)).filter _
    · intro e he e1 he1 hid
      exact inv.hid e ((hall e).mp he).1 e1 ((hall e1).mp he1).1 hid
    · intro e he
      exact inv.hfresh e ((hall e).mp he).1
    · intro e he
      obtain ⟨he0, hne⟩ := (hall e).mp he
      obtain ⟨g, hg, hm⟩ := inv.hlink e he0
      obtain ⟨g1, hg1, hl1⟩ := fnode_del_of_get id hg
      refine ⟨g1, hg1, ?_⟩
      rw [hl1, List.mem_filter]
      exact ⟨hm, by simpa using hne⟩
    · intro j g1 hg1 x hx
      obtain ⟨g, hg, hl⟩ := fnode_del_get hg1
      rw [hl, List.mem_filter] at hx
      obtain ⟨e, he, hid, hfl⟩ := inv.hback j g hg x hx.1
      refine ⟨e, (hall e).mpr ⟨he, ?_⟩, hid, hfl⟩
      rw [hid]; simpa using hx.2
    · intro g1 hg1
      obtain ⟨j, hj⟩ := List.mem_iff_getElem?.mp hg1
      obtain ⟨g, hg, hl⟩ := fnode_del_get hj
      rw [hl]
      exact (inv.hnodup g (List.getElem?_mem hg)).filter _
  · exact absurd h (by simp)

theorem entry_set_fields (a f : Nat) (e : pduft_entry) :
    (entry_set a f e).id = e.id ∧ (entry_set a f e).address = e.address ∧
    (entry_set a f e).flow = if e.address = a then f else e.flow := by
  unfold entry_set
  split
  · rename_i h; exact ⟨rfl, h.symm, rfl⟩
  · exact ⟨rfl, rfl, rfl⟩

theorem entry_set_ne (a f : Nat) (e : pduft_entry) (h : e.address ≠ a) :
    entry_set a f e = e := by
  simp [entry_set, h]

/-- In a bucket without two entries for one address `bucket_set` is `entry_set` on every
entry. -/
theorem bucket_set_eq_map (a f : Nat) : ∀ b : List pduft_entry,
    b.Pairwise (fun x y => x.address ≠ y.address) → bucket_set a f b = b.map (entry_set a f) := by
  intro b
  induction b with
  | nil => intro _; rfl
  | cons e rest ih =>
    intro hp
    rw [List.pairwise_cons] at hp
    by_cases he : e.address = a
    · have hrest : rest.map (entry_set a f) = rest := by
        rw [List.map_congr_left (g := id), List.map_id]
        intro y hy
        exact entry_set_ne a f y (fun hc => hp.1 y hy (he.trans hc.symm))
      simp only [bucket_set, he, if_true, List.map_cons, hrest]
      simp [entry_set, he]
    · simp only [bucket_set, he, if_false, List.map_cons, ih hp.2, entry_set_ne a f e he]

/-- The entries of the table after the new-entry branch of `pduft_set`. -/
theorem mem_pduft_all_new (w : World) (a f : Nat)
    (hlen : w.pdu_ft.length = 2 ^ PDUFT_HASHTABLE_BITS) (e : pduft_entry) :
    e ∈ pduft_all (pduft_set_new w a f) ↔
      e = { id := w.next_id, address := a, flow := f } ∨ e ∈ pduft_all w := by
  simp only [mem_pduft_all, pduft_set_new, List.getElem?_modify]
  constructor
  · rintro ⟨i, b1, hb1, he⟩
    cases hb : w.pdu_ft[i]? with
    | none => simp [hb] at hb1
    | some b =>
      simp only [hb, Option.map_eq_map, Option.map_some', Option.some.injEq] at hb1
      by_cases hi : hash_min a PDUFT_HASHTABLE_BITS = i
      · rw [if_pos hi] at hb1
        rw [← hb1, List.mem_cons] at he
        rcases he with he | he
        · exact Or.inl he
        · exact Or.inr ⟨i, b, hb, he⟩
      · rw [if_neg hi] at hb1
        exact Or.inr ⟨i, b, hb, hb1 ▸ he⟩
  · rintro (he | ⟨i, b, hb, he⟩)
    · obtain ⟨b, hb⟩ := bucket_exists w hlen a
      exact ⟨hash_min a PDUFT_HASHTABLE_BITS,
        { id := w.next_id, address := a, flow := f } :: b, by rw [hb]; simp,
        by rw [he]; exact List.mem_cons_self _ _⟩
    · by_cases hi : hash_min a PDUFT_HASHTABLE_BITS = i
      · exact ⟨i, { id := w.next_id, address := a, flow := f } :: b, by rw [hb]; simp [hi],
          List.mem_cons_of_mem _ he⟩
      · exact ⟨i, b, by rw [hb]; simp [hi], he⟩

/-- The entries of the table after the branch of `pduft_set` that re-uses the entry. -/
theorem mem_pduft_all_old {w : World} (inv : pduft_inv w) (a f id : Nat) (e1 : pduft_entry) :
    e1 ∈ pduft_all (pduft_set_old w a f id) ↔ ∃ e ∈ pduft_all w, e1 = entry_set a f e := by
  simp only [mem_pduft_all, pduft_set_old, List.getElem?_modify]
  constructor
  · rintro ⟨i, b1, hb1, he⟩
    cases hb : w.pdu_ft[i]? with
    | none => simp [hb] at hb1
    | some b =>
      simp only [hb, Option.map_eq_map, Option.map_some', Option.some.injEq] at hb1
      by_cases hi : hash_min a PDUFT_HASHTABLE_BITS = i
      · rw [if_pos hi, bucket_set_eq_map a f b (inv.haddr b (List.getElem?_mem hb))] at hb1
        rw [← hb1, List.mem_map] at he
        obtain ⟨e, he, rfl⟩ := he
        exact ⟨e, ⟨i, b, hb, he⟩, rfl⟩
      · rw [if_neg hi] at hb1
        rw [← hb1] at he
        refine ⟨e1, ⟨i, b, hb, he⟩, (entry_set_ne a f e1 ?_).symm⟩
        intro hc
        exact hi (by rw [← hc]; exact inv.hhash i b hb e1 he)
  · rintro ⟨e, ⟨i, b, hb, he⟩, rfl⟩
    by_cases hi : hash_min a PDUFT_HASHTABLE_BITS = i
    · refine ⟨i, b.map (entry_set a f), ?_, List.mem_map_of_mem _ he⟩
      rw [hb]
      simp [hi, bucket_set_eq_map a f b (inv.haddr b (List.getElem?_mem hb))]
    · refine ⟨i, b, by rw [hb]; simp [hi], ?_⟩
      rw [entry_set_ne a f e]
      · exact he
      · intro hc
        exact hi (by rw [← hc]; exact inv.hhash i b hb e he)

/-- The invariant is kept by the new-entry branch of `rina_normal_pduft_set`. -/
theorem pduft_inv_set_new {w : World} (inv : pduft_inv w) {a f : Nat}
    (hv : f < w.flows.length) (hl : pduft_lookup_internal w a = none) :
    pduft_inv (pduft_set_new w a f) := by
  have hall := mem_pduft_all_new w a f inv.hlen
  have hnone := pduft_lookup_internal_none inv hl
  have hnx : ∀ g ∈ w.flows, w.next_id ∉ g.pduft_entries := by
    intro g hg hc
    obtain ⟨j, hj⟩ := List.mem_iff_getElem?.mp hg
    obtain ⟨e, he, hid, _⟩ := inv.hback j g hj _ hc
    have := inv.hfresh e he
    omega
  refine ⟨?_, ?_, ?_, ?_, ?_, ?_, ?_, ?_⟩
  · simp only [pduft_set_new, List.length_modify]; exact inv.hlen
  · intro i b1 hb1 e he
    simp only [pduft_set_new, List.getElem?_modify] at hb1
    cases hb : w.pdu_ft[i]? with
    | none => simp [hb] at hb1
    | some b =>
      simp only [hb, Option.map_eq_map, Option.map_some', Option.some.injEq] at hb1
      by_cases hi : hash_min a PDUFT_HASHTABLE_BITS = i
      · rw [if_pos hi] at hb1
        rw [← hb1, List.mem_cons] at he
        rcases he with he | he
        · rw [he]; exact hi
        · exact inv.hhash i b hb e he
      · rw [if_neg hi] at hb1
        exact inv.hhash i b hb e (hb1 ▸ he)
  · intro b1 hb1
    obtain ⟨i, hi1⟩ := List.mem_iff_getElem?.mp hb1
    simp only [pduft_set_new, List.getElem?_modify] at hi1
    cases hb : w.pdu_ft[i]? with
    | none => simp [hb] at hi1
    | some b =>
      simp only [hb, Option.map_eq_map, Option.map_some', Option.some.injEq] at hi1
      have hpb := inv.haddr b (List.getElem?_mem hb)
      by_cases hi : hash_min a PDUFT_HASHTABLE_BITS = i
      · rw [if_pos hi] at hi1
        rw [← hi1, List.pairwise_cons]
        refine ⟨?_, hpb⟩
        intro y hy
        exact Ne.symm (hnone y ((mem_pduft_all w y).mpr ⟨i, b, hb, hy⟩))
      · rw [if_neg hi] at hi1
        rw [← hi1]; exact hpb
  · intro e he e1 he1 hid
    rcases (hall e).mp he with h1 | h1 <;> rcases (hall e1).mp he1 with h2 | h2
    · rw [h1, h2]
    · have := inv.hfresh e1 h2
      rw [h1] at hid
      simp only at hid
      omega
    · have := inv.hfresh e h1
      rw [h2] at hid
      simp only at hid
      omega
    · exact inv.hid e h1 e1 h2 hid
  · intro e he
    show e.id < w.next_id + 1
    rcases (hall e).mp he with h1 | h1
    · rw [h1]; exact Nat.lt_succ_self _
    · have := inv.hfresh e h1; omega
  · intro e he
    show ∃ g, (fnode_add_tail w.next_id f w.flows)[e.flow]? = some g ∧ e.id ∈ g.pduft_entries
    rcases (hall e).mp he with h1 | h1
    · obtain ⟨g1, hg1, hl1⟩ := fnode_add_tail_of_get w.next_id f
        (List.getElem?_eq_getElem hv)
      rw [h1]
      exact ⟨g1, hg1, by rw [hl1, if_pos rfl]; simp⟩
    · obtain ⟨g, hg, hm⟩ := inv.hlink e h1
      obtain ⟨g1, hg1, hl1⟩ := fnode_add_tail_of_get w.next_id f hg
      refine ⟨g1, hg1, ?_⟩
      rw [hl1]
      split
      · exact List.mem_append_left _ hm
      · exact hm
  · intro j g1 hg1 x hx
    obtain ⟨g, hg, hl1⟩ := fnode_add_tail_get (show (fnode_add_tail w.next_id f w.flows)[j]? =
      some g1 from hg1)
    rw [hl1] at hx
    have hold : x ∈ g.pduft_entries →
        ∃ e ∈ pduft_all (pduft_set_new w a f), e.id = x ∧ e.flow = j := by
      intro hx0
      obtain ⟨e, he, hid, hfl⟩ := inv.hback j g hg x hx0
      exact ⟨e, (hall e).mpr (Or.inr he), hid, hfl⟩
    by_cases hj : f = j
    · rw [if_pos hj, List.mem_append, List.mem_singleton] at hx
      rcases hx with hx | hx
      · exact hold hx
      · exact ⟨_, (hall _).mpr (Or.inl rfl), hx.symm, hj⟩
    · rw [if_neg hj] at hx
      exact hold hx
  · intro g1 hg1
    obtain ⟨j, hj⟩ := List.mem_iff_getElem?.mp hg1
    obtain ⟨g, hg, hl1⟩ := fnode_add_tail_get (show (fnode_add_tail w.next_id f w.flows)[j]? =
      some g1 from hj)
    have hnd := inv.hnodup g (List.getElem?_mem hg)
    rw [hl1]
    split
    · rw [List.nodup_append]
      refine ⟨hnd, List.nodup_singleton _, ?_⟩
      intro x hx hx1
      rw [List.mem_singleton] at hx1
      exact hnx g (List.getElem?_mem hg) (hx1 ▸ hx)
    · exact hnd

/-- The invariant is kept by the branch of `rina_normal_pduft_set` that re-uses the entry of
the address. -/
theorem pduft_inv_set_old {w : World} (inv : pduft_inv w) {a f : Nat} {e0 : pduft_entry}
    (hv : f < w.flows.length) (hl : pduft_lookup_internal w a = some e0) :
    pduft_inv (pduft_set_old w a f e0.id) := by
  have hall := mem_pduft_all_old inv a f e0.id
  obtain ⟨he0, ha0⟩ := pduft_lookup_internal_some hl
  have huniq : ∀ e ∈ pduft_all w, e.address = a → e = e0 := fun e he hea =>
    pduft_inv_addr_unique inv he he0 (hea.trans ha0.symm)
  have hflows : ∀ j g, w.flows[j]? = some g →
      ∃ g1, (fnode_add_tail e0.id f (fnode_del e0.id w.flows))[j]? = some g1 ∧
        g1.pduft_entries = if f = j then g.pduft_entries.filter (fun x => x ≠ e0.id) ++ [e0.id]
          else g.pduft_entries.filter (fun x => x ≠ e0.id) := by
    intro j g hg
    obtain ⟨g1, hg1, hl1⟩ := fnode_del_of_get e0.id hg
    obtain ⟨g2, hg2, hl2⟩ := fnode_add_tail_of_get e0.id f hg1
    exact ⟨g2, hg2, by rw [hl2, hl1]⟩
  have hflows1 : ∀ j g1, (fnode_add_tail e0.id f (fnode_del e0.id w.flows))[j]? = some g1 →
      ∃ g, w.flows[j]? = some g ∧
        g1.pduft_entries = if f = j then g.pduft_entries.filter (fun x => x ≠ e0.id) ++ [e0.id]
          else g.pduft_entries.filter (fun x => x ≠ e0.id) := by
    intro j g1 hg1
    obtain ⟨g2, hg2, hl2⟩ := fnode_add_tail_get hg1
    obtain ⟨g, hg, hl1⟩ := fnode_del_get hg2
    exact ⟨g, hg, by rw [hl2, hl1]⟩
  refine ⟨?_, ?_, ?_, ?_, ?_, ?_, ?_, ?_⟩
  · simp only [pduft_set_old, List.length_modify]; exact inv.hlen
  · intro i b1 hb1 e1 he1
    have hm : e1 ∈ pduft_all (pduft_set_old w a f e0.id) :=
      (mem_pduft_all _ e1).mpr ⟨i, b1, hb1, he1⟩
    simp only [pduft_set_old, List.getElem?_modify] at hb1
    cases hb : w.pdu_ft[i]? with
    | none => simp [hb] at hb1
    | some b =>
      simp only [hb, Option.map_eq_map, Option.map_some', Option.some.injEq] at hb1
      by_cases hi : hash_min a PDUFT_HASHTABLE_BITS = i
      · rw [if_pos hi, bucket_set_eq_map a f b (inv.haddr b (List.getElem?_mem hb))] at hb1
        rw [← hb1, List.mem_map] at he1
        obtain ⟨e, he, rfl⟩ := he1
        rw [(entry_set_fields a f e).2.1]
        exact inv.hhash i b hb e he
      · rw [if_neg hi] at hb1
        exact inv.hhash i b hb e1 (hb1 ▸ he1)
  · intro b1 hb1
    obtain ⟨i, hi1⟩ := List.mem_iff_getElem?.mp hb1
    simp only [pduft_set_old, List.getElem?_modify] at hi1
    cases hb : w.pdu_ft[i]? with
    | none => simp [hb] at hi1
    | some b =>
      simp only [hb, Option.map_eq_map, Option.map_some', Option.some.injEq] at hi1
      have hpb := inv.haddr b (List.getElem?_mem hb)
      by_cases hi : hash_min a PDUFT_HASHTABLE_BITS = i
      · rw [if_pos hi, bucket_set_eq_map a f b hpb] at hi1
        rw [← hi1]
        refine hpb.map _ ?_
        intro x y hxy
        rw [(entry_set_fields a f x).2.1, (entry_set_fields a f y).2.1]
        exact hxy
      · rw [if_neg hi] at hi1
        rw [← hi1]; exact hpb
  · intro e1 he1 e2 he2 hid
    obtain ⟨x, hx, rfl⟩ := (hall e1).mp he1
    obtain ⟨y, hy, rfl⟩ := (hall e2).mp he2
    rw [(entry_set_fields a f x).1, (entry_set_fields a f y).1] at hid
    rw [inv.hid x hx y hy hid]
  · intro e1 he1
    obtain ⟨x, hx, rfl⟩ := (hall e1).mp he1
    rw [(entry_set_fields a f x).1]
    exact inv.hfresh x hx
  · intro e1 he1
    show ∃ g, (fnode_add_tail e0.id f (fnode_del e0.id w.flows))[e1.flow]? = some g ∧
      e1.id ∈ g.pduft_entries
    obtain ⟨x, hx, rfl⟩ := (hall e1).mp he1
    obtain ⟨h1, _, h3⟩ := entry_set_fields a f x
    rw [h1, h3]
    by_cases hxa : x.address = a
    · rw [if_pos hxa, huniq x hx hxa]
      obtain ⟨g1, hg1, hl1⟩ := hflows f _ (List.getElem?_eq_getElem hv)
      exact ⟨g1, hg1, by rw [hl1, if_pos rfl]; simp⟩
    · rw [if_neg hxa]
      obtain ⟨g, hg, hm⟩ := inv.hlink x hx
      obtain ⟨g1, hg1, hl1⟩ := hflows x.flow g hg
      have hne : x.id ≠ e0.id := fun hc => hxa ((inv.hid x hx e0 he0 hc) ▸ ha0)
      have hin : x.id ∈ g.pduft_entries.filter (fun y => y ≠ e0.id) := by
        rw [List.mem_filter]; exact ⟨hm, by simpa using hne⟩
      refine ⟨g1, hg1, ?_⟩
      rw [hl1]
      split
      · exact List.mem_append_left _ hin
      · exact hin
  · intro j g1 hg1 x hx
    obtain ⟨g, hg, hl1⟩ := hflows1 j g1 hg1
    rw [hl1] at hx
    have hold : x ∈ g.pduft_entries.filter (fun y => y ≠ e0.id) →
        ∃ e ∈ pduft_all (pduft_set_old w a f e0.id), e.id = x ∧ e.flow = j := by
      intro hx0
      rw [List.mem_filter] at hx0
      obtain ⟨e, he, hid, hfl⟩ := inv.hback j g hg x hx0.1
      have hne : e.address ≠ a := by
        intro hc
        have := huniq e he hc
        rw [this] at hid
        exact (by simpa using hx0.2 : x ≠ e0.id) hid.symm
      exact ⟨e, (hall e).mpr ⟨e, he, (entry_set_ne a f e hne).symm⟩, hid, hfl⟩
    have hnew : x = e0.id → f = j →
        ∃ e ∈ pduft_all (pduft_set_old w a f e0.id), e.id = x ∧ e.flow = j := by
      intro hx0 hj
      obtain ⟨h1, _, h3⟩ := entry_set_fields a f e0
      refine ⟨entry_set a f e0, (hall _).mpr ⟨e0, he0, rfl⟩, by rw [h1, hx0], ?_⟩
      rw [h3, if_pos ha0, hj]
    by_cases hj : f = j
    · rw [if_pos hj, List.mem_append, List.mem_singleton] at hx
      rcases hx with hx | hx
      · exact hold hx
      · exact hnew hx hj
    · rw [if_neg hj] at hx
      exact hold hx
  · intro g1 hg1
    obtain ⟨j, hj⟩ := List.mem_iff_getElem?.mp hg1
    obtain ⟨g, hg, hl1⟩ := hflows1 j g1 hj
    have hnd := (inv.hnodup g (List.getElem?_mem hg)).filter (fun x => x ≠ e0.id)
    rw [hl1]
    split
    · rw [List.nodup_append]
      refine ⟨hnd, List.nodup_singleton _, ?_⟩
      intro x hx hx1
      rw [List.mem_singleton] at hx1
      rw [List.mem_filter] at hx
      exact (by simpa using hx.2 : x ≠ e0.id) hx1
    · exact hnd

/-- The invariant is kept by `rina_normal_pduft_set`, whatever it returns. -/
theorem pduft_inv_set {w : World} {a f : Nat} {r : Int} {w1 : World} (inv : pduft_inv w)
    (h : rina_normal_pduft_set w a f = Except.ok (r, w1)) : pduft_inv w1 := by
  simp only [rina_normal_pduft_set] at h
  split at h
  · exact absurd h (by simp)
  · rename_i hv
    have hv1 : f < w.flows.length := by omega
    split at h
    · rename_i hl
      split at h
      · simp only [Except.ok.injEq, Prod.mk.injEq] at h
        rw [← h.2]; exact pduft_inv_alloc inv
      · simp only [Except.ok.injEq, Prod.mk.injEq] at h
        rw [← h.2]
        exact pduft_inv_set_new (pduft_inv_alloc inv) (by rw [(alloc_frame w).1]; exact hv1)
          (by rw [pduft_lookup_internal_alloc]; exact hl)
    · rename_i e0 hl
      simp only [Except.ok.injEq, Prod.mk.injEq] at h
      rw [← h.2]
      exact pduft_inv_set_old inv hv1 hl

/-- The invariant holds in every state reached from one where it holds. -/
theorem pduft_inv_run : ∀ (ops : List pduft_op) (w w1 : World), pduft_inv w →
    pduft_run ops w = Except.ok w1 → pduft_inv w1 := by
  intro ops
  induction ops with
  | nil =>
    intro w w1 inv h
    simp only [pduft_run, Except.ok.injEq] at h
    rw [← h]; exact inv
  | cons op rest ih =>
    intro w w1 inv h
    cases op with
    | set a f =>
      simp only [pduft_run] at h
      cases hs : rina_normal_pduft_set w a f with
      | error e => rw [hs] at h; simp at h
      | ok p =>
        obtain ⟨r, w2⟩ := p
        rw [hs] at h
        exact ih w2 w1 (pduft_inv_set inv hs) h
    | del id =>
      simp only [pduft_run] at h
      cases hs : rina_normal_pduft_del w id with
      | error e => rw [hs] at h; simp at h
      | ok p =>
        obtain ⟨r, w2⟩ := p
        rw [hs] at h
        exact ih w2 w1 (pduft_inv_del inv hs) h

/-- The invariant holds of the table that `rina_normal_create` makes, when no flow has an
entry linked yet. -/
theorem pduft_inv_create (w0 w : World) (h : rina_normal_create w0 = some w)
    (hf : ∀ g ∈ w0.flows, g.pduft_entries = []) : pduft_inv w := by
  simp only [rina_normal_create] at h
  split at h
  · exact absurd h (by simp)
  · simp only [Option.some.injEq] at h
    have hfl : w.flows = w0.flows := by rw [← h]; exact (alloc_frame w0).1
    have hpf : w.pdu_ft = List.replicate (2 ^ PDUFT_HASHTABLE_BITS) [] := by rw [← h]
    have hb : ∀ b ∈ w.pdu_ft, b = [] := by
      intro b hb; rw [hpf] at hb; exact (List.mem_replicate.mp hb).2
    have hall : ∀ e, e ∉ pduft_all w := by
      intro e he
      simp only [pduft_all, List.mem_flatten] at he
      obtain ⟨b, hb1, he1⟩ := he
      rw [hb b hb1] at he1
      simp at he1
    refine ⟨by rw [hpf]; simp, ?_, ?_, ?_, ?_, ?_, ?_, ?_⟩
    · intro i b hi e he
      rw [hb b (List.getElem?_mem hi)] at he; simp at he
    · intro b hb1; rw [hb b hb1]; exact List.Pairwise.nil
    · intro e he; exact absurd he (hall e)
    · intro e he; exact absurd he (hall e)
    · intro e he; exact absurd he (hall e)
    · intro j g hg x hx
      rw [hfl] at hg
      rw [hf g (List.getElem?_mem hg)] at hx; simp at hx
    · intro g hg
      rw [hfl] at hg
      rw [hf g hg]; exact List.nodup_nil

/-- In a state that satisfies the invariant no two entries of the table, whatever their
buckets, have the same address. -/
theorem pduft_inv_pairwise {w : World} (inv : pduft_inv w) :
    (pduft_all w).Pairwise (fun x y => x.address ≠ y.address) := by
  rw [pduft_all, List.pairwise_flatten]
  refine ⟨inv.haddr, ?_⟩
  rw [List.pairwise_iff_getElem]
  intro i j hi hj hij x hx y hy hxy
  have h1 := inv.hhash i _ (List.getElem?_eq_getElem hi) x hx
  have h2 := inv.hhash j _ (List.getElem?_eq_getElem hj) y hy
  rw [hxy] at h1
  omega

theorem filter_address_le_one (a : Nat) : ∀ l : List pduft_entry,
    l.Pairwise (fun x y => x.address ≠ y.address) →
    (l.filter (fun e => e.address = a)).length ≤ 1 := by
  intro l
  induction l with
  | nil => intro _; simp
  | cons e rest ih =>
    intro hp
    rw [List.pairwise_cons] at hp
    by_cases he : e.address = a
    · have hrest : rest.filter (fun e => e.address = a) = [] := by
        rw [List.filter_eq_nil_iff]
        intro y hy
        have := hp.1 y hy
        simpa using fun hc : y.address = a => this (he.trans hc.symm)
      simp [List.filter_cons, he, hrest]
    · simpa [List.filter_cons, he] using ih hp.2

/-- C16: PDUFT injectivity.  In every state reached from the empty table made by
`rina_normal_create` (no flow having an entry linked yet) through a sequence of `pduft_set`
and `pduft_del` calls, the table holds at most one entry for each destination address. -/
theorem pduft_injective (w0 w w1 : World) (ops : List pduft_op) (a : Nat)
    (hc : rina_normal_create w0 = some w) (hf : ∀ g ∈ w0.flows, g.pduft_entries = [])
    (hr : pduft_run ops w = Except.ok w1) :
    ((pduft_all w1).filter (fun e => e.address = a)).length ≤ 1 :=
  filter_address_le_one a _
    (pduft_inv_pairwise (pduft_inv_run ops w w1 (pduft_inv_create w0 w hc hf) hr))

/-- Witness of C16: address 100 is set to flow 0, re-targeted to flow 1, address 200 is set,
the entry of 100 is deleted and 100 is set again. -/
theorem pduft_injective_witness :
    ∃ w1, pduft_run [pduft_op.set 100 0, pduft_op.set 100 1, pduft_op.set 200 1,
        pduft_op.del 0, pduft_op.set 100 2] world_ft = Except.ok w1 ∧
      ((pduft_all w1).filter (fun e => e.address = 100)).length ≤ 1 :=
  ⟨_, rfl, pduft_injective world_ft world_ft _ [pduft_op.set 100 0, pduft_op.set 100 1,
    pduft_op.set 200 1, pduft_op.del 0, pduft_op.set 100 2] 100 rfl (by decide) rfl⟩

/-- C17: in every state reached from the empty table made by `rina_normal_create` (no flow
having an entry linked yet) through a sequence of `pduft_set` and `pduft_del` calls, every
entry of the hash table is linked in the list of the flow in its `flow` field, once, and in
the list of no other flow; and every identity linked in the list of a flow is that of an
entry of the hash table whose `flow` field is that flow. -/
theorem pduft_entry_lists (w0 w w1 : World) (ops : List pduft_op)
    (hc : rina_normal_create w0 = some w) (hf : ∀ g ∈ w0.flows, g.pduft_entries = [])
    (hr : pduft_run ops w = Except.ok w1) :
    (∀ e ∈ pduft_all w1, ∃ g, w1.flows[e.flow]? = some g ∧ g.pduft_entries.count e.id = 1) ∧
    (∀ e ∈ pduft_all w1, ∀ j g, w1.flows[j]? = some g → e.id ∈ g.pduft_entries → j = e.flow) ∧
    (∀ j g, w1.flows[j]? = some g → ∀ id ∈ g.pduft_entries,
      ∃ e ∈ pduft_all w1, e.id = id ∧ e.flow = j) := by
  have inv := pduft_inv_run ops w w1 (pduft_inv_create w0 w hc hf) hr
  refine ⟨?_, ?_, inv.hback⟩
  · intro e he
    obtain ⟨g, hg, hm⟩ := inv.hlink e he
    exact ⟨g, hg, List.count_eq_one_of_mem (inv.hnodup g (List.getElem?_mem hg)) hm⟩
  · intro e he j g hg hm
    obtain ⟨e1, he1, hid, hfl⟩ := inv.hback j g hg e.id hm
    rw [← hfl, inv.hid e1 he1 e he hid]

/-- Witness of C17 on the history of the witness of C16. -/
theorem pduft_entry_lists_witness :
    ∃ w1, pduft_run [pduft_op.set 100 0, pduft_op.set 100 1, pduft_op.set 200 1,
        pduft_op.del 0, pduft_op.set 100 2] world_ft = Except.ok w1 ∧
      (∀ e ∈ pduft_all w1, ∃ g, w1.flows[e.flow]? = some g ∧ g.pduft_entries.count e.id = 1) ∧
      (∀ e ∈ pduft_all w1, ∀ j g, w1.flows[j]? = some g → e.id ∈ g.pduft_entries →
        j = e.flow) ∧
      (∀ j g, w1.flows[j]? = some g → ∀ id ∈ g.pduft_entries,
        ∃ e ∈ pduft_all w1, e.id = id ∧ e.flow = j) :=
  ⟨_, rfl, pduft_entry_lists world_ft world_ft _ [pduft_op.set 100 0, pduft_op.set 100 1,
    pduft_op.set 200 1, pduft_op.del 0, pduft_op.set 100 2] rfl (by decide) rfl⟩

/-- Witness of C14: address 100 is set to flow 1 on an IPCP with an empty PDUFT. -/
theorem pduft_set_lookup_witness :
    pduft_lookup (pduft_set_new world_ft 100 1) 100 = some 1 ∧
    (∀ a1, a1 ≠ 100 → pduft_lookup (pduft_set_new world_ft 100 1) a1 = pduft_lookup world_ft a1) ∧
    rina_normal_pduft_set (pduft_set_new world_ft 100 1) 100 1 =
      Except.ok (0, pduft_set_new world_ft 100 1) :=
  pduft_set_lookup world_ft 100 1 (pduft_set_new world_ft 100 1) rfl (by decide) rfl

/-- C15: PDUFT re-target.  In a state that satisfies the PDUFT invariant (as every state
reached from the empty table does), let `pduft_set(a, fA)` return 0 and let `fB` be another
flow.  Then `pduft_set(a, fB)` returns 0; afterwards the table holds exactly one entry for
`a`; that entry points to `fB`, is linked in the list of `fB` and not in the list of `fA`;
`pduft_lookup(a)` returns `fB`, and `rmt_tx` toward `a` pushes the buffer down `fB`. -/
theorem pduft_retarget (w w1 : World) (a fA fB : Nat) (inv : pduft_inv w) (hAB : fA ≠ fB)
    (hB : fB < w.flows.length) (h1 : rina_normal_pduft_set w a fA = Except.ok (0, w1)) :
    ∃ w2, rina_normal_pduft_set w1 a fB = Except.ok (0, w2) ∧
      ((pduft_all w2).filter (fun e => e.address = a)).length = 1 ∧
      (∀ e ∈ pduft_all w2, e.address = a → e.flow = fB ∧
        (∃ g, w2.flows[fB]? = some g ∧ e.id ∈ g.pduft_entries) ∧
        ∀ g, w2.flows[fA]? = some g → e.id ∉ g.pduft_entries) ∧
      pduft_lookup w2 a = some fB ∧
      ∀ (rx : World → rina_buf → Res) (rb : rina_buf) (ms : Bool),
        rmt_tx rx w2 a rb ms = Except.ok (rmt_tx_push fB rb ms w2.lower_ret
          (w2.emit (event.rmt_tx a rb ms))) := by
  have inv1 := pduft_inv_set inv h1
  have hlen1 : w1.flows.length = w.flows.length := by
    obtain ⟨_, hc⟩ := pduft_set_cases h1
    rcases hc with ⟨_, rfl⟩ | ⟨e, _, rfl⟩
    · simp only [pduft_set_new, fnode_add_tail_length, (alloc_frame w).1]
    · simp only [pduft_set_old, fnode_add_tail_length, fnode_del_length]
  have hB1 : fB < w1.flows.length := by rw [hlen1]; exact hB
  cases hs : rina_normal_pduft_set w1 a fB with
  | error e =>
    simp only [rina_normal_pduft_set] at hs
    rw [if_neg (by omega)] at hs
    split at hs
    · split at hs <;> simp at hs
    · simp at hs
  | ok p =>
    obtain ⟨r, w2⟩ := p
    have hl1 : pduft_lookup w1 a = some fA := (pduft_set_lookups w a fA w1 inv.hlen h1).1
    have hr : r = 0 := by
      simp only [rina_normal_pduft_set] at hs
      rw [if_neg (by omega)] at hs
      split at hs
      · rename_i hl
        simp [pduft_lookup, hl] at hl1
      · simp only [Except.ok.injEq, Prod.mk.injEq] at hs
        exact hs.1.symm
    subst hr
    have inv2 := pduft_inv_set inv1 hs
    have hl2 := (pduft_set_lookups w1 a fB w2 inv1.hlen hs).1
    have hl2' := hl2
    simp only [pduft_lookup] at hl2'
    cases hli : pduft_lookup_internal w2 a with
    | none => rw [hli] at hl2'; simp at hl2'
    | some e2 =>
      rw [hli] at hl2'
      simp only [Option.map_some', Option.some.injEq] at hl2'
      obtain ⟨he2, ha2⟩ := pduft_lookup_internal_some hli
      refine ⟨w2, rfl, ?_, ?_, hl2, ?_⟩
      · have hle := filter_address_le_one a _ (pduft_inv_pairwise inv2)
        have hmem : e2 ∈ (pduft_all w2).filter (fun e => e.address = a) := by
          rw [List.mem_filter]; exact ⟨he2, by simpa using ha2⟩
        have hpos := List.length_pos_of_mem hmem
        omega
      · intro e he hea
        have hee : e = e2 := pduft_inv_addr_unique inv2 he he2 (hea.trans ha2.symm)
        subst hee
        refine ⟨hl2', ?_, ?_⟩
        · obtain ⟨g, hg, hm⟩ := inv2.hlink e he
          rw [hl2'] at hg
          exact ⟨g, hg, hm⟩
        · intro g hg hm
          obtain ⟨e1, he1, hid, hfl⟩ := inv2.hback fA g hg e.id hm
          rw [inv2.hid e1 he1 e he hid, hl2'] at hfl
          exact hAB hfl.symm
      · intro rx rb ms
        exact rmt_tx_lower rx w2 a rb ms fB hl2

/-- Witness of C15 with `a = 100` on the IPCP `world_ft`: the address is set to flow 0, then
to flow 1. -/
theorem pduft_retarget_witness :
    ∃ w2, rina_normal_pduft_set (pduft_set_new world_ft 100 0) 100 1 = Except.ok (0, w2) ∧
      ((pduft_all w2).filter (fun e => e.address = 100)).length = 1 ∧
      (∀ e ∈ pduft_all w2, e.address = 100 → e.flow = 1 ∧
        (∃ g, w2.flows[1]? = some g ∧ e.id ∈ g.pduft_entries) ∧
        ∀ g, w2.flows[0]? = some g → e.id ∉ g.pduft_entries) ∧
      pduft_lookup w2 100 = some 1 ∧
      ∀ (rx : World → rina_buf → Res) (rb : rina_buf) (ms : Bool),
        rmt_tx rx w2 100 rb ms = Except.ok (rmt_tx_push 1 rb ms w2.lower_ret
          (w2.emit (event.rmt_tx 100 rb ms))) :=
  pduft_retarget world_ft (pduft_set_new world_ft 100 0) 100 0 1
    (pduft_inv_create world_ft world_ft rfl (by decide)) (by decide) (by decide) rfl

theorem find_congr_mem {α : Type} (p q : α → Bool) : ∀ l : List α,
    (∀ x ∈ l, p x = q x) → l.find? p = l.find? q := by
  intro l
  induction l with
  | nil => intro _; rfl
  | cons x rest ih =>
    intro h
    rw [List.find?_cons, List.find?_cons, h x (List.mem_cons_self _ _),
      ih (fun y hy => h y (List.mem_cons_of_mem _ hy))]

/-- C18: in a state that satisfies the PDUFT invariant (as every state reached from the
empty table does), `rina_normal_pduft_del` of an entry `e` of the table returns 0;
afterwards `pduft_lookup(e.address)` finds nothing, `e` is neither in the table nor in the
entry list of any flow, and `pduft_lookup` of every other address returns what it returned
before. -/
theorem pduft_del_entry (w : World) (e : pduft_entry) (inv : pduft_inv w)
    (he : e ∈ pduft_all w) :
    ∃ w1, rina_normal_pduft_del w e.id = Except.ok (0, w1) ∧
      pduft_lookup w1 e.address = none ∧
      e ∉ pduft_all w1 ∧
      (∀ g ∈ w1.flows, e.id ∉ g.pduft_entries) ∧
      ∀ a1, a1 ≠ e.address → pduft_lookup w1 a1 = pduft_lookup w a1 := by
  have hany : (pduft_all w).any (fun x => x.id = e.id) = true := by
    rw [List.any_eq_true]
    exact ⟨e, he, by simp⟩
  refine ⟨{ w with
      pdu_ft := w.pdu_ft.map (fun b => b.filter (fun x => x.id ≠ e.id))
      flows := fnode_del e.id w.flows }, by simp only [rina_normal_pduft_del, hany, if_true],
    ?_, ?_, ?_, ?_⟩
  · have hn : pduft_lookup_internal { w with
          pdu_ft := w.pdu_ft.map (fun b => b.filter (fun x => x.id ≠ e.id))
          flows := fnode_del e.id w.flows } e.address = none := by
      simp only [pduft_lookup_internal, List.getD_eq_getElem?_getD, List.getElem?_map]
      cases hb : w.pdu_ft[hash_min e.address PDUFT_HASHTABLE_BITS]? with
      | none => simp
      | some b =>
        simp only [Option.map_some', Option.getD_some, List.find?_eq_none, List.mem_filter]
        intro x hx hxa
        have hxall : x ∈ pduft_all w := (mem_pduft_all w x).mpr ⟨_, b, hb, hx.1⟩
        have := pduft_inv_addr_unique inv hxall he (by simpa using hxa)
        rw [this] at hx
        simp at hx
    simp only [pduft_lookup, hn]
    rfl
  · intro hc
    simp only [pduft_all, List.mem_flatten, List.mem_map] at hc
    obtain ⟨b1, ⟨b, _, rfl⟩, hm⟩ := hc
    simp at hm
  · exact fnode_del_not_mem e.id w.flows
  · intro a1 h1
    simp only [pduft_lookup, pduft_lookup_internal, List.getD_eq_getElem?_getD,
      List.getElem?_map]
    cases hb : w.pdu_ft[hash_min a1 PDUFT_HASHTABLE_BITS]? with
    | none => simp
    | some b =>
      simp only [Option.map_some', Option.getD_some, List.find?_filter]
      congr 1
      apply find_congr_mem
      intro x hx
      have hxall : x ∈ pduft_all w := (mem_pduft_all w x).mpr ⟨_, b, hb, hx⟩
      by_cases hxa : x.address = a1
      · have hne : x.id ≠ e.id := by
          intro hc
          have := inv.hid x hxall e he hc
          rw [this] at hxa
          exact h1 hxa.symm
        simp [hxa, hne]
      · simp [hxa]

/-- Witness of C18: the entry of address 100 is deleted from a table that routes 100
through flow 0. -/
theorem pduft_del_entry_witness :
    ∃ w1, rina_normal_pduft_del (pduft_set_new world_ft 100 0) 0 = Except.ok (0, w1) ∧
      pduft_lookup w1 100 = none ∧
      ({ id := 0, address := 100, flow := 0 } : pduft_entry) ∉ pduft_all w1 ∧
      (∀ g ∈ w1.flows, 0 ∉ g.pduft_entries) ∧
      ∀ a1, a1 ≠ 100 → pduft_lookup w1 a1 = pduft_lookup (pduft_set_new world_ft 100 0) a1 :=
  pduft_del_entry (pduft_set_new world_ft 100 0) { id := 0, address := 100, flow := 0 }
    (pduft_inv_set_new (pduft_inv_create world_ft world_ft rfl (by decide)) (by decide) rfl)
    (by decide)

theorem strlen_le (b : List Nat) : strlen b ≤ b.length :=
  (List.takeWhile_sublist _).length_le

theorem string_prlen_eq (s : Option (List Nat)) :
    string_prlen s = min (strlen (s.getD [])) 255 := by
  cases s with
  | none => simp [string_prlen, strlen]
  | some b =>
    simp only [string_prlen, Option.getD_some]
    split <;> omega

theorem serialize_string_eq (out : List Nat) (s : Option (List Nat)) :
    serialize_string out s = out ++ wire_string s := by
  simp only [serialize_string, wire_string, string_prlen_eq]
  cases s <;> simp

theorem serialize_rina_name_eq (out : List Nat) (name : rina_name) :
    serialize_rina_name out name = out ++ wire_name name := by
  simp only [serialize_rina_name, serialize_string_eq, wire_name, List.append_assoc]

theorem wire_string_length (s : Option (List Nat)) :
    (wire_string s).length = min (strlen (s.getD [])) 255 + 1 := by
  have := strlen_le (s.getD [])
  simp only [wire_string, List.length_cons, List.length_take]
  omega

/-- C13: the wire format.  `serialize_string` writes one length byte
`l = min(strlen(s), 255)` (a null pointer counting as the empty string), then the first `l`
bytes of `s`, which are `l` bytes exactly, and so moves the write pointer by `l + 1`;
`serialize_rina_name` writes the four serialized strings of `apn`, `api`, `aen`, `aei` in
that order, with nothing between or after them. -/
theorem serialize_wire_format (out : List Nat) (s : Option (List Nat)) (name : rina_name) :
    serialize_string out s = out ++ min (strlen (s.getD [])) 255 ::
      (s.getD []).take (min (strlen (s.getD [])) 255) ∧
    ((s.getD []).take (min (strlen (s.getD [])) 255)).length = min (strlen (s.getD [])) 255 ∧
    (serialize_string out s).length = out.length + (min (strlen (s.getD [])) 255 + 1) ∧
    serialize_rina_name out name =
      out ++ (serialize_string [] name.apn ++ serialize_string [] name.api ++
        serialize_string [] name.aen ++ serialize_string [] name.aei) := by
  have hl := strlen_le (s.getD [])
  refine ⟨serialize_string_eq out s, ?_, ?_, ?_⟩
  · rw [List.length_take]; omega
  · rw [serialize_string_eq, List.length_append, wire_string_length]
  · simp only [serialize_rina_name_eq, serialize_string_eq, wire_name, List.nil_append]

theorem strcmp_take (s : List Nat) : strcmp s (s.take (strlen s)) = 0 := by
  induction s with
  | nil => rfl
  | cons c t ih =>
    by_cases hc : c = 0
    · simp [strlen, hc, strcmp]
    · have : strlen (c :: t) = strlen t + 1 := by simp [strlen, hc]
      rw [this, List.take_succ_cons]
      simp only [strcmp, ne_eq, not_true_eq_false, if_false, hc]
      exact ih

theorem mem_holds_append (mem : Nat → Nat) : ∀ (l1 l2 : List Nat) (p : Nat),
    mem_holds mem p (l1 ++ l2) ↔ mem_holds mem p l1 ∧ mem_holds mem (p + l1.length) l2 := by
  intro l1
  induction l1 with
  | nil => intro l2 p; simp [mem_holds]
  | cons b rest ih =>
    intro l2 p
    have e : p + (rest.length + 1) = p + 1 + rest.length := by omega
    show (mem p = b ∧ mem_holds mem (p + 1) (rest ++ l2)) ↔
      (mem p = b ∧ mem_holds mem (p + 1) rest) ∧ mem_holds mem (p + (rest.length + 1)) l2
    rw [ih l2 (p + 1), e, and_assoc]

theorem mem_read_holds (mem : Nat → Nat) : ∀ (l : List Nat) (p : Nat),
    mem_holds mem p l → mem_read mem p l.length = l := by
  intro l
  induction l with
  | nil => intro p _; rfl
  | cons b rest ih =>
    intro p h
    simp only [mem_holds] at h
    simp only [List.length_cons, mem_read, h.1, ih (p + 1) h.2]

theorem reader_alloc_ptr (r : reader) (q : Nat) :
    ({ r with ptr := q } : reader).alloc = (r.alloc.1, { r.alloc.2 with ptr := q }) := by
  obtain ⟨p, script⟩ := r
  cases script <;> rfl

theorem reader_alloc_spec (r : reader) :
    (r.alloc.1 = true ↔ allocs_ok 1 r.alloc_ok) ∧ r.alloc.2.alloc_ok = r.alloc_ok.drop 1 ∧
    r.alloc.2.ptr = r.ptr := by
  obtain ⟨p, script⟩ := r
  cases script <;> simp [reader.alloc, allocs_ok]

theorem allocs_ok_add (a b : Nat) (s : List Bool) :
    allocs_ok (a + b) s ↔ allocs_ok a s ∧ allocs_ok b (s.drop a) := by
  simp only [allocs_ok, List.take_add, List.mem_append]
  constructor
  · intro h
    exact ⟨fun x hx => h x (Or.inl hx), fun x hx => h x (Or.inr hx)⟩
  · rintro ⟨h1, h2⟩ x (hx | hx)
    · exact h1 x hx
    · exact h2 x hx

/-- What `deserialize_string` returns: -1 when the allocation fails, else 0 with the bytes
that follow the length byte, the pointer being moved past them. -/
theorem deserialize_string_spec (mem : Nat → Nat) (r : reader) :
    (allocs_ok 1 r.alloc_ok →
      deserialize_string mem r = (0, some (mem_read mem (r.ptr + 1) (mem r.ptr % 256)),
        { ptr := wire_string_end mem r.ptr, alloc_ok := r.alloc_ok.drop 1 })) ∧
    (¬ allocs_ok 1 r.alloc_ok →
      deserialize_string mem r = (-1, none,
        { ptr := r.ptr + 1, alloc_ok := r.alloc_ok.drop 1 })) := by
  obtain ⟨h1, h2, h3⟩ := reader_alloc_spec r
  have e : ∀ q, ({ r.alloc.2 with ptr := q } : reader) =
      { ptr := q, alloc_ok := r.alloc_ok.drop 1 } := by
    intro q; rw [← h2]
  constructor
  · intro h
    have ha := h1.mpr h
    simp only [deserialize_string, reader_alloc_ptr, ha, Bool.not_true, Bool.false_eq_true,
      if_false, wire_string_end, e]
  · intro h
    have ha : r.alloc.1 = false := by
      cases hb : r.alloc.1 with
      | false => rfl
      | true => exact absurd (h1.mp hb) h
    simp only [deserialize_string, reader_alloc_ptr, ha, Bool.not_false, if_true, e]

/-- The two outcomes of `deserialize_string`. -/
theorem deserialize_string_cases (mem : Nat → Nat) (r : reader) :
    ((deserialize_string mem r).1 = 0 ∧ allocs_ok 1 r.alloc_ok ∧
      (deserialize_string mem r).2.1 = some (mem_read mem (r.ptr + 1) (mem r.ptr % 256)) ∧
      (deserialize_string mem r).2.2 =
        { ptr := wire_string_end mem r.ptr, alloc_ok := r.alloc_ok.drop 1 }) ∨
    ((deserialize_string mem r).1 = -1 ∧ ¬ allocs_ok 1 r.alloc_ok) := by
  by_cases h : allocs_ok 1 r.alloc_ok
  · rw [(deserialize_string_spec mem r).1 h]
    exact Or.inl ⟨rfl, h, rfl, rfl⟩
  · rw [(deserialize_string_spec mem r).2 h]
    exact Or.inr ⟨rfl, h⟩

theorem allocs_ok_succ (n : Nat) (s : List Bool) :
    allocs_ok (n + 1) s ↔ allocs_ok 1 s ∧ allocs_ok n (s.drop 1) := by
  rw [Nat.add_comm, allocs_ok_add]

/-- The two outcomes of `deserialize_rina_name`: 0 when its four allocations succeed, the
four strings being read one after the other, and -1 otherwise. -/
theorem deserialize_rina_name_cases (mem : Nat → Nat) (r : reader) :
    ((deserialize_rina_name mem r).1 = 0 ∧ allocs_ok 4 r.alloc_ok ∧
      (deserialize_rina_name mem r).2.1 =
        { apn := some (mem_read mem (r.ptr + 1) (mem r.ptr % 256))
          api := some (mem_read mem (wire_string_end mem r.ptr + 1)
            (mem (wire_string_end mem r.ptr) % 256))
          aen := some (mem_read mem (wire_string_end mem (wire_string_end mem r.ptr) + 1)
            (mem (wire_string_end mem (wire_string_end mem r.ptr)) % 256))
          aei := some (mem_read mem
            (wire_string_end mem (wire_string_end mem (wire_string_end mem r.ptr)) + 1)
            (mem (wire_string_end mem (wire_string_end mem (wire_string_end mem r.ptr)))
              % 256)) } ∧
      (deserialize_rina_name mem r).2.2 =
        { ptr := wire_name_end mem r.ptr, alloc_ok := r.alloc_ok.drop 4 }) ∨
    ((deserialize_rina_name mem r).1 = -1 ∧ ¬ allocs_ok 4 r.alloc_ok) := by
  have h4 : allocs_ok 4 r.alloc_ok ↔ allocs_ok 1 r.alloc_ok ∧ allocs_ok 1 (r.alloc_ok.drop 1) ∧
      allocs_ok 1 (r.alloc_ok.drop 2) ∧ allocs_ok 1 (r.alloc_ok.drop 3) := by
    rw [allocs_ok_succ 3, allocs_ok_succ 2, allocs_ok_succ 1, List.drop_drop, List.drop_drop]
  simp only [deserialize_rina_name]
  rcases deserialize_string_cases mem r with ⟨a1, a2, a3, a4⟩ | ⟨a1, a2⟩
  · rw [if_neg (by rw [a1]; decide), a4]
    rcases deserialize_string_cases mem
        { ptr := wire_string_end mem r.ptr, alloc_ok := r.alloc_ok.drop 1 } with
      ⟨b1, b2, b3, b4⟩ | ⟨b1, b2⟩
    · rw [if_neg (by rw [b1]; decide), b4]
      rcases deserialize_string_cases mem
          { ptr := wire_string_end mem (wire_string_end mem r.ptr),
            alloc_ok := (r.alloc_ok.drop 1).drop 1 } with
        ⟨c1, c2, c3, c4⟩ | ⟨c1, c2⟩
      · rw [if_neg (by rw [c1]; decide), c4]
        rcases deserialize_string_cases mem
            { ptr := wire_string_end mem (wire_string_end mem (wire_string_end mem r.ptr)),
              alloc_ok := ((r.alloc_ok.drop 1).drop 1).drop 1 } with
          ⟨d1, d2, d3, d4⟩ | ⟨d1, d2⟩
        · left
          simp only [List.drop_drop] at c2 d2
          refine ⟨d1, h4.mpr ⟨a2, b2, c2, d2⟩, ?_, ?_⟩
          · rw [a3, b3, c3, d3]
          · rw [d4]; simp [wire_name_end, List.drop_drop]
        · right
          simp only [List.drop_drop] at d2
          exact ⟨d1, fun h => d2 (h4.mp h).2.2.2⟩
      · right
        rw [if_pos (by rw [c1]; decide)]
        simp only [List.drop_drop] at c2
        exact ⟨c1, fun h => c2 (h4.mp h).2.2.1⟩
    · right
      rw [if_pos (by rw [b1]; decide)]
      exact ⟨b1, fun h => b2 (h4.mp h).2.1⟩
  · right
    rw [if_pos (by rw [a1]; decide)]
    exact ⟨a1, fun h => a2 (h4.mp h).1⟩

/-- The two outcomes of the loop of `deserialize_rina_msg`: 0 when the allocations of all
the names succeed, the pointer then being where the names end, and -1 otherwise. -/
theorem deserialize_names_cases (mem : Nat → Nat) : ∀ (n : Nat) (r : reader),
    ((deserialize_names mem n r).1 = 0 ∧ allocs_ok (4 * n) r.alloc_ok ∧
      (deserialize_names mem n r).2.2.ptr = wire_names_end mem n r.ptr ∧
      (deserialize_names mem n r).2.1.length = n) ∨
    ((deserialize_names mem n r).1 = -1 ∧ ¬ allocs_ok (4 * n) r.alloc_ok) := by
  intro n
  induction n with
  | zero =>
    intro r
    exact Or.inl ⟨rfl, by simp [allocs_ok], rfl, rfl⟩
  | succ n ih =>
    intro r
    have hadd : allocs_ok (4 * (n + 1)) r.alloc_ok ↔
        allocs_ok 4 r.alloc_ok ∧ allocs_ok (4 * n) (r.alloc_ok.drop 4) := by
      rw [show 4 * (n + 1) = 4 + 4 * n by omega, allocs_ok_add]
    simp only [deserialize_names]
    rcases deserialize_rina_name_cases mem r with ⟨a1, a2, _, a4⟩ | ⟨a1, a2⟩
    · rw [if_neg (by rw [a1]; decide), a4]
      rcases ih { ptr := wire_name_end mem r.ptr, alloc_ok := r.alloc_ok.drop 4 } with
        ⟨b1, b2, b3, b4⟩ | ⟨b1, b2⟩
      · exact Or.inl ⟨b1, hadd.mpr ⟨a2, b2⟩, b3, by simp [b4]⟩
      · exact Or.inr ⟨b1, fun h => b2 (hadd.mp h).2⟩
    · rw [if_pos (by rw [a1]; decide)]
      exact Or.inr ⟨a1, fun h => a2 (hadd.mp h).1⟩

/-- C12 (as amended): `deserialize_rina_msg` returns 0 if and only if every string
allocation succeeds and the fixed prefix plus the `N` serialized names of the message type
occupy exactly `serbuf_len` bytes; otherwise it returns -1, in particular whenever bytes
remain after the last name or the buffer ends before the last name is complete (the names
are then read from the memory that follows the buffer). -/
theorem deserialize_rina_msg_length (layout : rina_msg_layout) (mem : Nat → Nat)
    (serbuf_len : Nat) (script : List Bool) :
    ((deserialize_rina_msg layout mem serbuf_len script).1 = 0 ↔
      allocs_ok (4 * layout.names) script ∧
        wire_names_end mem layout.names layout.copylen = serbuf_len) ∧
    ((deserialize_rina_msg layout mem serbuf_len script).1 = 0 ∨
      (deserialize_rina_msg layout mem serbuf_len script).1 = -1) ∧
    (wire_names_end mem layout.names layout.copylen ≠ serbuf_len →
      (deserialize_rina_msg layout mem serbuf_len script).1 = -1) := by
  simp only [deserialize_rina_msg]
  rcases deserialize_names_cases mem layout.names
      { ptr := layout.copylen, alloc_ok := script } with ⟨a1, a2, a3, _⟩ | ⟨a1, a2⟩
  · rw [if_neg (by rw [a1]; decide), a3]
    by_cases he : wire_names_end mem layout.names layout.copylen = serbuf_len
    · rw [if_neg (by simpa using he)]
      exact ⟨⟨fun _ => ⟨a2, he⟩, fun _ => rfl⟩, Or.inl rfl, fun h => absurd he h⟩
    · rw [if_pos he]
      exact ⟨⟨fun h => by simp at h, fun h => absurd h.2 he⟩, Or.inr rfl, fun _ => rfl⟩
  · rw [if_pos (by rw [a1]; decide), a1]
    exact ⟨⟨fun h => by simp at h, fun h => absurd h.1 a2⟩, Or.inr rfl, fun _ => rfl⟩

/-- C12 (counterexample to the claim as written): a message with a prefix of 2 bytes and
one name, whose serialized form occupies exactly the 9 bytes of the buffer; the second
string allocation fails and `deserialize_rina_msg` returns -1. -/
theorem deserialize_rina_msg_length_counterexample :
    wire_names_end (mem_of ([7, 7] ++ serialize_rina_name [] name_ab)) 1 2 = 9 ∧
    ([7, 7] ++ serialize_rina_name [] name_ab).length = 9 ∧
    (deserialize_rina_msg { copylen := 2, names := 1 }
      (mem_of ([7, 7] ++ serialize_rina_name [] name_ab)) 9 [true, false]).1 = -1 :=
  ⟨rfl, rfl, rfl⟩

/-- Reading back a string that was serialized from a component in the range of the spec. -/
theorem wire_string_read (mem : Nat → Nat) (p : Nat) (s : Option (List Nat))
    (hs : comp_ok s) (h : mem_holds mem p (wire_string s)) :
    some (mem_read mem (p + 1) (mem p % 256)) = comp_back s ∧
    wire_string_end mem p = p + (wire_string s).length := by
  have hl : strlen (s.getD []) ≤ 255 := by
    cases s with
    | none => simp [strlen]
    | some b => exact hs
  have hm : min (strlen (s.getD [])) 255 = strlen (s.getD []) := Nat.min_eq_left hl
  have hlen := wire_string_length s
  simp only [wire_string, hm, mem_holds] at h
  rw [hm] at hlen
  have hb : mem p % 256 = strlen (s.getD []) := by rw [h.1]; omega
  have htl : ((s.getD []).take (strlen (s.getD []))).length = strlen (s.getD []) := by
    rw [List.length_take]; exact Nat.min_eq_left (strlen_le _)
  have hr := mem_read_holds mem _ (p + 1) h.2
  rw [htl] at hr
  refine ⟨by rw [hb, hr]; rfl, ?_⟩
  rw [wire_string_end, hb, hlen]
  omega

theorem rina_name_cmp_back (name : rina_name) :
    rina_name_cmp (some (name_strings name)) (some (name_back name)) = 0 ∧
    (rina_name_cmp (some name) (some (name_back name)) = 0 ↔
      name.apn ≠ none ∧ name.api ≠ none ∧ name.aen ≠ none ∧ name.aei ≠ none) := by
  obtain ⟨a, b, c, d⟩ := name
  cases a <;> cases b <;> cases c <;> cases d <;>
    simp [rina_name_cmp, rina_name_cmp_field, name_back, name_strings, comp_back, strcmp_take,
      strcmp]

/-- C11 (as amended): name codec round trip.  For every RINA name whose four components are
each null or a string of length 255 at most, `deserialize_rina_name` applied to the bytes
written by `serialize_rina_name`, its four allocations succeeding, returns 0, moves the
read pointer by exactly the number of bytes that were written, and yields the name with
every string given back and every null component replaced by an empty string:
`rina_name_cmp` finds the result equal to the original with its null components read as
empty strings, and equal to the original itself if and only if no component is null. -/
theorem name_round_trip (name : rina_name) (mem : Nat → Nat) (r : reader)
    (hok : comp_ok name.apn ∧ comp_ok name.api ∧ comp_ok name.aen ∧ comp_ok name.aei)
    (hmem : mem_holds mem r.ptr (serialize_rina_name [] name))
    (hal : allocs_ok 4 r.alloc_ok) :
    deserialize_rina_name mem r = (0, name_back name,
      { ptr := r.ptr + (serialize_rina_name [] name).length, alloc_ok := r.alloc_ok.drop 4 }) ∧
    rina_name_cmp (some (name_strings name)) (some (name_back name)) = 0 ∧
    (rina_name_cmp (some name) (some (name_back name)) = 0 ↔
      name.apn ≠ none ∧ name.api ≠ none ∧ name.aen ≠ none ∧ name.aei ≠ none) := by
  refine ⟨?_, rina_name_cmp_back name⟩
  rw [serialize_rina_name_eq, List.nil_append] at hmem ⊢
  simp only [wire_name, mem_holds_append, List.length_append] at hmem ⊢
  obtain ⟨⟨⟨m1, m2⟩, m3⟩, m4⟩ := hmem
  obtain ⟨r1, e1⟩ := wire_string_read mem r.ptr name.apn hok.1 m1
  rw [← e1] at m2
  obtain ⟨r2, e2⟩ := wire_string_read mem _ name.api hok.2.1 m2
  have p2 : r.ptr + ((wire_string name.apn).length + (wire_string name.api).length) =
      wire_string_end mem (wire_string_end mem r.ptr) := by rw [e2, e1]; omega
  rw [p2] at m3
  obtain ⟨r3, e3⟩ := wire_string_read mem _ name.aen hok.2.2.1 m3
  have p3 : r.ptr + ((wire_string name.apn).length + (wire_string name.api).length +
      (wire_string name.aen).length) =
      wire_string_end mem (wire_string_end mem (wire_string_end mem r.ptr)) := by
    rw [e3, e2, e1]; omega
  rw [p3] at m4
  obtain ⟨r4, e4⟩ := wire_string_read mem _ name.aei hok.2.2.2 m4
  rcases deserialize_rina_name_cases mem r with ⟨a1, _, a3, a4⟩ | ⟨_, a2⟩
  · have hp : wire_name_end mem r.ptr = r.ptr + ((wire_string name.apn).length +
        (wire_string name.api).length + (wire_string name.aen).length +
        (wire_string name.aei).length) := by
      rw [wire_name_end, e4, e3, e2, e1]; omega
    rw [r1, r2, r3, r4] at a3
    rw [hp] at a4
    exact Prod.ext a1 (Prod.ext a3 a4)
  · exact absurd hal a2

/-- Witness of C11 (as amended) on the name "ab"/"1" with two null components, serialized at
the start of a memory. -/
theorem name_round_trip_witness :
    deserialize_rina_name (mem_of (serialize_rina_name [] name_ab)) { ptr := 0, alloc_ok := [] } =
      (0, name_back name_ab,
        { ptr := 0 + (serialize_rina_name [] name_ab).length,
          alloc_ok := ([] : List Bool).drop 4 }) ∧
    rina_name_cmp (some (name_strings name_ab)) (some (name_back name_ab)) = 0 ∧
    (rina_name_cmp (some name_ab) (some (name_back name_ab)) = 0 ↔
      name_ab.apn ≠ none ∧ name_ab.api ≠ none ∧ name_ab.aen ≠ none ∧ name_ab.aei ≠ none) :=
  name_round_trip name_ab (mem_of (serialize_rina_name [] name_ab)) { ptr := 0, alloc_ok := [] }
    ⟨(by decide : strlen [97, 98] ≤ 255), (by decide : strlen [49] ≤ 255), trivial, trivial⟩
    ⟨rfl, rfl, rfl, rfl, rfl, rfl, rfl, trivial⟩
    (fun b hb => by simp at hb)

/-- C11 (counterexample to the claim as written): the name "ab"/"1" has two null
components; every allocation succeeding, its serialized form is read back with empty
strings in their place, and `rina_name_cmp` of the original and the result is -1, not 0. -/
theorem name_round_trip_counterexample :
    strlen [97, 98] ≤ 255 ∧ strlen [49] ≤ 255 ∧ name_ab.aen = none ∧ name_ab.aei = none ∧
    deserialize_rina_name (mem_of (serialize_rina_name [] name_ab)) { ptr := 0, alloc_ok := [] } =
      (0, { apn := some [97, 98], api := some [49], aen := some [], aei := some [] },
        { ptr := 7, alloc_ok := [] }) ∧
    (serialize_rina_name [] name_ab).length = 7 ∧
    rina_name_cmp (some name_ab)
      (some { apn := some [97, 98], api := some [49], aen := some [], aei := some [] }) = -1 :=
  ⟨by decide, by decide, rfl, rfl, rfl, rfl, rfl⟩

/-- Witness of C12 (as amended): the message of prefix 2 and one name that occupies 9 bytes
is accepted with `serbuf_len = 9` and refused with 10 (a byte remains) and with 8 (the
buffer ends inside the name). -/
theorem deserialize_rina_msg_length_witness :
    (deserialize_rina_msg { copylen := 2, names := 1 }
      (mem_of ([7, 7] ++ serialize_rina_name [] name_ab)) 9 []).1 = 0 ∧
    (deserialize_rina_msg { copylen := 2, names := 1 }
      (mem_of ([7, 7] ++ serialize_rina_name [] name_ab)) 10 []).1 = -1 ∧
    (deserialize_rina_msg { copylen := 2, names := 1 }
      (mem_of ([7, 7] ++ serialize_rina_name [] name_ab)) 8 []).1 = -1 :=
  ⟨(deserialize_rina_msg_length { copylen := 2, names := 1 }
      (mem_of ([7, 7] ++ serialize_rina_name [] name_ab)) 9 []).1.mpr
      ⟨fun b hb => by simp at hb, rfl⟩,
   (deserialize_rina_msg_length { copylen := 2, names := 1 }
      (mem_of ([7, 7] ++ serialize_rina_name [] name_ab)) 10 []).2.2 (by decide),
   (deserialize_rina_msg_length { copylen := 2, names := 1 }
      (mem_of ([7, 7] ++ serialize_rina_name [] name_ab)) 8 []).2.2 (by decide)⟩

/-- C21: the state after `rina_normal_flow_init`.  For every flow configuration (the initial
credit being a 64-bit value) the call returns 0 and leaves `set_drf` true,
`next_seq_num_to_send = snd_lwe = 0`, `last_seq_num_sent = -1` (all ones on 64 bits),
`rcv_lwe = 0`, `max_seq_num_rcvd = -1`, `last_snd_data_ack = 0` and
`next_snd_ctl_seq = last_ctrl_seq_num_rcvd = 0`; with window flow control
`max_cwq_len = cfg.max_cwq_len` and `snd_rwe = rcv_rwe = initial_credit`, otherwise
`snd_rwe = rcv_rwe = 0`.  The rest of the flow is left as it is. -/
theorem flow_init_state (w : World) (fi : Nat) (flow : flow_entry)
    (hf : w.flows[fi]? = some flow) (hc : flow.cfg.dtcp.fc.w.initial_credit < 2 ^ 64) :
    ∃ w1 f1, rina_normal_flow_init w fi = Except.ok (0, w1) ∧ w1.flows[fi]? = some f1 ∧
      f1.dtp.set_drf = true ∧ f1.dtp.next_seq_num_to_send = 0 ∧ f1.dtp.snd_lwe = 0 ∧
      f1.dtp.last_seq_num_sent = 2 ^ 64 - 1 ∧ f1.dtp.rcv_lwe = 0 ∧
      f1.dtp.max_seq_num_rcvd = 2 ^ 64 - 1 ∧ f1.dtp.last_snd_data_ack = 0 ∧
      f1.dtp.next_snd_ctl_seq = 0 ∧ f1.dtp.last_ctrl_seq_num_rcvd = 0 ∧
      (flow.cfg.dtcp.fc.fc_type = fc_type.RINA_FC_T_WIN →
        f1.dtp.max_cwq_len = flow.cfg.dtcp.fc.w.max_cwq_len ∧
        f1.dtp.snd_rwe = flow.cfg.dtcp.fc.w.initial_credit ∧
        f1.dtp.rcv_rwe = flow.cfg.dtcp.fc.w.initial_credit) ∧
      (flow.cfg.dtcp.fc.fc_type ≠ fc_type.RINA_FC_T_WIN →
        f1.dtp.snd_rwe = 0 ∧ f1.dtp.rcv_rwe = 0 ∧ f1.dtp.max_cwq_len = flow.dtp.max_cwq_len) ∧
      f1.cfg = flow.cfg ∧ f1.local_port = flow.local_port ∧
      f1.remote_port = flow.remote_port ∧ f1.remote_addr = flow.remote_addr ∧
      f1.dtp.cwq = flow.dtp.cwq ∧ f1.dtp.cwq_len = flow.dtp.cwq_len ∧
      f1.dtp.rtxq = flow.dtp.rtxq ∧ f1.dtp.seqq = flow.dtp.seqq ∧
      w1.addr = w.addr ∧ w1.pdu_ft = w.pdu_ft ∧ w1.trace = w.trace := by
  refine ⟨w.set_dtp fi (flow_init_dtp flow.cfg flow.dtp),
    { flow with dtp := flow_init_dtp flow.cfg flow.dtp },
    by simp only [rina_normal_flow_init, hf], set_dtp_get hf _, ?_⟩
  by_cases hw : flow.cfg.dtcp.fc.fc_type = fc_type.RINA_FC_T_WIN
  · simp [flow_init_dtp, hw, U64_MAX, u64_of_lt hc, World.set_dtp, World.upd_flow]
  · simp [flow_init_dtp, hw, U64_MAX, World.set_dtp, World.upd_flow]

/-- Witness of C21: the flow of `world_s2`, with window flow control of initial credit 2. -/
theorem flow_init_state_witness :
    ∃ w1 f1, rina_normal_flow_init world_s2 0 = Except.ok (0, w1) ∧ w1.flows[0]? = some f1 ∧
      f1.dtp.set_drf = true ∧ f1.dtp.next_seq_num_to_send = 0 ∧ f1.dtp.snd_lwe = 0 ∧
      f1.dtp.last_seq_num_sent = 2 ^ 64 - 1 ∧ f1.dtp.rcv_lwe = 0 ∧
      f1.dtp.max_seq_num_rcvd = 2 ^ 64 - 1 ∧ f1.dtp.last_snd_data_ack = 0 ∧
      f1.dtp.next_snd_ctl_seq = 0 ∧ f1.dtp.last_ctrl_seq_num_rcvd = 0 ∧
      ((mk_flow 1 2 43 (cfg_window 2 1)).cfg.dtcp.fc.fc_type = fc_type.RINA_FC_T_WIN →
        f1.dtp.max_cwq_len = (mk_flow 1 2 43 (cfg_window 2 1)).cfg.dtcp.fc.w.max_cwq_len ∧
        f1.dtp.snd_rwe = (mk_flow 1 2 43 (cfg_window 2 1)).cfg.dtcp.fc.w.initial_credit ∧
        f1.dtp.rcv_rwe = (mk_flow 1 2 43 (cfg_window 2 1)).cfg.dtcp.fc.w.initial_credit) ∧
      ((mk_flow 1 2 43 (cfg_window 2 1)).cfg.dtcp.fc.fc_type ≠ fc_type.RINA_FC_T_WIN →
        f1.dtp.snd_rwe = 0 ∧ f1.dtp.rcv_rwe = 0 ∧
        f1.dtp.max_cwq_len = (mk_flow 1 2 43 (cfg_window 2 1)).dtp.max_cwq_len) ∧
      f1.cfg = (mk_flow 1 2 43 (cfg_window 2 1)).cfg ∧
      f1.local_port = (mk_flow 1 2 43 (cfg_window 2 1)).local_port ∧
      f1.remote_port = (mk_flow 1 2 43 (cfg_window 2 1)).remote_port ∧
      f1.remote_addr = (mk_flow 1 2 43 (cfg_window 2 1)).remote_addr ∧
      f1.dtp.cwq = (mk_flow 1 2 43 (cfg_window 2 1)).dtp.cwq ∧
      f1.dtp.cwq_len = (mk_flow 1 2 43 (cfg_window 2 1)).dtp.cwq_len ∧
      f1.dtp.rtxq = (mk_flow 1 2 43 (cfg_window 2 1)).dtp.rtxq ∧
      f1.dtp.seqq = (mk_flow 1 2 43 (cfg_window 2 1)).dtp.seqq ∧
      w1.addr = world_s2.addr ∧ w1.pdu_ft = world_s2.pdu_ft ∧ w1.trace = world_s2.trace :=
  flow_init_state world_s2 0 (mk_flow 1 2 43 (cfg_window 2 1)) rfl (by decide)

/-- The flow found at `fi` once `sdu_rx_sv_update` has run on the flow stored there. -/
theorem sdu_rx_sv_update_flow (w : World) (fi : Nat) (flow : flow_entry)
    (hf : w.flows[fi]? = some flow) :
    (sdu_rx_sv_update w fi flow).2.flows[fi]? = some { flow with dtp :=
      { (sv_update_rwe flow).dtp with
        next_snd_ctl_seq := if (sdu_rx_sv_update w fi flow).1 = none
          then flow.dtp.next_snd_ctl_seq else u64 (flow.dtp.next_snd_ctl_seq + 1) } } := by
  have hr : (sv_update_rwe flow).dtp.next_snd_ctl_seq = flow.dtp.next_snd_ctl_seq := by
    unfold sv_update_rwe; simp only; split <;> rfl
  have h1 := set_dtp_get hf (sv_update_rwe flow).dtp
  simp only [sdu_rx_sv_update]
  split
  · rcases ctrl_pdu_alloc_spec (w.set_dtp fi (sv_update_rwe flow).dtp) fi (sv_update_rwe flow)
      (sv_update_pdu_type (sv_update_rwe flow).cfg.dtcp) 0 with
      ⟨_, _, _, ⟨e1, e2⟩ | ⟨crb, e1, _, _, _, e2⟩⟩
    · rw [e2, e1, h1]
      simp only [if_true, ← hr]
    · rw [e2, e1, set_dtp_set_dtp, set_dtp_get hf]
      simp [hr]
  · rw [h1]
    simp only [if_true, ← hr]

/-- The control PDU built by `ctrl_pdu_alloc` when the buffer can be allocated. -/
theorem ctrl_pdu_alloc_fst (w : World) (fi : Nat) (flow : flow_entry) (t a : Nat) :
    (ctrl_pdu_alloc w fi flow t a).1 =
      if w.alloc.1 = true then
        some { pci :=
                { base :=
                    { dst_addr := flow.remote_addr, src_addr := w.addr, qos_id := 0,
                      dst_cep := flow.remote_port, src_cep := flow.local_port, pdu_type := t,
                      pdu_flags := 0, seqnum := flow.dtp.next_snd_ctl_seq }
                  last_ctrl_seq_num_rcvd := flow.dtp.last_ctrl_seq_num_rcvd
                  ack_nack_seq_num := a
                  new_rwe := flow.dtp.rcv_rwe
                  new_lwe := flow.dtp.rcv_lwe
                  my_rwe := flow.dtp.snd_rwe
                  my_lwe := flow.dtp.snd_lwe }
               npci := 1, data := [] }
      else none := by
  unfold ctrl_pdu_alloc World.alloc
  cases hal : w.alloc_ok with
  | nil => rfl
  | cons b bs => cases b <;> rfl

theorem sdu_rx_sv_update_fst (w : World) (fi : Nat) (flow : flow_entry) :
    (sdu_rx_sv_update w fi flow).1 =
      if sv_update_pdu_type flow.cfg.dtcp ≠ 0 then
        (ctrl_pdu_alloc (w.set_dtp fi (sv_update_rwe flow).dtp) fi (sv_update_rwe flow)
          (sv_update_pdu_type flow.cfg.dtcp) 0).1
      else none := by
  have hc : (sv_update_rwe flow).cfg = flow.cfg := by
    unfold sv_update_rwe; simp only; split <;> rfl
  simp only [sdu_rx_sv_update, hc]
  split <;> rfl

/-- C30: `sdu_rx_sv_update`.  It returns a control PDU if and only if `rtx_control` or
`flow_control` is set and the control buffer can be allocated.  With flow control of the
window type `rcv_rwe` is first set to `rcv_lwe + initial_credit` (on 64 bits).  The PDU
returned has type CTRL|ACK, with the FC bit added iff `flow_control`, when `rtx_control` is
set, and CTRL|FC otherwise; it carries `ack_nack_seq_num = 0`, the previous
`next_snd_ctl_seq` as seqnum, which is then incremented by one, `new_rwe = rcv_rwe`,
`new_lwe = rcv_lwe`, `my_rwe = snd_rwe`, `my_lwe = snd_lwe` and the `last_ctrl_seq_num_rcvd`
of the DTP state, and it is addressed to the remote end of the flow.  Nothing else changes
in the flow. -/
theorem sdu_rx_sv_update_ctrl_pdu (w : World) (fi : Nat) (flow : flow_entry)
    (hf : w.flows[fi]? = some flow) :
    ∃ (rwe : Nat) (f1 : flow_entry),
      rwe = (if flow.cfg.dtcp.flow_control = true ∧
          flow.cfg.dtcp.fc.fc_type = fc_type.RINA_FC_T_WIN
        then u64 (flow.dtp.rcv_lwe + flow.cfg.dtcp.fc.w.initial_credit)
        else flow.dtp.rcv_rwe) ∧
      (sdu_rx_sv_update w fi flow).2.flows[fi]? = some f1 ∧
      ((sdu_rx_sv_update w fi flow).1 ≠ none ↔
        (flow.cfg.dtcp.rtx_control = true ∨ flow.cfg.dtcp.flow_control = true) ∧
          w.alloc.1 = true) ∧
      ((sdu_rx_sv_update w fi flow).1 = none →
        f1 = { flow with dtp := { flow.dtp with rcv_rwe := rwe } }) ∧
      ∀ crb, (sdu_rx_sv_update w fi flow).1 = some crb →
        crb.pci.base.pdu_type =
          (if flow.cfg.dtcp.rtx_control = true then
            PDU_T_CTRL_MASK ||| PDU_T_ACK_BIT ||| PDU_T_ACK |||
              (if flow.cfg.dtcp.flow_control = true then PDU_T_FC_BIT else 0)
           else PDU_T_CTRL_MASK ||| PDU_T_FC_BIT) ∧
        crb.pci.ack_nack_seq_num = 0 ∧
        crb.pci.base.seqnum = flow.dtp.next_snd_ctl_seq ∧
        crb.pci.new_rwe = rwe ∧ crb.pci.new_lwe = flow.dtp.rcv_lwe ∧
        crb.pci.my_rwe = flow.dtp.snd_rwe ∧ crb.pci.my_lwe = flow.dtp.snd_lwe ∧
        crb.pci.last_ctrl_seq_num_rcvd = flow.dtp.last_ctrl_seq_num_rcvd ∧
        crb.pci.base.dst_addr = flow.remote_addr ∧ crb.pci.base.src_addr = w.addr ∧
        crb.pci.base.dst_cep = flow.remote_port ∧ crb.pci.base.src_cep = flow.local_port ∧
        crb.pci.base.pdu_flags = 0 ∧
        f1 = { flow with dtp := { flow.dtp with
          rcv_rwe := rwe, next_snd_ctl_seq := u64 (flow.dtp.next_snd_ctl_seq + 1) } } := by
  refine ⟨_, _, rfl, sdu_rx_sv_update_flow w fi flow hf, ?_⟩
  have hal : (w.set_dtp fi (sv_update_rwe flow).dtp).alloc.1 = w.alloc.1 := alloc_fst_eq _ _ rfl
  have hfst := sdu_rx_sv_update_fst w fi flow
  rw [ctrl_pdu_alloc_fst, hal, set_dtp_addr] at hfst
  rw [hfst]
  cases hfc : flow.cfg.dtcp.flow_control <;> cases hrtx : flow.cfg.dtcp.rtx_control <;>
    by_cases hw : flow.cfg.dtcp.fc.fc_type = fc_type.RINA_FC_T_WIN <;>
    cases hal1 : w.alloc.1 <;>
    simp [sv_update_rwe, sv_update_pdu_type, hfc, hrtx, hw,
      PDU_T_CTRL_MASK, PDU_T_ACK_BIT, PDU_T_ACK, PDU_T_FC_BIT]

/-- Witness of C30: the flow of `world_s2`, with window flow control of initial credit 2. -/
theorem sdu_rx_sv_update_ctrl_pdu_witness :
    world_s2.flows[0]? = some (mk_flow 1 2 43 (cfg_window 2 1)) ∧
    ∃ (rwe : Nat) (f1 : flow_entry),
      rwe = (if (mk_flow 1 2 43 (cfg_window 2 1)).cfg.dtcp.flow_control = true ∧
          (mk_flow 1 2 43 (cfg_window 2 1)).cfg.dtcp.fc.fc_type = fc_type.RINA_FC_T_WIN
        then u64 ((mk_flow 1 2 43 (cfg_window 2 1)).dtp.rcv_lwe + (mk_flow 1 2 43 (cfg_window 2 1)).cfg.dtcp.fc.w.initial_credit)
        else (mk_flow 1 2 43 (cfg_window 2 1)).dtp.rcv_rwe) ∧
      (sdu_rx_sv_update world_s2 0 (mk_flow 1 2 43 (cfg_window 2 1))).2.flows[0]? = some f1 ∧
      ((sdu_rx_sv_update world_s2 0 (mk_flow 1 2 43 (cfg_window 2 1))).1 ≠ none ↔
        ((mk_flow 1 2 43 (cfg_window 2 1)).cfg.dtcp.rtx_control = true ∨ (mk_flow 1 2 43 (cfg_window 2 1)).cfg.dtcp.flow_control = true) ∧
          world_s2.alloc.1 = true) ∧
      ((sdu_rx_sv_update world_s2 0 (mk_flow 1 2 43 (cfg_window 2 1))).1 = none →
        f1 = { (mk_flow 1 2 43 (cfg_window 2 1)) with dtp := { (mk_flow 1 2 43 (cfg_window 2 1)).dtp with rcv_rwe := rwe } }) ∧
      ∀ crb, (sdu_rx_sv_update world_s2 0 (mk_flow 1 2 43 (cfg_window 2 1))).1 = some crb →
        crb.pci.base.pdu_type =
          (if (mk_flow 1 2 43 (cfg_window 2 1)).cfg.dtcp.rtx_control = true then
            PDU_T_CTRL_MASK ||| PDU_T_ACK_BIT ||| PDU_T_ACK |||
              (if (mk_flow 1 2 43 (cfg_window 2 1)).cfg.dtcp.flow_control = true then PDU_T_FC_BIT else 0)
           else PDU_T_CTRL_MASK ||| PDU_T_FC_BIT) ∧
        crb.pci.ack_nack_seq_num = 0 ∧
        crb.pci.base.seqnum = (mk_flow 1 2 43 (cfg_window 2 1)).dtp.next_snd_ctl_seq ∧
        crb.pci.new_rwe = rwe ∧ crb.pci.new_lwe = (mk_flow 1 2 43 (cfg_window 2 1)).dtp.rcv_lwe ∧
        crb.pci.my_rwe = (mk_flow 1 2 43 (cfg_window 2 1)).dtp.snd_rwe ∧ crb.pci.my_lwe = (mk_flow 1 2 43 (cfg_window 2 1)).dtp.snd_lwe ∧
        crb.pci.last_ctrl_seq_num_rcvd = (mk_flow 1 2 43 (cfg_window 2 1)).dtp.last_ctrl_seq_num_rcvd ∧
        crb.pci.base.dst_addr = (mk_flow 1 2 43 (cfg_window 2 1)).remote_addr ∧ crb.pci.base.src_addr = world_s2.addr ∧
        crb.pci.base.dst_cep = (mk_flow 1 2 43 (cfg_window 2 1)).remote_port ∧ crb.pci.base.src_cep = (mk_flow 1 2 43 (cfg_window 2 1)).local_port ∧
        crb.pci.base.pdu_flags = 0 ∧
        f1 = { (mk_flow 1 2 43 (cfg_window 2 1)) with dtp := { (mk_flow 1 2 43 (cfg_window 2 1)).dtp with
          rcv_rwe := rwe, next_snd_ctl_seq := u64 ((mk_flow 1 2 43 (cfg_window 2 1)).dtp.next_snd_ctl_seq + 1) } } :=
  ⟨rfl, sdu_rx_sv_update_ctrl_pdu world_s2 0 (mk_flow 1 2 43 (cfg_window 2 1)) rfl⟩

/-- C27: the DRF path.  For a data PDU with the DRF flag and seqnum `s`, addressed to this
IPCP on an existing flow, whatever the receiver state: at the point where `sdu_rx` is done
with the flow state, `rcv_lwe = s + 1` (on 64 bits) and `max_seq_num_rcvd = s`, and exactly
that buffer, with its PCI popped, has been delivered upward; the call then forwards the
control PDU produced by `sdu_rx_sv_update`, if any, toward `flow.remote_addr` and returns
0.  When the remote address is not the IPCP's own the call returns 0 with the flow in that
state. -/
theorem sdu_rx_drf_path (rx : World → rina_buf → Res) (w : World) (rb : rina_buf) (fi : Nat)
    (f : flow_entry) (ha : rb.pci.base.dst_addr = w.addr)
    (hg : flow_get w rb.pci.base.dst_cep = some (fi, f))
    (ht : rb.pci.base.pdu_type = PDU_T_DT) (hfl : rb.pci.base.pdu_flags % 2 = 1) :
    ∃ (wm : World) (fm : flow_entry) (crb : Option rina_buf),
      rina_normal_sdu_rx_body rx w rb = snd_crb rx wm f.remote_addr crb 0 ∧
      wm.flows[fi]? = some fm ∧
      fm.dtp.rcv_lwe = u64 (rb.pci.base.seqnum + 1) ∧
      fm.dtp.max_seq_num_rcvd = rb.pci.base.seqnum ∧
      wm.trace = w.trace ++ [event.sdu_rx rb, event.sdu_rx_flow fi (rina_buf_pci_pop rb)] ∧
      crb = (sdu_rx_sv_update (w.emit (event.sdu_rx rb)) fi { f with dtp :=
        { rcv_inact_rearm f.cfg f.dtp with
          rcv_lwe := u64 (rb.pci.base.seqnum + 1)
          max_seq_num_rcvd := rb.pci.base.seqnum } }).1 ∧
      (∀ c, crb = some c → c.pci.base.dst_addr = f.remote_addr) ∧
      (crb = none → rina_normal_sdu_rx_body rx w rb = Except.ok (0, wm)) ∧
      (f.remote_addr ≠ w.addr →
        ∃ w1 f1, rina_normal_sdu_rx_body rx w rb = Except.ok (0, w1) ∧
          w1.flows[fi]? = some f1 ∧ f1.dtp = fm.dtp ∧
          delivered w1.trace = delivered w.trace ++ [(fi, rina_buf_pci_pop rb)]) := by
  have hf := (flow_get_some hg).1
  rw [sdu_rx_body_data rx w rb fi f ha hg ht]
  simp only [hfl, if_true, sdu_rx_drf, rina_sdu_rx_flow]
  obtain ⟨s1, s2, s3, ⟨D, s4, s5⟩, s6⟩ := sdu_rx_sv_update_spec (w.emit (event.sdu_rx rb)) fi
    { f with dtp := { rcv_inact_rearm f.cfg f.dtp with
        rcv_lwe := u64 (rb.pci.base.seqnum + 1), max_seq_num_rcvd := rb.pci.base.seqnum } }
  generalize hsv : sdu_rx_sv_update (w.emit (event.sdu_rx rb)) fi
    { f with dtp := { rcv_inact_rearm f.cfg f.dtp with
        rcv_lwe := u64 (rb.pci.base.seqnum + 1), max_seq_num_rcvd := rb.pci.base.seqnum } }
    = sv at s1 s2 s3 s4 s6
  have hfm : (sv.2.emit (event.sdu_rx_flow fi (rina_buf_pci_pop rb))).flows[fi]?
      = some { f with dtp := D } := by
    show sv.2.flows[fi]? = _
    rw [s4]; exact set_dtp_get hf D
  have htr : (sv.2.emit (event.sdu_rx_flow fi (rina_buf_pci_pop rb))).trace =
      w.trace ++ [event.sdu_rx rb, event.sdu_rx_flow fi (rina_buf_pci_pop rb)] := by
    simp [World.emit, s3]
  refine ⟨sv.2.emit (event.sdu_rx_flow fi (rina_buf_pci_pop rb)), { f with dtp := D }, sv.1,
    rfl, hfm, congrArg dtp.rcv_lwe s5, congrArg dtp.max_seq_num_rcvd s5, htr, rfl, s6, ?_, ?_⟩
  · intro hn
    rw [hn]; rfl
  · intro hne
    obtain ⟨w1, h1, k⟩ := snd_crb_away rx (sv.2.emit (event.sdu_rx_flow fi (rina_buf_pci_pop rb)))
      f.remote_addr sv.1 0 (by show f.remote_addr ≠ sv.2.addr; rw [s1]; exact hne)
    obtain ⟨f1, hf1, hk1⟩ := away_get k hfm
    simp only [fkey, Prod.mk.injEq] at hk1
    refine ⟨w1, f1, h1, hf1, hk1.2.2.2.2, ?_⟩
    rw [k.delivered, htr, delivered_append]
    simp [delivered]

/-- Witness of C27: a data PDU with DRF and seqnum 10 on the flow of `world_s4 0`. -/
theorem sdu_rx_drf_path_witness :
    flow_get (world_s4 0) (data_pdu 42 1 10 1 [0]).pci.base.dst_cep
      = some (0, mk_flow 1 2 43 (cfg_rtx 0)) ∧
    ∃ (wm : World) (fm : flow_entry), wm.flows[0]? = some fm ∧ fm.dtp.rcv_lwe = 11 ∧
      fm.dtp.max_seq_num_rcvd = 10 :=
  ⟨rfl,
    let ⟨wm, fm, _, _, h1, h2, h3, _⟩ := sdu_rx_drf_path (rina_normal_sdu_rx 0) (world_s4 0)
      (data_pdu 42 1 10 1 [0]) 0 (mk_flow 1 2 43 (cfg_rtx 0)) rfl rfl rfl (by decide)
    ⟨wm, fm, h1, h2, h3⟩⟩

/-- C28 (code defect): the DRF path does not flush the sequencing queue; the source only
carries the comment "Flush reassembly queue".  On a fresh flow with retransmission control
and `max_sdu_gap = 0`, the PDUs 0 (with DRF) and 1 are delivered, PDU 3 waits in `seqq` for
the missing PDU 2; when a new run starts with a PDU 0 carrying DRF, that PDU is delivered
and `rcv_lwe` becomes 1, but PDU 3 of the old run is still in `seqq`. -/
theorem sdu_rx_drf_seqq_not_flushed :
    rina_normal_flow_init (world_s4 0) 0 = Except.ok (0, world_s4 0) ∧
    ∃ rets w1 f1, rx_all 1 [data_pdu 42 1 0 1 [0], data_pdu 42 1 1 0 [1],
        data_pdu 42 1 3 0 [3], data_pdu 42 1 0 1 [4]] (world_s4 0) = Except.ok (rets, w1) ∧
      w1.flows[0]? = some f1 ∧ f1.dtp.rcv_lwe = 1 ∧
      f1.dtp.seqq = [rina_buf_pci_pop (data_pdu 42 1 3 0 [3])] ∧
      (delivered w1.trace).map (fun p => p.2.data) = [[0], [1], [4]] :=
  ⟨rfl, _, _, _, rfl, rfl, rfl, rfl, rfl⟩

/-- C26 (code defect): a buffer of `seqq` whose seqnum is not above `rcv_lwe`.  On a fresh
flow with retransmission control and `max_sdu_gap = 0`, PDU 1 overtakes PDU 0, which
carries DRF: PDU 1 is put in `seqq`, then the DRF path sets `rcv_lwe = 1` and leaves the
queue alone (it does not flush it), so `seqq` holds seqnum 1 while `rcv_lwe` is 1. -/
theorem seqq_not_above_rcv_lwe :
    rina_normal_flow_init (world_s4 0) 0 = Except.ok (0, world_s4 0) ∧
    ∃ rets w1 f1, rx_all 1 [data_pdu 42 1 1 0 [1], data_pdu 42 1 0 1 [0]] (world_s4 0)
        = Except.ok (rets, w1) ∧
      w1.flows[0]? = some f1 ∧ f1.dtp.rcv_lwe = 1 ∧
      f1.dtp.seqq.map (fun b => b.pci.base.seqnum) = [1] ∧
      ¬ ∀ b ∈ f1.dtp.seqq, b.pci.base.seqnum > f1.dtp.rcv_lwe :=
  ⟨rfl, _, _, _, rfl, rfl, rfl, rfl, by decide⟩

/-- What `seqq_push` does: either the buffer is inserted, after the queued buffers it was
compared with and found above, and right before the first one it is below; or a queued
buffer has the same seqnum, the queue is left as it is and the buffer is freed. -/
theorem seqq_push_cases : ∀ (q : List rina_buf) (rb : rina_buf),
    ((seqq_push q rb).2 = none ∧ ∃ l1 l2, q = l1 ++ l2 ∧ (seqq_push q rb).1 = l1 ++ rb :: l2 ∧
      (∀ c ∈ l1, c.pci.base.seqnum < rb.pci.base.seqnum) ∧
      (∀ c, l2.head? = some c → rb.pci.base.seqnum < c.pci.base.seqnum)) ∨
    ((seqq_push q rb).2 = some rb ∧ (seqq_push q rb).1 = q ∧
      ∃ l1 c l2, q = l1 ++ c :: l2 ∧ c.pci.base.seqnum = rb.pci.base.seqnum ∧
        ∀ c1 ∈ l1, c1.pci.base.seqnum < rb.pci.base.seqnum) := by
  intro q rb
  induction q with
  | nil => exact Or.inl ⟨rfl, [], [], rfl, rfl, by simp, by simp⟩
  | cons cur rest ih =>
    by_cases h1 : rb.pci.base.seqnum < cur.pci.base.seqnum
    · left
      have e : seqq_push (cur :: rest) rb = (rb :: cur :: rest, none) := by
        rw [seqq_push, if_pos h1]
      rw [e]
      exact ⟨rfl, [], cur :: rest, rfl, rfl, by simp, by simpa using h1⟩
    · by_cases h2 : rb.pci.base.seqnum = cur.pci.base.seqnum
      · right
        have e : seqq_push (cur :: rest) rb = (cur :: rest, some rb) := by
          rw [seqq_push, if_neg h1, if_pos h2]
        rw [e]
        exact ⟨rfl, rfl, [], cur, rest, rfl, h2.symm, by simp⟩
      · have hlt : cur.pci.base.seqnum < rb.pci.base.seqnum := by omega
        have e : seqq_push (cur :: rest) rb =
            (cur :: (seqq_push rest rb).1, (seqq_push rest rb).2) := by
          rw [seqq_push, if_neg h1, if_neg h2]
        rw [e]
        rcases ih with ⟨e1, l1, l2, e2, e3, e4, e5⟩ | ⟨e1, e2, l1, c, l2, e3, e4, e5⟩
        · left
          refine ⟨e1, cur :: l1, l2, by rw [e2]; rfl, by rw [e3]; rfl, ?_, e5⟩
          intro c hc
          rcases List.mem_cons.mp hc with rfl | hc
          · exact hlt
          · exact e4 c hc
        · right
          refine ⟨e1, by rw [e2], cur :: l1, c, l2, by rw [e3]; rfl, e4, ?_⟩
          intro c1 hc
          rcases List.mem_cons.mp hc with rfl | hc
          · exact hlt
          · exact e5 c1 hc

theorem rcv_max_update_max (d : dtp) (s : Nat) :
    (rcv_max_update d s).max_seq_num_rcvd = max d.max_seq_num_rcvd s := by
  unfold rcv_max_update
  split
  · simp only; omega
  · omega

/-- The two branches of `sdu_rx_seq` for a PDU that is not delivered: the gap is above
`max_sdu_gap`. -/
theorem sdu_rx_seq_hold (rx : World → rina_buf → Res) (w : World) (fi : Nat)
    (flow : flow_entry) (d : dtp) (rb : rina_buf) (s : Nat)
    (hgap : ¬ sub64 s d.rcv_lwe ≤ flow.cfg.max_sdu_gap) :
    sdu_rx_seq rx w fi flow d rb s =
      if (flow.cfg.in_order_delivery = true ∨ flow.cfg.dtcp_present = true) ∧
          flow.cfg.dtcp.rtx_control = false then
        snd_crb rx
          (sdu_rx_sv_update (w.emit (event.buf_free rb)) fi
            { flow with dtp := rcv_max_update d s }).2
          flow.remote_addr
          (sdu_rx_sv_update (w.emit (event.buf_free rb)) fi
            { flow with dtp := rcv_max_update d s }).1 0
      else
        snd_crb rx
          (sdu_rx_sv_update
            (match (seqq_push d.seqq rb).2 with
              | none => w
              | some b => w.emit (event.buf_free b)) fi
            { flow with dtp := { rcv_max_update d s with seqq := (seqq_push d.seqq rb).1 } }).2
          flow.remote_addr
          (sdu_rx_sv_update
            (match (seqq_push d.seqq rb).2 with
              | none => w
              | some b => w.emit (event.buf_free b)) fi
            { flow with dtp := { rcv_max_update d s with seqq := (seqq_push d.seqq rb).1 } }).1
          0 := by
  have hf := rcv_max_update_fields d s
  have hg : sub64 s d.rcv_lwe > flow.cfg.max_sdu_gap := by omega
  cases hi : flow.cfg.in_order_delivery <;> cases hp : flow.cfg.dtcp_present <;>
    cases hx : flow.cfg.dtcp.rtx_control <;>
    simp [sdu_rx_seq, hf.2.2.1, hf.2.2.2.1, hgap, hg, hi, hp, hx]

/-- The data path of `rina_normal_sdu_rx` for a PDU without DRF whose seqnum is not below
`rcv_lwe`, up to the point where the control PDU, if any, is handed to the router: the PDU
is delivered, freed, or given to `seqq_push`. -/
theorem sdu_rx_seq_unlock (rx : World → rina_buf → Res) (w : World) (rb : rina_buf)
    (fi : Nat) (f : flow_entry) (ha : rb.pci.base.dst_addr = w.addr)
    (hg : flow_get w rb.pci.base.dst_cep = some (fi, f))
    (ht : rb.pci.base.pdu_type = PDU_T_DT) (hfl : ¬ rb.pci.base.pdu_flags % 2 = 1)
    (hs : ¬ rb.pci.base.seqnum < f.dtp.rcv_lwe) :
    ∃ (wm : World) (fm : flow_entry) (crb : Option rina_buf),
      rina_normal_sdu_rx_body rx w rb = snd_crb rx wm f.remote_addr crb 0 ∧
      wm.flows[fi]? = some fm ∧ wm.addr = w.addr ∧
      fm.dtp.max_seq_num_rcvd = max f.dtp.max_seq_num_rcvd rb.pci.base.seqnum ∧
      (sub64 rb.pci.base.seqnum f.dtp.rcv_lwe ≤ f.cfg.max_sdu_gap →
        fm.dtp.rcv_lwe = (seqq_pop_many f.cfg.max_sdu_gap f.dtp.seqq
          (u64 (rb.pci.base.seqnum + 1))).2.1 ∧
        fm.dtp.seqq = (seqq_pop_many f.cfg.max_sdu_gap f.dtp.seqq
          (u64 (rb.pci.base.seqnum + 1))).1 ∧
        wm.trace = w.trace ++ event.sdu_rx rb :: event.sdu_rx_flow fi (rina_buf_pci_pop rb) ::
          (seqq_pop_many f.cfg.max_sdu_gap f.dtp.seqq
            (u64 (rb.pci.base.seqnum + 1))).2.2.map (fun b => event.sdu_rx_flow fi b)) ∧
      (¬ sub64 rb.pci.base.seqnum f.dtp.rcv_lwe ≤ f.cfg.max_sdu_gap →
        (f.cfg.in_order_delivery = true ∨ f.cfg.dtcp_present = true) ∧
          f.cfg.dtcp.rtx_control = false →
        fm.dtp.rcv_lwe = f.dtp.rcv_lwe ∧ fm.dtp.seqq = f.dtp.seqq ∧
        wm.trace = w.trace ++ [event.sdu_rx rb, event.buf_free (rina_buf_pci_pop rb)]) ∧
      (¬ sub64 rb.pci.base.seqnum f.dtp.rcv_lwe ≤ f.cfg.max_sdu_gap →
        ¬ ((f.cfg.in_order_delivery = true ∨ f.cfg.dtcp_present = true) ∧
          f.cfg.dtcp.rtx_control = false) →
        fm.dtp.rcv_lwe = f.dtp.rcv_lwe ∧
        fm.dtp.seqq = (seqq_push f.dtp.seqq (rina_buf_pci_pop rb)).1 ∧
        ((∀ c ∈ f.dtp.seqq, c.pci.base.seqnum ≠ rb.pci.base.seqnum) →
          rina_buf_pci_pop rb ∈ fm.dtp.seqq ∧
          fm.dtp.seqq.length = f.dtp.seqq.length + 1 ∧
          wm.trace = w.trace ++ [event.sdu_rx rb]) ∧
        ((seqq_push f.dtp.seqq (rina_buf_pci_pop rb)).2 ≠ none →
          fm.dtp.seqq = f.dtp.seqq ∧
          (∃ c ∈ f.dtp.seqq, c.pci.base.seqnum = rb.pci.base.seqnum) ∧
          wm.trace = w.trace ++ [event.sdu_rx rb, event.buf_free (rina_buf_pci_pop rb)])) := by
  have hf := (flow_get_some hg).1
  have hr := rcv_inact_rearm_fields f.cfg f.dtp
  have hm := rcv_max_update_fields (rcv_inact_rearm f.cfg f.dtp) rb.pci.base.seqnum
  have hmx := rcv_max_update_max (rcv_inact_rearm f.cfg f.dtp) rb.pci.base.seqnum
  rw [hr.2.1] at hmx
  have hs' : ¬ rb.pci.base.seqnum < (rcv_inact_rearm f.cfg f.dtp).rcv_lwe := by
    rw [hr.1]; exact hs
  rw [sdu_rx_body_data rx w rb fi f ha hg ht]
  simp only [hfl, if_false, hs']
  by_cases hgap : sub64 rb.pci.base.seqnum f.dtp.rcv_lwe ≤ f.cfg.max_sdu_gap
  · have hgap' : sub64 rb.pci.base.seqnum (rcv_inact_rearm f.cfg f.dtp).rcv_lwe
        ≤ f.cfg.max_sdu_gap := by rw [hr.1]; exact hgap
    rw [sdu_rx_seq_deliver _ _ _ _ _ _ _ hgap']
    simp only [hr.2.2.1, rina_sdu_rx_flow]
    generalize hpm : seqq_pop_many f.cfg.max_sdu_gap f.dtp.seqq (u64 (rb.pci.base.seqnum + 1))
      = pm
    obtain ⟨s1, s2, s3, ⟨D, s4, s5⟩, _⟩ := sdu_rx_sv_update_spec (w.emit (event.sdu_rx rb)) fi
      { f with dtp := { rcv_max_update (rcv_inact_rearm f.cfg f.dtp) rb.pci.base.seqnum with
          rcv_lwe := pm.2.1, seqq := pm.1 } }
    generalize hsv : sdu_rx_sv_update (w.emit (event.sdu_rx rb)) fi
      { f with dtp := { rcv_max_update (rcv_inact_rearm f.cfg f.dtp) rb.pci.base.seqnum with
          rcv_lwe := pm.2.1, seqq := pm.1 } } = sv at s1 s2 s3 s4
    rw [rx_flow_list_spec fi pm.2.2 (sv.2.emit (event.sdu_rx_flow fi (rina_buf_pci_pop rb)))]
    refine ⟨_, { f with dtp := D }, sv.1, rfl, ?_, s1, ?_, ?_, fun h => absurd hgap h,
      fun h => absurd hgap h⟩
    · show sv.2.flows[fi]? = _
      rw [s4]; exact set_dtp_get hf D
    · exact (congrArg dtp.max_seq_num_rcvd s5).trans hmx
    · intro _
      refine ⟨congrArg dtp.rcv_lwe s5, congrArg dtp.seqq s5, ?_⟩
      simp [World.emit, s3]
  · have hgap' : ¬ sub64 rb.pci.base.seqnum (rcv_inact_rearm f.cfg f.dtp).rcv_lwe
        ≤ f.cfg.max_sdu_gap := by rw [hr.1]; exact hgap
    rw [sdu_rx_seq_hold _ _ _ _ _ _ _ hgap']
    by_cases hd : (f.cfg.in_order_delivery = true ∨ f.cfg.dtcp_present = true) ∧
        f.cfg.dtcp.rtx_control = false
    · rw [if_pos hd]
      obtain ⟨s1, s2, s3, ⟨D, s4, s5⟩, _⟩ := sdu_rx_sv_update_spec
        ((w.emit (event.sdu_rx rb)).emit (event.buf_free (rina_buf_pci_pop rb))) fi
        { f with dtp := rcv_max_update (rcv_inact_rearm f.cfg f.dtp) rb.pci.base.seqnum }
      refine ⟨_, { f with dtp := D }, _, rfl, ?_, s1, ?_, fun h => absurd h hgap, ?_,
        fun _ h => absurd hd h⟩
      · rw [s4]; exact set_dtp_get hf D
      · exact (congrArg dtp.max_seq_num_rcvd s5).trans hmx
      · intro _ _
        refine ⟨((congrArg dtp.rcv_lwe s5).trans hm.2.2.1).trans hr.1,
          ((congrArg dtp.seqq s5).trans hm.2.2.2.1).trans hr.2.2.1, ?_⟩
        rw [s3]; simp [World.emit]
    · rw [if_neg hd, hr.2.2.1]
      generalize hsp : seqq_push f.dtp.seqq (rina_buf_pci_pop rb) = sp
      have hcases := seqq_push_cases f.dtp.seqq (rina_buf_pci_pop rb)
      rw [hsp] at hcases
      have hsq : (rina_buf_pci_pop rb).pci.base.seqnum = rb.pci.base.seqnum := rfl
      obtain ⟨s1, s2, s3, ⟨D, s4, s5⟩, _⟩ := sdu_rx_sv_update_spec
        (match sp.2 with
          | none => w.emit (event.sdu_rx rb)
          | some b => (w.emit (event.sdu_rx rb)).emit (event.buf_free b)) fi
        { f with dtp := { rcv_max_update (rcv_inact_rearm f.cfg f.dtp) rb.pci.base.seqnum with
            seqq := sp.1 } }
      have hfl0 : (match sp.2 with
          | none => w.emit (event.sdu_rx rb)
          | some b => (w.emit (event.sdu_rx rb)).emit (event.buf_free b)).flows = w.flows := by
        split <;> rfl
      have hsq1 : D.seqq = sp.1 := congrArg dtp.seqq s5
      refine ⟨_, { f with dtp := D }, _, rfl, ?_, s1.trans (by split <;> rfl), ?_,
        fun h => absurd h hgap, fun _ h => absurd h hd, ?_⟩
      · rw [s4]
        show (World.set_dtp _ fi D).flows[fi]? = _
        refine set_dtp_get ?_ D
        rw [hfl0]; exact hf
      · exact (congrArg dtp.max_seq_num_rcvd s5).trans hmx
      · intro _ _
        refine ⟨((congrArg dtp.rcv_lwe s5).trans hm.2.2.1).trans hr.1, hsq1, ?_, ?_⟩
        · intro hnone
          rcases hcases with ⟨e1, l1, l2, e2, e3, _, _⟩ | ⟨_, _, l1, c, l2, e3, e4, _⟩
          · refine ⟨?_, ?_, ?_⟩
            · show rina_buf_pci_pop rb ∈ D.seqq
              rw [hsq1, e3]; simp
            · show D.seqq.length = _
              rw [hsq1, e3, e2]; simp; omega
            · rw [s3, e1]; rfl
          · exact absurd (e4.trans hsq) (hnone c (by rw [e3]; simp))
        · intro hsome
          rcases hcases with ⟨e1, _⟩ | ⟨e1, e2, l1, c, l2, e3, e4, _⟩
          · exact absurd e1 hsome
          · refine ⟨hsq1.trans e2, ⟨c, by rw [e3]; simp, e4.trans hsq⟩, ?_⟩
            rw [s3, e1]
            simp [World.emit]

/-- C29 (as amended): a data PDU without DRF whose seqnum `s` is not below `rcv_lwe`,
addressed to this IPCP on an existing flow, meets exactly one of three outcomes, the gap
`s - rcv_lwe` being computed on 64 bits.  If the gap is at most `max_sdu_gap` the PDU is
delivered upward: `rcv_lwe` is set to `s + 1`, then `seqq_pop_many` scans `seqq` from there
and what it pops is delivered after the PDU.  Otherwise, if (`in_order_delivery` or
`dtcp_present`) and not `rtx_control`, the PDU is freed; `rcv_lwe` and `seqq` are
unchanged.  Otherwise the PDU is given to `seqq_push`: `rcv_lwe` is unchanged, and the PDU
is inserted in `seqq` unless a queued buffer has the same seqnum, in which case the queue
is unchanged and the PDU is freed.  In all cases `max_seq_num_rcvd` becomes the maximum of
its old value and `s`, nothing but what is listed is delivered upward, and the call ends by
forwarding the control PDU of `sdu_rx_sv_update`, if any; it returns 0 when there is none,
or when the remote address of the flow is not the IPCP's own. -/
theorem sdu_rx_seq_outcomes (rx : World → rina_buf → Res) (w : World) (rb : rina_buf)
    (fi : Nat) (f : flow_entry) (ha : rb.pci.base.dst_addr = w.addr)
    (hg : flow_get w rb.pci.base.dst_cep = some (fi, f))
    (ht : rb.pci.base.pdu_type = PDU_T_DT) (hfl : ¬ rb.pci.base.pdu_flags % 2 = 1)
    (hs : ¬ rb.pci.base.seqnum < f.dtp.rcv_lwe) :
    ∃ (wm : World) (fm : flow_entry) (crb : Option rina_buf),
      rina_normal_sdu_rx_body rx w rb = snd_crb rx wm f.remote_addr crb 0 ∧
      wm.flows[fi]? = some fm ∧
      fm.dtp.max_seq_num_rcvd = max f.dtp.max_seq_num_rcvd rb.pci.base.seqnum ∧
      (sub64 rb.pci.base.seqnum f.dtp.rcv_lwe ≤ f.cfg.max_sdu_gap →
        fm.dtp.rcv_lwe = (seqq_pop_many f.cfg.max_sdu_gap f.dtp.seqq
          (u64 (rb.pci.base.seqnum + 1))).2.1 ∧
        fm.dtp.seqq = (seqq_pop_many f.cfg.max_sdu_gap f.dtp.seqq
          (u64 (rb.pci.base.seqnum + 1))).1 ∧
        wm.trace = w.trace ++ event.sdu_rx rb :: event.sdu_rx_flow fi (rina_buf_pci_pop rb) ::
          (seqq_pop_many f.cfg.max_sdu_gap f.dtp.seqq
            (u64 (rb.pci.base.seqnum + 1))).2.2.map (fun b => event.sdu_rx_flow fi b)) ∧
      (¬ sub64 rb.pci.base.seqnum f.dtp.rcv_lwe ≤ f.cfg.max_sdu_gap →
        (f.cfg.in_order_delivery = true ∨ f.cfg.dtcp_present = true) ∧
          f.cfg.dtcp.rtx_control = false →
        fm.dtp.rcv_lwe = f.dtp.rcv_lwe ∧ fm.dtp.seqq = f.dtp.seqq ∧
        wm.trace = w.trace ++ [event.sdu_rx rb, event.buf_free (rina_buf_pci_pop rb)]) ∧
      (¬ sub64 rb.pci.base.seqnum f.dtp.rcv_lwe ≤ f.cfg.max_sdu_gap →
        ¬ ((f.cfg.in_order_delivery = true ∨ f.cfg.dtcp_present = true) ∧
          f.cfg.dtcp.rtx_control = false) →
        fm.dtp.rcv_lwe = f.dtp.rcv_lwe ∧
        fm.dtp.seqq = (seqq_push f.dtp.seqq (rina_buf_pci_pop rb)).1 ∧
        ((∀ c ∈ f.dtp.seqq, c.pci.base.seqnum ≠ rb.pci.base.seqnum) →
          rina_buf_pci_pop rb ∈ fm.dtp.seqq ∧
          fm.dtp.seqq.length = f.dtp.seqq.length + 1 ∧
          wm.trace = w.trace ++ [event.sdu_rx rb]) ∧
        ((seqq_push f.dtp.seqq (rina_buf_pci_pop rb)).2 ≠ none →
          fm.dtp.seqq = f.dtp.seqq ∧
          (∃ c ∈ f.dtp.seqq, c.pci.base.seqnum = rb.pci.base.seqnum) ∧
          wm.trace = w.trace ++ [event.sdu_rx rb, event.buf_free (rina_buf_pci_pop rb)])) ∧
      (crb = none → rina_normal_sdu_rx_body rx w rb = Except.ok (0, wm)) ∧
      (f.remote_addr ≠ w.addr →
        ∃ w1 f1, rina_normal_sdu_rx_body rx w rb = Except.ok (0, w1) ∧
          w1.flows[fi]? = some f1 ∧ f1.dtp = fm.dtp ∧
          delivered w1.trace = delivered wm.trace) := by
  obtain ⟨wm, fm, crb, h1, h2, h3, h4, h5, h6, h7⟩ := sdu_rx_seq_unlock rx w rb fi f ha hg ht hfl hs
  refine ⟨wm, fm, crb, h1, h2, h4, h5, h6, h7, ?_, ?_⟩
  · intro hn
    rw [h1, hn]; rfl
  · intro hne
    obtain ⟨w1, e1, k⟩ := snd_crb_away rx wm f.remote_addr crb 0 (by rw [h3]; exact hne)
    obtain ⟨f1, hf1, hk1⟩ := away_get k h2
    simp only [fkey, Prod.mk.injEq] at hk1
    exact ⟨w1, f1, h1.trans e1, hf1, hk1.2.2.2.2, k.delivered⟩

/-- Witness of C29 (as amended): seqnum 5 reaches a fresh flow with retransmission control
and `max_sdu_gap = 0`: it is put in `seqq`. -/
theorem sdu_rx_seq_outcomes_witness :
    flow_get (world_s4 0) (data_pdu 42 1 5 0 [1]).pci.base.dst_cep
      = some (0, mk_flow 1 2 43 (cfg_rtx 0)) ∧
    ¬ (data_pdu 42 1 5 0 [1]).pci.base.seqnum < (mk_flow 1 2 43 (cfg_rtx 0)).dtp.rcv_lwe ∧
    ∃ (wm : World) (fm : flow_entry), wm.flows[0]? = some fm ∧
      fm.dtp.max_seq_num_rcvd = 2 ^ 64 - 1 ∧ fm.dtp.rcv_lwe = 0 ∧
      fm.dtp.seqq = [rina_buf_pci_pop (data_pdu 42 1 5 0 [1])] :=
  ⟨rfl, by decide,
    let ⟨wm, fm, _, _, h1, h2, _, _, h3, _⟩ := sdu_rx_seq_outcomes (rina_normal_sdu_rx 0)
      (world_s4 0) (data_pdu 42 1 5 0 [1]) 0 (mk_flow 1 2 43 (cfg_rtx 0)) rfl rfl rfl
      (by decide) (by decide)
    ⟨wm, fm, h1, h2, (h3 (by decide) (by decide)).1, (h3 (by decide) (by decide)).2.1⟩⟩

/-- C29, the claim as stated fails for a duplicate among the gaps.  On a fresh flow with
retransmission control and `max_sdu_gap = 0`, seqnum 5 waits in `seqq`; when seqnum 5
arrives again it is not below `rcv_lwe`, the gap is above `max_sdu_gap` and the drop
condition is false since retransmission control is on, yet the PDU is not inserted in
`seqq`: `seqq_push` frees it, and nothing is delivered. -/
theorem sdu_rx_seq_outcomes_counterexample :
    ∃ w f w1 f1, rina_normal_sdu_rx 1 (world_s4 0) (data_pdu 42 1 5 0 [1]) = Except.ok (0, w) ∧
      w.flows[0]? = some f ∧
      ¬ (data_pdu 42 1 5 0 [2]).pci.base.seqnum < f.dtp.rcv_lwe ∧
      ¬ sub64 (data_pdu 42 1 5 0 [2]).pci.base.seqnum f.dtp.rcv_lwe ≤ f.cfg.max_sdu_gap ∧
      ¬ ((f.cfg.in_order_delivery = true ∨ f.cfg.dtcp_present = true) ∧
        f.cfg.dtcp.rtx_control = false) ∧
      rina_normal_sdu_rx 1 w (data_pdu 42 1 5 0 [2]) = Except.ok (0, w1) ∧
      w1.flows[0]? = some f1 ∧
      f1.dtp.seqq = [rina_buf_pci_pop (data_pdu 42 1 5 0 [1])] ∧ f1.dtp.seqq = f.dtp.seqq ∧
      rina_buf_pci_pop (data_pdu 42 1 5 0 [2]) ∉ f1.dtp.seqq ∧
      event.buf_free (rina_buf_pci_pop (data_pdu 42 1 5 0 [2])) ∈ w1.trace ∧
      delivered w1.trace = [] :=
  ⟨_, _, _, _, rfl, rfl, by decide, by decide, by decide, rfl, rfl, rfl, rfl, by decide,
    by decide, rfl⟩

theorem flow_steps_refl (f : flow_entry) : flow_steps f f := Relation.ReflTransGen.refl

theorem flow_steps_trans {a b c : flow_entry} (h1 : flow_steps a b) (h2 : flow_steps b c) :
    flow_steps a c := Relation.ReflTransGen.trans h1 h2

theorem flow_steps_one {a b : flow_entry} (h : flow_step a b) : flow_steps a b :=
  Relation.ReflTransGen.single h

/-- A property of flows that every write of `flow_step` keeps is kept by any number of
them. -/
theorem flow_steps_keep (P : flow_entry → Prop)
    (hP : ∀ a b, flow_step a b → P a → P b) {a b : flow_entry} (h : flow_steps a b) :
    P a → P b := by
  induction h with
  | refl => exact id
  | tail _ hbc ih => exact fun ha => hP _ _ hbc (ih ha)

theorem steps_refl (w : World) : Steps w w :=
  ⟨rfl, fun _ f hf => ⟨f, hf, flow_steps_refl f⟩⟩

theorem steps_trans {a b c : World} (h1 : Steps a b) (h2 : Steps b c) : Steps a c :=
  ⟨h2.addr.trans h1.addr, fun fi f hf =>
    let ⟨f1, hf1, s1⟩ := h1.step fi f hf
    let ⟨f2, hf2, s2⟩ := h2.step fi f1 hf1
    ⟨f2, hf2, flow_steps_trans s1 s2⟩⟩

theorem steps_of_eq {w w1 : World} (ha : w1.addr = w.addr) (hfl : w1.flows = w.flows) :
    Steps w w1 :=
  ⟨ha, fun _ f hf => ⟨f, by rw [hfl]; exact hf, flow_steps_refl f⟩⟩

theorem steps_emit (w : World) (e : event) : Steps w (w.emit e) := steps_of_eq rfl rfl

theorem steps_alloc (w : World) : Steps w w.alloc.2 :=
  steps_of_eq (alloc_frame w).2.1 (alloc_frame w).1

theorem steps_upd_flow (w : World) (fi : Nat) (g : flow_entry → flow_entry)
    (h : ∀ f, w.flows[fi]? = some f → flow_steps f (g f)) : Steps w (w.upd_flow fi g) := by
  refine ⟨rfl, fun j f hf => ?_⟩
  by_cases hj : fi = j
  · subst hj
    exact ⟨g f, by simp [World.upd_flow, hf], h f hf⟩
  · exact ⟨f, by simp [World.upd_flow, List.getElem?_modify, hj, hf], flow_steps_refl f⟩

theorem steps_set_dtp (w : World) (fi : Nat) (d : dtp)
    (h : ∀ f, w.flows[fi]? = some f → flow_steps f { f with dtp := d }) :
    Steps w (w.set_dtp fi d) :=
  steps_upd_flow w fi _ h

/-- A state whose flow table is that of `w` with the DTP state `d` stored for the flow `fi`. -/
theorem steps_of_set {w W : World} {fi : Nat} {d : dtp} (ha : W.addr = w.addr)
    (hfl : W.flows = (w.set_dtp fi d).flows)
    (h : ∀ f, w.flows[fi]? = some f → flow_steps f { f with dtp := d }) : Steps w W :=
  steps_trans (steps_set_dtp w fi d h) (steps_of_eq ha hfl)

theorem steps_rmt_tx_push (lf : Nat) (rb : rina_buf) (ms : Bool) :
    ∀ (script : List Int) (w : World), Steps w (rmt_tx_push lf rb ms script w).2 := by
  intro script
  induction script with
  | nil => intro w; exact steps_emit _ _
  | cons ret rest ih =>
    intro w
    have k1 : Steps w (({ w with lower_ret := rest } : World).emit
        (event.lower_sdu_write lf rb ms ret)) := steps_of_eq rfl rfl
    simp only [rmt_tx_push]
    split
    · split
      · exact steps_trans k1 (steps_upd_flow _ _ _
          (fun f _ => flow_steps_one (flow_step.rmtq f _ _)))
      · exact steps_trans (steps_trans k1 (steps_emit _ _)) (ih _)
    · exact k1

theorem steps_rmt_tx {rx : World → rina_buf → Res}
    (hrx : ∀ w rb r w1, rx w rb = Except.ok (r, w1) → Steps w w1)
    {w : World} {a : Nat} {rb : rina_buf} {ms : Bool} {r : Int} {w1 : World}
    (h : rmt_tx rx w a rb ms = Except.ok (r, w1)) : Steps w w1 := by
  simp only [rmt_tx] at h
  have k0 := steps_emit w (event.rmt_tx a rb ms)
  split at h
  · split at h
    · simp only [Except.ok.injEq, Prod.mk.injEq] at h
      rw [← h.2]
      exact steps_trans k0 (steps_emit _ _)
    · exact steps_trans k0 (hrx _ _ _ _ h)
  · simp only [Except.ok.injEq] at h
    have k1 := steps_rmt_tx_push (by assumption) rb ms
      (w.emit (event.rmt_tx a rb ms)).lower_ret (w.emit (event.rmt_tx a rb ms))
    rw [h] at k1
    exact steps_trans k0 k1

theorem steps_rmt_tx_list {rx : World → rina_buf → Res}
    (hrx : ∀ w rb r w1, rx w rb = Except.ok (r, w1) → Steps w w1) :
    ∀ (l : List rina_buf) (w w1 : World), rmt_tx_list rx l w = Except.ok w1 → Steps w w1 := by
  intro l
  induction l with
  | nil =>
    intro w w1 h
    simp only [rmt_tx_list, Except.ok.injEq] at h
    rw [← h]; exact steps_refl w
  | cons qrb rest ih =>
    intro w w1 h
    simp only [rmt_tx_list] at h
    split at h
    · exact absurd h (by simp)
    · rename_i r w2 heq
      exact steps_trans (steps_rmt_tx hrx heq) (ih _ _ h)

theorem steps_snd_crb {rx : World → rina_buf → Res}
    (hrx : ∀ w rb r w1, rx w rb = Except.ok (r, w1) → Steps w w1)
    {w : World} {a : Nat} {crb : Option rina_buf} {ret r : Int} {w1 : World}
    (h : snd_crb rx w a crb ret = Except.ok (r, w1)) : Steps w w1 := by
  unfold snd_crb at h
  split at h
  · simp only [Except.ok.injEq, Prod.mk.injEq] at h
    rw [← h.2]; exact steps_refl w
  · split at h
    · exact absurd h (by simp)
    · rename_i r2 w2 heq
      simp only [Except.ok.injEq, Prod.mk.injEq] at h
      rw [← h.2]
      exact steps_rmt_tx hrx heq

theorem steps_sdu_rx_ctrl {rx : World → rina_buf → Res}
    (hrx : ∀ w rb r w1, rx w rb = Except.ok (r, w1) → Steps w w1)
    {w : World} {fi : Nat} {flow : flow_entry} (hf : w.flows[fi]? = some flow)
    {rb : rina_buf} {r : Int} {w1 : World}
    (h : sdu_rx_ctrl rx w fi flow rb = Except.ok (r, w1)) : Steps w w1 := by
  simp only [sdu_rx_ctrl] at h
  split at h
  · simp only [Except.ok.injEq, Prod.mk.injEq] at h
    rw [← h.2]; exact steps_emit _ _
  · have k1 : Steps w (w.set_dtp fi (sdu_rx_ctrl_locked rb.pci flow.dtp).1) := by
      refine steps_set_dtp _ _ _ (fun f hf1 => ?_)
      rw [hf] at hf1
      cases hf1
      exact flow_steps_one (flow_step.ctrl flow rb.pci)
    split at h
    · exact absurd h (by simp)
    · rename_i w2 heq
      simp only [Except.ok.injEq, Prod.mk.injEq] at h
      rw [← h.2]
      have k2 := steps_rmt_tx_list hrx _ _ _ heq
      refine steps_trans (steps_trans (steps_trans (steps_trans k1 ?_) (steps_emit _ _)) k2)
        (steps_emit _ _)
      exact steps_of_eq rfl rfl

theorem rkey_rearm (cfg : flow_config) (d : dtp) : rkey (rcv_inact_rearm cfg d) = rkey d := by
  unfold rcv_inact_rearm; split <;> rfl

theorem rkey_max_update (d : dtp) (s : Nat) : rkey (rcv_max_update d s) = rkey d := by
  unfold rcv_max_update; split <;> rfl

theorem rkey_sv_update_rwe (flow : flow_entry) : rkey (sv_update_rwe flow).dtp = rkey flow.dtp := by
  unfold sv_update_rwe; simp only; split <;> rfl

theorem rkey_congr_lwe {d d1 : dtp} (h : rkey d = rkey d1) (a b : Nat) :
    rkey { d with rcv_lwe := a, max_seq_num_rcvd := b } = rkey { d1 with rcv_lwe := a } := by
  simp only [rkey, Prod.mk.injEq] at h ⊢
  simp [h]

theorem rkey_congr_pop {d d1 : dtp} (h : rkey d = rkey d1) (a : Nat) (q : List rina_buf) :
    rkey { d with rcv_lwe := a, seqq := q } = rkey { d1 with rcv_lwe := a, seqq := q } := by
  simp only [rkey, Prod.mk.injEq] at h ⊢
  simp [h]

theorem rkey_congr_push {d d1 : dtp} (h : rkey d = rkey d1) (q : List rina_buf) :
    rkey { d with seqq := q } = rkey { d1 with seqq := q } := by
  simp only [rkey, Prod.mk.injEq] at h ⊢
  simp [h]

/-- The state left by `sdu_rx_sv_update` when it is given the flow `fi` with a DTP state
that the flow can reach. -/
theorem steps_sdu_rx_sv_update (w0 w : World) {fi : Nat} {f0 : flow_entry}
    (hw : w.flows = w0.flows) (ha : w.addr = w0.addr) (hf : w0.flows[fi]? = some f0) (d : dtp)
    (hs : ∀ D : dtp, rkey D = rkey d → flow_steps f0 { f0 with dtp := D }) :
    Steps w0 (sdu_rx_sv_update w fi { f0 with dtp := d }).2 := by
  obtain ⟨s1, _, _, ⟨D, s4, s5⟩, _⟩ := sdu_rx_sv_update_spec w fi { f0 with dtp := d }
  have e : (w.set_dtp fi D).flows = (w0.set_dtp fi D).flows := by
    simp only [World.set_dtp, World.upd_flow, hw]
  refine steps_of_set (s1.trans ha) (s4.trans e) (fun f hf1 => ?_)
  · rw [hf] at hf1
    cases hf1
    have e5 := congrArg rkey s5
    exact hs D e5

theorem flow_steps_misc (f : flow_entry) (D : dtp) (h : rkey D = rkey f.dtp) :
    flow_steps f { f with dtp := D } :=
  flow_steps_one (flow_step.misc f D h)

theorem steps_rx_flow_list (fi : Nat) : ∀ (l : List rina_buf) (acc : Int × World) (w0 : World),
    Steps w0 acc.2 → Steps w0 (rx_flow_list fi l acc).2 := by
  intro l
  induction l with
  | nil => intro acc w0 k; simpa [rx_flow_list] using k
  | cons qrb rest ih =>
    intro acc w0 k
    obtain ⟨ret, w⟩ := acc
    simp only [rx_flow_list, rina_sdu_rx_flow]
    exact ih _ _ (steps_trans k (steps_emit _ _))

theorem steps_sdu_rx_drf {rx : World → rina_buf → Res}
    (hrx : ∀ w rb r w1, rx w rb = Except.ok (r, w1) → Steps w w1)
    {w : World} {fi : Nat} {flow : flow_entry} (hf : w.flows[fi]? = some flow) (d : dtp)
    (hd : rkey d = rkey flow.dtp) {rb : rina_buf} {s : Nat} {r : Int} {w1 : World}
    (h : sdu_rx_drf rx w fi flow d rb s = Except.ok (r, w1)) : Steps w w1 := by
  simp only [sdu_rx_drf] at h
  refine steps_trans ?_ (steps_snd_crb hrx h)
  simp only [rina_sdu_rx_flow]
  refine steps_trans ?_ (steps_emit _ _)
  refine steps_sdu_rx_sv_update w _ rfl rfl hf _ (fun D hD => ?_)
  refine flow_steps_trans (flow_steps_one (flow_step.drf flow s)) ?_
  exact flow_steps_misc { flow with dtp := { flow.dtp with rcv_lwe := u64 (s + 1) } } D
    (hD.trans (rkey_congr_lwe hd _ _))

theorem steps_sdu_rx_dup {rx : World → rina_buf → Res}
    (hrx : ∀ w rb r w1, rx w rb = Except.ok (r, w1) → Steps w w1)
    {w : World} {fi : Nat} {flow : flow_entry} (hf : w.flows[fi]? = some flow) (d : dtp)
    (hd : rkey d = rkey flow.dtp) {rb : rina_buf} {r : Int} {w1 : World}
    (h : sdu_rx_dup rx w fi flow d rb = Except.ok (r, w1)) : Steps w w1 := by
  obtain ⟨wm, D, h1, _, h3, h4, h5⟩ := sdu_rx_dup_spec rx w fi flow d rb
  have k1 : Steps w wm := by
    refine steps_of_set h1 h3 (fun f hf1 => ?_)
    rw [hf] at hf1
    cases hf1
    exact flow_steps_misc flow D ((congrArg rkey h4).trans hd)
  rcases h5 with ⟨_, _, crb, e, _⟩ | ⟨_, _, e⟩
  · rw [e] at h
    exact steps_trans k1 (steps_snd_crb hrx h)
  · rw [e] at h
    simp only [Except.ok.injEq, Prod.mk.injEq] at h
    rw [← h.2]
    exact k1

theorem steps_sdu_rx_seq {rx : World → rina_buf → Res}
    (hrx : ∀ w rb r w1, rx w rb = Except.ok (r, w1) → Steps w w1)
    {w : World} {fi : Nat} {flow : flow_entry} (hf : w.flows[fi]? = some flow) (d : dtp)
    (hd : rkey d = rkey flow.dtp) {rb : rina_buf} {s : Nat} (hrb : rb.pci.base.seqnum = s)
    (hs : ¬ s < d.rcv_lwe) {r : Int} {w1 : World}
    (h : sdu_rx_seq rx w fi flow d rb s = Except.ok (r, w1)) : Steps w w1 := by
  have hm := rkey_max_update d s
  have hlwe : d.rcv_lwe = flow.dtp.rcv_lwe := by
    simp only [rkey, Prod.mk.injEq] at hd
    exact hd.2.2.2.2.2.2.2.2.2.1
  have hseqq : d.seqq = flow.dtp.seqq := by
    simp only [rkey, Prod.mk.injEq] at hd
    exact hd.2.2.2.2.2.2.2.2.2.2.1
  by_cases hgap : sub64 s d.rcv_lwe ≤ flow.cfg.max_sdu_gap
  · rw [sdu_rx_seq_deliver _ _ _ _ _ _ _ hgap] at h
    refine steps_trans ?_ (steps_snd_crb hrx h)
    apply steps_rx_flow_list
    simp only [rina_sdu_rx_flow]
    refine steps_trans ?_ (steps_emit _ _)
    refine steps_sdu_rx_sv_update w _ rfl rfl hf _ (fun D hD => ?_)
    refine flow_steps_trans (flow_steps_one (flow_step.deliver flow s (by rw [← hlwe]; exact hs)
      (by rw [← hlwe]; exact hgap))) ?_
    refine flow_steps_misc _ D (hD.trans ?_)
    rw [hseqq]
    exact rkey_congr_pop (hm.trans hd) _ _
  · rw [sdu_rx_seq_hold _ _ _ _ _ _ _ hgap] at h
    split at h
    · refine steps_trans ?_ (steps_snd_crb hrx h)
      refine steps_sdu_rx_sv_update w (w.emit (event.buf_free rb)) rfl rfl hf _ (fun D hD => ?_)
      exact flow_steps_misc flow D (hD.trans (hm.trans hd))
    · refine steps_trans ?_ (steps_snd_crb hrx h)
      refine steps_sdu_rx_sv_update w _ (by split <;> rfl) (by split <;> rfl) hf _ (fun D hD => ?_)
      refine flow_steps_trans (flow_steps_one (flow_step.push flow rb
        (by rw [hrb, ← hlwe]; exact hs) (by rw [hrb, ← hlwe]; exact hgap))) ?_
      refine flow_steps_misc _ D (hD.trans ?_)
      rw [hseqq]
      exact rkey_congr_push (hm.trans hd) _

theorem steps_rina_normal_sdu_rx_body {rx : World → rina_buf → Res}
    (hrx : ∀ w rb r w1, rx w rb = Except.ok (r, w1) → Steps w w1)
    {w : World} {rb : rina_buf} {r : Int} {w1 : World}
    (h : rina_normal_sdu_rx_body rx w rb = Except.ok (r, w1)) : Steps w w1 := by
  simp only [rina_normal_sdu_rx_body] at h
  have k0 := steps_emit w (event.sdu_rx rb)
  refine steps_trans k0 ?_
  generalize w.emit (event.sdu_rx rb) = wa at h
  split at h
  · exact steps_rmt_tx hrx h
  · split at h
    · simp only [Except.ok.injEq, Prod.mk.injEq] at h
      rw [← h.2]; exact steps_emit _ _
    · rename_i fi flow hget
      have hf := (flow_get_some hget).1
      have hr := rkey_rearm flow.cfg flow.dtp
      split at h
      · exact steps_sdu_rx_ctrl hrx hf h
      · split at h
        · exact steps_sdu_rx_drf hrx hf _ hr h
        · split at h
          · exact steps_sdu_rx_dup hrx hf _ hr h
          · rename_i hnd
            exact steps_sdu_rx_seq hrx hf _ hr
              (show (rina_buf_pci_pop rb).pci.base.seqnum = rb.pci.base.seqnum from rfl) hnd h

/-- Whatever `rina_normal_sdu_rx` does, loopback included, every flow stays in place and
goes through writes of the kinds listed in `flow_step`. -/
theorem steps_rina_normal_sdu_rx : ∀ (fuel : Nat) (w : World) (rb : rina_buf) (r : Int)
    (w1 : World), rina_normal_sdu_rx fuel w rb = Except.ok (r, w1) → Steps w w1 := by
  intro fuel
  induction fuel with
  | zero => intro w rb r w1 h; simp [rina_normal_sdu_rx] at h
  | succ n ih =>
    intro w rb r w1 h
    simp only [rina_normal_sdu_rx] at h
    exact steps_rina_normal_sdu_rx_body ih h

/-- The shape of what the locked part of `sdu_rx_ctrl` stores: the given state, or that state
with the control seqnum recorded, or the drain of the cwq under the new right window edge;
and a retransmission queue that is the given one or what the acknowledgement leaves of
it. -/
theorem sdu_rx_ctrl_locked_form (pcic : rina_pci_ctrl) (d : dtp) :
    ∃ (X : dtp) (R : List rina_buf), (sdu_rx_ctrl_locked pcic d).1 = { X with rtxq := R } ∧
      (R = d.rtxq ∨ R = (rtxq_ack pcic.ack_nack_seq_num d.rtxq).1) ∧
      (X = d ∨ X = { d with last_ctrl_seq_num_rcvd := pcic.base.seqnum } ∨
        X = (cwq_pop d.cwq { d with last_ctrl_seq_num_rcvd := pcic.base.seqnum,
                                    snd_rwe := pcic.new_rwe }).1) := by
  have hq : ∀ (l : List rina_buf) (x : dtp), (cwq_pop l x).1.rtxq = x.rtxq := by
    intro l
    induction l with
    | nil => intro x; rfl
    | cons b rest ih =>
      intro x
      simp only [cwq_pop]
      split
      · rfl
      · exact ih _
  simp only [sdu_rx_ctrl_locked]
  split
  · exact ⟨d, d.rtxq, rfl, Or.inl rfl, Or.inl rfl⟩
  · split <;> split <;> (try split) <;>
      first
      | exact ⟨{ d with last_ctrl_seq_num_rcvd := pcic.base.seqnum }, d.rtxq, rfl, Or.inl rfl,
          Or.inr (Or.inl rfl)⟩
      | exact ⟨{ d with last_ctrl_seq_num_rcvd := pcic.base.seqnum },
          (rtxq_ack pcic.ack_nack_seq_num d.rtxq).1, rfl, Or.inr rfl, Or.inr (Or.inl rfl)⟩
      | exact ⟨(cwq_pop d.cwq { d with last_ctrl_seq_num_rcvd := pcic.base.seqnum,
                                        snd_rwe := pcic.new_rwe }).1,
          (cwq_pop d.cwq { d with last_ctrl_seq_num_rcvd := pcic.base.seqnum,
                                  snd_rwe := pcic.new_rwe }).1.rtxq, rfl,
          Or.inl (hq _ _), Or.inr (Or.inr rfl)⟩
      | exact ⟨(cwq_pop d.cwq { d with last_ctrl_seq_num_rcvd := pcic.base.seqnum,
                                        snd_rwe := pcic.new_rwe }).1,
          (rtxq_ack pcic.ack_nack_seq_num (cwq_pop d.cwq { d with
            last_ctrl_seq_num_rcvd := pcic.base.seqnum, snd_rwe := pcic.new_rwe }).1.rtxq).1,
          rfl, Or.inr (by rw [hq]), Or.inr (Or.inr rfl)⟩

/-- The drain of the cwq keeps `cwq_len` equal to the length of the queue, and
`snd_lwe` one above `last_seq_num_sent`. -/
theorem cwq_pop_len : ∀ (l : List rina_buf) (d : dtp), d.cwq = l → d.cwq_len = l.length →
    (cwq_pop l d).1.cwq_len = (cwq_pop l d).1.cwq.length ∧
    (cwq_pop l d).1.max_cwq_len = d.max_cwq_len ∧
    (cwq_pop l d).1.cwq_len ≤ d.cwq_len := by
  intro l
  induction l with
  | nil => intro d h1 h2; simp [cwq_pop, h1, h2]
  | cons qrb rest ih =>
    intro d h1 h2
    simp only [cwq_pop]
    split
    · simp [h1, h2]
    · obtain ⟨i1, i2, i3⟩ := ih { d with
        cwq := rest
        cwq_len := d.cwq_len - 1
        last_seq_num_sent := d.snd_lwe
        snd_lwe := u64 (d.snd_lwe + 1) } rfl (by simp [h2])
      exact ⟨i1, i2, le_trans i3 (Nat.sub_le _ _)⟩

theorem cwq_pop_last : ∀ (l : List rina_buf) (d : dtp),
    u64 (d.last_seq_num_sent + 1) = d.snd_lwe →
    u64 ((cwq_pop l d).1.last_seq_num_sent + 1) = (cwq_pop l d).1.snd_lwe := by
  intro l
  induction l with
  | nil => intro d h; simpa [cwq_pop] using h
  | cons qrb rest ih =>
    intro d h
    simp only [cwq_pop]
    split
    · exact h
    · exact ih _ rfl

theorem rtxq_ack_suffix (a : Nat) : ∀ l : List rina_buf,
    (rtxq_ack a l).2 ++ (rtxq_ack a l).1 = l := by
  intro l
  induction l with
  | nil => rfl
  | cons cur rest ih =>
    simp only [rtxq_ack]
    split
    · simpa using ih
    · rfl

theorem cwq_ok_step {a b : flow_entry} (h : flow_step a b) (inv : cwq_ok a) : cwq_ok b := by
  cases h with
  | rmtq q n => exact ⟨inv.hlen, inv.hmax⟩
  | ctrl pcic =>
    obtain ⟨X, R, e, _, hX⟩ := sdu_rx_ctrl_locked_form pcic a.dtp
    have key : X.cwq_len = X.cwq.length ∧ X.cwq_len ≤ X.max_cwq_len := by
      rcases hX with rfl | rfl | rfl
      · exact ⟨inv.hlen, inv.hmax⟩
      · exact ⟨inv.hlen, inv.hmax⟩
      · obtain ⟨i1, i2, i3⟩ := cwq_pop_len a.dtp.cwq { a.dtp with
          last_ctrl_seq_num_rcvd := pcic.base.seqnum, snd_rwe := pcic.new_rwe } rfl inv.hlen
        exact ⟨i1, by rw [i2]; exact le_trans i3 inv.hmax⟩
    constructor
    · show (sdu_rx_ctrl_locked pcic a.dtp).1.cwq_len = (sdu_rx_ctrl_locked pcic a.dtp).1.cwq.length
      rw [e]; exact key.1
    · show (sdu_rx_ctrl_locked pcic a.dtp).1.cwq_len ≤ (sdu_rx_ctrl_locked pcic a.dtp).1.max_cwq_len
      rw [e]; exact key.2
  | misc d hk =>
    simp only [rkey, Prod.mk.injEq] at hk
    obtain ⟨_, _, _, _, _, k6, k7, k8, _⟩ := hk
    constructor
    · show d.cwq_len = d.cwq.length
      rw [k6, k7]; exact inv.hlen
    · show d.cwq_len ≤ d.max_cwq_len
      rw [k7, k8]; exact inv.hmax
  | drf s => exact ⟨inv.hlen, inv.hmax⟩
  | deliver s h1 h2 => exact ⟨inv.hlen, inv.hmax⟩
  | push rb h1 h2 => exact ⟨inv.hlen, inv.hmax⟩

theorem win_ok_step (K : Nat) {a b : flow_entry} (h : flow_step a b) (inv : win_ok K a) :
    win_ok K b := by
  cases h with
  | rmtq q n => exact ⟨inv.hnext, inv.hlast, inv.hlwe, inv.hblk⟩
  | ctrl pcic =>
    have hb : a.dtp.cwq = [] ∨ a.dtp.snd_rwe < a.dtp.next_seq_num_to_send := by
      rcases inv.hblk with h | h
      · exact Or.inl h
      · exact Or.inr h.2.2
    obtain ⟨s1, s2, s3, s4⟩ := sdu_rx_ctrl_locked_spec pcic a.dtp a.dtp.next_seq_num_to_send
      inv.hlwe hb
    obtain ⟨X, R, e, _, hX⟩ := sdu_rx_ctrl_locked_form pcic a.dtp
    have hl : u64 (X.last_seq_num_sent + 1) = X.snd_lwe := by
      rcases hX with rfl | rfl | rfl
      · exact inv.hlast
      · exact inv.hlast
      · exact cwq_pop_last _ _ inv.hlast
    refine ⟨?_, ?_, ?_, ?_⟩
    · show (sdu_rx_ctrl_locked pcic a.dtp).1.next_seq_num_to_send ≤ K
      rw [s2]; exact inv.hnext
    · show u64 ((sdu_rx_ctrl_locked pcic a.dtp).1.last_seq_num_sent + 1)
        = (sdu_rx_ctrl_locked pcic a.dtp).1.snd_lwe
      rw [e]; exact hl
    · show (sdu_rx_ctrl_locked pcic a.dtp).1.snd_lwe + (sdu_rx_ctrl_locked pcic a.dtp).1.cwq.length
        ≤ (sdu_rx_ctrl_locked pcic a.dtp).1.next_seq_num_to_send
      rw [s2]; exact s3
    · show (sdu_rx_ctrl_locked pcic a.dtp).1.cwq = [] ∨ (a.cfg.dtcp_present = true ∧
        a.cfg.dtcp.fc.fc_type = fc_type.RINA_FC_T_WIN ∧
        (sdu_rx_ctrl_locked pcic a.dtp).1.snd_rwe
          < (sdu_rx_ctrl_locked pcic a.dtp).1.next_seq_num_to_send)
      rcases s4 with h | h
      · exact Or.inl h
      · rcases inv.hblk with h0 | h0
        · left
          rw [h0] at s1
          exact (List.append_eq_nil.mp s1).2
        · exact Or.inr ⟨h0.1, h0.2.1, by rw [s2]; exact h⟩
  | misc d hk =>
    simp only [rkey, Prod.mk.injEq] at hk
    obtain ⟨_, k2, k3, k4, k5, k6, _⟩ := hk
    refine ⟨?_, ?_, ?_, ?_⟩
    · show d.next_seq_num_to_send ≤ K
      rw [k2]; exact inv.hnext
    · show u64 (d.last_seq_num_sent + 1) = d.snd_lwe
      rw [k5, k3]; exact inv.hlast
    · show d.snd_lwe + d.cwq.length ≤ d.next_seq_num_to_send
      rw [k2, k3, k6]; exact inv.hlwe
    · show d.cwq = [] ∨ (a.cfg.dtcp_present = true ∧
        a.cfg.dtcp.fc.fc_type = fc_type.RINA_FC_T_WIN ∧ d.snd_rwe < d.next_seq_num_to_send)
      rw [k2, k4, k6]; exact inv.hblk
  | drf s => exact ⟨inv.hnext, inv.hlast, inv.hlwe, inv.hblk⟩
  | deliver s h1 h2 => exact ⟨inv.hnext, inv.hlast, inv.hlwe, inv.hblk⟩
  | push rb h1 h2 => exact ⟨inv.hnext, inv.hlast, inv.hlwe, inv.hblk⟩

theorem ascending_suffix {l1 l2 : List rina_buf} (h : ascending (l1 ++ l2)) : ascending l2 := by
  unfold ascending queue_seqnums at h ⊢
  rw [List.map_append, List.pairwise_append] at h
  exact h.2.1

theorem rtx_ok_step (k : Nat) {a b : flow_entry} (h : flow_step a b) (inv : rtx_ok k a) :
    rtx_ok k b := by
  cases h with
  | rmtq q n => exact ⟨inv.hnext, inv.hasc, inv.hbound⟩
  | ctrl pcic =>
    obtain ⟨X, R, e, hR, _⟩ := sdu_rx_ctrl_locked_form pcic a.dtp
    have hs := rtxq_ack_suffix pcic.ack_nack_seq_num a.dtp.rtxq
    have key : ascending R ∧ ∀ b ∈ R, b.pci.base.seqnum < k := by
      rcases hR with rfl | rfl
      · exact ⟨inv.hasc, inv.hbound⟩
      · refine ⟨ascending_suffix (by rw [hs]; exact inv.hasc), fun b hb => inv.hbound b ?_⟩
        rw [← hs]
        exact List.mem_append_right _ hb
    refine ⟨?_, ?_, ?_⟩
    · show (sdu_rx_ctrl_locked pcic a.dtp).1.next_seq_num_to_send = u64 k
      rw [(sdu_rx_ctrl_locked_next pcic a.dtp).1]; exact inv.hnext
    · show ascending (sdu_rx_ctrl_locked pcic a.dtp).1.rtxq
      rw [e]; exact key.1
    · show ∀ b ∈ (sdu_rx_ctrl_locked pcic a.dtp).1.rtxq, b.pci.base.seqnum < k
      rw [e]; exact key.2
  | misc d hk =>
    simp only [rkey, Prod.mk.injEq] at hk
    obtain ⟨_, k2, _, _, _, _, _, _, k9, _⟩ := hk
    refine ⟨?_, ?_, ?_⟩
    · show d.next_seq_num_to_send = u64 k
      rw [k2]; exact inv.hnext
    · show ascending d.rtxq
      rw [k9]; exact inv.hasc
    · show ∀ b ∈ d.rtxq, b.pci.base.seqnum < k
      rw [k9]; exact inv.hbound
  | drf s => exact ⟨inv.hnext, inv.hasc, inv.hbound⟩
  | deliver s h1 h2 => exact ⟨inv.hnext, inv.hasc, inv.hbound⟩
  | push rb h1 h2 => exact ⟨inv.hnext, inv.hasc, inv.hbound⟩

/-- What one `sdu_write` does, in any state: it stores a DTP state `D` for the flow under
the lock, then the router, and whatever it loops back, does the rest.  Either the window is
overrun, the call returns BackPressure having only cancelled the timer; or DTCP is absent
and the PDU is sent; or DTCP is present and the sender window step decides between the cwq
and the router, with a clone appended to the rtxq when retransmission control is on, or
OutOfMemory when the clone cannot be allocated. -/
theorem sdu_write_steps (fuel : Nat) (w : World) (fi : Nat) (f : flow_entry) (rb : rina_buf)
    (ms : Bool) (r : Int) (w1 : World) (hf : w.flows[fi]? = some f)
    (h : sdu_write fuel w fi rb ms = Except.ok (r, w1)) :
    ∃ D : dtp, Steps (w.set_dtp fi D) w1 ∧
      ((window_overrun f ∧ D = snd_inact_cancel f.cfg f.dtp ∧ r = -EAGAIN) ∨
       (¬ window_overrun f ∧ f.cfg.dtcp_present = false ∧
         D = { sdu_write_next f with
           snd_lwe := (sdu_write_next f).next_seq_num_to_send
           last_seq_num_sent := f.dtp.next_seq_num_to_send }) ∨
       (¬ window_overrun f ∧ f.cfg.dtcp_present = true ∧
         f.cfg.dtcp.rtx_control = false ∧
         D = snd_inact_rearm (sdu_write_window f (sdu_write_stamp w f rb)).1 ∧
         ((sdu_write_window f (sdu_write_stamp w f rb)).2 = none →
           r = 0 ∧ w1 = w.set_dtp fi D)) ∨
       (¬ window_overrun f ∧ f.cfg.dtcp_present = true ∧
         f.cfg.dtcp.rtx_control = true ∧
         (sdu_write_window f (sdu_write_stamp w f rb)).2 = some (sdu_write_stamp w f rb) ∧
         ((w.alloc.1 = false ∧ r = -ENOMEM ∧
             D = (sdu_write_window f (sdu_write_stamp w f rb)).1) ∨
           (w.alloc.1 = true ∧
             D = snd_inact_rearm { (sdu_write_window f (sdu_write_stamp w f rb)).1 with
               rtxq := (sdu_write_window f (sdu_write_stamp w f rb)).1.rtxq ++
                 [sdu_write_stamp w f rb] })))) := by
  have hrx := steps_rina_normal_sdu_rx fuel
  have hq2 : ∀ x, (sdu_write_window f (sdu_write_stamp w f rb)).2 = some x →
      x = sdu_write_stamp w f rb := by
    intro x hx
    simp only [sdu_write_window] at hx
    split at hx
    · split at hx
      · exact absurd hx (by simp)
      · exact (Option.some.inj hx).symm
    · exact (Option.some.inj hx).symm
  simp only [sdu_write, rina_normal_sdu_write, hf] at h
  split at h
  · rename_i ho
    simp only [Except.ok.injEq, Prod.mk.injEq] at h
    exact ⟨_, by rw [← h.2]; exact steps_refl _, Or.inl ⟨ho, rfl, h.1.symm⟩⟩
  · rename_i ho
    split at h
    · rename_i hdp
      refine ⟨_, steps_rmt_tx hrx h, Or.inr (Or.inl ⟨ho, by simpa using hdp, rfl⟩)⟩
    · rename_i hdp
      have hdp1 : f.cfg.dtcp_present = true := by simpa using hdp
      split at h
      · rename_i hrtx
        split at h
        · exact absurd h (by simp)
        · rename_i x hx
          have hxe := hq2 x hx
          subst hxe
          split at h
          · rename_i hal
            simp only [Except.ok.injEq, Prod.mk.injEq] at h
            refine ⟨_, ?_, Or.inr (Or.inr (Or.inr ⟨ho, hdp1, hrtx, hx,
              Or.inl ⟨by simpa using hal, h.1.symm, rfl⟩⟩))⟩
            rw [← h.2]
            exact steps_of_eq (alloc_frame w).2.1 (by simp [World.emit, World.set_dtp,
              World.upd_flow, (alloc_frame w).1])
          · rename_i hal
            refine ⟨_, ?_, Or.inr (Or.inr (Or.inr ⟨ho, hdp1, hrtx, hx,
              Or.inr ⟨by simpa using hal, rfl⟩⟩))⟩
            refine steps_trans (steps_of_eq ?_ ?_) (steps_rmt_tx hrx h)
            · exact (alloc_frame w).2.1
            · simp [World.set_dtp, World.upd_flow, (alloc_frame w).1]
      · rename_i hrtx
        have hrtx1 : f.cfg.dtcp.rtx_control = false := by simpa using hrtx
        split at h
        · rename_i hn
          simp only [Except.ok.injEq, Prod.mk.injEq] at h
          refine ⟨_, by rw [← h.2]; exact steps_refl _, Or.inr (Or.inr (Or.inl ⟨ho, hdp1, hrtx1,
            rfl, fun _ => ⟨h.1.symm, h.2.symm⟩⟩))⟩
        · rename_i x hx
          refine ⟨_, steps_rmt_tx hrx h, Or.inr (Or.inr (Or.inl ⟨ho, hdp1, hrtx1, rfl, ?_⟩))⟩
          intro hn
          rw [hn] at hx
          exact absurd hx (by simp)

/-- The sender window step of `rina_normal_sdu_write`, field by field. -/
theorem sdu_write_window_form (w : World) (f : flow_entry) (rb : rina_buf) :
    (f.cfg.dtcp.fc.fc_type = fc_type.RINA_FC_T_WIN ∧
      f.dtp.next_seq_num_to_send > f.dtp.snd_rwe ∧
      sdu_write_window f (sdu_write_stamp w f rb) =
        ({ f.dtp with
            snd_inact_tmr := (snd_inact_cancel f.cfg f.dtp).snd_inact_tmr
            set_drf := false
            next_seq_num_to_send := u64 (f.dtp.next_seq_num_to_send + 1)
            cwq := f.dtp.cwq ++ [sdu_write_stamp w f rb]
            cwq_len := f.dtp.cwq_len + 1 }, none)) ∨
    (f.cfg.dtcp.fc.fc_type = fc_type.RINA_FC_T_WIN ∧
      ¬ f.dtp.next_seq_num_to_send > f.dtp.snd_rwe ∧
      sdu_write_window f (sdu_write_stamp w f rb) =
        ({ f.dtp with
            snd_inact_tmr := (snd_inact_cancel f.cfg f.dtp).snd_inact_tmr
            set_drf := false
            next_seq_num_to_send := u64 (f.dtp.next_seq_num_to_send + 1)
            snd_lwe := u64 (f.dtp.next_seq_num_to_send + 1)
            last_seq_num_sent := f.dtp.next_seq_num_to_send }, some (sdu_write_stamp w f rb))) ∨
    (f.cfg.dtcp.fc.fc_type ≠ fc_type.RINA_FC_T_WIN ∧
      sdu_write_window f (sdu_write_stamp w f rb) =
        ({ f.dtp with
            snd_inact_tmr := (snd_inact_cancel f.cfg f.dtp).snd_inact_tmr
            set_drf := false
            next_seq_num_to_send := u64 (f.dtp.next_seq_num_to_send + 1) },
          some (sdu_write_stamp w f rb))) := by
  have hs : (sdu_write_stamp w f rb).pci.base.seqnum = f.dtp.next_seq_num_to_send := rfl
  have hr : (sdu_write_next f).snd_rwe = f.dtp.snd_rwe := by
    simp only [sdu_write_next, snd_inact_cancel]; split <;> rfl
  by_cases hw : f.cfg.dtcp.fc.fc_type = fc_type.RINA_FC_T_WIN
  · by_cases hgt : f.dtp.next_seq_num_to_send > f.dtp.snd_rwe
    · refine Or.inl ⟨hw, hgt, ?_⟩
      simp only [sdu_write_window, hw, if_true, hs, hr, hgt]
      simp only [sdu_write_next, snd_inact_cancel]
      split <;> rfl
    · refine Or.inr (Or.inl ⟨hw, hgt, ?_⟩)
      simp only [sdu_write_window, hw, if_true, hs, hr, hgt, if_false]
      simp only [sdu_write_next, snd_inact_cancel]
      split <;> rfl
  · refine Or.inr (Or.inr ⟨hw, ?_⟩)
    simp only [sdu_write_window, hw, if_false]
    simp only [sdu_write_next, snd_inact_cancel]
    split <;> rfl

/-- What one `sdu_write` that returns does to its flow, in any state: it stores one of the
DTP states of `write_dtp`, then the router, and whatever it loops back, does the rest; when
the PDU is put in the cwq the call returns 0 at once. -/
theorem sdu_write_outcome (fuel : Nat) (w : World) (fi : Nat) (f : flow_entry) (rb : rina_buf)
    (ms : Bool) (r : Int) (w1 : World) (hf : w.flows[fi]? = some f)
    (h : sdu_write fuel w fi rb ms = Except.ok (r, w1)) :
    ∃ D : dtp, Steps (w.set_dtp fi D) w1 ∧ write_dtp f (sdu_write_stamp w f rb) D ∧
      (D.cwq ≠ f.dtp.cwq → r = 0 ∧ w1 = w.set_dtp fi D) := by
  obtain ⟨D, hst, hD⟩ := sdu_write_steps fuel w fi f rb ms r w1 hf h
  refine ⟨D, hst, ?_⟩
  rcases hD with ⟨ho, rfl, _⟩ | ⟨ho, hdp, rfl⟩ | ⟨ho, hdp, hrtx, rfl, hq⟩ |
    ⟨ho, hdp, hrtx, hq, ⟨_, _, rfl⟩ | ⟨_, rfl⟩⟩
  · have e : snd_inact_cancel f.cfg f.dtp = { f.dtp with
        snd_inact_tmr := (snd_inact_cancel f.cfg f.dtp).snd_inact_tmr } := by
      unfold snd_inact_cancel; split <;> rfl
    refine ⟨by rw [e]; exact write_dtp.eagain _ ho, fun hne => absurd ?_ hne⟩
    unfold snd_inact_cancel; split <;> rfl
  · have e : ({ sdu_write_next f with
        snd_lwe := (sdu_write_next f).next_seq_num_to_send
        last_seq_num_sent := f.dtp.next_seq_num_to_send } : dtp) = { f.dtp with
          snd_inact_tmr := (snd_inact_cancel f.cfg f.dtp).snd_inact_tmr
          set_drf := false
          next_seq_num_to_send := u64 (f.dtp.next_seq_num_to_send + 1)
          snd_lwe := u64 (f.dtp.next_seq_num_to_send + 1)
          last_seq_num_sent := f.dtp.next_seq_num_to_send
          rtxq := f.dtp.rtxq } := by
      simp only [sdu_write_next, snd_inact_cancel]; split <;> rfl
    rw [e]
    exact ⟨write_dtp.send _ _ ho (Or.inl hdp) (Or.inl rfl), fun hne => absurd rfl hne⟩
  · rcases sdu_write_window_form w f rb with ⟨hw, hgt, e⟩ | ⟨hw, hgt, e⟩ | ⟨hw, e⟩
    · rw [e] at hq ⊢
      exact ⟨write_dtp.queue _ ho hdp hw hgt hrtx, fun _ => hq rfl⟩
    · rw [e]
      exact ⟨write_dtp.send _ f.dtp.rtxq ho (Or.inr ⟨hw, hgt⟩) (Or.inl rfl),
        fun hne => absurd rfl hne⟩
    · rw [e]
      exact ⟨write_dtp.pass _ f.dtp.rtxq ho hdp hw (Or.inl rfl), fun hne => absurd rfl hne⟩
  · rcases sdu_write_window_form w f rb with ⟨hw, hgt, e⟩ | ⟨hw, hgt, e⟩ | ⟨hw, e⟩
    · rw [e] at hq; exact absurd hq (by simp)
    · rw [e]
      exact ⟨write_dtp.send _ f.dtp.rtxq ho (Or.inr ⟨hw, hgt⟩) (Or.inl rfl),
        fun hne => absurd rfl hne⟩
    · rw [e]
      exact ⟨write_dtp.pass _ f.dtp.rtxq ho hdp hw (Or.inl rfl), fun hne => absurd rfl hne⟩
  · rcases sdu_write_window_form w f rb with ⟨hw, hgt, e⟩ | ⟨hw, hgt, e⟩ | ⟨hw, e⟩
    · rw [e] at hq; exact absurd hq (by simp)
    · rw [e]
      exact ⟨write_dtp.send (some (2 ^ 30)) _ ho (Or.inr ⟨hw, hgt⟩) (Or.inr ⟨hrtx, hdp, rfl⟩),
        fun hne => absurd rfl hne⟩
    · rw [e]
      exact ⟨write_dtp.pass (some (2 ^ 30)) _ ho hdp hw (Or.inr ⟨hrtx, rfl⟩),
        fun hne => absurd rfl hne⟩

/-- A property of flows that every write of `flow_step` keeps holds after a call that only
makes such writes. -/
theorem steps_keep (P : flow_entry → Prop) (hP : ∀ a b, flow_step a b → P a → P b)
    {W w1 : World} (hst : Steps W w1) {fi : Nat} {g : flow_entry}
    (hW : W.flows[fi]? = some g) (hg : P g) : ∃ f1, w1.flows[fi]? = some f1 ∧ P f1 := by
  obtain ⟨f1, h1, s1⟩ := hst.step fi g hW
  exact ⟨f1, h1, flow_steps_keep P hP s1 hg⟩

theorem win_ok_write (K : Nat) (f : flow_entry) (p : rina_buf) (D : dtp)
    (hK : K + 1 < 2 ^ 64) (inv : win_ok K f) (hD : write_dtp f p D) :
    win_ok (K + 1) { f with dtp := D } := by
  obtain ⟨hnext, hlast, hlwe, hblk⟩ := inv
  have hu : u64 (f.dtp.next_seq_num_to_send + 1) = f.dtp.next_seq_num_to_send + 1 :=
    u64_of_lt (by omega)
  cases hD with
  | eagain T h => exact ⟨by show f.dtp.next_seq_num_to_send ≤ K + 1; omega, hlast, hlwe, hblk⟩
  | queue T h hdp hfc hgt hrtx =>
    refine ⟨?_, hlast, ?_, Or.inr ⟨hdp, hfc, ?_⟩⟩
    · show u64 (f.dtp.next_seq_num_to_send + 1) ≤ K + 1
      rw [hu]; omega
    · show f.dtp.snd_lwe + (f.dtp.cwq ++ [p]).length ≤ u64 (f.dtp.next_seq_num_to_send + 1)
      rw [hu, List.length_append, List.length_singleton]; omega
    · show f.dtp.snd_rwe < u64 (f.dtp.next_seq_num_to_send + 1)
      rw [hu]; omega
  | send T R h hw hR =>
    have hq : f.dtp.cwq = [] := by
      rcases hblk with hb | ⟨b1, b2, b3⟩
      · exact hb
      · rcases hw with hw | ⟨_, hw⟩
        · rw [hw] at b1; exact absurd b1 (by simp)
        · exact absurd b3 hw
    refine ⟨?_, rfl, ?_, Or.inl hq⟩
    · show u64 (f.dtp.next_seq_num_to_send + 1) ≤ K + 1
      rw [hu]; omega
    · show u64 (f.dtp.next_seq_num_to_send + 1) + f.dtp.cwq.length
        ≤ u64 (f.dtp.next_seq_num_to_send + 1)
      rw [hq]; simp
  | pass T R h hdp hfc hR =>
    have hq : f.dtp.cwq = [] := by
      rcases hblk with hb | ⟨_, b2, _⟩
      · exact hb
      · exact absurd b2 hfc
    refine ⟨?_, hlast, ?_, Or.inl hq⟩
    · show u64 (f.dtp.next_seq_num_to_send + 1) ≤ K + 1
      rw [hu]; omega
    · show f.dtp.snd_lwe + f.dtp.cwq.length ≤ u64 (f.dtp.next_seq_num_to_send + 1)
      rw [hu]; omega

theorem cwq_ok_write (f : flow_entry) (p : rina_buf) (D : dtp) (inv : cwq_ok f)
    (hD : write_dtp f p D) : cwq_ok { f with dtp := D } := by
  obtain ⟨hlen, hmax⟩ := inv
  cases hD with
  | eagain T h => exact ⟨hlen, hmax⟩
  | queue T h hdp hfc hgt hrtx =>
    have hlt : f.dtp.cwq_len < f.dtp.max_cwq_len := by
      by_contra hc
      exact h ⟨hfc, hgt, by omega⟩
    constructor
    · show f.dtp.cwq_len + 1 = (f.dtp.cwq ++ [p]).length
      rw [List.length_append, List.length_singleton, hlen]
    · show f.dtp.cwq_len + 1 ≤ f.dtp.max_cwq_len
      omega
  | send T R h hw hR => exact ⟨hlen, hmax⟩
  | pass T R h hdp hfc hR => exact ⟨hlen, hmax⟩

theorem ascending_concat {q : List rina_buf} {p : rina_buf} (h : ascending q)
    (hb : ∀ b ∈ q, b.pci.base.seqnum < p.pci.base.seqnum) : ascending (q ++ [p]) := by
  unfold ascending queue_seqnums at h ⊢
  rw [List.map_append, List.pairwise_append]
  refine ⟨h, by simp, ?_⟩
  intro a ha b hb1
  simp only [List.map_cons, List.map_nil, List.mem_singleton] at hb1
  obtain ⟨c, hc, rfl⟩ := List.mem_map.mp ha
  rw [hb1]
  exact hb c hc

theorem rtx_ok_write (k : Nat) (f : flow_entry) (p : rina_buf) (D : dtp) (hk : k < 2 ^ 64)
    (hp : p.pci.base.seqnum = f.dtp.next_seq_num_to_send) (inv : rtx_ok k f)
    (hD : write_dtp f p D) :
    rtx_ok k { f with dtp := D } ∨ rtx_ok (k + 1) { f with dtp := D } := by
  obtain ⟨hnext, hasc, hbound⟩ := inv
  have hpk : p.pci.base.seqnum = k := by rw [hp, hnext, u64_of_lt hk]
  have hn1 : u64 (f.dtp.next_seq_num_to_send + 1) = u64 (k + 1) := by
    rw [hnext, u64_u64_succ]
  have hR : ∀ R : List rina_buf, R = f.dtp.rtxq ∨ R = f.dtp.rtxq ++ [p] →
      ascending R ∧ ∀ b ∈ R, b.pci.base.seqnum < k + 1 := by
    intro R hR
    rcases hR with rfl | rfl
    · exact ⟨hasc, fun b hb => Nat.lt_succ_of_lt (hbound b hb)⟩
    · refine ⟨ascending_concat hasc (fun b hb => by rw [hpk]; exact hbound b hb), ?_⟩
      intro b hb
      rcases List.mem_append.mp hb with hb | hb
      · exact Nat.lt_succ_of_lt (hbound b hb)
      · rw [List.mem_singleton.mp hb, hpk]; exact Nat.lt_succ_self k
  cases hD with
  | eagain T h => exact Or.inl ⟨hnext, hasc, hbound⟩
  | queue T h hdp hfc hgt hrtx =>
    exact Or.inr ⟨hn1, hasc, fun b hb => Nat.lt_succ_of_lt (hbound b hb)⟩
  | send T R h hw hR1 =>
    have := hR R (by rcases hR1 with h1 | ⟨_, _, h1⟩ <;> [exact Or.inl h1; exact Or.inr h1])
    exact Or.inr ⟨hn1, this.1, this.2⟩
  | pass T R h hdp hfc hR1 =>
    have := hR R (by rcases hR1 with h1 | ⟨_, h1⟩ <;> [exact Or.inl h1; exact Or.inr h1])
    exact Or.inr ⟨hn1, this.1, this.2⟩

/-- A property of the flow `fi`, indexed by the number of `sdu_write` calls so far, that
every write of the receive path and of the router keeps and that every `sdu_write` carries
to the next index, holds along every history of writes and control PDUs. -/
theorem run_snd_keep (fuel fi : Nat) (P : Nat → flow_entry → Prop) (B : Nat)
    (hstep : ∀ k a b, flow_step a b → P k a → P k b)
    (hwrite : ∀ k f p D, k < B → p.pci.base.seqnum = f.dtp.next_seq_num_to_send → P k f →
      write_dtp f p D → P (k + 1) { f with dtp := D }) :
    ∀ (ops : List snd_op) (k : Nat) (w : World) (f : flow_entry) (w1 : World),
      w.flows[fi]? = some f → P k f → k + snd_writes ops ≤ B →
      run_snd fuel fi ops w = Except.ok w1 →
      ∃ f1, w1.flows[fi]? = some f1 ∧ P (k + snd_writes ops) f1 := by
  intro ops
  induction ops with
  | nil =>
    intro k w f w1 hf hP _ h
    simp only [run_snd, Except.ok.injEq] at h
    subst h
    exact ⟨f, hf, hP⟩
  | cons op rest ih =>
    intro k w f w1 hf hP hle h
    cases op with
    | write rb ms =>
      simp only [snd_writes] at hle ⊢
      simp only [run_snd] at h
      cases h1 : sdu_write fuel w fi rb ms with
      | error e => rw [h1] at h; simp at h
      | ok p =>
        obtain ⟨r, wa⟩ := p
        rw [h1] at h
        obtain ⟨D, hst, hD, _⟩ := sdu_write_outcome fuel w fi f rb ms r wa hf h1
        have hP1 := hwrite k f (sdu_write_stamp w f rb) D (by omega) rfl hP hD
        obtain ⟨fa, hfa, hPa⟩ := steps_keep (P (k + 1)) (hstep (k + 1)) hst
          (set_dtp_get hf D) hP1
        obtain ⟨f1, hf1, hP2⟩ := ih (k + 1) wa fa w1 hfa hPa (by omega) h
        have e : k + 1 + snd_writes rest = k + (snd_writes rest + 1) := by omega
        rw [e] at hP2
        exact ⟨f1, hf1, hP2⟩
    | ctrl rb =>
      simp only [snd_writes] at hle ⊢
      simp only [run_snd, hf] at h
      cases h1 : sdu_rx_ctrl (rina_normal_sdu_rx fuel) w fi f rb with
      | error e => rw [h1] at h; simp at h
      | ok p =>
        obtain ⟨r, wa⟩ := p
        rw [h1] at h
        have hst := steps_sdu_rx_ctrl (steps_rina_normal_sdu_rx fuel) hf h1
        obtain ⟨fa, hfa, hPa⟩ := steps_keep (P k) (hstep k) hst hf hP
        exact ih k wa fa w1 hfa hPa hle h

/-- C22 (as amended): the sender window edges.  From `flow_init` on a flow whose cwq is
empty, over every history of `sdu_write` calls (successful or not, control PDUs given to
`sdu_rx_ctrl` in between included) with fewer than `2^64` writes, in any state of the IPCP,
`snd_lwe <= last_seq_num_sent + 1 <= next_seq_num_to_send`, where
`last_seq_num_sent + 1` is taken modulo `2^64`; in fact `snd_lwe` equals
`last_seq_num_sent + 1`. -/
theorem snd_window_edges (fuel : Nat) (w0 : World) (fi : Nat) (f0 : flow_entry)
    (ops : List snd_op) (hf : w0.flows[fi]? = some f0) (hq : f0.dtp.cwq = [])
    (hn : snd_writes ops < 2 ^ 64) :
    ∃ w, rina_normal_flow_init w0 fi = Except.ok (0, w) ∧
      ∀ w1, run_snd fuel fi ops w = Except.ok w1 →
        ∃ f1, w1.flows[fi]? = some f1 ∧
          f1.dtp.snd_lwe ≤ u64 (f1.dtp.last_seq_num_sent + 1) ∧
          u64 (f1.dtp.last_seq_num_sent + 1) ≤ f1.dtp.next_seq_num_to_send ∧
          f1.dtp.snd_lwe = u64 (f1.dtp.last_seq_num_sent + 1) := by
  refine ⟨w0.set_dtp fi (flow_init_dtp f0.cfg f0.dtp),
    by simp only [rina_normal_flow_init, hf], ?_⟩
  intro w1 h
  have inv : win_ok 0 { f0 with dtp := flow_init_dtp f0.cfg f0.dtp } := by
    have e : (flow_init_dtp f0.cfg f0.dtp).next_seq_num_to_send = 0 ∧
        (flow_init_dtp f0.cfg f0.dtp).snd_lwe = 0 ∧
        (flow_init_dtp f0.cfg f0.dtp).last_seq_num_sent = U64_MAX ∧
        (flow_init_dtp f0.cfg f0.dtp).cwq = [] := by
      simp only [flow_init_dtp]
      split <;> exact ⟨rfl, rfl, rfl, hq⟩
    refine ⟨?_, ?_, ?_, Or.inl e.2.2.2⟩
    · show (flow_init_dtp f0.cfg f0.dtp).next_seq_num_to_send ≤ 0
      rw [e.1]
    · show u64 ((flow_init_dtp f0.cfg f0.dtp).last_seq_num_sent + 1)
        = (flow_init_dtp f0.cfg f0.dtp).snd_lwe
      rw [e.2.2.1, e.2.1]; decide
    · show (flow_init_dtp f0.cfg f0.dtp).snd_lwe + (flow_init_dtp f0.cfg f0.dtp).cwq.length
        ≤ (flow_init_dtp f0.cfg f0.dtp).next_seq_num_to_send
      rw [e.1, e.2.1, e.2.2.2]; simp
  obtain ⟨f1, hf1, i1⟩ := run_snd_keep fuel fi win_ok (2 ^ 64 - 1)
    (fun K a b hs hi => win_ok_step K hs hi)
    (fun K f p D hK _ hi hD => win_ok_write K f p D (by omega) hi hD)
    ops 0 _ _ w1 (set_dtp_get hf _) inv (by omega) h
  have := i1.hlwe
  exact ⟨f1, hf1, by rw [i1.hlast], by rw [i1.hlast]; omega, i1.hlast.symm⟩

/-- A sequence of `sdu_write` calls is the history of its writes. -/
theorem run_snd_of_write_all (fuel fi : Nat) (ms : Bool) :
    ∀ (rbs : List rina_buf) (w : World) (rets : List Int) (w1 : World),
      write_all fuel fi ms rbs w = Except.ok (rets, w1) →
      run_snd fuel fi (rbs.map (fun rb => snd_op.write rb ms)) w = Except.ok w1 := by
  intro rbs
  induction rbs with
  | nil =>
    intro w rets w1 h
    simp only [write_all, Except.ok.injEq, Prod.mk.injEq] at h
    simp only [List.map_nil, run_snd, h.2]
  | cons rb rest ih =>
    intro w rets w1 h
    simp only [write_all] at h
    cases h1 : sdu_write fuel w fi rb ms with
    | error e => rw [h1] at h; simp at h
    | ok p =>
      obtain ⟨r, wa⟩ := p
      rw [h1] at h
      simp only at h
      cases h2 : write_all fuel fi ms rest wa with
      | error e => rw [h2] at h; simp at h
      | ok p2 =>
        obtain ⟨rs, wb⟩ := p2
        rw [h2] at h
        simp only [Except.ok.injEq, Prod.mk.injEq] at h
        simp only [List.map_cons, run_snd, h1]
        rw [← h.2]
        exact ih wa rs wb h2

/-- Witness of C22 (as amended): four writes on a flow of initial credit 2, the last of
which waits in the cwq, a flow control PDU that opens the window, and one more write. -/
theorem snd_window_edges_witness :
    world_s2.flows[0]? = some (mk_flow 1 2 43 (cfg_window 2 1)) ∧
    (mk_flow 1 2 43 (cfg_window 2 1)).dtp.cwq = [] ∧
    (∃ w, rina_normal_flow_init world_s2 0 = Except.ok (0, w) ∧
      ∀ w1, run_snd 0 0 [snd_op.write (sdu [0]) false, snd_op.write (sdu [1]) false,
          snd_op.write (sdu [2]) false, snd_op.write (sdu [3]) false,
          snd_op.ctrl (fc_pdu 42 1 0 5), snd_op.write (sdu [4]) false] w = Except.ok w1 →
        ∃ f1, w1.flows[0]? = some f1 ∧
          f1.dtp.snd_lwe ≤ u64 (f1.dtp.last_seq_num_sent + 1) ∧
          u64 (f1.dtp.last_seq_num_sent + 1) ≤ f1.dtp.next_seq_num_to_send ∧
          f1.dtp.snd_lwe = u64 (f1.dtp.last_seq_num_sent + 1)) ∧
    ∃ w1, run_snd 0 0 [snd_op.write (sdu [0]) false, snd_op.write (sdu [1]) false,
        snd_op.write (sdu [2]) false, snd_op.write (sdu [3]) false,
        snd_op.ctrl (fc_pdu 42 1 0 5), snd_op.write (sdu [4]) false] world_s2 = Except.ok w1 ∧
      w1.flows.map (fun f => (f.dtp.snd_lwe, f.dtp.last_seq_num_sent,
        f.dtp.next_seq_num_to_send)) = [(5, 4, 5)] :=
  ⟨rfl, rfl, snd_window_edges 0 world_s2 0 (mk_flow 1 2 43 (cfg_window 2 1))
    [snd_op.write (sdu [0]) false, snd_op.write (sdu [1]) false,
      snd_op.write (sdu [2]) false, snd_op.write (sdu [3]) false,
      snd_op.ctrl (fc_pdu 42 1 0 5), snd_op.write (sdu [4]) false] rfl rfl (by decide),
    _, rfl, rfl⟩

/-- C22, the claim as stated fails once the seqnum counter wraps.  On a fresh flow with
window flow control of initial credit `2^64 - 2` and a cwq of length 1, the first
`2^64 - 1` writes are sent through the window, leaving `snd_lwe = 2^64 - 1`; the next write
stamps seqnum `2^64 - 1`, which is beyond the window and goes to the cwq, and the 64-bit
counter `next_seq_num_to_send` wraps to 0: after `2^64` writes `snd_lwe` is above
`next_seq_num_to_send`. -/
theorem snd_window_edges_counterexample :
    rina_normal_flow_init world_wrap_cwq 0 = Except.ok (0, world_wrap_cwq) ∧
    ∃ w1 f1, run_snd 0 0 ((List.replicate (2 ^ 64 - 1) (sdu []) ++ [sdu []]).map
        (fun rb => snd_op.write rb false)) world_wrap_cwq = Except.ok w1 ∧
      w1.flows[0]? = some f1 ∧ f1.dtp.snd_lwe = 2 ^ 64 - 1 ∧
      f1.dtp.next_seq_num_to_send = 0 ∧
      ¬ (f1.dtp.snd_lwe ≤ u64 (f1.dtp.last_seq_num_sent + 1) ∧
        u64 (f1.dtp.last_seq_num_sent + 1) ≤ f1.dtp.next_seq_num_to_send) := by
  refine ⟨rfl, ?_⟩
  have inv0 := win_inv_init world_wrap_cwq 0 (mk_flow 1 2 43 (cfg_window (2 ^ 64 - 2) 1))
    (2 ^ 64 - 2) 1 rfl (by decide) rfl rfl rfl rfl rfl rfl (by decide)
  obtain ⟨rets, w1, f1, h1, inv1, _, _, ha1⟩ := win_run_send 0 0 1 2 43 (2 ^ 64 - 2) 1 false []
    (List.replicate (2 ^ 64 - 1) (sdu [])) 0 world_wrap_cwq _ inv0
    (by rw [List.length_replicate]; decide) (by decide)
  rw [List.length_replicate] at inv1
  obtain ⟨hf, hlp, hrp, hra, hne, hdp, hfc, hrtx, hnext, hdrf, hrwe, hlwe, hcwq, hlen, hmax⟩ := inv1
  have hne1 : f1.remote_addr ≠ w1.addr := by rw [hra]; exact hne
  obtain ⟨tot, part⟩ := sdu_write_win_cases 0 w1 0 f1 (sdu []) false hf hne1 hdp hfc
  obtain ⟨r, w2, h2⟩ := tot (Or.inl hrtx)
  obtain ⟨f2, g1, _, _, _, _, g6⟩ := part r w2 h2
  have hgt : f1.dtp.next_seq_num_to_send > f1.dtp.snd_rwe := by
    rw [hnext, hrwe]; decide
  have hno : ¬ window_overrun f1 := by
    intro ho
    have := ho.2.2
    rw [hlen, hmax] at this
    simp at this
  have key : f2.dtp.next_seq_num_to_send = 0 ∧ f2.dtp.snd_lwe = 2 ^ 64 - 1 := by
    rcases g6 with ⟨ho, _⟩ | ⟨_, e1, e2, _⟩ | ⟨hle, _⟩
    · exact absurd ho hno
    · rw [e1, e2, hnext, hlwe]
      exact ⟨by decide, by decide⟩
    · exact absurd hgt hle
  have hall := write_all_append 0 0 false (List.replicate (2 ^ 64 - 1) (sdu [])) [sdu []]
    world_wrap_cwq w1 w2 rets [r] h1 (by simp only [write_all, h2])
  refine ⟨w2, f2, run_snd_of_write_all 0 0 false _ _ _ _ hall, g1, key.2, key.1, ?_⟩
  rw [key.1, key.2]
  intro h
  have := le_trans h.1 h.2
  exact absurd this (by decide)

/-- No write of the receive path or of the router lengthens the cwq. -/
theorem cwq_length_step {a b : flow_entry} (h : flow_step a b) :
    b.dtp.cwq.length ≤ a.dtp.cwq.length := by
  cases h with
  | rmtq q n => exact le_refl _
  | ctrl pcic =>
    show (sdu_rx_ctrl_locked pcic a.dtp).1.cwq.length ≤ a.dtp.cwq.length
    rcases sdu_rx_ctrl_locked_shape pcic a.dtp with ⟨_, e, _⟩ | ⟨d0, c0, _, _, e, _⟩
    · rw [e]
    · rw [e]
      have := congrArg List.length (cwq_pop_spec a.dtp.cwq d0 c0).1
      rw [List.length_append] at this
      omega
  | misc d hk =>
    simp only [rkey, Prod.mk.injEq] at hk
    show d.cwq.length ≤ a.dtp.cwq.length
    rw [hk.2.2.2.2.2.1]
  | drf s => exact le_refl _
  | deliver s h1 h2 => exact le_refl _
  | push rb h1 h2 => exact le_refl _

/-- C23: the closed window queue.  From `flow_init` on a flow whose cwq is empty and whose
`cwq_len` is 0, over every history of `sdu_write` calls and control PDUs given to
`sdu_rx_ctrl`, in any state of the IPCP and for every flow configuration, DTCP with window
flow control included: `cwq_len <= max_cwq_len`, and `cwq_len` is the length of the cwq.
Moreover a further `sdu_write` either leaves the cwq no longer than it was, or appends
exactly the PDU it has stamped, returns 0, and the seqnum of that PDU is above `snd_rwe`
as it is at that moment, so `seqnum >= snd_rwe`. -/
theorem cwq_bounded (fuel : Nat) (w0 : World) (fi : Nat) (f0 : flow_entry) (ops : List snd_op)
    (hf : w0.flows[fi]? = some f0) (hq : f0.dtp.cwq = []) (hl : f0.dtp.cwq_len = 0) :
    ∃ w, rina_normal_flow_init w0 fi = Except.ok (0, w) ∧
      ∀ w1, run_snd fuel fi ops w = Except.ok w1 →
        ∃ f1, w1.flows[fi]? = some f1 ∧ f1.dtp.cwq_len ≤ f1.dtp.max_cwq_len ∧
          f1.dtp.cwq_len = f1.dtp.cwq.length ∧
          ∀ (rb : rina_buf) (ms : Bool) (r : Int) (w2 : World) (f2 : flow_entry),
            sdu_write fuel w1 fi rb ms = Except.ok (r, w2) → w2.flows[fi]? = some f2 →
            f2.dtp.cwq_len ≤ f2.dtp.max_cwq_len ∧
            (f2.dtp.cwq.length ≤ f1.dtp.cwq.length ∨
              (f2.dtp.cwq = f1.dtp.cwq ++ [sdu_write_stamp w1 f1 rb] ∧ r = 0 ∧
                (sdu_write_stamp w1 f1 rb).pci.base.seqnum > f1.dtp.snd_rwe ∧
                (sdu_write_stamp w1 f1 rb).pci.base.seqnum ≥ f1.dtp.snd_rwe)) := by
  refine ⟨w0.set_dtp fi (flow_init_dtp f0.cfg f0.dtp),
    by simp only [rina_normal_flow_init, hf], ?_⟩
  intro w1 h
  have inv : cwq_ok { f0 with dtp := flow_init_dtp f0.cfg f0.dtp } := by
    have e : (flow_init_dtp f0.cfg f0.dtp).cwq = [] ∧
        (flow_init_dtp f0.cfg f0.dtp).cwq_len = 0 := by
      simp only [flow_init_dtp]
      split <;> exact ⟨hq, hl⟩
    constructor
    · show (flow_init_dtp f0.cfg f0.dtp).cwq_len = (flow_init_dtp f0.cfg f0.dtp).cwq.length
      rw [e.1, e.2]; rfl
    · show (flow_init_dtp f0.cfg f0.dtp).cwq_len ≤ (flow_init_dtp f0.cfg f0.dtp).max_cwq_len
      rw [e.2]; exact Nat.zero_le _
  obtain ⟨f1, hf1, i1⟩ := run_snd_keep fuel fi (fun _ f => cwq_ok f) (snd_writes ops)
    (fun _ a b hs hi => cwq_ok_step hs hi)
    (fun _ f p D _ _ hi hD => cwq_ok_write f p D hi hD)
    ops 0 _ _ w1 (set_dtp_get hf _) inv (by omega) h
  refine ⟨f1, hf1, i1.hmax, i1.hlen, ?_⟩
  intro rb ms r w2 f2 hw hf2
  obtain ⟨D, hst, hD, hex⟩ := sdu_write_outcome fuel w1 fi f1 rb ms r w2 hf1 hw
  have hok := cwq_ok_write f1 _ D i1 hD
  obtain ⟨fa, hfa, hoka⟩ := steps_keep cwq_ok (fun a b hs hi => cwq_ok_step hs hi) hst
    (set_dtp_get hf1 D) hok
  rw [hf2] at hfa
  cases hfa
  refine ⟨hoka.hmax, ?_⟩
  have hshrink : D.cwq = f1.dtp.cwq → f2.dtp.cwq.length ≤ f1.dtp.cwq.length := by
    intro e
    obtain ⟨fb, hfb, sb⟩ := hst.step fi _ (set_dtp_get hf1 D)
    rw [hf2] at hfb
    cases hfb
    have := flow_steps_keep (fun g => g.dtp.cwq.length ≤ f1.dtp.cwq.length)
      (fun a b hs hi => le_trans (cwq_length_step hs) hi) sb (by show D.cwq.length ≤ _; rw [e])
    exact this
  cases hD with
  | eagain T ho => exact Or.inl (hshrink rfl)
  | queue T ho hdp hfc hgt hrtx =>
    right
    obtain ⟨hr, hw2⟩ := hex (by simp)
    rw [hw2, set_dtp_get hf1] at hf2
    cases hf2
    exact ⟨rfl, hr, hgt, le_of_lt hgt⟩
  | send T R ho hw1 hR => exact Or.inl (hshrink rfl)
  | pass T R ho hdp hfc hR => exact Or.inl (hshrink rfl)

/-- Witness of C23: four writes on a flow of initial credit 2 and a cwq of length 1, the
last of which waits in the cwq, and a flow control PDU that opens the window. -/
theorem cwq_bounded_witness :
    world_s2.flows[0]? = some (mk_flow 1 2 43 (cfg_window 2 1)) ∧
    (mk_flow 1 2 43 (cfg_window 2 1)).dtp.cwq = [] ∧
    (mk_flow 1 2 43 (cfg_window 2 1)).dtp.cwq_len = 0 ∧
    (∃ w1, run_snd 0 0 [snd_op.write (sdu [0]) false, snd_op.write (sdu [1]) false,
        snd_op.write (sdu [2]) false, snd_op.write (sdu [3]) false] world_s2 = Except.ok w1 ∧
      w1.flows.map (fun f => (f.dtp.cwq_len, f.dtp.max_cwq_len,
        queue_seqnums f.dtp.cwq)) = [(1, 1, [3])]) ∧
    ∃ w, rina_normal_flow_init world_s2 0 = Except.ok (0, w) ∧
      ∀ w1, run_snd 0 0 [snd_op.write (sdu [0]) false, snd_op.write (sdu [1]) false,
          snd_op.write (sdu [2]) false, snd_op.write (sdu [3]) false,
          snd_op.ctrl (fc_pdu 42 1 0 5)] w = Except.ok w1 →
        ∃ f1, w1.flows[0]? = some f1 ∧ f1.dtp.cwq_len ≤ f1.dtp.max_cwq_len ∧
          f1.dtp.cwq_len = f1.dtp.cwq.length :=
  ⟨rfl, rfl, rfl, ⟨_, rfl, rfl⟩,
    let ⟨w, h1, h2⟩ := cwq_bounded 0 world_s2 0 (mk_flow 1 2 43 (cfg_window 2 1))
      [snd_op.write (sdu [0]) false, snd_op.write (sdu [1]) false,
        snd_op.write (sdu [2]) false, snd_op.write (sdu [3]) false,
        snd_op.ctrl (fc_pdu 42 1 0 5)] rfl rfl rfl
    ⟨w, h1, fun w1 hw =>
      let ⟨f1, g1, g2, g3, _⟩ := h2 w1 hw
      ⟨f1, g1, g2, g3⟩⟩⟩

theorem rmt_tx_push_alloc (lf : Nat) (rb : rina_buf) (ms : Bool) :
    ∀ (script : List Int) (w : World),
      (rmt_tx_push lf rb ms script w).2.alloc_ok = w.alloc_ok := by
  intro script
  induction script with
  | nil => intro w; rfl
  | cons ret rest ih =>
    intro w
    simp only [rmt_tx_push]
    split
    · split
      · rfl
      · rw [ih]; rfl
    · rfl

/-- The router does not allocate when it does not loop the buffer back. -/
theorem rmt_tx_alloc (rx : World → rina_buf → Res) (w : World) (a : Nat) (rb : rina_buf)
    (ms : Bool) (r : Int) (w1 : World) (ha : a ≠ w.addr)
    (h : rmt_tx rx w a rb ms = Except.ok (r, w1)) : w1.alloc_ok = w.alloc_ok := by
  have ha1 : a ≠ (w.emit (event.rmt_tx a rb ms)).addr := ha
  simp only [rmt_tx] at h
  split at h
  · rw [if_pos ha1] at h
    simp only [Except.ok.injEq, Prod.mk.injEq] at h
    rw [← h.2]; rfl
  · simp only [Except.ok.injEq] at h
    have := rmt_tx_push_alloc (by assumption) rb ms (w.emit (event.rmt_tx a rb ms)).lower_ret
      (w.emit (event.rmt_tx a rb ms))
    rw [h] at this
    exact this

/-- One write on a flow with DTCP and retransmission control, without window flow control,
whose remote address is not the IPCP's own, when the clone can be allocated: the call
returns and a clone of the stamped PDU is at the tail of the rtxq. -/
theorem sdu_write_rtx (fuel : Nat) (w : World) (fi : Nat) (f : flow_entry) (rb : rina_buf)
    (ms : Bool) (hf : w.flows[fi]? = some f) (hne : f.remote_addr ≠ w.addr)
    (hal : w.alloc_ok = []) (hdp : f.cfg.dtcp_present = true)
    (hrtx : f.cfg.dtcp.rtx_control = true)
    (hfc : f.cfg.dtcp.fc.fc_type ≠ fc_type.RINA_FC_T_WIN) :
    ∃ r w1 f1, sdu_write fuel w fi rb ms = Except.ok (r, w1) ∧ w1.flows[fi]? = some f1 ∧
      w1.addr = w.addr ∧ w1.alloc_ok = [] ∧ f1.remote_addr = f.remote_addr ∧ f1.cfg = f.cfg ∧
      f1.dtp.next_seq_num_to_send = u64 (f.dtp.next_seq_num_to_send + 1) ∧
      f1.dtp.rtxq = f.dtp.rtxq ++ [sdu_write_stamp w f rb] := by
  have hno : ¬ window_overrun f := fun h => hfc h.1
  have hal1 : w.alloc.1 = true ∧ w.alloc.2 = w := by
    unfold World.alloc; rw [hal]; exact ⟨rfl, rfl⟩
  rcases sdu_write_window_form w f rb with ⟨hw, _⟩ | ⟨hw, _⟩ | ⟨_, e⟩
  · exact absurd hw hfc
  · exact absurd hw hfc
  · simp only [sdu_write, rina_normal_sdu_write, hf, hno, if_false, hdp, hrtx, e, hal1.1,
      hal1.2, Bool.not_true, Bool.false_eq_true, if_true]
    obtain ⟨r, w1, f1, h1, h2, h3, h4, h5, h6, _⟩ := write_tail (rina_normal_sdu_rx fuel) w w fi f
      (snd_inact_rearm { ({ f.dtp with
            snd_inact_tmr := (snd_inact_cancel f.cfg f.dtp).snd_inact_tmr
            set_drf := false
            next_seq_num_to_send := u64 (f.dtp.next_seq_num_to_send + 1) } : dtp) with
          rtxq := f.dtp.rtxq ++ [sdu_write_stamp w f rb] })
      (sdu_write_stamp w f rb) ms ⟨rfl, rfl, rfl⟩ hf hne
    refine ⟨r, w1, f1, h1, h2, h3, ?_, h4, h5, by rw [h6]; rfl, by rw [h6]; rfl⟩
    rw [rmt_tx_alloc _ _ _ _ _ _ _ (by exact hne) h1]
    exact hal

/-- A history of `n` writes on a flow with DTCP and retransmission control, without window
flow control, whose remote address is not the IPCP's own, when every clone can be
allocated: the history runs to its end and the rtxq has gained one clone per write, whose
seqnums are the successive values of the 64-bit counter. -/
theorem rtx_wrap_run (fuel fi : Nat) (rb : rina_buf) (ms : Bool) :
    ∀ (n s : Nat) (w : World) (f : flow_entry), w.flows[fi]? = some f →
      f.remote_addr ≠ w.addr → w.alloc_ok = [] → f.cfg.dtcp_present = true →
      f.cfg.dtcp.rtx_control = true → f.cfg.dtcp.fc.fc_type ≠ fc_type.RINA_FC_T_WIN →
      f.dtp.next_seq_num_to_send = u64 s →
      ∃ w1 f1, run_snd fuel fi (List.replicate n (snd_op.write rb ms)) w = Except.ok w1 ∧
        w1.flows[fi]? = some f1 ∧
        queue_seqnums f1.dtp.rtxq = queue_seqnums f.dtp.rtxq ++ (List.range' s n).map u64 := by
  intro n
  induction n with
  | zero =>
    intro s w f hf _ _ _ _ _ _
    exact ⟨w, f, rfl, hf, by simp⟩
  | succ n ih =>
    intro s w f hf hne hal hdp hrtx hfc hnext
    obtain ⟨r, w1, f1, h1, g1, g2, g3, g4, g5, g6, g7⟩ := sdu_write_rtx fuel w fi f rb ms hf hne
      hal hdp hrtx hfc
    obtain ⟨w2, f2, h2, k1, k2⟩ := ih (s + 1) w1 f1 g1 (by rw [g4, g2]; exact hne) g3
      (by rw [g5]; exact hdp) (by rw [g5]; exact hrtx) (by rw [g5]; exact hfc)
      (by rw [g6, hnext, u64_u64_succ])
    refine ⟨w2, f2, by simp only [List.replicate_succ, run_snd, h1, h2], k1, ?_⟩
    have hsq : (sdu_write_stamp w f rb).pci.base.seqnum = u64 s := hnext
    rw [k2, g7, List.range'_succ, List.map_cons]
    simp only [queue_seqnums, List.map_append, List.map_cons, List.map_nil, hsq,
      List.append_assoc, List.singleton_append]

/-- C24 (as amended): the retransmission queue.  From `flow_init` on a flow whose rtxq is
empty, over every history of `sdu_write` calls and control PDUs given to `sdu_rx_ctrl` that
has at most `2^64` writes, in any state of the IPCP and for every flow configuration,
retransmission control included, the seqnums of the buffers in the rtxq are strictly
ascending from head to tail. -/
theorem rtxq_ascending (fuel : Nat) (w0 : World) (fi : Nat) (f0 : flow_entry)
    (ops : List snd_op) (hf : w0.flows[fi]? = some f0) (hq : f0.dtp.rtxq = [])
    (hn : snd_writes ops ≤ 2 ^ 64) :
    ∃ w, rina_normal_flow_init w0 fi = Except.ok (0, w) ∧
      ∀ w1, run_snd fuel fi ops w = Except.ok w1 →
        ∃ f1, w1.flows[fi]? = some f1 ∧ ascending f1.dtp.rtxq := by
  refine ⟨w0.set_dtp fi (flow_init_dtp f0.cfg f0.dtp),
    by simp only [rina_normal_flow_init, hf], ?_⟩
  intro w1 h
  have e : (flow_init_dtp f0.cfg f0.dtp).next_seq_num_to_send = 0 ∧
      (flow_init_dtp f0.cfg f0.dtp).rtxq = [] := by
    simp only [flow_init_dtp]
    split <;> exact ⟨rfl, hq⟩
  have inv : rtx_ok 0 { f0 with dtp := flow_init_dtp f0.cfg f0.dtp } := by
    refine ⟨e.1, ?_, ?_⟩
    · show ascending (flow_init_dtp f0.cfg f0.dtp).rtxq
      rw [e.2]; exact List.Pairwise.nil
    · show ∀ b ∈ (flow_init_dtp f0.cfg f0.dtp).rtxq, _
      rw [e.2]; intro b hb; simp at hb
  obtain ⟨f1, hf1, j, _, i1⟩ := run_snd_keep fuel fi (fun k f => ∃ j, j ≤ k ∧ rtx_ok j f) (2 ^ 64)
    (fun k a b hs hi => let ⟨j, hj, hr⟩ := hi; ⟨j, hj, rtx_ok_step j hs hr⟩)
    (fun k f p D hk hp hi hD => by
      obtain ⟨j, hj, hr⟩ := hi
      rcases rtx_ok_write j f p D (by omega) hp hr hD with h1 | h1
      · exact ⟨j, by omega, h1⟩
      · exact ⟨j + 1, by omega, h1⟩)
    ops 0 _ _ w1 (set_dtp_get hf _) ⟨0, le_refl 0, inv⟩ (by omega) h
  exact ⟨f1, hf1, i1.hasc⟩

/-- Witness of C24 (as amended): three writes on a fresh flow with retransmission
control. -/
theorem rtxq_ascending_witness :
    (world_s4 0).flows[0]? = some (mk_flow 1 2 43 (cfg_rtx 0)) ∧
    (mk_flow 1 2 43 (cfg_rtx 0)).dtp.rtxq = [] ∧
    (∃ w, rina_normal_flow_init (world_s4 0) 0 = Except.ok (0, w) ∧
      ∀ w1, run_snd 0 0 [snd_op.write (sdu [0]) false, snd_op.write (sdu [1]) false,
          snd_op.write (sdu [2]) false] w = Except.ok w1 →
        ∃ f1, w1.flows[0]? = some f1 ∧ ascending f1.dtp.rtxq) ∧
    ∃ w1, run_snd 0 0 [snd_op.write (sdu [0]) false, snd_op.write (sdu [1]) false,
        snd_op.write (sdu [2]) false] (world_s4 0) = Except.ok w1 ∧
      w1.flows.map (fun f => queue_seqnums f.dtp.rtxq) = [[0, 1, 2]] :=
  ⟨rfl, rfl, rtxq_ascending 0 (world_s4 0) 0 (mk_flow 1 2 43 (cfg_rtx 0))
    [snd_op.write (sdu [0]) false, snd_op.write (sdu [1]) false,
      snd_op.write (sdu [2]) false] rfl rfl (by decide), _, rfl, rfl⟩

/-- C24, the claim as stated fails in two ways, on a fresh flow with retransmission control
whose remote address is not the IPCP's own.  First, the seqnum counter has 64 bits: after
`2^64 + 1` writes that no control PDU acknowledges the rtxq holds the seqnums
`0 .. 2^64 - 1` followed by 0.  Second, `snd_inact_tmr_cb` restarts the seqnums from 0 and
does not discard the rtxq (the source only has the comment "Discard the retransmission
queue"): after two writes, one expiry of the sender inactivity timer and one more write the
rtxq holds the seqnums 0, 1, 0. -/
theorem rtxq_ascending_counterexample :
    rina_normal_flow_init (world_s4 0) 0 = Except.ok (0, world_s4 0) ∧
    (∃ w1 f1, run_snd 0 0 (List.replicate (2 ^ 64 + 1) (snd_op.write (sdu []) false))
        (world_s4 0) = Except.ok w1 ∧
      w1.flows[0]? = some f1 ∧ ¬ ascending f1.dtp.rtxq) ∧
    ∃ w1 f1, run_dtp 0 0 [dtp_op.write (sdu [0]) false, dtp_op.write (sdu [1]) false,
        dtp_op.snd_inact, dtp_op.write (sdu [2]) false] (world_s4 0) = Except.ok w1 ∧
      w1.flows[0]? = some f1 ∧ queue_seqnums f1.dtp.rtxq = [0, 1, 0] ∧
      ¬ ascending f1.dtp.rtxq := by
  refine ⟨rfl, ?_, _, _, rfl, rfl, rfl, by decide⟩
  obtain ⟨w1, f1, h1, g1, g2⟩ := rtx_wrap_run 0 0 (sdu []) false (2 ^ 64 + 1) 0 (world_s4 0)
    (mk_flow 1 2 43 (cfg_rtx 0)) rfl (by decide) rfl rfl rfl (by decide) rfl
  refine ⟨w1, f1, h1, g1, ?_⟩
  have e0 : queue_seqnums (mk_flow 1 2 43 (cfg_rtx 0)).dtp.rtxq = [] := rfl
  unfold ascending
  rw [g2, e0, List.nil_append]
  exact wrap_not_increasing (2 ^ 64) (by decide)

theorem seqq_pop_many_sublist (g : Nat) : ∀ (l : List rina_buf) (r : Nat),
    (seqq_pop_many g l r).1.Sublist l := by
  intro l
  induction l with
  | nil => intro r; exact List.Sublist.refl _
  | cons qrb rest ih =>
    intro r
    simp only [seqq_pop_many]
    split
    · exact List.Sublist.cons _ (ih _)
    · exact List.Sublist.cons₂ _ (ih _)

theorem ascending_sublist {l1 l2 : List rina_buf} (h : l1.Sublist l2) (ha : ascending l2) :
    ascending l1 :=
  List.Pairwise.sublist (List.Sublist.map _ h) ha

/-- In an ascending queue every buffer behind the head has a seqnum above the head's. -/
theorem ascending_head {c : rina_buf} {l : List rina_buf} (h : ascending (c :: l)) :
    ∀ b ∈ l, c.pci.base.seqnum < b.pci.base.seqnum := by
  unfold ascending queue_seqnums at h
  rw [List.map_cons, List.pairwise_cons] at h
  intro b hb
  exact h.1 _ (List.mem_map.mpr ⟨b, hb, rfl⟩)

/-- What `seqq_push` does to an ascending queue: the queue stays ascending; the buffer is
freed, and the queue left as it is, exactly when its seqnum is already queued. -/
theorem seqq_push_ascending (q : List rina_buf) (rb : rina_buf) (ha : ascending q) :
    ascending (seqq_push q rb).1 ∧
    ((∃ c ∈ q, c.pci.base.seqnum = rb.pci.base.seqnum) →
      (seqq_push q rb).1 = q ∧ (seqq_push q rb).2 = some rb) ∧
    ((∀ c ∈ q, c.pci.base.seqnum ≠ rb.pci.base.seqnum) →
      (seqq_push q rb).2 = none ∧ rb ∈ (seqq_push q rb).1 ∧
      (seqq_push q rb).1.length = q.length + 1) := by
  rcases seqq_push_cases q rb with ⟨e1, l1, l2, e2, e3, e4, e5⟩ | ⟨e1, e2, l1, c, l2, e3, e4, _⟩
  · have hl2 : ∀ b ∈ l2, rb.pci.base.seqnum < b.pci.base.seqnum := by
      cases l2 with
      | nil => intro b hb; simp at hb
      | cons c rest =>
        intro b hb
        have hc := e5 c rfl
        rcases List.mem_cons.mp hb with rfl | hb
        · exact hc
        · have hasc : ascending (c :: rest) := by
            rw [e2] at ha
            exact ascending_suffix ha
          exact lt_trans hc (ascending_head hasc b hb)
    refine ⟨?_, ?_, ?_⟩
    · rw [e3]
      rw [e2] at ha
      unfold ascending queue_seqnums at ha ⊢
      rw [List.map_append, List.pairwise_append] at ha
      rw [List.map_append, List.map_cons, List.pairwise_append, List.pairwise_cons]
      refine ⟨ha.1, ⟨?_, ha.2.1⟩, ?_⟩
      · intro x hx
        obtain ⟨b, hb, rfl⟩ := List.mem_map.mp hx
        exact hl2 b hb
      · intro x hx y hy
        obtain ⟨b, hb, rfl⟩ := List.mem_map.mp hx
        rcases List.mem_cons.mp hy with rfl | hy
        · exact e4 b hb
        · exact ha.2.2 _ hx _ hy
    · rintro ⟨c, hc, hceq⟩
      rw [e2] at hc
      rcases List.mem_append.mp hc with hc | hc
      · exact absurd hceq (ne_of_lt (e4 c hc))
      · exact absurd hceq.symm (ne_of_lt (hl2 c hc))
    · intro _
      refine ⟨e1, by rw [e3]; simp, ?_⟩
      rw [e3, e2]
      simp only [List.length_append, List.length_cons]
      omega
  · refine ⟨by rw [e2]; exact ha, fun _ => ⟨e2, e1⟩, ?_⟩
    intro hne
    exact absurd e4 (hne c (by rw [e3]; simp))

theorem cwq_pop_seqq : ∀ (l : List rina_buf) (d : dtp), (cwq_pop l d).1.seqq = d.seqq := by
  intro l
  induction l with
  | nil => intro d; rfl
  | cons b rest ih =>
    intro d
    simp only [cwq_pop]
    split
    · rfl
    · exact ih _

theorem seqq_ok_step {a b : flow_entry} (h : flow_step a b) (inv : ascending a.dtp.seqq) :
    ascending b.dtp.seqq := by
  cases h with
  | rmtq q n => exact inv
  | ctrl pcic =>
    obtain ⟨X, R, e, _, hX⟩ := sdu_rx_ctrl_locked_form pcic a.dtp
    show ascending (sdu_rx_ctrl_locked pcic a.dtp).1.seqq
    rw [e]
    show ascending X.seqq
    rcases hX with rfl | rfl | rfl
    · exact inv
    · exact inv
    · rw [cwq_pop_seqq]; exact inv
  | misc d hk =>
    simp only [rkey, Prod.mk.injEq] at hk
    show ascending d.seqq
    rw [hk.2.2.2.2.2.2.2.2.2.2.1]; exact inv
  | drf s => exact inv
  | deliver s h1 h2 => exact ascending_sublist (seqq_pop_many_sublist _ _ _) inv
  | push rb h1 h2 => exact (seqq_push_ascending _ rb inv).1

/-- A property of the flow `fi` that every write of the receive path and of the router
keeps holds after every sequence of PDUs passed to `rina_normal_sdu_rx`. -/
theorem rx_all_keep (fuel fi : Nat) (P : flow_entry → Prop)
    (hstep : ∀ a b, flow_step a b → P a → P b) :
    ∀ (rbs : List rina_buf) (w : World) (f : flow_entry) (rets : List Int) (w1 : World),
      w.flows[fi]? = some f → P f → rx_all fuel rbs w = Except.ok (rets, w1) →
      ∃ f1, w1.flows[fi]? = some f1 ∧ P f1 := by
  intro rbs
  induction rbs with
  | nil =>
    intro w f rets w1 hf hP h
    simp only [rx_all, Except.ok.injEq, Prod.mk.injEq] at h
    rw [← h.2]
    exact ⟨f, hf, hP⟩
  | cons rb rest ih =>
    intro w f rets w1 hf hP h
    simp only [rx_all] at h
    cases h1 : rina_normal_sdu_rx fuel w rb with
    | error e => rw [h1] at h; simp at h
    | ok p =>
      obtain ⟨r, wa⟩ := p
      rw [h1] at h
      simp only at h
      obtain ⟨fa, hfa, hPa⟩ := steps_keep P hstep (steps_rina_normal_sdu_rx fuel w rb r wa h1)
        hf hP
      cases h2 : rx_all fuel rest wa with
      | error e => rw [h2] at h; simp at h
      | ok p2 =>
        obtain ⟨rs, wb⟩ := p2
        rw [h2] at h
        simp only [Except.ok.injEq, Prod.mk.injEq] at h
        rw [← h.2]
        exact ih wa fa rs wb hfa hPa h2

/-- C25: the sequencing queue is ascending.  From `flow_init` on a flow whose `seqq` is
empty, after every sequence of PDUs passed to `sdu_rx`, in any state of the IPCP and for
every flow configuration, the seqnums of the buffers in `seqq` are strictly ascending from
head to tail.  In particular `seqq_push` on a strictly ascending queue yields a strictly
ascending queue; it leaves the queue as it is and frees the buffer when the seqnum of the
buffer is already queued, and inserts the buffer otherwise. -/
theorem seqq_ascending (fuel : Nat) (w0 : World) (fi : Nat) (f0 : flow_entry)
    (rbs : List rina_buf) (hf : w0.flows[fi]? = some f0) (hq : f0.dtp.seqq = []) :
    (∃ w, rina_normal_flow_init w0 fi = Except.ok (0, w) ∧
      ∀ rets w1, rx_all fuel rbs w = Except.ok (rets, w1) →
        ∃ f1, w1.flows[fi]? = some f1 ∧ ascending f1.dtp.seqq) ∧
    ∀ (q : List rina_buf) (rb : rina_buf), ascending q →
      ascending (seqq_push q rb).1 ∧
      ((∃ c ∈ q, c.pci.base.seqnum = rb.pci.base.seqnum) →
        (seqq_push q rb).1 = q ∧ (seqq_push q rb).2 = some rb) ∧
      ((∀ c ∈ q, c.pci.base.seqnum ≠ rb.pci.base.seqnum) →
        (seqq_push q rb).2 = none ∧ rb ∈ (seqq_push q rb).1 ∧
        (seqq_push q rb).1.length = q.length + 1) := by
  refine ⟨⟨w0.set_dtp fi (flow_init_dtp f0.cfg f0.dtp),
    by simp only [rina_normal_flow_init, hf], ?_⟩, seqq_push_ascending⟩
  intro rets w1 h
  have e : (flow_init_dtp f0.cfg f0.dtp).seqq = [] := by
    simp only [flow_init_dtp]
    split <;> exact hq
  exact rx_all_keep fuel fi (fun f => ascending f.dtp.seqq) (fun a b hs hi => seqq_ok_step hs hi)
    rbs _ _ rets w1 (set_dtp_get hf _)
    (by show ascending (flow_init_dtp f0.cfg f0.dtp).seqq; rw [e]; exact List.Pairwise.nil) h

/-- Witness of C25: on a fresh flow with retransmission control and `max_sdu_gap = 0` the
PDUs 5, 3 and 5 again arrive: `seqq` holds 3 then 5. -/
theorem seqq_ascending_witness :
    (world_s4 0).flows[0]? = some (mk_flow 1 2 43 (cfg_rtx 0)) ∧
    (mk_flow 1 2 43 (cfg_rtx 0)).dtp.seqq = [] ∧
    (∃ w, rina_normal_flow_init (world_s4 0) 0 = Except.ok (0, w) ∧
      ∀ rets w1, rx_all 1 [data_pdu 42 1 5 0 [5], data_pdu 42 1 3 0 [3],
          data_pdu 42 1 5 0 [5]] w = Except.ok (rets, w1) →
        ∃ f1, w1.flows[0]? = some f1 ∧ ascending f1.dtp.seqq) ∧
    ∃ rets w1, rx_all 1 [data_pdu 42 1 5 0 [5], data_pdu 42 1 3 0 [3],
        data_pdu 42 1 5 0 [5]] (world_s4 0) = Except.ok (rets, w1) ∧
      w1.flows.map (fun f => queue_seqnums f.dtp.seqq) = [[3, 5]] :=
  ⟨rfl, rfl, (seqq_ascending 1 (world_s4 0) 0 (mk_flow 1 2 43 (cfg_rtx 0))
    [data_pdu 42 1 5 0 [5], data_pdu 42 1 3 0 [3], data_pdu 42 1 5 0 [5]] rfl rfl).1,
    _, _, rfl, rfl⟩

theorem cwq_pop_ctrl : ∀ (l : List rina_buf) (d : dtp),
    (cwq_pop l d).1.last_ctrl_seq_num_rcvd = d.last_ctrl_seq_num_rcvd ∧
    (cwq_pop l d).1.rtxq = d.rtxq := by
  intro l
  induction l with
  | nil => intro d; exact ⟨rfl, rfl⟩
  | cons b rest ih =>
    intro d
    simp only [cwq_pop]
    split
    · exact ⟨rfl, rfl⟩
    · exact ih _

/-- The state of the world when `sdu_rx_ctrl` releases the lock of a control PDU with a valid
mask and has freed the control buffer: the flow holds what the locked part computed, nothing
was handed to the router yet; the call then sends the buffers popped from the cwq and
returns 0. -/
theorem sdu_rx_ctrl_unlock (rx : World → rina_buf → Res) (w : World) (fi : Nat)
    (flow : flow_entry) (rb : rina_buf) (hf : w.flows[fi]? = some flow)
    (hm : rb.pci.base.pdu_type &&& PDU_T_CTRL_MASK = PDU_T_CTRL_MASK) :
    ∃ wm : World,
      wm.flows[fi]? = some { flow with dtp := (sdu_rx_ctrl_locked rb.pci flow.dtp).1 } ∧
      wm.addr = w.addr ∧ handed wm.trace = handed w.trace ∧
      sdu_rx_ctrl rx w fi flow rb =
        (match rmt_tx_list rx (sdu_rx_ctrl_locked rb.pci flow.dtp).2.1 wm with
         | Except.error e => Except.error e
         | Except.ok w1 => Except.ok (0, w1.emit (event.write_restart rb.pci.base.dst_cep))) := by
  refine ⟨({ w.set_dtp fi (sdu_rx_ctrl_locked rb.pci flow.dtp).1 with
      trace := (w.set_dtp fi (sdu_rx_ctrl_locked rb.pci flow.dtp).1).trace ++
        (sdu_rx_ctrl_locked rb.pci flow.dtp).2.2.map event.buf_free } : World).emit
      (event.buf_free rb), ?_, rfl, ?_, ?_⟩
  · exact set_dtp_get hf _
  · simp only [World.emit, World.set_dtp, World.upd_flow, handed_append]
    have e1 : ∀ l : List rina_buf, handed (l.map event.buf_free) = [] := by
      intro l
      induction l with
      | nil => rfl
      | cons b rest ih => simp [handed]
    rw [e1]
    simp [handed]
  · simp only [sdu_rx_ctrl, hm, ne_eq, not_true_eq_false, if_false]

theorem router_calls_append (t1 t2 : List event) :
    router_calls (t1 ++ t2) = router_calls t1 ++ router_calls t2 := by
  simp [router_calls, List.filterMap_append]

theorem router_calls_emit (w : World) (e : event) (hh : router_calls [e] = []) :
    router_calls (w.emit e).trace = router_calls w.trace := by
  simp [World.emit, router_calls_append, hh]

theorem router_calls_rmt_tx_push (lf : Nat) (rb : rina_buf) (ms : Bool) :
    ∀ (script : List Int) (w : World),
      router_calls (rmt_tx_push lf rb ms script w).2.trace = router_calls w.trace := by
  intro script
  induction script with
  | nil =>
    intro w
    exact router_calls_emit _ _ rfl
  | cons ret rest ih =>
    intro w
    have t1 : router_calls (({ w with lower_ret := rest } : World).emit
        (event.lower_sdu_write lf rb ms ret)).trace = router_calls w.trace :=
      router_calls_emit ({ w with lower_ret := rest } : World) _ rfl
    simp only [rmt_tx_push]
    split
    · split
      · exact t1
      · rw [ih, router_calls_emit _ event.schedule rfl, t1]
    · exact t1

/-- The router, for a destination that is not the IPCP itself: the call returns, it is the
only call of the router that is made, and the flows keep their state. -/
theorem rmt_tx_away_call (rx : World → rina_buf → Res) (w : World) (a : Nat) (rb : rina_buf)
    (ms : Bool) (ha : a ≠ w.addr) :
    ∃ r w1, rmt_tx rx w a rb ms = Except.ok (r, w1) ∧ Away w w1 ∧
      router_calls w1.trace = router_calls w.trace ++ [(a, rb, ms)] := by
  obtain ⟨r, w1, h1, k1, _⟩ := rmt_tx_away rx w a rb ms ha
  refine ⟨r, w1, h1, k1, ?_⟩
  have t0 : router_calls (w.emit (event.rmt_tx a rb ms)).trace =
      router_calls w.trace ++ [(a, rb, ms)] := by
    simp [World.emit, router_calls_append, router_calls]
  have ha1 : a ≠ (w.emit (event.rmt_tx a rb ms)).addr := ha
  simp only [rmt_tx] at h1
  split at h1
  · rw [if_pos ha1] at h1
    simp only [Except.ok.injEq, Prod.mk.injEq] at h1
    rw [← h1.2, router_calls_emit _ (event.buf_free rb) rfl, t0]
  · rename_i lf _
    simp only [Except.ok.injEq] at h1
    have e2 := congrArg (fun p : Int × World => router_calls p.2.trace) h1
    simp only at e2
    rw [← e2, router_calls_rmt_tx_push, t0]

/-- Sending a list of buffers none of which is addressed to this IPCP: the call returns, the
router is called once for each buffer, in order, toward the destination address of its PCI
and without blocking, and the flows keep their state. -/
theorem rmt_tx_list_away_calls (rx : World → rina_buf → Res) :
    ∀ (l : List rina_buf) (w : World), (∀ b ∈ l, b.pci.base.dst_addr ≠ w.addr) →
    ∃ w1, rmt_tx_list rx l w = Except.ok w1 ∧ Away w w1 ∧
      router_calls w1.trace =
        router_calls w.trace ++ l.map (fun b => (b.pci.base.dst_addr, b, false)) := by
  intro l
  induction l with
  | nil =>
    intro w _
    exact ⟨w, rfl, away_refl w, by simp⟩
  | cons b rest ih =>
    intro w h
    obtain ⟨r, w1, h1, k1, t1⟩ := rmt_tx_away_call rx w b.pci.base.dst_addr b false
      (h b (List.mem_cons_self _ _))
    obtain ⟨w2, h2, k2, t2⟩ := ih w1 (fun c hc => by
      rw [k1.addr]; exact h c (List.mem_cons_of_mem _ hc))
    refine ⟨w2, ?_, away_trans k1 k2, ?_⟩
    · simp only [rmt_tx_list, h1, h2]
    · rw [t2, t1]; simp

/-- The buffers that the locked part of `sdu_rx_ctrl` pops are a prefix of the cwq. -/
theorem sdu_rx_ctrl_locked_prefix (pcic : rina_pci_ctrl) (d : dtp) :
    (sdu_rx_ctrl_locked pcic d).2.1 ++ (sdu_rx_ctrl_locked pcic d).1.cwq = d.cwq :=
  (sdu_rx_ctrl_locked_spec pcic d (d.snd_lwe + d.cwq.length + d.snd_rwe + 1)
    (by omega) (Or.inr (by omega))).1

/-- A control PDU with a valid mask, when none of the buffers that it pops from the cwq is
addressed to this IPCP: `sdu_rx_ctrl` returns 0, the flow holds what the locked part
computed, and the router was called once for each buffer popped from the cwq, in order,
toward the destination address of its PCI and without blocking. -/
theorem sdu_rx_ctrl_popped_away (rx : World → rina_buf → Res) (w : World) (fi : Nat)
    (flow : flow_entry) (rb : rina_buf) (hf : w.flows[fi]? = some flow)
    (hm : rb.pci.base.pdu_type &&& PDU_T_CTRL_MASK = PDU_T_CTRL_MASK)
    (hd : ∀ b ∈ (sdu_rx_ctrl_locked rb.pci flow.dtp).2.1, b.pci.base.dst_addr ≠ w.addr) :
    ∃ w1 f1, sdu_rx_ctrl rx w fi flow rb = Except.ok (0, w1) ∧ w1.flows[fi]? = some f1 ∧
      f1.dtp = (sdu_rx_ctrl_locked rb.pci flow.dtp).1 ∧ f1.cfg = flow.cfg ∧
      router_calls w1.trace = router_calls w.trace ++
        (sdu_rx_ctrl_locked rb.pci flow.dtp).2.1.map
          (fun b => (b.pci.base.dst_addr, b, false)) := by
  have e0 : ∀ l : List rina_buf, router_calls (l.map event.buf_free) = [] := by
    intro l
    induction l with
    | nil => rfl
    | cons b rest ih => simp [router_calls]
  obtain ⟨w1, h1, k1, t1⟩ := rmt_tx_list_away_calls rx (sdu_rx_ctrl_locked rb.pci flow.dtp).2.1
    (({ w.set_dtp fi (sdu_rx_ctrl_locked rb.pci flow.dtp).1 with
      trace := (w.set_dtp fi (sdu_rx_ctrl_locked rb.pci flow.dtp).1).trace ++
        (sdu_rx_ctrl_locked rb.pci flow.dtp).2.2.map event.buf_free } : World).emit
      (event.buf_free rb)) hd
  obtain ⟨f1, g1, q1⟩ := away_get k1
    (show (({ w.set_dtp fi (sdu_rx_ctrl_locked rb.pci flow.dtp).1 with
      trace := (w.set_dtp fi (sdu_rx_ctrl_locked rb.pci flow.dtp).1).trace ++
        (sdu_rx_ctrl_locked rb.pci flow.dtp).2.2.map event.buf_free } : World).emit
      (event.buf_free rb)).flows[fi]? = _ from set_dtp_get hf _)
  simp only [fkey, Prod.mk.injEq] at q1
  refine ⟨w1.emit (event.write_restart rb.pci.base.dst_cep), f1, ?_, g1, q1.2.2.2.2,
    q1.2.2.2.1, ?_⟩
  · simp only [sdu_rx_ctrl, hm, ne_eq, not_true_eq_false, if_false]
    rw [h1]
  · rw [router_calls_emit w1 (event.write_restart rb.pci.base.dst_cep) rfl, t1]
    simp only [World.emit, World.set_dtp, World.upd_flow, router_calls_append, e0]
    simp [router_calls]

/-- A control PDU with a valid mask, on a flow whose cwq holds no buffer addressed to this
IPCP: `sdu_rx_ctrl` returns 0, the flow holds what the locked part computed, and the router
was called once for each buffer popped from the cwq, in order, toward the destination
address of its PCI and without blocking. -/
theorem sdu_rx_ctrl_away (rx : World → rina_buf → Res) (w : World) (fi : Nat)
    (flow : flow_entry) (rb : rina_buf) (hf : w.flows[fi]? = some flow)
    (hm : rb.pci.base.pdu_type &&& PDU_T_CTRL_MASK = PDU_T_CTRL_MASK)
    (hd : ∀ b ∈ flow.dtp.cwq, b.pci.base.dst_addr ≠ w.addr) :
    ∃ w1 f1, sdu_rx_ctrl rx w fi flow rb = Except.ok (0, w1) ∧ w1.flows[fi]? = some f1 ∧
      f1.dtp = (sdu_rx_ctrl_locked rb.pci flow.dtp).1 ∧ f1.cfg = flow.cfg ∧
      router_calls w1.trace = router_calls w.trace ++
        (sdu_rx_ctrl_locked rb.pci flow.dtp).2.1.map
          (fun b => (b.pci.base.dst_addr, b, false)) :=
  sdu_rx_ctrl_popped_away rx w fi flow rb hf hm (fun b hb =>
    hd b (by rw [← sdu_rx_ctrl_locked_prefix rb.pci flow.dtp]; exact List.mem_append_left _ hb))

theorem set_dtp_self {w : World} {fi : Nat} {flow : flow_entry} (hf : w.flows[fi]? = some flow) :
    (w.set_dtp fi flow.dtp).flows = w.flows := by
  apply List.ext_getElem?
  intro n
  simp only [World.set_dtp, World.upd_flow, List.getElem?_modify]
  by_cases hn : fi = n
  · subst hn
    simp [hf]
  · simp [hn]

/-- The test of `sdu_rx_ctrl` for a duplicated control PDU, on 64-bit values. -/
theorem ctrl_dup_iff (seq last : Nat) (hl : last < 2 ^ 64) :
    (¬ (seq > u64 (last + 1)) ∧ last ≠ 0 ∧ seq ≤ last) ↔
      (0 < last ∧ seq ≤ last ∧ (last + 1 < 2 ^ 64 ∨ seq = 0)) := by
  unfold u64
  by_cases h1 : last + 1 < 2 ^ 64
  · rw [Nat.mod_eq_of_lt h1]
    constructor
    · rintro ⟨_, b, c⟩; exact ⟨by omega, c, Or.inl h1⟩
    · rintro ⟨a, b, _⟩; exact ⟨by omega, by omega, b⟩
  · have e : (last + 1) % 2 ^ 64 = 0 := by omega
    rw [e]
    constructor
    · rintro ⟨a, b, c⟩; exact ⟨by omega, c, Or.inr (by omega)⟩
    · rintro ⟨a, b, c⟩
      rcases c with c | c
      · exact absurd c h1
      · exact ⟨by omega, by omega, b⟩

/-- A control PDU that `sdu_rx_ctrl` does not drop as a duplicate is recorded in
`last_ctrl_seq_num_rcvd`. -/
theorem sdu_rx_ctrl_locked_last (pcic : rina_pci_ctrl) (d : dtp)
    (h : ¬ (¬ (pcic.base.seqnum > u64 (d.last_ctrl_seq_num_rcvd + 1)) ∧
      d.last_ctrl_seq_num_rcvd ≠ 0 ∧ pcic.base.seqnum ≤ d.last_ctrl_seq_num_rcvd)) :
    (sdu_rx_ctrl_locked pcic d).1.last_ctrl_seq_num_rcvd = pcic.base.seqnum := by
  simp only [sdu_rx_ctrl_locked, if_neg h]
  split <;> (try split) <;> (try split) <;>
    first
    | rfl
    | exact (cwq_pop_ctrl _ _).1

/-- C31: a control PDU whose seqnum is not above `last_ctrl_seq_num_rcvd`, when that is
positive and below `2^64 - 1` (or the seqnum is 0), is dropped by `sdu_rx_ctrl` as a
duplicate: the call returns 0, no flow changes (so `last_ctrl_seq_num_rcvd`, `snd_rwe`,
`snd_lwe`, `last_seq_num_sent`, `cwq`, `cwq_len` and `rtxq` are what they were) and the
router is not called.  In every other case, with a valid control mask, the flow holds
`last_ctrl_seq_num_rcvd = pcic.seqnum` when the lock is released, and still does when the
call returns 0 after sending what was popped from the cwq, which it does whenever no buffer
of the cwq is addressed to this IPCP. -/
theorem sdu_rx_ctrl_duplicate (rx : World → rina_buf → Res) (w : World) (fi : Nat)
    (flow : flow_entry) (rb : rina_buf) (hf : w.flows[fi]? = some flow)
    (hl : flow.dtp.last_ctrl_seq_num_rcvd < 2 ^ 64) :
    (0 < flow.dtp.last_ctrl_seq_num_rcvd ∧
      rb.pci.base.seqnum ≤ flow.dtp.last_ctrl_seq_num_rcvd ∧
      (flow.dtp.last_ctrl_seq_num_rcvd + 1 < 2 ^ 64 ∨ rb.pci.base.seqnum = 0) →
      ∃ w1, sdu_rx_ctrl rx w fi flow rb = Except.ok (0, w1) ∧ w1.flows = w.flows ∧
        w1.addr = w.addr ∧ router_calls w1.trace = router_calls w.trace) ∧
    (rb.pci.base.pdu_type &&& PDU_T_CTRL_MASK = PDU_T_CTRL_MASK →
      ¬ (0 < flow.dtp.last_ctrl_seq_num_rcvd ∧
        rb.pci.base.seqnum ≤ flow.dtp.last_ctrl_seq_num_rcvd ∧
        (flow.dtp.last_ctrl_seq_num_rcvd + 1 < 2 ^ 64 ∨ rb.pci.base.seqnum = 0)) →
      (∃ wm f1, wm.flows[fi]? = some f1 ∧
        f1.dtp.last_ctrl_seq_num_rcvd = rb.pci.base.seqnum ∧
        sdu_rx_ctrl rx w fi flow rb =
          (match rmt_tx_list rx (sdu_rx_ctrl_locked rb.pci flow.dtp).2.1 wm with
           | Except.error e => Except.error e
           | Except.ok w1 =>
             Except.ok (0, w1.emit (event.write_restart rb.pci.base.dst_cep)))) ∧
      ((∀ b ∈ flow.dtp.cwq, b.pci.base.dst_addr ≠ w.addr) →
        ∃ w1 f1, sdu_rx_ctrl rx w fi flow rb = Except.ok (0, w1) ∧
          w1.flows[fi]? = some f1 ∧
          f1.dtp.last_ctrl_seq_num_rcvd = rb.pci.base.seqnum)) := by
  constructor
  · intro hdup
    have hc := (ctrl_dup_iff rb.pci.base.seqnum _ hl).mpr hdup
    have e : sdu_rx_ctrl_locked rb.pci flow.dtp = (flow.dtp, [], []) := by
      simp only [sdu_rx_ctrl_locked, if_pos hc]
    by_cases hm : rb.pci.base.pdu_type &&& PDU_T_CTRL_MASK = PDU_T_CTRL_MASK
    · refine ⟨(({ w.set_dtp fi flow.dtp with
          trace := (w.set_dtp fi flow.dtp).trace ++ ([] : List rina_buf).map event.buf_free }
          : World).emit (event.buf_free rb)).emit (event.write_restart rb.pci.base.dst_cep),
        ?_, ?_, ?_, ?_⟩
      · simp only [sdu_rx_ctrl, hm, ne_eq, not_true_eq_false, if_false, e, rmt_tx_list]
      · exact set_dtp_self hf
      · rfl
      · simp [World.emit, World.set_dtp, World.upd_flow, router_calls_append, router_calls]
    · refine ⟨w.emit (event.buf_free rb), ?_, rfl, rfl, router_calls_emit _ _ rfl⟩
      simp only [sdu_rx_ctrl, hm, ne_eq, not_false_eq_true, if_true]
  · intro hm hnd
    have hc : ¬ (¬ (rb.pci.base.seqnum > u64 (flow.dtp.last_ctrl_seq_num_rcvd + 1)) ∧
        flow.dtp.last_ctrl_seq_num_rcvd ≠ 0 ∧
        rb.pci.base.seqnum ≤ flow.dtp.last_ctrl_seq_num_rcvd) :=
      fun h => hnd ((ctrl_dup_iff rb.pci.base.seqnum _ hl).mp h)
    have hlast := sdu_rx_ctrl_locked_last rb.pci flow.dtp hc
    constructor
    · obtain ⟨wm, g1, _, _, h1⟩ := sdu_rx_ctrl_unlock rx w fi flow rb hf hm
      exact ⟨wm, _, g1, hlast, h1⟩
    · intro hd
      obtain ⟨w1, f1, h1, g1, q1, _, _⟩ := sdu_rx_ctrl_away rx w fi flow rb hf hm hd
      exact ⟨w1, f1, h1, g1, by rw [q1]; exact hlast⟩

theorem sdu_rx_ctrl_duplicate_witness :
    (∃ w1, sdu_rx_ctrl (rina_normal_sdu_rx 1) (world_ctrl 7) 0 (flow_ctrl 7) (fc_pdu 42 1 5 9)
        = Except.ok (0, w1) ∧ w1.flows = (world_ctrl 7).flows ∧
        w1.addr = (world_ctrl 7).addr ∧
        router_calls w1.trace = router_calls (world_ctrl 7).trace) ∧
    (∃ w1 f1, sdu_rx_ctrl (rina_normal_sdu_rx 1) (world_ctrl 7) 0 (flow_ctrl 7)
        (fc_pdu 42 1 8 9) = Except.ok (0, w1) ∧ w1.flows[0]? = some f1 ∧
        f1.dtp.last_ctrl_seq_num_rcvd = 8) :=
  ⟨(sdu_rx_ctrl_duplicate (rina_normal_sdu_rx 1) (world_ctrl 7) 0 (flow_ctrl 7)
      (fc_pdu 42 1 5 9) rfl (by decide)).1 ⟨by decide, by decide, Or.inl (by decide)⟩,
   ((sdu_rx_ctrl_duplicate (rina_normal_sdu_rx 1) (world_ctrl 7) 0 (flow_ctrl 7)
      (fc_pdu 42 1 8 9) rfl (by decide)).2 rfl (by decide)).2 (by decide)⟩

/-- C31, counterexample: on a fresh flow a control PDU with seqnum `2^64 - 1` is accepted
(after a gap) and recorded; the next control PDU has seqnum 5, which is not above
`last_ctrl_seq_num_rcvd = 2^64 - 1 > 0`, and still it is not dropped: `last + 1` wraps to 0,
the PDU is taken for one that follows lost ones, `last_ctrl_seq_num_rcvd` becomes 5 and
`snd_rwe` moves from 2 to 9. -/
theorem sdu_rx_ctrl_duplicate_counterexample :
    ∃ w1 f1 w2 f2, run_snd 1 0 [snd_op.ctrl (fc_pdu 42 1 (2 ^ 64 - 1) 2)] world_s2
        = Except.ok w1 ∧ w1.flows[0]? = some f1 ∧
      f1.dtp.last_ctrl_seq_num_rcvd = 2 ^ 64 - 1 ∧ f1.dtp.snd_rwe = 2 ∧
      sdu_rx_ctrl (rina_normal_sdu_rx 1) w1 0 f1 (fc_pdu 42 1 5 9) = Except.ok (0, w2) ∧
      w2.flows[0]? = some f2 ∧ f2.dtp.last_ctrl_seq_num_rcvd = 5 ∧ f2.dtp.snd_rwe = 9 :=
  ⟨_, _, _, _, rfl, rfl, rfl, rfl, rfl, rfl, rfl, rfl⟩

theorem cwq_pop_rwe : ∀ (l : List rina_buf) (d : dtp), (cwq_pop l d).1.snd_rwe = d.snd_rwe := by
  intro l
  induction l with
  | nil => intro d; rfl
  | cons b rest ih =>
    intro d
    simp only [cwq_pop]
    split
    · rfl
    · exact ih _

/-- What the locked part of `sdu_rx_ctrl` does to the right window edge of the sender: it
never moves it backward; a PDU that is not a duplicate and has the FC bit moves it to the
larger of its old value and `new_rwe`; and a PDU with `new_rwe` below it changes nothing of
the sender window and pops nothing. -/
theorem sdu_rx_ctrl_locked_rwe (pcic : rina_pci_ctrl) (d : dtp) :
    d.snd_rwe ≤ (sdu_rx_ctrl_locked pcic d).1.snd_rwe ∧
    (¬ ctrl_pdu_dup pcic d → pcic.base.pdu_type &&& PDU_T_FC_BIT ≠ 0 →
      (sdu_rx_ctrl_locked pcic d).1.snd_rwe = max d.snd_rwe pcic.new_rwe) ∧
    (pcic.new_rwe < d.snd_rwe →
      (sdu_rx_ctrl_locked pcic d).1.snd_rwe = d.snd_rwe ∧
      (sdu_rx_ctrl_locked pcic d).1.snd_lwe = d.snd_lwe ∧
      (sdu_rx_ctrl_locked pcic d).1.last_seq_num_sent = d.last_seq_num_sent ∧
      (sdu_rx_ctrl_locked pcic d).1.cwq = d.cwq ∧
      (sdu_rx_ctrl_locked pcic d).1.cwq_len = d.cwq_len ∧
      (sdu_rx_ctrl_locked pcic d).2.1 = []) := by
  by_cases hc : ctrl_pdu_dup pcic d
  · have hc0 : ¬ (pcic.base.seqnum > u64 (d.last_ctrl_seq_num_rcvd + 1)) ∧
        d.last_ctrl_seq_num_rcvd ≠ 0 ∧ pcic.base.seqnum ≤ d.last_ctrl_seq_num_rcvd := hc
    have e : sdu_rx_ctrl_locked pcic d = (d, [], []) := by
      simp only [sdu_rx_ctrl_locked, if_pos hc0]
    rw [e]
    exact ⟨le_refl _, fun h => absurd hc h, fun _ => ⟨rfl, rfl, rfl, rfl, rfl, rfl⟩⟩
  · have hc1 : ¬ (¬ (pcic.base.seqnum > u64 (d.last_ctrl_seq_num_rcvd + 1)) ∧
        d.last_ctrl_seq_num_rcvd ≠ 0 ∧ pcic.base.seqnum ≤ d.last_ctrl_seq_num_rcvd) := hc
    by_cases hfc : pcic.base.pdu_type &&& PDU_T_FC_BIT ≠ 0
    · by_cases hlt : pcic.new_rwe < d.snd_rwe
      · have key : (sdu_rx_ctrl_locked pcic d).1.snd_rwe = d.snd_rwe ∧
            (sdu_rx_ctrl_locked pcic d).1.snd_lwe = d.snd_lwe ∧
            (sdu_rx_ctrl_locked pcic d).1.last_seq_num_sent = d.last_seq_num_sent ∧
            (sdu_rx_ctrl_locked pcic d).1.cwq = d.cwq ∧
            (sdu_rx_ctrl_locked pcic d).1.cwq_len = d.cwq_len ∧
            (sdu_rx_ctrl_locked pcic d).2.1 = [] := by
          simp only [sdu_rx_ctrl_locked, if_neg hc1, if_pos hfc, if_pos hlt]
          split <;> simp
        exact ⟨le_of_eq key.1.symm, fun _ _ => by rw [key.1, max_eq_left (le_of_lt hlt)],
          fun _ => key⟩
      · have key : (sdu_rx_ctrl_locked pcic d).1.snd_rwe = pcic.new_rwe := by
          simp only [sdu_rx_ctrl_locked, if_neg hc1, if_pos hfc, if_neg hlt]
          split <;> exact cwq_pop_rwe _ _
        refine ⟨by rw [key]; omega, fun _ _ => by rw [key, max_eq_right (by omega)],
          fun h => absurd h hlt⟩
    · have key : (sdu_rx_ctrl_locked pcic d).1.snd_rwe = d.snd_rwe ∧
          (sdu_rx_ctrl_locked pcic d).1.snd_lwe = d.snd_lwe ∧
          (sdu_rx_ctrl_locked pcic d).1.last_seq_num_sent = d.last_seq_num_sent ∧
          (sdu_rx_ctrl_locked pcic d).1.cwq = d.cwq ∧
          (sdu_rx_ctrl_locked pcic d).1.cwq_len = d.cwq_len ∧
          (sdu_rx_ctrl_locked pcic d).2.1 = [] := by
        simp only [sdu_rx_ctrl_locked, if_neg hc1, if_neg hfc]
        split <;> simp
      exact ⟨le_of_eq key.1.symm, fun _ h => absurd h hfc, fun _ => key⟩

/-- No write that the receive path or the router makes to a flow moves `snd_rwe` backward. -/
theorem snd_rwe_step {a b : flow_entry} (h : flow_step a b) (c : Nat)
    (hc : c ≤ a.dtp.snd_rwe) : c ≤ b.dtp.snd_rwe := by
  cases h with
  | rmtq q n => exact hc
  | ctrl pcic => exact le_trans hc (sdu_rx_ctrl_locked_rwe pcic a.dtp).1
  | misc d h =>
    have e : d.snd_rwe = a.dtp.snd_rwe := by
      have := congrArg (fun k => k.2.2.2.1) h
      exact this
    show c ≤ d.snd_rwe
    rw [e]; exact hc
  | drf s => exact hc
  | deliver s h1 h2 => exact hc
  | push rb h1 h2 => exact hc

/-- Whatever `sdu_rx_ctrl` returns is 0. -/
theorem sdu_rx_ctrl_ret (rx : World → rina_buf → Res) (w : World) (fi : Nat)
    (flow : flow_entry) (rb : rina_buf) (r : Int) (w1 : World)
    (h : sdu_rx_ctrl rx w fi flow rb = Except.ok (r, w1)) : r = 0 := by
  simp only [sdu_rx_ctrl] at h
  split at h
  · simp only [Except.ok.injEq, Prod.mk.injEq] at h
    exact h.1.symm
  · split at h
    · exact absurd h (by simp)
    · simp only [Except.ok.injEq, Prod.mk.injEq] at h
      exact h.1.symm

/-- C32: the right window edge of the sender never moves backward.  Whenever a call of
`sdu_rx_ctrl` on a flow returns, it returns 0 and `snd_rwe` of the flow is not below what it
was, also when buffers popped from the cwq are looped back into this IPCP.  For a control
PDU with a valid mask, when the lock is released the flow holds a `snd_rwe` that is not
below the old one, and that is the larger of the old `snd_rwe` and `pcic.new_rwe` when the
PDU is not a duplicate and has the FC bit; the same holds when the call returns, which it
does whenever no buffer of the cwq is addressed to this IPCP.  When `pcic.new_rwe` is below
`snd_rwe` the call returns 0 with `snd_rwe`, `snd_lwe`, `last_seq_num_sent`, `cwq` and
`cwq_len` unchanged and without calling the router. -/
theorem snd_rwe_never_backward (fuel : Nat) (w : World) (fi : Nat) (flow : flow_entry)
    (rb : rina_buf) (hf : w.flows[fi]? = some flow) :
    (∀ r w1, sdu_rx_ctrl (rina_normal_sdu_rx fuel) w fi flow rb = Except.ok (r, w1) →
      r = 0 ∧ ∃ f1, w1.flows[fi]? = some f1 ∧ flow.dtp.snd_rwe ≤ f1.dtp.snd_rwe) ∧
    (rb.pci.base.pdu_type &&& PDU_T_CTRL_MASK = PDU_T_CTRL_MASK →
      (∃ wm f1, wm.flows[fi]? = some f1 ∧
        sdu_rx_ctrl (rina_normal_sdu_rx fuel) w fi flow rb =
          (match rmt_tx_list (rina_normal_sdu_rx fuel)
              (sdu_rx_ctrl_locked rb.pci flow.dtp).2.1 wm with
           | Except.error e => Except.error e
           | Except.ok w1 =>
             Except.ok (0, w1.emit (event.write_restart rb.pci.base.dst_cep))) ∧
        flow.dtp.snd_rwe ≤ f1.dtp.snd_rwe ∧
        (¬ ctrl_pdu_dup rb.pci flow.dtp → rb.pci.base.pdu_type &&& PDU_T_FC_BIT ≠ 0 →
          f1.dtp.snd_rwe = max flow.dtp.snd_rwe rb.pci.new_rwe)) ∧
      ((∀ b ∈ flow.dtp.cwq, b.pci.base.dst_addr ≠ w.addr) →
        ∃ w1 f1, sdu_rx_ctrl (rina_normal_sdu_rx fuel) w fi flow rb = Except.ok (0, w1) ∧
          w1.flows[fi]? = some f1 ∧ flow.dtp.snd_rwe ≤ f1.dtp.snd_rwe ∧
          (¬ ctrl_pdu_dup rb.pci flow.dtp → rb.pci.base.pdu_type &&& PDU_T_FC_BIT ≠ 0 →
            f1.dtp.snd_rwe = max flow.dtp.snd_rwe rb.pci.new_rwe))) ∧
    (rb.pci.new_rwe < flow.dtp.snd_rwe →
      ∃ w1 f1, sdu_rx_ctrl (rina_normal_sdu_rx fuel) w fi flow rb = Except.ok (0, w1) ∧
        w1.flows[fi]? = some f1 ∧ f1.dtp.snd_rwe = flow.dtp.snd_rwe ∧
        f1.dtp.snd_lwe = flow.dtp.snd_lwe ∧
        f1.dtp.last_seq_num_sent = flow.dtp.last_seq_num_sent ∧
        f1.dtp.cwq = flow.dtp.cwq ∧ f1.dtp.cwq_len = flow.dtp.cwq_len ∧
        router_calls w1.trace = router_calls w.trace) := by
  obtain ⟨m1, m2, m3⟩ := sdu_rx_ctrl_locked_rwe rb.pci flow.dtp
  refine ⟨?_, ?_, ?_⟩
  · intro r w1 h
    refine ⟨sdu_rx_ctrl_ret _ w fi flow rb r w1 h, ?_⟩
    have st := steps_sdu_rx_ctrl (steps_rina_normal_sdu_rx fuel) hf h
    exact steps_keep (fun f => flow.dtp.snd_rwe ≤ f.dtp.snd_rwe)
      (fun a b hab ha => snd_rwe_step hab _ ha) st hf (le_refl _)
  · intro hm
    constructor
    · obtain ⟨wm, g1, _, _, h1⟩ := sdu_rx_ctrl_unlock (rina_normal_sdu_rx fuel) w fi flow rb hf hm
      exact ⟨wm, _, g1, h1, m1, m2⟩
    · intro hd
      obtain ⟨w1, f1, h1, g1, q1, _, _⟩ :=
        sdu_rx_ctrl_away (rina_normal_sdu_rx fuel) w fi flow rb hf hm hd
      exact ⟨w1, f1, h1, g1, by rw [q1]; exact m1, by rw [q1]; exact m2⟩
  · intro hlt
    obtain ⟨k1, k2, k3, k4, k5, k6⟩ := m3 hlt
    by_cases hm : rb.pci.base.pdu_type &&& PDU_T_CTRL_MASK = PDU_T_CTRL_MASK
    · obtain ⟨w1, f1, h1, g1, q1, _, t1⟩ :=
        sdu_rx_ctrl_popped_away (rina_normal_sdu_rx fuel) w fi flow rb hf hm
          (by rw [k6]; intro b hb; exact absurd hb (List.not_mem_nil b))
      refine ⟨w1, f1, h1, g1, by rw [q1]; exact k1, by rw [q1]; exact k2,
        by rw [q1]; exact k3, by rw [q1]; exact k4, by rw [q1]; exact k5, ?_⟩
      rw [t1, k6]; simp
    · refine ⟨w.emit (event.buf_free rb), flow, ?_, hf, rfl, rfl, rfl, rfl, rfl,
        router_calls_emit _ _ rfl⟩
      simp only [sdu_rx_ctrl, hm, ne_eq, not_false_eq_true, if_true]

theorem snd_rwe_never_backward_witness :
    (∃ w1 f1, sdu_rx_ctrl (rina_normal_sdu_rx 1) world_s2 0 (mk_flow 1 2 43 (cfg_window 2 1))
        (fc_pdu 42 1 1 4) = Except.ok (0, w1) ∧ w1.flows[0]? = some f1 ∧
        f1.dtp.snd_rwe = 4) ∧
    (∃ w1 f1, sdu_rx_ctrl (rina_normal_sdu_rx 1) world_s2 0 (mk_flow 1 2 43 (cfg_window 2 1))
        (fc_pdu 42 1 1 1) = Except.ok (0, w1) ∧ w1.flows[0]? = some f1 ∧
        f1.dtp.snd_rwe = 2 ∧ f1.dtp.snd_lwe = 0 ∧ f1.dtp.cwq = [] ∧
        router_calls w1.trace = []) := by
  constructor
  · obtain ⟨w1, f1, h1, g1, _, m⟩ :=
      ((snd_rwe_never_backward 1 world_s2 0 (mk_flow 1 2 43 (cfg_window 2 1))
        (fc_pdu 42 1 1 4) rfl).2.1 rfl).2 (fun b hb => absurd hb (List.not_mem_nil b))
    exact ⟨w1, f1, h1, g1, m (by decide) (by decide)⟩
  · obtain ⟨w1, f1, h1, g1, m1, m2, _, m4, _, m6⟩ :=
      (snd_rwe_never_backward 1 world_s2 0 (mk_flow 1 2 43 (cfg_window 2 1))
        (fc_pdu 42 1 1 1) rfl).2.2 (by decide)
    exact ⟨w1, f1, h1, g1, m1, m2, m4, m6⟩

/-- The drain of the cwq, exactly: with a right window edge below `2^64` the loop pops the
first `min (length of the queue) (snd_rwe - snd_lwe)` buffers, in order, and counts them in
`cwq_len`, `snd_lwe` and `last_seq_num_sent`. -/
theorem cwq_pop_exact : ∀ (l : List rina_buf) (d : dtp), d.cwq = l → d.snd_rwe < 2 ^ 64 →
    (cwq_pop l d).2 = l.take (min l.length (d.snd_rwe - d.snd_lwe)) ∧
    (cwq_pop l d).1.cwq = l.drop (min l.length (d.snd_rwe - d.snd_lwe)) ∧
    (cwq_pop l d).1.snd_lwe = d.snd_lwe + min l.length (d.snd_rwe - d.snd_lwe) ∧
    (cwq_pop l d).1.cwq_len = d.cwq_len - min l.length (d.snd_rwe - d.snd_lwe) ∧
    (0 < min l.length (d.snd_rwe - d.snd_lwe) →
      (cwq_pop l d).1.last_seq_num_sent + 1 =
        d.snd_lwe + min l.length (d.snd_rwe - d.snd_lwe)) ∧
    (min l.length (d.snd_rwe - d.snd_lwe) = 0 →
      (cwq_pop l d).1.last_seq_num_sent = d.last_seq_num_sent) := by
  intro l
  induction l with
  | nil =>
    intro d h _
    simp [cwq_pop, h]
  | cons b rest ih =>
    intro d h hr
    by_cases hc : d.snd_lwe ≥ d.snd_rwe
    · have e : cwq_pop (b :: rest) d = (d, []) := by simp only [cwq_pop, hc, if_true]
      have k0 : min (b :: rest).length (d.snd_rwe - d.snd_lwe) = 0 := by
        have : d.snd_rwe - d.snd_lwe = 0 := by omega
        rw [this]; exact Nat.min_zero _
      rw [e, k0]
      simp [h]
    · have hu : u64 (d.snd_lwe + 1) = d.snd_lwe + 1 := u64_of_lt (by omega)
      obtain ⟨i1, i2, i3, i4, i5, i6⟩ := ih { d with
        cwq := rest
        cwq_len := d.cwq_len - 1
        last_seq_num_sent := d.snd_lwe
        snd_lwe := u64 (d.snd_lwe + 1) } rfl hr
      have e : cwq_pop (b :: rest) d =
          ((cwq_pop rest { d with
            cwq := rest
            cwq_len := d.cwq_len - 1
            last_seq_num_sent := d.snd_lwe
            snd_lwe := u64 (d.snd_lwe + 1) }).1,
           b :: (cwq_pop rest { d with
            cwq := rest
            cwq_len := d.cwq_len - 1
            last_seq_num_sent := d.snd_lwe
            snd_lwe := u64 (d.snd_lwe + 1) }).2) := by
        simp only [cwq_pop, hc, if_false]
      have hk : min (b :: rest).length (d.snd_rwe - d.snd_lwe) =
          min rest.length (d.snd_rwe - u64 (d.snd_lwe + 1)) + 1 := by
        rw [hu, List.length_cons]
        omega
      simp only at i1 i2 i3 i4 i5 i6
      rw [e, hk]
      refine ⟨?_, ?_, ?_, ?_, ?_, ?_⟩
      · simp only [List.take_succ_cons, i1]
      · simp only [List.drop_succ_cons, i2]
      · rw [i3, hu]; omega
      · rw [i4]; omega
      · intro _
        by_cases hz : min rest.length (d.snd_rwe - u64 (d.snd_lwe + 1)) = 0
        · rw [i6 hz, hz]
        · rw [i5 (Nat.pos_of_ne_zero hz), hu]; omega
      · intro hz; omega

/-- The locked part of `sdu_rx_ctrl` for a control PDU that is not a duplicate, has the FC
bit and a `new_rwe` that is not below `snd_rwe`: the sender window is what the drain of the
cwq leaves, under the new right window edge. -/
theorem sdu_rx_ctrl_locked_drain (pcic : rina_pci_ctrl) (d : dtp)
    (hacc : ¬ ctrl_pdu_dup pcic d) (hfc : pcic.base.pdu_type &&& PDU_T_FC_BIT ≠ 0)
    (hge : ¬ pcic.new_rwe < d.snd_rwe) :
    (sdu_rx_ctrl_locked pcic d).2.1 = (cwq_pop d.cwq { d with
      last_ctrl_seq_num_rcvd := pcic.base.seqnum, snd_rwe := pcic.new_rwe }).2 ∧
    (sdu_rx_ctrl_locked pcic d).1.cwq = (cwq_pop d.cwq { d with
      last_ctrl_seq_num_rcvd := pcic.base.seqnum, snd_rwe := pcic.new_rwe }).1.cwq ∧
    (sdu_rx_ctrl_locked pcic d).1.snd_lwe = (cwq_pop d.cwq { d with
      last_ctrl_seq_num_rcvd := pcic.base.seqnum, snd_rwe := pcic.new_rwe }).1.snd_lwe ∧
    (sdu_rx_ctrl_locked pcic d).1.cwq_len = (cwq_pop d.cwq { d with
      last_ctrl_seq_num_rcvd := pcic.base.seqnum, snd_rwe := pcic.new_rwe }).1.cwq_len ∧
    (sdu_rx_ctrl_locked pcic d).1.last_seq_num_sent = (cwq_pop d.cwq { d with
      last_ctrl_seq_num_rcvd := pcic.base.seqnum, snd_rwe := pcic.new_rwe }).1.last_seq_num_sent ∧
    (sdu_rx_ctrl_locked pcic d).1.snd_rwe = pcic.new_rwe := by
  have hc1 : ¬ (¬ (pcic.base.seqnum > u64 (d.last_ctrl_seq_num_rcvd + 1)) ∧
      d.last_ctrl_seq_num_rcvd ≠ 0 ∧ pcic.base.seqnum ≤ d.last_ctrl_seq_num_rcvd) := hacc
  have hr := cwq_pop_rwe d.cwq { d with
      last_ctrl_seq_num_rcvd := pcic.base.seqnum, snd_rwe := pcic.new_rwe }
  simp only [sdu_rx_ctrl_locked, if_neg hc1, if_pos hfc, if_neg hge]
  split <;> simpa using hr

/-- The state of the world when `sdu_rx_ctrl` releases the lock, as in
`sdu_rx_ctrl_unlock`: the router was not called yet. -/
theorem sdu_rx_ctrl_unlock_calls (rx : World → rina_buf → Res) (w : World) (fi : Nat)
    (flow : flow_entry) (rb : rina_buf) (hf : w.flows[fi]? = some flow)
    (hm : rb.pci.base.pdu_type &&& PDU_T_CTRL_MASK = PDU_T_CTRL_MASK) :
    ∃ wm : World,
      wm.flows[fi]? = some { flow with dtp := (sdu_rx_ctrl_locked rb.pci flow.dtp).1 } ∧
      wm.addr = w.addr ∧ router_calls wm.trace = router_calls w.trace ∧
      sdu_rx_ctrl rx w fi flow rb =
        (match rmt_tx_list rx (sdu_rx_ctrl_locked rb.pci flow.dtp).2.1 wm with
         | Except.error e => Except.error e
         | Except.ok w1 => Except.ok (0, w1.emit (event.write_restart rb.pci.base.dst_cep))) := by
  refine ⟨({ w.set_dtp fi (sdu_rx_ctrl_locked rb.pci flow.dtp).1 with
      trace := (w.set_dtp fi (sdu_rx_ctrl_locked rb.pci flow.dtp).1).trace ++
        (sdu_rx_ctrl_locked rb.pci flow.dtp).2.2.map event.buf_free } : World).emit
      (event.buf_free rb), ?_, rfl, ?_, ?_⟩
  · exact set_dtp_get hf _
  · simp only [World.emit, World.set_dtp, World.upd_flow, router_calls_append]
    have e1 : ∀ l : List rina_buf, router_calls (l.map event.buf_free) = [] := by
      intro l
      induction l with
      | nil => rfl
      | cons b rest ih => simp [router_calls]
    rw [e1]
    simp [router_calls]
  · simp only [sdu_rx_ctrl, hm, ne_eq, not_true_eq_false, if_false]

/-- C33: the drain of the closed window queue.  A control PDU with a valid mask that is not
a duplicate, has the FC bit and a `new_rwe` (a 64-bit value) that is not below `snd_rwe`
makes `sdu_rx_ctrl` pop the first `k = min (length of cwq) (new_rwe - snd_lwe)` buffers of
the cwq (the subtraction stops at 0).  When the lock is released the router was not called
yet and the flow holds the rest of the cwq, in order, a `cwq_len` that is `k` less (when it
was at least `k`), a `snd_lwe` that is `k` more, `last_seq_num_sent = snd_lwe - 1` when
`k > 0` and the old one otherwise, and `snd_rwe = new_rwe`; the cwq is empty or
`snd_lwe ≥ snd_rwe`.  The call then sends the `k` popped buffers through `rmt_tx`, in order;
when none of them is addressed to this IPCP it returns 0 with that state of the flow, and the
router was called exactly `k` times, once for each popped buffer, in queue order, toward the
`dst_addr` of its PCI and with `maysleep = false`. -/
theorem cwq_drain (rx : World → rina_buf → Res) (w : World) (fi : Nat) (flow : flow_entry)
    (rb : rina_buf) (k : Nat) (hf : w.flows[fi]? = some flow)
    (hm : rb.pci.base.pdu_type &&& PDU_T_CTRL_MASK = PDU_T_CTRL_MASK)
    (hacc : ¬ ctrl_pdu_dup rb.pci flow.dtp)
    (hfc : rb.pci.base.pdu_type &&& PDU_T_FC_BIT ≠ 0)
    (hge : flow.dtp.snd_rwe ≤ rb.pci.new_rwe) (hwf : rb.pci.new_rwe < 2 ^ 64)
    (hk : k = min flow.dtp.cwq.length (rb.pci.new_rwe - flow.dtp.snd_lwe)) :
    ∃ wm f1, wm.flows[fi]? = some f1 ∧ router_calls wm.trace = router_calls w.trace ∧
      sdu_rx_ctrl rx w fi flow rb =
        (match rmt_tx_list rx (flow.dtp.cwq.take k) wm with
         | Except.error e => Except.error e
         | Except.ok w1 => Except.ok (0, w1.emit (event.write_restart rb.pci.base.dst_cep))) ∧
      f1.dtp.cwq = flow.dtp.cwq.drop k ∧
      (k ≤ flow.dtp.cwq_len → f1.dtp.cwq_len + k = flow.dtp.cwq_len) ∧
      f1.dtp.snd_lwe = flow.dtp.snd_lwe + k ∧
      (0 < k → f1.dtp.last_seq_num_sent = f1.dtp.snd_lwe - 1) ∧
      (k = 0 → f1.dtp.last_seq_num_sent = flow.dtp.last_seq_num_sent) ∧
      f1.dtp.snd_rwe = rb.pci.new_rwe ∧
      (f1.dtp.cwq = [] ∨ f1.dtp.snd_lwe ≥ f1.dtp.snd_rwe) ∧
      ((∀ b ∈ flow.dtp.cwq.take k, b.pci.base.dst_addr ≠ w.addr) →
        ∃ w1 f2, sdu_rx_ctrl rx w fi flow rb = Except.ok (0, w1) ∧
          w1.flows[fi]? = some f2 ∧ f2.dtp = f1.dtp ∧
          router_calls w1.trace = router_calls w.trace ++
            (flow.dtp.cwq.take k).map (fun b => (b.pci.base.dst_addr, b, false))) := by
  obtain ⟨a1, a2, a3, a4, a5, a6⟩ :=
    sdu_rx_ctrl_locked_drain rb.pci flow.dtp hacc hfc (Nat.not_lt.mpr hge)
  obtain ⟨b1, b2, b3, b4, b5, b6⟩ := cwq_pop_exact flow.dtp.cwq { flow.dtp with
    last_ctrl_seq_num_rcvd := rb.pci.base.seqnum, snd_rwe := rb.pci.new_rwe } rfl hwf
  simp only at b1 b2 b3 b4 b5 b6
  rw [← hk] at b1 b2 b3 b4 b5 b6
  rw [b1] at a1
  rw [b2] at a2
  rw [b3] at a3
  rw [b4] at a4
  obtain ⟨wm, g1, _, t1, h1⟩ := sdu_rx_ctrl_unlock_calls rx w fi flow rb hf hm
  rw [a1] at h1
  have hstop : (sdu_rx_ctrl_locked rb.pci flow.dtp).1.cwq = [] ∨
      (sdu_rx_ctrl_locked rb.pci flow.dtp).1.snd_lwe ≥
        (sdu_rx_ctrl_locked rb.pci flow.dtp).1.snd_rwe := by
    rw [a2, a3, a6]
    by_cases hz : flow.dtp.cwq.length ≤ rb.pci.new_rwe - flow.dtp.snd_lwe
    · left
      rw [hk, Nat.min_eq_left hz]
      exact List.drop_length _
    · right
      rw [hk, Nat.min_eq_right (by omega)]
      show rb.pci.new_rwe ≤ _
      omega
  refine ⟨wm, _, g1, t1, h1, a2, ?_, a3, ?_, ?_, a6, hstop, ?_⟩
  · intro hle
    show (sdu_rx_ctrl_locked rb.pci flow.dtp).1.cwq_len + k = _
    rw [a4]; omega
  · intro hpos
    show (sdu_rx_ctrl_locked rb.pci flow.dtp).1.last_seq_num_sent =
      (sdu_rx_ctrl_locked rb.pci flow.dtp).1.snd_lwe - 1
    have := b5 hpos
    rw [a5, a3]; omega
  · intro hz
    show (sdu_rx_ctrl_locked rb.pci flow.dtp).1.last_seq_num_sent = _
    rw [a5]; exact b6 hz
  · intro hd
    obtain ⟨w1, f2, h2, g2, q2, _, t2⟩ := sdu_rx_ctrl_popped_away rx w fi flow rb hf hm
      (by rw [a1]; exact hd)
    rw [a1] at t2
    exact ⟨w1, f2, h2, g2, q2, t2⟩

theorem cwq_drain_witness :
    queue_seqnums flow_s3.dtp.cwq = [3, 4] ∧ flow_s3.dtp.snd_lwe = 3 ∧
    flow_s3.dtp.snd_rwe = 2 ∧ flow_s3.dtp.cwq_len = 2 ∧
    ∃ w1 f2, sdu_rx_ctrl (rina_normal_sdu_rx 1) world_s3 0 flow_s3 (fc_pdu 42 1 1 4)
        = Except.ok (0, w1) ∧ w1.flows[0]? = some f2 ∧
      queue_seqnums f2.dtp.cwq = [4] ∧ f2.dtp.cwq_len = 1 ∧ f2.dtp.snd_lwe = 4 ∧
      f2.dtp.last_seq_num_sent = 3 ∧ f2.dtp.snd_rwe = 4 ∧
      router_calls w1.trace = router_calls world_s3.trace ++
        (flow_s3.dtp.cwq.take 1).map (fun b => (43, b, false)) := by
  refine ⟨rfl, rfl, rfl, rfl, ?_⟩
  obtain ⟨wm, f1, g1, t1, h1, c1, c2, c3, c4, c5, c6, c7, c8⟩ :=
    cwq_drain (rina_normal_sdu_rx 1) world_s3 0 flow_s3 (fc_pdu 42 1 1 4) 1 rfl rfl
      (by decide) (by decide) (by decide) (by decide) rfl
  obtain ⟨w1, f2, h2, g2, q2, t2⟩ := c8 (by decide)
  refine ⟨w1, f2, h2, g2, ?_, ?_, ?_, ?_, ?_, t2⟩
  · rw [q2, c1]; rfl
  · have := c2 (by decide)
    rw [q2]
    have e : flow_s3.dtp.cwq_len = 2 := rfl
    omega
  · rw [q2, c3]; rfl
  · rw [q2, c4 (by decide), c3]; rfl
  · rw [q2, c6]; rfl

/-- On a queue with strictly ascending seqnums, the loop of `sdu_rx_ctrl` over the rtxq
leaves exactly the buffers with a seqnum above the acknowledged one, in order. -/
theorem rtxq_ack_filter (a : Nat) : ∀ l : List rina_buf, ascending l →
    (rtxq_ack a l).1 = l.filter (fun b => decide (a < b.pci.base.seqnum)) := by
  intro l
  induction l with
  | nil => intro _; rfl
  | cons cur rest ih =>
    intro h
    have hrest : ascending rest :=
      ascending_suffix (show ascending ([cur] ++ rest) from h)
    by_cases hc : cur.pci.base.seqnum ≤ a
    · have e : rtxq_ack a (cur :: rest) =
          ((rtxq_ack a rest).1, cur :: (rtxq_ack a rest).2) := by
        simp only [rtxq_ack, if_pos hc]
      rw [e]
      simp only
      rw [ih hrest, List.filter_cons_of_neg (by simpa using hc)]
    · have e : rtxq_ack a (cur :: rest) = (cur :: rest, []) := by
        simp only [rtxq_ack, if_neg hc]
      rw [e]
      simp only
      symm
      rw [List.filter_eq_self]
      intro b hb
      rcases List.mem_cons.mp hb with rfl | hb
      · simpa using hc
      · have := ascending_head h b hb
        simp only [decide_eq_true_eq]
        omega

/-- What the locked part of `sdu_rx_ctrl` does to the rtxq: a PDU that is not a duplicate and
has the ACK bit with the sub-type ACK removes the acknowledged buffers from the head of the
queue; any other PDU leaves the queue alone. -/
theorem sdu_rx_ctrl_locked_rtxq (pcic : rina_pci_ctrl) (d : dtp) :
    (¬ ctrl_pdu_dup pcic d → pcic.base.pdu_type &&& PDU_T_ACK_BIT ≠ 0 →
      pcic.base.pdu_type &&& PDU_T_ACK_MASK = PDU_T_ACK →
      (sdu_rx_ctrl_locked pcic d).1.rtxq = (rtxq_ack pcic.ack_nack_seq_num d.rtxq).1) ∧
    (pcic.base.pdu_type &&& PDU_T_ACK_MASK ≠ PDU_T_ACK →
      (sdu_rx_ctrl_locked pcic d).1.rtxq = d.rtxq) ∧
    (pcic.base.pdu_type &&& PDU_T_FC_BIT = 0 → (sdu_rx_ctrl_locked pcic d).2.1 = []) := by
  by_cases hc : ctrl_pdu_dup pcic d
  · have hc0 : ¬ (pcic.base.seqnum > u64 (d.last_ctrl_seq_num_rcvd + 1)) ∧
        d.last_ctrl_seq_num_rcvd ≠ 0 ∧ pcic.base.seqnum ≤ d.last_ctrl_seq_num_rcvd := hc
    have e : sdu_rx_ctrl_locked pcic d = (d, [], []) := by
      simp only [sdu_rx_ctrl_locked, if_pos hc0]
    rw [e]
    exact ⟨fun h => absurd hc h, fun _ => rfl, fun _ => rfl⟩
  · have hc1 : ¬ (¬ (pcic.base.seqnum > u64 (d.last_ctrl_seq_num_rcvd + 1)) ∧
        d.last_ctrl_seq_num_rcvd ≠ 0 ∧ pcic.base.seqnum ≤ d.last_ctrl_seq_num_rcvd) := hc
    have hq := fun x => (cwq_pop_ctrl d.cwq x).2
    refine ⟨fun _ hack hsub => ?_, fun hsub => ?_, fun hfc => ?_⟩
    · simp only [sdu_rx_ctrl_locked, if_neg hc1, hack, hsub, ne_eq, not_false_eq_true,
        and_self, if_true]
      split
      · split
        · rfl
        · rw [hq]
      · rfl
    · simp only [sdu_rx_ctrl_locked, if_neg hc1, hsub, and_false, if_false]
      split
      · split
        · rfl
        · rw [hq]
      · rfl
    · simp only [sdu_rx_ctrl_locked, if_neg hc1, hfc, ne_eq, not_true_eq_false, if_false]

/-- C34: acknowledgements and the retransmission queue.  A control PDU with a valid mask and
the ACK bit, handled by `sdu_rx_ctrl` on a flow.  When the sub-type is ACK, the PDU is not a
duplicate and the seqnums of the rtxq are strictly ascending, the flow holds, when the lock
is released, exactly the entries of the old rtxq with a seqnum above
`pcic.ack_nack_seq_num`, in their order.  When the sub-type is NACK, SACK or SNACK the
rtxq is unchanged.  In both cases whatever the call returns is 0, and it does return 0, with
that rtxq, when the PDU has no FC bit or no buffer of the cwq is addressed to this IPCP. -/
theorem rtxq_ack_removes (rx : World → rina_buf → Res) (w : World) (fi : Nat)
    (flow : flow_entry) (rb : rina_buf) (hf : w.flows[fi]? = some flow)
    (hm : rb.pci.base.pdu_type &&& PDU_T_CTRL_MASK = PDU_T_CTRL_MASK)
    (hack : rb.pci.base.pdu_type &&& PDU_T_ACK_BIT ≠ 0) :
    (∀ r w1, sdu_rx_ctrl rx w fi flow rb = Except.ok (r, w1) → r = 0) ∧
    (rb.pci.base.pdu_type &&& PDU_T_ACK_MASK = PDU_T_ACK → ¬ ctrl_pdu_dup rb.pci flow.dtp →
      ascending flow.dtp.rtxq →
      (∃ wm f1, wm.flows[fi]? = some f1 ∧
        sdu_rx_ctrl rx w fi flow rb =
          (match rmt_tx_list rx (sdu_rx_ctrl_locked rb.pci flow.dtp).2.1 wm with
           | Except.error e => Except.error e
           | Except.ok w1 =>
             Except.ok (0, w1.emit (event.write_restart rb.pci.base.dst_cep))) ∧
        f1.dtp.rtxq = flow.dtp.rtxq.filter
          (fun b => decide (rb.pci.ack_nack_seq_num < b.pci.base.seqnum))) ∧
      (rb.pci.base.pdu_type &&& PDU_T_FC_BIT = 0 ∨
          (∀ b ∈ flow.dtp.cwq, b.pci.base.dst_addr ≠ w.addr) →
        ∃ w1 f1, sdu_rx_ctrl rx w fi flow rb = Except.ok (0, w1) ∧
          w1.flows[fi]? = some f1 ∧
          f1.dtp.rtxq = flow.dtp.rtxq.filter
            (fun b => decide (rb.pci.ack_nack_seq_num < b.pci.base.seqnum)))) ∧
    (rb.pci.base.pdu_type &&& PDU_T_ACK_MASK ≠ PDU_T_ACK →
      (∃ wm f1, wm.flows[fi]? = some f1 ∧
        sdu_rx_ctrl rx w fi flow rb =
          (match rmt_tx_list rx (sdu_rx_ctrl_locked rb.pci flow.dtp).2.1 wm with
           | Except.error e => Except.error e
           | Except.ok w1 =>
             Except.ok (0, w1.emit (event.write_restart rb.pci.base.dst_cep))) ∧
        f1.dtp.rtxq = flow.dtp.rtxq) ∧
      (rb.pci.base.pdu_type &&& PDU_T_FC_BIT = 0 ∨
          (∀ b ∈ flow.dtp.cwq, b.pci.base.dst_addr ≠ w.addr) →
        ∃ w1 f1, sdu_rx_ctrl rx w fi flow rb = Except.ok (0, w1) ∧
          w1.flows[fi]? = some f1 ∧ f1.dtp.rtxq = flow.dtp.rtxq)) := by
  obtain ⟨m1, m2, m3⟩ := sdu_rx_ctrl_locked_rtxq rb.pci flow.dtp
  have hret : rb.pci.base.pdu_type &&& PDU_T_FC_BIT = 0 ∨
      (∀ b ∈ flow.dtp.cwq, b.pci.base.dst_addr ≠ w.addr) →
      ∃ w1 f1, sdu_rx_ctrl rx w fi flow rb = Except.ok (0, w1) ∧ w1.flows[fi]? = some f1 ∧
        f1.dtp = (sdu_rx_ctrl_locked rb.pci flow.dtp).1 := by
    intro h
    rcases h with h | h
    · obtain ⟨w1, f1, h1, g1, q1, _, _⟩ := sdu_rx_ctrl_popped_away rx w fi flow rb hf hm
        (by rw [m3 h]; intro b hb; exact absurd hb (List.not_mem_nil b))
      exact ⟨w1, f1, h1, g1, q1⟩
    · obtain ⟨w1, f1, h1, g1, q1, _, _⟩ := sdu_rx_ctrl_away rx w fi flow rb hf hm h
      exact ⟨w1, f1, h1, g1, q1⟩
  obtain ⟨wm, g1, _, _, h1⟩ := sdu_rx_ctrl_unlock_calls rx w fi flow rb hf hm
  refine ⟨fun r w1 h => sdu_rx_ctrl_ret rx w fi flow rb r w1 h, ?_, ?_⟩
  · intro hsub hacc hasc
    have e := (m1 hacc hack hsub).trans (rtxq_ack_filter _ _ hasc)
    refine ⟨⟨wm, _, g1, h1, e⟩, fun h => ?_⟩
    obtain ⟨w1, f1, h2, g2, q2⟩ := hret h
    exact ⟨w1, f1, h2, g2, by rw [q2]; exact e⟩
  · intro hsub
    refine ⟨⟨wm, _, g1, h1, m2 hsub⟩, fun h => ?_⟩
    obtain ⟨w1, f1, h2, g2, q2⟩ := hret h
    exact ⟨w1, f1, h2, g2, by rw [q2]; exact m2 hsub⟩

theorem rtxq_ack_removes_witness :
    queue_seqnums flow_rtx.dtp.rtxq = [0, 1, 2] ∧
    (∃ w1 f1, sdu_rx_ctrl (rina_normal_sdu_rx 1) world_rtx 0 flow_rtx
        (ack_pdu 42 1 PDU_T_ACK 1 1) = Except.ok (0, w1) ∧ w1.flows[0]? = some f1 ∧
      queue_seqnums f1.dtp.rtxq = [2]) ∧
    (∃ w1 f1, sdu_rx_ctrl (rina_normal_sdu_rx 1) world_rtx 0 flow_rtx
        (ack_pdu 42 1 PDU_T_NACK 1 1) = Except.ok (0, w1) ∧ w1.flows[0]? = some f1 ∧
      queue_seqnums f1.dtp.rtxq = [0, 1, 2]) := by
  refine ⟨rfl, ?_, ?_⟩
  · obtain ⟨w1, f1, h1, g1, q1⟩ :=
      ((rtxq_ack_removes (rina_normal_sdu_rx 1) world_rtx 0 flow_rtx
        (ack_pdu 42 1 PDU_T_ACK 1 1) rfl rfl (by decide)).2.1 rfl (by decide) (by decide)).2
        (Or.inl rfl)
    exact ⟨w1, f1, h1, g1, by rw [q1]; rfl⟩
  · obtain ⟨w1, f1, h1, g1, q1⟩ :=
      ((rtxq_ack_removes (rina_normal_sdu_rx 1) world_rtx 0 flow_rtx
        (ack_pdu 42 1 PDU_T_NACK 1 1) rfl rfl (by decide)).2.2 (by decide)).2 (Or.inl rfl)
    exact ⟨w1, f1, h1, g1, by rw [q1]; rfl⟩

/-- C35: the clone for the retransmission queue.  On a flow with DTCP and retransmission
control, a `rina_normal_sdu_write` that passes the window check and whose PDU is not bound
for the cwq (no window flow control, or a seqnum that is not above `snd_rwe`) stores, when
the clone can be allocated, an rtxq that is the old one with one clone of the stamped PDU
at its tail, the clone carrying the seqnum that was just stamped, and hands the PDU to the
router: it does not fail with OutOfMemory.  When the PDU is bound for the cwq (window flow
control and a seqnum above `snd_rwe`) the code has set `rb` to `NULL` before it calls
`rina_buf_clone(rb)`: the call dereferences an invalid pointer, and nothing is appended to
the rtxq. -/
theorem sdu_write_rtx_clone (rx : World → rina_buf → Res) (w : World) (fi : Nat)
    (flow : flow_entry) (rb : rina_buf) (ms : Bool) (hf : w.flows[fi]? = some flow)
    (hdp : flow.cfg.dtcp_present = true) (hrtx : flow.cfg.dtcp.rtx_control = true)
    (hw : ¬ window_overrun flow) :
    (¬ (flow.cfg.dtcp.fc.fc_type = fc_type.RINA_FC_T_WIN ∧
        flow.dtp.next_seq_num_to_send > flow.dtp.snd_rwe) → w.alloc.1 = true →
      ∃ D : dtp, rina_normal_sdu_write rx w fi rb ms =
          rmt_tx rx (w.alloc.2.set_dtp fi D) flow.remote_addr (sdu_write_stamp w flow rb) ms ∧
        D.rtxq = flow.dtp.rtxq ++ [sdu_write_stamp w flow rb] ∧
        (sdu_write_stamp w flow rb).pci.base.seqnum = flow.dtp.next_seq_num_to_send ∧
        D.next_seq_num_to_send = u64 (flow.dtp.next_seq_num_to_send + 1)) ∧
    (flow.cfg.dtcp.fc.fc_type = fc_type.RINA_FC_T_WIN →
      flow.dtp.next_seq_num_to_send > flow.dtp.snd_rwe →
      rina_normal_sdu_write rx w fi rb ms = Except.error fault.oops) := by
  have hn := sdu_write_next_fields flow
  have hr : (sdu_write_next flow).rtxq = flow.dtp.rtxq := by
    simp only [sdu_write_next, snd_inact_cancel]; split <;> rfl
  constructor
  · intro hq hal
    by_cases hfc : flow.cfg.dtcp.fc.fc_type = fc_type.RINA_FC_T_WIN
    · have hgt : ¬ flow.dtp.next_seq_num_to_send > flow.dtp.snd_rwe := fun h => hq ⟨hfc, h⟩
      have e := sdu_write_window_send w flow rb hfc hgt
      refine ⟨snd_inact_rearm { (sdu_write_window flow (sdu_write_stamp w flow rb)).1 with
        rtxq := (sdu_write_window flow (sdu_write_stamp w flow rb)).1.rtxq ++
          [sdu_write_stamp w flow rb] }, ?_, ?_, rfl, ?_⟩
      · simp only [rina_normal_sdu_write, hf, if_neg hw, hdp, hrtx, Bool.not_true,
          Bool.false_eq_true, if_false, if_true, e, hal]
      · rw [e]; simp only [snd_inact_rearm]; rw [hr]
      · rw [e]; simp only [snd_inact_rearm]; exact hn.2.2.2.2.2.1
    · have e := sdu_write_window_nofc w flow rb hfc
      refine ⟨snd_inact_rearm { (sdu_write_window flow (sdu_write_stamp w flow rb)).1 with
        rtxq := (sdu_write_window flow (sdu_write_stamp w flow rb)).1.rtxq ++
          [sdu_write_stamp w flow rb] }, ?_, ?_, rfl, ?_⟩
      · simp only [rina_normal_sdu_write, hf, if_neg hw, hdp, hrtx, Bool.not_true,
          Bool.false_eq_true, if_false, if_true, e, hal]
      · rw [e]; simp only [snd_inact_rearm]; rw [hr]
      · rw [e]; simp only [snd_inact_rearm]; exact hn.2.2.2.2.2.1
  · intro hfc hgt
    have e := sdu_write_window_cwq w flow rb hfc hgt
    simp only [rina_normal_sdu_write, hf, if_neg hw, hdp, hrtx, Bool.not_true,
      Bool.false_eq_true, if_false, if_true, e]

theorem sdu_write_rtx_clone_witness :
    (∃ D : dtp, rina_normal_sdu_write (rina_normal_sdu_rx 0) world_window_rtx 0 (sdu [0]) false =
        rmt_tx (rina_normal_sdu_rx 0) (world_window_rtx.alloc.2.set_dtp 0 D) 43
          (sdu_write_stamp world_window_rtx (mk_flow 1 2 43 (cfg_window_rtx 0 1)) (sdu [0]))
          false ∧
      queue_seqnums D.rtxq = [0]) ∧
    sdu_write 0 world_window_rtx 0 (sdu [0]) false = Except.ok (0, world_window_rtx_sent) ∧
    queue_seqnums flow_window_rtx_sent.dtp.rtxq = [0] ∧
    flow_window_rtx_sent.dtp.next_seq_num_to_send = 1 ∧
    flow_window_rtx_sent.dtp.snd_rwe = 0 ∧ flow_window_rtx_sent.dtp.cwq_len = 0 ∧
    flow_window_rtx_sent.dtp.max_cwq_len = 1 ∧
    rina_normal_sdu_write (rina_normal_sdu_rx 0) world_window_rtx_sent 0 (sdu [1]) false =
      Except.error fault.oops := by
  refine ⟨?_, rfl, rfl, rfl, rfl, rfl, rfl, ?_⟩
  · obtain ⟨D, h1, q1, _⟩ := (sdu_write_rtx_clone (rina_normal_sdu_rx 0) world_window_rtx 0
      (mk_flow 1 2 43 (cfg_window_rtx 0 1)) (sdu [0]) false rfl rfl rfl (by decide)).1
      (by decide) rfl
    exact ⟨D, h1, by rw [queue_seqnums, q1]; rfl⟩
  · exact (sdu_write_rtx_clone (rina_normal_sdu_rx 0) world_window_rtx_sent 0
      flow_window_rtx_sent (sdu [1]) false rfl rfl rfl (by decide)).2 rfl (by decide)

/-- C36 (as amended): the left window edge after a write that is sent.  On a flow with DTCP, a
`rina_normal_sdu_write` that passes the window check, whose PDU is not bound for the cwq
and whose clone for the rtxq, if one is made, can be allocated, stores a DTP state and
hands the stamped PDU to the router.  With window flow control that state has `snd_lwe`
equal to the new `next_seq_num_to_send` and `last_seq_num_sent` equal to the seqnum stamped
on the PDU; without window flow control `snd_lwe` and `last_seq_num_sent` are what they
were.  When the remote address is not the IPCP's own the call returns with that state in
the flow. -/
theorem sdu_write_snd_lwe (rx : World → rina_buf → Res) (w : World) (fi : Nat)
    (flow : flow_entry) (rb : rina_buf) (ms : Bool) (hf : w.flows[fi]? = some flow)
    (hdp : flow.cfg.dtcp_present = true) (hw : ¬ window_overrun flow)
    (hq : ¬ (flow.cfg.dtcp.fc.fc_type = fc_type.RINA_FC_T_WIN ∧
      flow.dtp.next_seq_num_to_send > flow.dtp.snd_rwe))
    (hal : flow.cfg.dtcp.rtx_control = true → w.alloc.1 = true) :
    ∃ (w0 : World) (D : dtp), w0.flows = w.flows ∧ w0.addr = w.addr ∧ w0.trace = w.trace ∧
      rina_normal_sdu_write rx w fi rb ms =
        rmt_tx rx (w0.set_dtp fi D) flow.remote_addr (sdu_write_stamp w flow rb) ms ∧
      (sdu_write_stamp w flow rb).pci.base.seqnum = flow.dtp.next_seq_num_to_send ∧
      D.next_seq_num_to_send = u64 (flow.dtp.next_seq_num_to_send + 1) ∧
      (flow.cfg.dtcp.fc.fc_type = fc_type.RINA_FC_T_WIN →
        D.snd_lwe = D.next_seq_num_to_send ∧
        D.last_seq_num_sent = (sdu_write_stamp w flow rb).pci.base.seqnum) ∧
      (flow.cfg.dtcp.fc.fc_type ≠ fc_type.RINA_FC_T_WIN →
        D.snd_lwe = flow.dtp.snd_lwe ∧ D.last_seq_num_sent = flow.dtp.last_seq_num_sent) ∧
      (flow.remote_addr ≠ w.addr →
        ∃ r w1 f1, rina_normal_sdu_write rx w fi rb ms = Except.ok (r, w1) ∧
          w1.flows[fi]? = some f1 ∧ f1.dtp = D) := by
  have hn := sdu_write_next_fields flow
  have hl : (sdu_write_next flow).last_seq_num_sent = flow.dtp.last_seq_num_sent := by
    simp only [sdu_write_next, snd_inact_cancel]; split <;> rfl
  have fin : ∀ (w0 : World) (D : dtp), w0.flows = w.flows → w0.addr = w.addr →
      rina_normal_sdu_write rx w fi rb ms =
        rmt_tx rx (w0.set_dtp fi D) flow.remote_addr (sdu_write_stamp w flow rb) ms →
      flow.remote_addr ≠ w.addr →
      ∃ r w1 f1, rina_normal_sdu_write rx w fi rb ms = Except.ok (r, w1) ∧
        w1.flows[fi]? = some f1 ∧ f1.dtp = D := by
    intro w0 D e1 e2 h hne
    have hf0 : w0.flows[fi]? = some flow := by rw [e1]; exact hf
    obtain ⟨r, w1, h1, k1, _⟩ := rmt_tx_away rx (w0.set_dtp fi D) flow.remote_addr
      (sdu_write_stamp w flow rb) ms (by rw [set_dtp_addr, e2]; exact hne)
    obtain ⟨f1, g1, q1⟩ := away_get k1 (set_dtp_get hf0 D)
    simp only [fkey, Prod.mk.injEq] at q1
    exact ⟨r, w1, f1, h.trans h1, g1, q1.2.2.2.2⟩
  by_cases hfc : flow.cfg.dtcp.fc.fc_type = fc_type.RINA_FC_T_WIN
  · have hgt : ¬ flow.dtp.next_seq_num_to_send > flow.dtp.snd_rwe := fun h => hq ⟨hfc, h⟩
    have e := sdu_write_window_send w flow rb hfc hgt
    by_cases hrtx : flow.cfg.dtcp.rtx_control = true
    · have h : rina_normal_sdu_write rx w fi rb ms = rmt_tx rx (w.alloc.2.set_dtp fi
          (snd_inact_rearm { (sdu_write_window flow (sdu_write_stamp w flow rb)).1 with
            rtxq := (sdu_write_window flow (sdu_write_stamp w flow rb)).1.rtxq ++
              [sdu_write_stamp w flow rb] })) flow.remote_addr (sdu_write_stamp w flow rb)
          ms := by
        simp only [rina_normal_sdu_write, hf, if_neg hw, hdp, hrtx, Bool.not_true,
          Bool.false_eq_true, if_false, if_true, e, hal hrtx]
      refine ⟨_, _, alloc_flows w, (alloc_frame w).2.1, (alloc_frame w).2.2, h, rfl, ?_,
        fun _ => ?_, fun h2 => absurd hfc h2, fin _ _ (alloc_flows w) (alloc_frame w).2.1 h⟩
      · rw [e]; exact hn.2.2.2.2.2.1
      · rw [e]; exact ⟨rfl, rfl⟩
    · have hrtx0 : flow.cfg.dtcp.rtx_control = false := by simpa using hrtx
      have h : rina_normal_sdu_write rx w fi rb ms = rmt_tx rx (w.set_dtp fi
          (snd_inact_rearm (sdu_write_window flow (sdu_write_stamp w flow rb)).1))
          flow.remote_addr (sdu_write_stamp w flow rb) ms := by
        simp only [rina_normal_sdu_write, hf, if_neg hw, hdp, hrtx0, Bool.not_true,
          Bool.false_eq_true, if_false, e]
      refine ⟨_, _, rfl, rfl, rfl, h, rfl, ?_, fun _ => ?_, fun h2 => absurd hfc h2,
        fin _ _ rfl rfl h⟩
      · rw [e]; exact hn.2.2.2.2.2.1
      · rw [e]; exact ⟨rfl, rfl⟩
  · have e := sdu_write_window_nofc w flow rb hfc
    by_cases hrtx : flow.cfg.dtcp.rtx_control = true
    · have h : rina_normal_sdu_write rx w fi rb ms = rmt_tx rx (w.alloc.2.set_dtp fi
          (snd_inact_rearm { (sdu_write_window flow (sdu_write_stamp w flow rb)).1 with
            rtxq := (sdu_write_window flow (sdu_write_stamp w flow rb)).1.rtxq ++
              [sdu_write_stamp w flow rb] })) flow.remote_addr (sdu_write_stamp w flow rb)
          ms := by
        simp only [rina_normal_sdu_write, hf, if_neg hw, hdp, hrtx, Bool.not_true,
          Bool.false_eq_true, if_false, if_true, e, hal hrtx]
      refine ⟨_, _, alloc_flows w, (alloc_frame w).2.1, (alloc_frame w).2.2, h, rfl, ?_,
        fun h2 => absurd h2 hfc, fun _ => ?_, fin _ _ (alloc_flows w) (alloc_frame w).2.1 h⟩
      · rw [e]; exact hn.2.2.2.2.2.1
      · rw [e]; exact ⟨hn.2.1, hl⟩
    · have hrtx0 : flow.cfg.dtcp.rtx_control = false := by simpa using hrtx
      have h : rina_normal_sdu_write rx w fi rb ms = rmt_tx rx (w.set_dtp fi
          (snd_inact_rearm (sdu_write_window flow (sdu_write_stamp w flow rb)).1))
          flow.remote_addr (sdu_write_stamp w flow rb) ms := by
        simp only [rina_normal_sdu_write, hf, if_neg hw, hdp, hrtx0, Bool.not_true,
          Bool.false_eq_true, if_false, e]
      refine ⟨_, _, rfl, rfl, rfl, h, rfl, ?_, fun h2 => absurd h2 hfc, fun _ => ?_,
        fin _ _ rfl rfl h⟩
      · rw [e]; exact hn.2.2.2.2.2.1
      · rw [e]; exact ⟨hn.2.1, hl⟩

theorem sdu_write_snd_lwe_witness :
    ∃ r w1 f1, rina_normal_sdu_write (rina_normal_sdu_rx 0) world_s2 0 (sdu [0]) false
        = Except.ok (r, w1) ∧ w1.flows[0]? = some f1 ∧
      f1.dtp.next_seq_num_to_send = 1 ∧ f1.dtp.snd_lwe = 1 ∧ f1.dtp.last_seq_num_sent = 0 := by
  obtain ⟨w0, D, _, _, _, _, c1, c2, c3, _, c5⟩ :=
    sdu_write_snd_lwe (rina_normal_sdu_rx 0) world_s2 0 (mk_flow 1 2 43 (cfg_window 2 1))
      (sdu [0]) false rfl rfl (by decide) (by decide) (by decide)
  obtain ⟨r, w1, f1, h1, g1, q1⟩ := c5 (by decide)
  obtain ⟨c3a, c3b⟩ := c3 rfl
  exact ⟨r, w1, f1, h1, g1, by rw [q1, c2]; rfl, by rw [q1, c3a, c2]; rfl,
    by rw [q1, c3b, c1]; rfl⟩

/-- C36, counterexample: a flow with DTCP (retransmission control) and no window flow
control.  The first write on the fresh flow is successful and its PDU, seqnum 0, is handed to
the router, not put in the cwq; afterwards `next_seq_num_to_send` is 1 but `snd_lwe` is still
0 and `last_seq_num_sent` is still `2^64 - 1`, the values of `rina_normal_flow_init`. -/
theorem sdu_write_snd_lwe_counterexample :
    ∃ w1 f1, sdu_write 0 (world_s4 0) 0 (sdu [0]) false = Except.ok (0, w1) ∧
      w1.flows[0]? = some f1 ∧ f1.cfg.dtcp_present = true ∧ f1.dtp.cwq = [] ∧
      seqnums (handed w1.trace) = [0] ∧
      f1.dtp.next_seq_num_to_send = 1 ∧ f1.dtp.snd_lwe = 0 ∧
      f1.dtp.last_seq_num_sent = 2 ^ 64 - 1 :=
  ⟨_, _, rfl, rfl, rfl, rfl, rfl, rfl, rfl, rfl⟩

/-- C37: the sender inactivity timer callback.  `snd_inact_tmr_cb` sets `set_drf` to true and
`next_seq_num_to_send` to 0 and leaves every other field of the DTP state as it is.
Consequently, on a flow whose DTP state the callback has just written, the next
`rina_normal_sdu_write` is not refused by the window check and does not put its PDU in the
cwq: it stamps the seqnum 0 and the DRF flag on the PDU, stores `next_seq_num_to_send = 1`
with `set_drf` cleared and hands the PDU to the router; the only other outcome is
OutOfMemory, when the flow has retransmission control and the clone cannot be allocated. -/
theorem snd_inact_tmr_cb_frame (d : dtp) :
    (snd_inact_tmr_cb d).set_drf = true ∧ (snd_inact_tmr_cb d).next_seq_num_to_send = 0 ∧
    (snd_inact_tmr_cb d).snd_lwe = d.snd_lwe ∧ (snd_inact_tmr_cb d).snd_rwe = d.snd_rwe ∧
    (snd_inact_tmr_cb d).last_seq_num_sent = d.last_seq_num_sent ∧
    (snd_inact_tmr_cb d).cwq = d.cwq ∧ (snd_inact_tmr_cb d).cwq_len = d.cwq_len ∧
    (snd_inact_tmr_cb d).max_cwq_len = d.max_cwq_len ∧ (snd_inact_tmr_cb d).rtxq = d.rtxq ∧
    (snd_inact_tmr_cb d).rcv_lwe = d.rcv_lwe ∧ (snd_inact_tmr_cb d).rcv_rwe = d.rcv_rwe ∧
    (snd_inact_tmr_cb d).max_seq_num_rcvd = d.max_seq_num_rcvd ∧
    (snd_inact_tmr_cb d).last_snd_data_ack = d.last_snd_data_ack ∧
    (snd_inact_tmr_cb d).seqq = d.seqq ∧
    (snd_inact_tmr_cb d).next_snd_ctl_seq = d.next_snd_ctl_seq ∧
    (snd_inact_tmr_cb d).last_ctrl_seq_num_rcvd = d.last_ctrl_seq_num_rcvd ∧
    (snd_inact_tmr_cb d).snd_inact_tmr = d.snd_inact_tmr ∧
    (snd_inact_tmr_cb d).rcv_inact_tmr = d.rcv_inact_tmr ∧
    ∀ (rx : World → rina_buf → Res) (w : World) (fi : Nat) (flow : flow_entry) (rb : rina_buf)
      (ms : Bool), w.flows[fi]? = some flow → flow.dtp = snd_inact_tmr_cb d →
      (sdu_write_stamp w flow rb).pci.base.seqnum = 0 ∧
      (sdu_write_stamp w flow rb).pci.base.pdu_flags = 1 ∧
      (sdu_write_stamp w flow rb).data = rb.data ∧
      ((∃ (w0 : World) (D : dtp), w0.flows = w.flows ∧ w0.addr = w.addr ∧
          w0.trace = w.trace ∧
          rina_normal_sdu_write rx w fi rb ms =
            rmt_tx rx (w0.set_dtp fi D) flow.remote_addr (sdu_write_stamp w flow rb) ms ∧
          D.next_seq_num_to_send = 1 ∧ D.set_drf = false) ∨
        (flow.cfg.dtcp_present = true ∧ flow.cfg.dtcp.rtx_control = true ∧
          w.alloc.1 = false ∧
          ∃ w0 : World, w0.trace = w.trace ∧ rina_normal_sdu_write rx w fi rb ms =
            Except.ok (-ENOMEM, w0.emit (event.buf_free (sdu_write_stamp w flow rb))))) := by
  refine ⟨rfl, rfl, rfl, rfl, rfl, rfl, rfl, rfl, rfl, rfl, rfl, rfl, rfl, rfl, rfl, rfl, rfl,
    rfl, ?_⟩
  intro rx w fi flow rb ms hf hd
  have h0 : flow.dtp.next_seq_num_to_send = 0 := by rw [hd]; rfl
  have h1 : flow.dtp.set_drf = true := by rw [hd]; rfl
  have hw : ¬ window_overrun flow := by
    intro h
    have := h.2.1
    rw [h0] at this
    exact absurd this (Nat.not_lt_zero _)
  have hgt : ¬ flow.dtp.next_seq_num_to_send > flow.dtp.snd_rwe := by
    rw [h0]; exact Nat.not_lt_zero _
  have hn := sdu_write_next_fields flow
  have hn1 : (sdu_write_next flow).next_seq_num_to_send = 1 := by
    rw [hn.2.2.2.2.2.1, h0]; rfl
  have hn2 := hn.2.2.2.2.2.2
  have hw2 : (sdu_write_window flow (sdu_write_stamp w flow rb)).1.next_seq_num_to_send = 1 ∧
      (sdu_write_window flow (sdu_write_stamp w flow rb)).1.set_drf = false ∧
      (sdu_write_window flow (sdu_write_stamp w flow rb)).2 =
        some (sdu_write_stamp w flow rb) := by
    by_cases hfc : flow.cfg.dtcp.fc.fc_type = fc_type.RINA_FC_T_WIN
    · rw [sdu_write_window_send w flow rb hfc hgt]
      exact ⟨hn1, hn2, rfl⟩
    · rw [sdu_write_window_nofc w flow rb hfc]
      exact ⟨hn1, hn2, rfl⟩
  refine ⟨?_, ?_, rfl, ?_⟩
  · simp only [sdu_write_stamp, rina_buf.set_pci, sdu_write_pci, h0]
  · simp only [sdu_write_stamp, rina_buf.set_pci, sdu_write_pci, h1, if_true]
  · by_cases hdp : flow.cfg.dtcp_present = true
    · by_cases hrtx : flow.cfg.dtcp.rtx_control = true
      · by_cases hal : w.alloc.1 = true
        · left
          refine ⟨w.alloc.2, snd_inact_rearm
            { (sdu_write_window flow (sdu_write_stamp w flow rb)).1 with
              rtxq := (sdu_write_window flow (sdu_write_stamp w flow rb)).1.rtxq ++
                [sdu_write_stamp w flow rb] }, alloc_flows w, (alloc_frame w).2.1,
            (alloc_frame w).2.2, ?_, hw2.1, hw2.2.1⟩
          simp only [rina_normal_sdu_write, hf, if_neg hw, hdp, hrtx, Bool.not_true,
            Bool.false_eq_true, if_false, if_true, hw2.2.2, hal]
        · right
          have hal0 : w.alloc.1 = false := by simpa using hal
          refine ⟨hdp, hrtx, hal0, w.alloc.2.set_dtp fi
            (sdu_write_window flow (sdu_write_stamp w flow rb)).1, (alloc_frame w).2.2, ?_⟩
          simp only [rina_normal_sdu_write, hf, if_neg hw, hdp, hrtx, Bool.not_true,
            Bool.false_eq_true, if_false, if_true, hw2.2.2, hal0, Bool.not_false]
      · left
        have hrtx0 : flow.cfg.dtcp.rtx_control = false := by simpa using hrtx
        refine ⟨w, snd_inact_rearm (sdu_write_window flow (sdu_write_stamp w flow rb)).1,
          rfl, rfl, rfl, ?_, hw2.1, hw2.2.1⟩
        simp only [rina_normal_sdu_write, hf, if_neg hw, hdp, hrtx0, Bool.not_true,
          Bool.false_eq_true, if_false, hw2.2.2]
    · left
      have hdp0 : flow.cfg.dtcp_present = false := by simpa using hdp
      refine ⟨w, { sdu_write_next flow with
          snd_lwe := (sdu_write_next flow).next_seq_num_to_send
          last_seq_num_sent := (sdu_write_stamp w flow rb).pci.base.seqnum },
        rfl, rfl, rfl, ?_, hn1, hn2⟩
      simp only [rina_normal_sdu_write, hf, if_neg hw, hdp0, Bool.not_false, if_true]

theorem snd_inact_tmr_cb_frame_witness :
    flow_expired.dtp.next_seq_num_to_send = 0 ∧ flow_expired.dtp.set_drf = true ∧
    queue_seqnums flow_expired.dtp.rtxq = [0, 1] ∧
    (sdu_write_stamp world_expired flow_expired (sdu [2])).pci.base.seqnum = 0 ∧
    (sdu_write_stamp world_expired flow_expired (sdu [2])).pci.base.pdu_flags = 1 ∧
    ∃ w1, sdu_write 0 world_expired 0 (sdu [2]) false = Except.ok (0, w1) ∧
      (handed w1.trace).map (fun p => (p.2.pci.base.seqnum, p.2.pci.base.pdu_flags)) =
        [(0, 1), (1, 0), (0, 1)] := by
  obtain ⟨s1, s2, _, _⟩ :=
    (snd_inact_tmr_cb_frame flow_expired.dtp).2.2.2.2.2.2.2.2.2.2.2.2.2.2.2.2.2.2
      (rina_normal_sdu_rx 0) world_expired 0 flow_expired (sdu [2]) false rfl rfl
  exact ⟨rfl, rfl, rfl, s1, s2, _, rfl, rfl⟩

theorem mem_read_length (mem : Nat → Nat) : ∀ (n p : Nat), (mem_read mem p n).length = n := by
  intro n
  induction n with
  | zero => intro p; rfl
  | succ k ih => intro p; simp [mem_read, ih]

theorem serialize_rina_name_length (out : List Nat) (name : rina_name) :
    (serialize_rina_name out name).length = out.length + rina_name_serlen (some name) := by
  simp only [serialize_rina_name_eq, wire_name, List.length_append, wire_string_length,
    rina_name_serlen, string_prlen_eq]
  omega

/-- The loops of `rina_msg_serlen` and of `serialize_rina_msg` agree: started on a length
and on a buffer of that length (modulo `2^32`), they end on the length of the buffer (modulo
`2^32`). -/
theorem serlen_loop_agrees (names : Nat → rina_name) : ∀ (n i ret : Nat) (out : List Nat),
    ret = out.length % 2 ^ 32 →
    rina_msg_serlen_loop names n i ret = (serialize_names names n i out).length % 2 ^ 32 := by
  intro n
  induction n with
  | zero => intro i ret out h; exact h
  | succ k ih =>
    intro i ret out h
    simp only [rina_msg_serlen_loop, serialize_names]
    apply ih
    rw [serialize_rina_name_length, h, Nat.mod_add_mod]

/-- C38: the serialised lengths agree.  `serialize_rina_name` moves the write pointer by
exactly `rina_name_serlen(name)` bytes, for every name, null components and components
longer than 255 bytes included, and that is 4 plus the sum over the four components of
`min(strlen, 255)`, a null component counting as the empty string (string lengths being
taken to fit `unsigned int`, as in `string_prlen`); and for every entry of
the table of message layouts, every message memory and every array of names,
`serialize_rina_msg` returns exactly `rina_msg_serlen(msg)`, which is the number of bytes
it wrote (as an `unsigned int`). -/
theorem serialize_length_agreement (out : List Nat) (name : rina_name)
    (layout : rina_msg_layout) (msg : Nat → Nat) (names : Nat → rina_name) :
    (serialize_rina_name out name).length = out.length + rina_name_serlen (some name) ∧
    rina_name_serlen (some name) =
      4 + (min (strlen (name.apn.getD [])) 255 + min (strlen (name.api.getD [])) 255 +
        min (strlen (name.aen.getD [])) 255 + min (strlen (name.aei.getD [])) 255) ∧
    (serialize_rina_msg layout msg names).2 = rina_msg_serlen layout names ∧
    (serialize_rina_msg layout msg names).2 =
      (serialize_rina_msg layout msg names).1.length % 2 ^ 32 := by
  refine ⟨serialize_rina_name_length out name, ?_, ?_, rfl⟩
  · simp only [rina_name_serlen, string_prlen_eq]
    omega
  · simp only [serialize_rina_msg, rina_msg_serlen]
    exact (serlen_loop_agrees names layout.names 0 _ _ (by rw [mem_read_length])).symm

/-- The C library's `strcmp` returns 0 exactly when the two strings are equal byte for
byte. -/
theorem strcmp_eq_zero_iff : ∀ (a b : List Nat), strcmp a b = 0 ↔ cstring a = cstring b := by
  intro a
  induction a with
  | nil =>
    intro b
    cases b with
    | nil => simp [strcmp, cstring]
    | cons d t =>
      by_cases hd : d = 0
      · simp [strcmp, cstring, hd]
      · simp [strcmp, cstring, hd]
  | cons c s ih =>
    intro b
    cases b with
    | nil =>
      by_cases hc : c = 0
      · simp [strcmp, cstring, hc]
      · simp [strcmp, cstring, hc]
    | cons d t =>
      by_cases hcd : c = d
      · subst hcd
        by_cases hc : c = 0
        · simp [strcmp, cstring, hc]
        · have := ih t
          simp only [cstring] at this
          simp [strcmp, cstring, hc, this]
      · have h1 : strcmp (c :: s) (d :: t) ≠ 0 := by
          simp only [strcmp, ne_eq, hcd, not_false_eq_true, if_true]
          split <;> decide
        have h2 : cstring (c :: s) ≠ cstring (d :: t) := by
          simp only [cstring]
          by_cases hc : c = 0
          · have hd : d ≠ 0 := fun h => hcd (hc.trans h.symm)
            simp [hc, hd]
          · by_cases hd : d = 0
            · simp [hc, hd]
            · simp [hc, hd, hcd]
        exact ⟨fun h => absurd h h1, fun h => absurd h h2⟩

theorem rina_name_cmp_field_iff (x y : Option (List Nat)) :
    rina_name_cmp_field x y = false ↔ comp_eq x y := by
  cases x with
  | none => cases y <;> simp [rina_name_cmp_field, comp_eq]
  | some a =>
    cases y with
    | none => simp [rina_name_cmp_field, comp_eq]
    | some b => simp [rina_name_cmp_field, comp_eq, strcmp_eq_zero_iff]

theorem comp_eq_refl (x : Option (List Nat)) : comp_eq x x := by
  cases x <;> simp [comp_eq]

theorem comp_eq_symm {x y : Option (List Nat)} (h : comp_eq x y) : comp_eq y x := by
  cases x <;> cases y <;> simp_all [comp_eq]

/-- C39: when `rina_name_cmp` returns 0.  It does exactly when both name pointers are null,
or both are non-null and each of the four components `apn`, `api`, `aen`, `aei` is null in
both names or non-null in both and holds the same string, byte for byte (for arrays without
a NUL byte: the same bytes); a null component is never equal to a string, the empty one
included.  Hence `rina_name_cmp(n, n)` is 0 for every `n`, and `rina_name_cmp(a, b)` is 0
exactly when `rina_name_cmp(b, a)` is. -/
theorem rina_name_cmp_zero_iff (one two : Option rina_name) :
    (rina_name_cmp one two = 0 ↔
      (one = none ∧ two = none) ∨
      ∃ a b, one = some a ∧ two = some b ∧ comp_eq a.apn b.apn ∧ comp_eq a.api b.api ∧
        comp_eq a.aen b.aen ∧ comp_eq a.aei b.aei) ∧
    (∀ s t : List Nat, (∀ c ∈ s, c ≠ 0) → (∀ c ∈ t, c ≠ 0) →
      (comp_eq (some s) (some t) ↔ s = t)) ∧
    (∀ s : List Nat, ¬ comp_eq none (some s) ∧ ¬ comp_eq (some s) none) ∧
    rina_name_cmp one one = 0 ∧
    (rina_name_cmp one two = 0 ↔ rina_name_cmp two one = 0) := by
  have key : ∀ a b : rina_name, rina_name_cmp (some a) (some b) = 0 ↔
      comp_eq a.apn b.apn ∧ comp_eq a.api b.api ∧ comp_eq a.aen b.aen ∧
        comp_eq a.aei b.aei := by
    intro a b
    simp only [← rina_name_cmp_field_iff, rina_name_cmp]
    cases rina_name_cmp_field a.apn b.apn <;> cases rina_name_cmp_field a.api b.api <;>
      cases rina_name_cmp_field a.aen b.aen <;> cases rina_name_cmp_field a.aei b.aei <;>
      simp
  have hsymm : ∀ p q : Option rina_name, rina_name_cmp p q = 0 → rina_name_cmp q p = 0 := by
    intro p q h
    cases p with
    | none => cases q with
      | none => rfl
      | some b => simp [rina_name_cmp] at h
    | some a => cases q with
      | none => simp [rina_name_cmp] at h
      | some b =>
        obtain ⟨h1, h2, h3, h4⟩ := (key a b).mp h
        exact (key b a).mpr ⟨comp_eq_symm h1, comp_eq_symm h2, comp_eq_symm h3, comp_eq_symm h4⟩
  refine ⟨?_, ?_, ?_, ?_, ⟨hsymm one two, hsymm two one⟩⟩
  · cases one with
    | none => cases two <;> simp [rina_name_cmp]
    | some a => cases two with
      | none => simp [rina_name_cmp]
      | some b =>
        rw [key a b]
        simp
  · intro s t hs ht
    have e1 : cstring s = s := List.takeWhile_eq_self_iff.mpr (by simpa using hs)
    have e2 : cstring t = t := List.takeWhile_eq_self_iff.mpr (by simpa using ht)
    simp only [comp_eq, e1, e2]
  · intro s
    simp [comp_eq]
  · cases one with
    | none => rfl
    | some a => exact (key a a).mpr ⟨comp_eq_refl _, comp_eq_refl _, comp_eq_refl _, comp_eq_refl _⟩

theorem rina_name_cmp_zero_iff_witness :
    rina_name_cmp (some name_ab) (some name_ab) = 0 ∧
    (comp_eq (some [97, 98]) (some [97, 98, 0, 7]) ∧ ¬ comp_eq none (some [])) ∧
    rina_name_cmp (some name_ab) (some { name_ab with aen := some [] }) = -1 :=
  ⟨(rina_name_cmp_zero_iff (some name_ab) (some name_ab)).2.2.2.1,
   ⟨rfl, ((rina_name_cmp_zero_iff none none).2.2.1 []).1⟩, by decide⟩

/-- On the flag string "[WPS-PBC]" an iteration of the loop of `parse_wifi_flags` takes no
branch: the group is longer than four bytes and starts neither with "[WPA2" nor with
"[WPA", so the read pointer stays where it is. -/
theorem parse_wifi_flags_loop_stuck (elem : wifi_network) : ∀ fuel : Nat,
    parse_wifi_flags_loop (bytes "[WPS-PBC]") fuel elem 0 = Except.error fault.nofuel := by
  intro fuel
  induction fuel with
  | zero => rfl
  | succ n ih => exact ih

/-- In the group "[WPA2-EAP-CCMP]" an iteration of the loop of `parse_wpa_flags` at "EAP"
takes no branch: the read pointer stays where it is. -/
theorem parse_wpa_flags_loop_stuck (flags : Nat) : ∀ fuel : Nat,
    parse_wpa_flags_loop (bytes "[WPA2-EAP-CCMP][WPS-PBC][ESS]") fuel flags 6 8 =
      Except.error fault.nofuel := by
  intro fuel
  induction fuel with
  | zero => rfl
  | succ n ih => exact ih

/-- C40: `parse_wifi_flags` does not terminate on every flag string whose groups are closed.
On "[WPS-PBC]" the loop of `parse_wifi_flags` takes no branch and never advances the read
position; on "[WPA2-EAP-CCMP][WPS-PBC][ESS]", the example of the claim, the loop of
`parse_wpa_flags` skips the "-" and then takes no branch at "EAP": whatever the budget of
iterations, the run uses it up.  On "[WPA2-PSK-CCMP][ESS]", where every token is a known
one, the function returns after a few iterations with the flags ACTIVE, PSK and CCMP for WPA2
and the flag ESS. -/
theorem parse_wifi_flags_diverges :
    (∀ fuel : Nat, parse_wifi_flags fuel (bytes "[WPS-PBC]") = Except.error fault.nofuel) ∧
    (∀ fuel : Nat, parse_wifi_flags fuel (bytes "[WPA2-EAP-CCMP][WPS-PBC][ESS]") =
      Except.error fault.nofuel) ∧
    parse_wifi_flags 8 (bytes "[WPA2-PSK-CCMP][ESS]") =
      Except.ok { wifi_flags := RL_WIFI_F_ESS, wpa1_flags := 0,
                  wpa2_flags := RL_WPA_F_ACTIVE ||| RL_WPA_F_PSK ||| RL_WPA_F_CCMP } := by
  refine ⟨fun fuel => parse_wifi_flags_loop_stuck _ fuel, fun fuel => ?_, rfl⟩
  cases fuel with
  | zero => rfl
  | succ n =>
    cases n with
    | zero => rfl
    | succ m =>
      have key : parse_wifi_flags (m + 2) (bytes "[WPA2-EAP-CCMP][WPS-PBC][ESS]") =
          (match parse_wpa_flags_loop (bytes "[WPA2-EAP-CCMP][WPS-PBC][ESS]") m
              (0 ||| RL_WPA_F_ACTIVE) 6 8 with
           | Except.error e => Except.error e
           | Except.ok (flags, p1) =>
             parse_wifi_flags_loop (bytes "[WPA2-EAP-CCMP][WPS-PBC][ESS]") (m + 1)
               { wifi_flags := 0, wpa1_flags := 0, wpa2_flags := flags } p1) := rfl
      rw [key, parse_wpa_flags_loop_stuck]

end Rlite
